import Mathlib

/-!
# Chain-head event dispatcher (pkg/events/events_called.go)

A shallow embedding of `hcEvents`: the dispatcher state is a record, every Go
loop body is a state transformer, and every callback invocation (handler,
timeout, revert) is appended to a trace `calls` kept in the state.

Modelling conventions
* `abi.ChainEpoch` (int64) is `Int`; the additions and subtractions the code
  performs on epochs go through `wrap64`.
* The counters `ctr` (uint64) and `timeouts[h][id]` (int) only ever grow by
  one per call and are natural numbers.
* Go maps are association lists with unique keys (`GoMap`).  A `range` over a
  map visits the keys in an order chosen by a rank function supplied by the
  environment (`Env.rankH`, `Env.rankT`), so that every iteration order of a
  map with distinct keys is covered.
* Callbacks are Go closures.  Handlers, revert callbacks and checks are
  functions that may also depend on the trace of earlier callback
  invocations.
* The tipset cache `tsc` and the chain store `cs` are not part of this file of
  the source; they are parameters (`Env`), one environment per public call.
* Dereferencing a missing trigger (`e.triggers[id]` is `nil`) sets the flag
  `panicked`.
* The `log.Errorf` lines are recorded by call site in `errlog`; the formatting
  of their arguments is not part of the model.
* The head `lastTS` is set by the owner of the dispatcher before the first
  head change, and tipset heights are below `math.MaxInt64`, so that the
  height loop of `processHeadChangeEvent` terminates.
-/

namespace Events

abbrev ChainEpoch := Int

abbrev triggerID := Nat

abbrev Cid := Nat

/-- Reduction of an integer to the two's complement int64 range. -/
def wrap64 (x : Int) : Int :=
  (x + 9223372036854775808) % 18446744073709551616 - 9223372036854775808

/-- The constant `NoTimeout = math.MaxInt64`. -/
def NoTimeout : ChainEpoch := 9223372036854775807

/-- The constant `NoHeight = abi.ChainEpoch(-1)`. -/
def NoHeight : ChainEpoch := -1

/-! ## Go maps -/

abbrev GoMap (K V : Type) := List (K × V)

/-- Lookup `m[k]`, with `none` for a missing key. -/
def GoMap.get {K V : Type} [DecidableEq K] : GoMap K V → K → Option V
  | [], _ => none
  | (k', v) :: m, k => if k' = k then some v else GoMap.get m k

/-- Assignment `m[k] = v`. -/
def GoMap.set {K V : Type} [DecidableEq K] : GoMap K V → K → V → GoMap K V
  | [], k, v => [(k, v)]
  | (k', v') :: m, k, v => if k' = k then (k, v) :: m else (k', v') :: GoMap.set m k v

/-- Removal `delete(m, k)`. -/
def GoMap.del {K V : Type} [DecidableEq K] : GoMap K V → K → GoMap K V
  | [], _ => []
  | (k', v') :: m, k => if k' = k then GoMap.del m k else (k', v') :: GoMap.del m k

/-- The keys of a map, in storage order. -/
def GoMap.keys {K V : Type} (m : GoMap K V) : List K := m.map Prod.fst

/-- Insert a key into a list ordered by rank (before the first key of larger or equal rank). -/
def insertBy {K : Type} (rank : K → Nat) (k : K) : List K → List K
  | [] => [k]
  | x :: xs => if rank k ≤ rank x then k :: x :: xs else x :: insertBy rank k xs

/-- The order in which a `range` visits keys: the keys sorted by the rank
the environment assigns to them. -/
def orderBy {K : Type} (rank : K → Nat) : List K → List K
  | [] => []
  | k :: ks => insertBy rank k (orderBy rank ks)

/-! ## Data model -/

structure TipSet where
  height : ChainEpoch
  blocks : List Cid
  parents : List Cid
  deriving DecidableEq, Repr

/-- An unsigned message, identified by its content identifier `Cid()`. -/
structure UnsignedMessage where
  cid : Cid
  deriving DecidableEq, Repr

structure SignedMessage where
  message : UnsignedMessage
  deriving DecidableEq, Repr

structure BlockMessages where
  blsMessages : List UnsignedMessage
  secpkMessages : List SignedMessage
  deriving DecidableEq, Repr

/-- The payload `eventData` (an `interface{}`): a message for message events,
a state change for state events.  The nil interface is `none`. -/
inductive eventData where
  | msg (m : UnsignedMessage)
  | state (change : Nat)
  deriving DecidableEq, Repr

structure queuedEvent where
  trigger : triggerID
  prevH : ChainEpoch
  h : ChainEpoch
  data : Option eventData
  called : Bool
  deriving DecidableEq, Repr

/-- Result `(more bool, err error)` of an `EventHandler`; `err = true` is a non-nil error. -/
structure HandleResult where
  more : Bool
  err : Bool
  deriving DecidableEq, Repr

/-- One callback invocation made by the dispatcher.
* `apply`: `trigger.handle(event.data, prevTS, triggerTS, height)` in `applyWithConfidence`,
  while the tipset `head` is being applied;
* `timeout`: `trigger.handle(nil, nil, timeoutTS, ts.Height())` in `applyTimeouts`;
* `revert`: `trigger.revert(ctx, ts)` in `handleReverts`, for an event taken from
  `confQueue[triggerH][ts.Height()]` (`err` is its result). -/
inductive Call where
  | apply (head : TipSet) (ev : queuedEvent) (prevTs ts : Option TipSet) (curH : ChainEpoch)
      (res : HandleResult)
  | timeout (head : TipSet) (trigger : triggerID) (ts : Option TipSet) (curH : ChainEpoch)
      (res : HandleResult)
  | revert (triggerH : ChainEpoch) (ev : queuedEvent) (ts : TipSet) (err : Bool)
  deriving DecidableEq, Repr

/-- The type `EventHandler`; the first argument is the trace of earlier invocations. -/
abbrev EventHandler :=
  List Call → Option eventData → Option TipSet → Option TipSet → ChainEpoch → HandleResult

/-- The type `RevertHandler`; the result `true` is a non-nil error. -/
abbrev RevertHandler := List Call → TipSet → Bool

/-- Result `(done bool, more bool, err error)` of a `CheckFunc`. -/
structure CheckResult where
  done : Bool
  more : Bool
  err : Bool
  deriving DecidableEq, Repr

abbrev CheckFunc := List Call → TipSet → CheckResult

/-- Result `(bool, StateChange, error)` of a `StateMatchFunc`. -/
structure StateMatchResult where
  ok : Bool
  data : Option eventData
  err : Bool
  deriving DecidableEq, Repr

abbrev StateMatchFunc := TipSet → TipSet → StateMatchResult

/-- Result `(matched bool, err error)` of a `MsgMatchFunc`. -/
structure MsgMatchResult where
  matched : Bool
  err : Bool
  deriving DecidableEq, Repr

abbrev MsgMatchFunc := UnsignedMessage → MsgMatchResult

structure handlerInfo where
  confidence : Int
  timeout : ChainEpoch
  disabled : Bool
  handle : EventHandler
  revert : RevertHandler

/-- The `log.Errorf` sites of the dispatcher. -/
inductive LogMsg where
  | revertFailed (h triggerH : ChainEpoch)
  | applyNoTipset (wanted current : ChainEpoch)
  | applyNoPrevTipset (wanted current : ChainEpoch)
  | triggerFailed (origH height : ChainEpoch)
  | timeoutNoTipset (wanted current : ChainEpoch)
  | timeoutFailed (current : ChainEpoch)
  | diffFailed
  | matcherFailed
  | parentTipsetFailed
  | blockMessagesFailed (h : ChainEpoch) (block : Cid)
  deriving DecidableEq, Repr

/-- What the dispatcher reads from outside during one public call: the tipset
cache (`tsc.get`, `tsc.best`), the chain store (`ChainGetTipSet`,
`ChainGetBlockMessages`) and the iteration order of its maps. -/
structure Env where
  tscGet : ChainEpoch → Option TipSet
  tscBest : Option TipSet
  chainGetTipSet : List Cid → Option TipSet
  chainGetBlockMessages : Cid → Option BlockMessages
  rankH : ChainEpoch → Nat
  rankT : triggerID → Nat

/-- The dispatcher state `hcEvents` (with the matcher tables of the embedded
`watcherEvents` and `messageEvents`), the trace `calls`, the error log and the
panic flag. -/
structure hcEvents where
  lastTS : TipSet
  ctr : triggerID
  triggers : GoMap triggerID handlerInfo
  confQueue : GoMap ChainEpoch (GoMap ChainEpoch (List queuedEvent))
  revertQueue : GoMap ChainEpoch (List ChainEpoch)
  timeouts : GoMap ChainEpoch (GoMap triggerID Nat)
  stateMatchers : GoMap triggerID StateMatchFunc
  msgMatchers : GoMap triggerID MsgMatchFunc
  calls : List Call
  errlog : List LogMsg
  panicked : Bool

/-- The constructor `newHCEvents`; `lastTS` is set by the owner of the
dispatcher to the current head before the first head change. -/
def newHCEvents (head : TipSet) : hcEvents :=
  { lastTS := head, ctr := 0, triggers := [], confQueue := [], revertQueue := [],
    timeouts := [], stateMatchers := [], msgMatchers := [], calls := [], errlog := [],
    panicked := false }

/-- The Go expression `e.confQueue[triggerH][msgH]` (a nil slice is `none`). -/
def eventsAt (e : hcEvents) (triggerH msgH : ChainEpoch) : Option (List queuedEvent) :=
  (e.confQueue.get triggerH).bind (fun m => m.get msgH)

/-- The Go expression `e.timeouts[h][id]`, with `none` for a missing entry. -/
def callsAt (e : hcEvents) (h : ChainEpoch) (id : triggerID) : Option Nat :=
  (e.timeouts.get h).bind (fun m => m.get id)

/-- A nil pointer dereference. -/
def panic (e : hcEvents) : hcEvents :=
  { e with panicked := true }

/-- Append a callback invocation to the trace. -/
def recordCall (c : Call) (e : hcEvents) : hcEvents :=
  { e with calls := e.calls ++ [c] }

/-- The assignment `trigger.disabled = b` through the pointer `trigger = e.triggers[id]`. -/
def setDisabled (id : triggerID) (trigger : handlerInfo) (b : Bool) (e : hcEvents) : hcEvents :=
  { e with triggers := (e.triggers.set id { trigger with disabled := b }) }

/-- Lines written by `log.Errorf`. -/
def logErrors (l : List LogMsg) (e : hcEvents) : hcEvents :=
  { e with errlog := e.errlog ++ l }

/-- The assignment `e.lastTS = ts`. -/
def setLastTS (ts : TipSet) (e : hcEvents) : hcEvents :=
  { e with lastTS := ts }

/-! ## Reverts -/

/-- Body of the inner loop of `handleReverts` for one event of `toRevert`. -/
def revertEvent (ts : TipSet) (triggerH : ChainEpoch) (event : queuedEvent) (e : hcEvents) :
    hcEvents :=
  if event.called = false then e
  else
    match e.triggers.get event.trigger with
    | none => panic e
    | some trigger =>
      let err := trigger.revert e.calls ts
      let e1 := recordCall (Call.revert triggerH event ts err) e
      if err then logErrors [LogMsg.revertFailed ts.height triggerH] e1 else e1

/-- The statement `delete(e.confQueue[triggerH], ts.Height())`. -/
def dropReverted (ts : TipSet) (triggerH : ChainEpoch) (e : hcEvents) : hcEvents :=
  match e.confQueue.get triggerH with
  | none => e
  | some m => { e with confQueue := (e.confQueue.set triggerH (m.del ts.height)) }

/-- Body of the outer loop of `handleReverts` for one `triggerH` of `reverts`. -/
def revertTrigger (ts : TipSet) (triggerH : ChainEpoch) (e : hcEvents) : hcEvents :=
  let toRevert := (eventsAt e triggerH ts.height).getD []
  dropReverted ts triggerH (toRevert.foldl (fun e event => revertEvent ts triggerH event e) e)

/-- The statement `delete(e.revertQueue, ts.Height())`. -/
def dropRevertQueue (ts : TipSet) (e : hcEvents) : hcEvents :=
  { e with revertQueue := e.revertQueue.del ts.height }

def handleReverts (ts : TipSet) (e : hcEvents) : hcEvents :=
  match e.revertQueue.get ts.height with
  | none => e
  | some reverts =>
    dropRevertQueue ts (reverts.foldl (fun e triggerH => revertTrigger ts triggerH e) e)

/-! ## Queueing -/

/-- The event `queueForConfidence` appends for trigger `trigID` at tipset `ts`. -/
def newEvent (trigID : triggerID) (data : Option eventData) (prevTS : Option TipSet)
    (ts : TipSet) : queuedEvent :=
  { trigger := trigID
    prevH := match prevTS with
      | some p => p.height
      | none => NoHeight
    h := ts.height, data := data, called := false }

def queueForConfidence (trigID : triggerID) (data : Option eventData) (prevTS : Option TipSet)
    (ts : TipSet) (e : hcEvents) : hcEvents :=
  match e.triggers.get trigID with
  | none => panic e
  | some trigger =>
    let appliedH := ts.height
    let triggerH := wrap64 (appliedH + trigger.confidence)
    let byOrigH := (e.confQueue.get triggerH).getD []
    { e with
      confQueue := (e.confQueue.set triggerH
        (byOrigH.set appliedH
          ((byOrigH.get appliedH).getD [] ++ [newEvent trigID data prevTS ts])))
      revertQueue := (e.revertQueue.set appliedH
        ((e.revertQueue.get appliedH).getD [] ++ [triggerH])) }

/-! ## Firing -/

/-- The statement `event.called = true` through the pointer `events[i]`. -/
def setCalled (events : List queuedEvent) (i : Nat) : List queuedEvent :=
  match events[i]? with
  | none => events
  | some event => events.set i { event with called := true }

/-- The statement `event.called = true` for the event stored at
`confQueue[height][origH][i]`. -/
def markCalled (height origH : ChainEpoch) (i : Nat) (e : hcEvents) : hcEvents :=
  match e.confQueue.get height with
  | none => e
  | some byOrigH =>
    match byOrigH.get origH with
    | none => e
    | some events =>
      { e with confQueue := (e.confQueue.set height (byOrigH.set origH (setCalled events i))) }

/-- The statements `touts, ok := e.timeouts[trigger.timeout]; if ok { touts[event.trigger]++ }`. -/
def bumpTimeout (timeout : ChainEpoch) (trigID : triggerID) (e : hcEvents) : hcEvents :=
  match e.timeouts.get timeout with
  | none => e
  | some touts =>
    { e with timeouts := (e.timeouts.set timeout
        (touts.set trigID ((touts.get trigID).getD 0 + 1))) }

/-- Body of the inner loop of `applyWithConfidence` for the event stored at
`confQueue[height][origH][i]`. -/
def applyEvent (env : Env) (head : TipSet) (height origH : ChainEpoch)
    (triggerTS : Option TipSet) (i : Nat) (e : hcEvents) : hcEvents :=
  match (eventsAt e height origH).bind (fun evs => evs[i]?) with
  | none => e
  | some event =>
    if event.called then e
    else
      match e.triggers.get event.trigger with
      | none => panic e
      | some trigger =>
        if trigger.disabled then e
        else
          let prev : Option (Option TipSet) :=
            if event.prevH ≠ NoHeight then (env.tscGet event.prevH).map some else some none
          match prev with
          | none => logErrors [LogMsg.applyNoPrevTipset event.prevH height] e
          | some prevTS =>
            let res := trigger.handle e.calls event.data prevTS triggerTS height
            let e1 := recordCall (Call.apply head event prevTS triggerTS height res) e
            if res.err then logErrors [LogMsg.triggerFailed origH height] e1
            else
              setDisabled event.trigger trigger (!res.more)
                (bumpTimeout trigger.timeout event.trigger (markCalled height origH i e1))

/-- Body of the outer loop of `applyWithConfidence` for one key `origH` of `byOrigH`
(`n` is the length of the slice `events`). -/
def applyGroup (env : Env) (head : TipSet) (height origH : ChainEpoch) (n : Nat)
    (e : hcEvents) : hcEvents :=
  let triggerTS := env.tscGet origH
  let e1 := if triggerTS.isNone then logErrors [LogMsg.applyNoTipset origH height] e else e
  (List.range n).foldl (fun e i => applyEvent env head height origH triggerTS i e) e1

def applyWithConfidence (env : Env) (ts : TipSet) (height : ChainEpoch) (e : hcEvents) :
    hcEvents :=
  match e.confQueue.get height with
  | none => e
  | some byOrigH =>
    (orderBy env.rankH byOrigH.keys).foldl
      (fun e origH => applyGroup env ts height origH ((byOrigH.get origH).getD []).length e) e

/-- Body of the loop of `applyTimeouts` for one key `triggerID` of `triggers`. -/
def applyTimeout (env : Env) (ts : TipSet) (trigID : triggerID) (e : hcEvents) : hcEvents :=
  match callsAt e ts.height trigID with
  | none => e
  | some calls =>
    if calls > 0 then e
    else
      match e.triggers.get trigID with
      | none => panic e
      | some trigger =>
        if trigger.disabled then e
        else
          let wanted := wrap64 (ts.height - trigger.confidence)
          let timeoutTS := env.tscGet wanted
          let e1 := if timeoutTS.isNone then
              logErrors [LogMsg.timeoutNoTipset wanted ts.height] e
            else e
          let res := trigger.handle e1.calls none none timeoutTS ts.height
          let e2 := recordCall (Call.timeout ts trigID timeoutTS ts.height res) e1
          if res.err then logErrors [LogMsg.timeoutFailed ts.height] e2
          else setDisabled trigID trigger (!res.more) e2

def applyTimeouts (env : Env) (ts : TipSet) (e : hcEvents) : hcEvents :=
  match e.timeouts.get ts.height with
  | none => e
  | some triggers =>
    (orderBy env.rankT triggers.keys).foldl (fun e trigID => applyTimeout env ts trigID e) e

/-! ## Matchers -/

/-- Body of the loop of `checkStateChanges` for one matcher. -/
def checkStateChange (oldState newState : TipSet) (matchers : GoMap triggerID StateMatchFunc)
    (acc : GoMap triggerID (Option eventData) × List LogMsg) (tid : triggerID) :
    GoMap triggerID (Option eventData) × List LogMsg :=
  match matchers.get tid with
  | none => acc
  | some matchFn =>
    let r := matchFn oldState newState
    if r.err then (acc.1, acc.2 ++ [LogMsg.diffFailed])
    else if r.ok then (acc.1.set tid r.data, acc.2)
    else acc

def checkStateChanges (env : Env) (oldState newState : TipSet) (e : hcEvents) :
    GoMap triggerID (Option eventData) × List LogMsg :=
  (orderBy env.rankT e.stateMatchers.keys).foldl
    (checkStateChange oldState newState e.stateMatchers) ([], [])

/-- The seen-set test of `messagesForTS` for one message: `acc.1` is `seen`,
`acc.2` the messages passed to `consume` so far. -/
def consumeOnce (acc : List Cid × List UnsignedMessage) (m : UnsignedMessage) :
    List Cid × List UnsignedMessage :=
  if m.cid ∈ acc.1 then acc else (acc.1 ++ [m.cid], acc.2 ++ [m])

/-- Body of the loop of `messagesForTS` for one block of the tipset. -/
def messagesForBlock (env : Env) (ts : TipSet)
    (acc : (List Cid × List UnsignedMessage) × List LogMsg) (tsb : Cid) :
    (List Cid × List UnsignedMessage) × List LogMsg :=
  match env.chainGetBlockMessages tsb with
  | none => (acc.1, acc.2 ++ [LogMsg.blockMessagesFailed ts.height tsb])
  | some msgs =>
    let a1 := msgs.blsMessages.foldl consumeOnce acc.1
    let a2 := (msgs.secpkMessages.map (fun m => m.message)).foldl consumeOnce a1
    (a2, acc.2)

/-- The messages `messagesForTS` passes to `consume`, in order, and what it logs. -/
def messagesForTS (env : Env) (ts : TipSet) : List UnsignedMessage × List LogMsg :=
  let r := ts.blocks.foldl (messagesForBlock env ts) (([], []), [])
  (r.1.2, r.2)

/-- Body of the matcher loop inside the `consume` callback of `checkNewCalls`. -/
def matchMessage (msg : UnsignedMessage) (matchers : GoMap triggerID MsgMatchFunc)
    (acc : GoMap triggerID (List eventData) × List LogMsg) (tid : triggerID) :
    GoMap triggerID (List eventData) × List LogMsg :=
  match matchers.get tid with
  | none => acc
  | some matchFn =>
    let r := matchFn msg
    if r.err then (acc.1, acc.2 ++ [LogMsg.matcherFailed])
    else if r.matched then
      (acc.1.set tid ((acc.1.get tid).getD [] ++ [eventData.msg msg]), acc.2)
    else acc

/-- The function `checkNewCalls`; the first component is `none` when it returns an error. -/
def checkNewCalls (env : Env) (ts : TipSet) (e : hcEvents) :
    Option (GoMap triggerID (List eventData)) × List LogMsg :=
  match env.chainGetTipSet ts.parents with
  | none => (none, [LogMsg.parentTipsetFailed])
  | some pts =>
    let ms := messagesForTS env pts
    let r := ms.1.foldl
      (fun acc msg =>
        (orderBy env.rankT e.msgMatchers.keys).foldl (matchMessage msg e.msgMatchers) acc)
      ([], ms.2)
    (some r.1, r.2)

/-! ## Head changes -/

/-- The heights `at` visited by `for at := lo; at <= hi; at++` (for `hi` below `MaxInt64`). -/
def heightRange (lo hi : ChainEpoch) : List ChainEpoch :=
  (List.range (hi - lo + 1).toNat).map (fun (i : Nat) => lo + (i : Int))

/-- Queue the state changes found for `ts` (the loop over `stateChanges`). -/
def queueStateChanges (env : Env) (ts : TipSet)
    (stateChanges : GoMap triggerID (Option eventData)) (e : hcEvents) : hcEvents :=
  (orderBy env.rankT stateChanges.keys).foldl
    (fun e tid =>
      match stateChanges.get tid with
      | none => e
      | some data => queueForConfidence tid data (some e.lastTS) ts e) e

/-- Queue the message calls found for `ts` (the loops over `newCalls`). -/
def queueNewCalls (env : Env) (ts : TipSet) (newCalls : GoMap triggerID (List eventData))
    (e : hcEvents) : hcEvents :=
  (orderBy env.rankT newCalls.keys).foldl
    (fun e tid =>
      ((newCalls.get tid).getD []).foldl
        (fun e data => queueForConfidence tid (some data) none ts e) e) e

/-- The loop `for at := e.lastTS.Height(); at <= ts.Height(); at++`. -/
def applyHeights (env : Env) (ts : TipSet) (e : hcEvents) : hcEvents :=
  (heightRange e.lastTS.height ts.height).foldl
    (fun e atH => applyTimeouts env ts (applyWithConfidence env ts atH e)) e

/-- Body of the loop over `app` in `processHeadChangeEvent`; the flag is `true`
when the body returns the error of `checkNewCalls`. -/
def applyTipSet (env : Env) (ts : TipSet) (e : hcEvents) : hcEvents × Bool :=
  let sc := checkStateChanges env e.lastTS ts e
  let e1 := logErrors sc.2 e
  let e2 := queueStateChanges env ts sc.1 e1
  let nc := checkNewCalls env ts e2
  let e3 := logErrors nc.2 e2
  match nc.1 with
  | none => (e3, true)
  | some newCalls =>
    let e4 := queueNewCalls env ts newCalls e3
    let e5 := applyHeights env ts e4
    (setLastTS ts e5, false)

/-- The loop over `app` in `processHeadChangeEvent`, stopping at the first error. -/
def applyTipSets (env : Env) : List TipSet → hcEvents → hcEvents × Bool
  | [], e => (e, false)
  | ts :: rest, e =>
    match applyTipSet env ts e with
    | (e1, true) => (e1, true)
    | (e1, false) => applyTipSets env rest e1

/-- The loop over `rev` in `processHeadChangeEvent`. -/
def revertTipSets (rev : List TipSet) (e : hcEvents) : hcEvents :=
  rev.foldl (fun e ts => setLastTS ts (handleReverts ts e)) e

/-- The function `processHeadChangeEvent`; the flag is `true` when it returns an error. -/
def processHeadChangeEvent (env : Env) (rev app : List TipSet) (e : hcEvents) :
    hcEvents × Bool :=
  applyTipSets env app (revertTipSets rev e)

/-! ## Registration -/

/-- The trigger table and the timeout table after a successful registration
(the statements of `onHeadChanged` after the check). -/
def addTrigger (hnd : EventHandler) (rev : RevertHandler) (confidence : Int)
    (timeout : ChainEpoch) (more : Bool) (e : hcEvents) : hcEvents :=
  let id := e.ctr
  let e1 := { e with
    ctr := e.ctr + 1
    triggers := (e.triggers.set id
      { confidence := confidence, timeout := wrap64 (timeout + confidence),
        disabled := !more, handle := hnd, revert := rev }) }
  if timeout ≠ NoTimeout then
    let key := wrap64 (timeout + confidence)
    { e1 with timeouts := (e1.timeouts.set key (((e1.timeouts.get key).getD []).set id 0)) }
  else e1

/-- The function `onHeadChanged`; the second component is the returned trigger id,
`none` when it returns an error. -/
def onHeadChanged (env : Env) (check : CheckFunc) (hnd : EventHandler) (rev : RevertHandler)
    (confidence : Int) (timeout : ChainEpoch) (e : hcEvents) : hcEvents × Option triggerID :=
  match env.tscBest with
  | none => (e, none)
  | some ts =>
    let r := check e.calls ts
    if r.err then (e, none)
    else
      (addTrigger hnd rev confidence (if r.done then NoTimeout else timeout) r.more e,
        some e.ctr)

/-- The assignment `we.matchers[id] = mf`. -/
def setStateMatcher (id : triggerID) (mf : StateMatchFunc) (e : hcEvents) : hcEvents :=
  { e with stateMatchers := e.stateMatchers.set id mf }

/-- The assignment `me.matchers[id] = mf`. -/
def setMsgMatcher (id : triggerID) (mf : MsgMatchFunc) (e : hcEvents) : hcEvents :=
  { e with msgMatchers := e.msgMatchers.set id mf }

/-- The method `watcherEvents.StateChanged`.  The closure it builds passes its
arguments on to the `StateChangeHandler` (`scHnd(prevTs, ts, states, height)`), so `hnd`
is that handler. -/
def StateChanged (env : Env) (check : CheckFunc) (hnd : EventHandler) (rev : RevertHandler)
    (confidence : Int) (timeout : ChainEpoch) (mf : StateMatchFunc) (e : hcEvents) :
    hcEvents × Bool :=
  match onHeadChanged env check hnd rev confidence timeout e with
  | (e1, none) => (e1, true)
  | (e1, some id) => (setStateMatcher id mf e1, false)

/-- The method `messageEvents.Called`, given the handler closure `hnd` it builds.  The
closure is a parameter and is not embedded: it looks the message up with
`StateSearchMsg` under `ts.Key()` before it calls the `MsgHandler`, so it dereferences
the trigger tipset, and `hnd` stands for its result only where the trigger tipset is not
nil. -/
def Called (env : Env) (check : CheckFunc) (hnd : EventHandler) (rev : RevertHandler)
    (confidence : Int) (timeout : ChainEpoch) (mf : MsgMatchFunc) (e : hcEvents) :
    hcEvents × Bool :=
  match onHeadChanged env check hnd rev confidence timeout e with
  | (e1, none) => (e1, true)
  | (e1, some id) => (setMsgMatcher id mf e1, false)

/-! ## Runs -/

/-- A call of the dispatcher's interface, with the environment it runs in. -/
inductive Op where
  | register (env : Env) (check : CheckFunc) (hnd : EventHandler) (rev : RevertHandler)
      (confidence : Int) (timeout : ChainEpoch)
  | stateChanged (env : Env) (check : CheckFunc) (hnd : EventHandler) (rev : RevertHandler)
      (confidence : Int) (timeout : ChainEpoch) (mf : StateMatchFunc)
  | called (env : Env) (check : CheckFunc) (hnd : EventHandler) (rev : RevertHandler)
      (confidence : Int) (timeout : ChainEpoch) (mf : MsgMatchFunc)
  | headChange (env : Env) (rev app : List TipSet)

/-- The state after one call. -/
def step (e : hcEvents) : Op → hcEvents
  | Op.register env check hnd rev c t => (onHeadChanged env check hnd rev c t e).1
  | Op.stateChanged env check hnd rev c t mf => (StateChanged env check hnd rev c t mf e).1
  | Op.called env check hnd rev c t mf => (Called env check hnd rev c t mf e).1
  | Op.headChange env rev app => (processHeadChangeEvent env rev app e).1

/-- The state after a sequence of calls. -/
def run (e : hcEvents) (ops : List Op) : hcEvents := ops.foldl step e

/-! ## Predicates used in the statements and proofs -/

/-- A property of the dispatcher state that the elementary state changes of the height
loop of `processHeadChangeEvent` preserve. -/
structure FireInv (P : hcEvents → Prop) : Prop where
  log : ∀ l e, P e → P (logErrors l e)
  apply : ∀ env head height origH tTS i e, height ≤ head.height → P e →
    P (applyEvent env head height origH tTS i e)
  timeout : ∀ env ts tid e, P e → P (applyTimeout env ts tid e)

/-- A property of the dispatcher state that every elementary state change preserves. -/
structure StepInv (P : hcEvents → Prop) : Prop where
  log : ∀ l e, P e → P (logErrors l e)
  last : ∀ ts e, P e → P (setLastTS ts e)
  revert : ∀ ts e, P e → P (handleReverts ts e)
  queue : ∀ tid data prev ts e, P e → P (queueForConfidence tid data prev ts e)
  apply : ∀ env head height origH tTS i e, height ≤ head.height → P e →
    P (applyEvent env head height origH tTS i e)
  timeout : ∀ env ts tid e, P e → P (applyTimeout env ts tid e)
  reg : ∀ env check hnd rev c t e, P e → P (onHeadChanged env check hnd rev c t e).1
  stateMatcher : ∀ id mf e, P e → P (setStateMatcher id mf e)
  msgMatcher : ∀ id mf e, P e → P (setMsgMatcher id mf e)

/-- Invariant of the tables of the dispatcher. -/
structure StateInv (e : hcEvents) : Prop where
  ids : ∀ id hi, e.triggers.get id = some hi → id < e.ctr
  queue : ∀ tH mH evs ev, eventsAt e tH mH = some evs → ev ∈ evs →
    ev.h = mH ∧ ∃ hi, e.triggers.get ev.trigger = some hi ∧ tH = wrap64 (mH + hi.confidence)
  reverts : ∀ tH mH evs, eventsAt e tH mH = some evs → evs ≠ [] →
    ∃ l, e.revertQueue.get mH = some l ∧ tH ∈ l
  touts : ∀ H tid n, callsAt e H tid = some n →
    ∃ hi, e.triggers.get tid = some hi ∧ hi.timeout = H

/-- Invariant relating the trace of callback invocations to the tables. -/
structure LogInv (e : hcEvents) : Prop where
  applied : ∀ hd ev p t curH res, Call.apply hd ev p t curH res ∈ e.calls →
    ∃ hi, e.triggers.get ev.trigger = some hi ∧ curH = wrap64 (ev.h + hi.confidence) ∧
      curH ≤ hd.height
  timedOut : ∀ hd tid t curH res, Call.timeout hd tid t curH res ∈ e.calls →
    ∃ hi, e.triggers.get tid = some hi
  suppressed : ∀ hd ev p t curH res, Call.apply hd ev p t curH res ∈ e.calls →
    res.err = false → ∀ H, callsAt e H ev.trigger ≠ some 0
  ordered : ∀ l1 l2 hd ev p t curH res, e.calls = l1 ++ Call.apply hd ev p t curH res :: l2 →
    res.err = false → ∀ hd' t' curH' res', Call.timeout hd' ev.trigger t' curH' res' ∉ l2

/-- The invariant of the dispatcher. -/
def Inv (e : hcEvents) : Prop := StateInv e ∧ LogInv e

/-- The tables other than the trace are the same in both states. -/
def SameTables (e e' : hcEvents) : Prop :=
  e'.ctr = e.ctr ∧ e'.triggers = e.triggers ∧ e'.confQueue = e.confQueue ∧
    e'.revertQueue = e.revertQueue ∧ e'.timeouts = e.timeouts

/-! ## Scenario fixtures -/

/-- The tipset of height `h` used in the scenarios: its only block is `h`, its parent
block is `h - 1`. -/
def tipsetAt (h : Nat) : TipSet :=
  { height := h, blocks := [h], parents := [h - 1] }

/-- The environment of the scenarios: the tipset cache holds every height, the chain
store resolves every key and returns for block `b` the single BLS message with cid `b`,
and maps are visited in storage order. -/
def scenarioEnv : Env :=
  { tscGet := fun h => some (tipsetAt h.toNat)
    tscBest := some (tipsetAt 0)
    chainGetTipSet := fun key => some { height := 0, blocks := key, parents := [] }
    chainGetBlockMessages := fun b => some { blsMessages := [{ cid := b }], secpkMessages := [] }
    rankH := fun _ => 0
    rankT := fun _ => 0 }

/-- A check returning `(done, more, nil)`. -/
def checkConst (done more : Bool) : CheckFunc :=
  fun _ _ => { done := done, more := more, err := false }

/-- A handler returning `(more, nil)`. -/
def handlerOk (more : Bool) : EventHandler :=
  fun _ _ _ _ _ => { more := more, err := false }

/-- A handler returning an error for events and `(more, nil)` for timeouts. -/
def handlerErrOnEvent (more : Bool) : EventHandler :=
  fun _ data _ _ _ => { more := more, err := data.isSome }

/-- A revert callback returning nil. -/
def revertOk : RevertHandler := fun _ _ => false

/-- A message matcher matching the message with the given cid only. -/
def matchCid (c : Cid) : MsgMatchFunc :=
  fun m => { matched := decide (m.cid = c), err := false }

/-- A message matcher matching nothing. -/
def matchNone : MsgMatchFunc :=
  fun _ => { matched := false, err := false }

/-- The applied tipsets given to `processHeadChangeEvent` by a sequence of calls. -/
def appliedTipSets : List Op → List TipSet
  | [] => []
  | Op.headChange _ _ app :: ops => app ++ appliedTipSets ops
  | _ :: ops => appliedTipSets ops

/-- The run of the null-round scenario: a trigger with confidence 3 whose matcher matches
the message carried by tipset 10, then the applies of tipset 10 and of tipset 15. -/
def nullRoundRun : List Op :=
  [Op.called scenarioEnv (checkConst false true) (handlerOk true) revertOk 3 NoTimeout
     (matchCid 9),
   Op.headChange scenarioEnv [] [tipsetAt 10],
   Op.headChange scenarioEnv [] [tipsetAt 15]]

/-- The run of the confidence scenario up to the apply of tipset 11: the event of
tipset 10 is queued for height 12. -/
def queuedRun : List Op :=
  [Op.called scenarioEnv (checkConst false true) (handlerOk true) revertOk 2 NoTimeout
     (matchCid 9),
   Op.headChange scenarioEnv [] [tipsetAt 10],
   Op.headChange scenarioEnv [] [tipsetAt 11]]

/-- The trigger whose handler an invocation calls (`none` for a revert callback). -/
def Call.handleOf : Call → Option triggerID
  | Call.apply _ ev _ _ _ _ => some ev.trigger
  | Call.timeout _ tid _ _ _ => some tid
  | Call.revert _ _ _ _ => none

/-- The trigger whose handler an invocation calls as a timeout. -/
def Call.timeoutOf : Call → Option triggerID
  | Call.timeout _ tid _ _ _ => some tid
  | _ => none

/-- An invocation of a revert callback for a called event stored in the queue of `e`
at the height of the reverted tipset `ts`. -/
def RevertOf (e : hcEvents) (ts : TipSet) (c : Call) : Prop :=
  ∃ tH ev err evs, c = Call.revert tH ev ts err ∧ ev.called = true ∧
    eventsAt e tH ts.height = some evs ∧ ev ∈ evs

/-- Frame invariant for a trigger that has no pending timeout: it is registered, no
entry of the timeout table holds the call count 0 for it, and the trace holds no timeout
invocation of its handler. -/
def NoPendingTimeout (id : triggerID) (e : hcEvents) : Prop :=
  Inv e ∧ id < e.ctr ∧ (∀ H, callsAt e H id ≠ some 0) ∧ ∀ c ∈ e.calls, c.timeoutOf ≠ some id

/-- Frame invariant for a disabled trigger: it is registered and disabled, and the trace
holds no invocation of its handler. -/
def StaysDisabled (id : triggerID) (e : hcEvents) : Prop :=
  Inv e ∧ (∃ hi, e.triggers.get id = some hi ∧ hi.disabled = true) ∧
    ∀ c ∈ e.calls, c.handleOf ≠ some id

/-- A message matcher matching the messages with the given cids. -/
def matchCids (cs : List Cid) : MsgMatchFunc :=
  fun m => { matched := decide (m.cid ∈ cs), err := false }

/-- The run of the failed-event scenario: confidence 1, timeout 11, the handler returns
an error for the event of tipset 10; tipsets 10, 11 and 12 are applied. -/
def failedEventRun : List Op :=
  [Op.called scenarioEnv (checkConst false true) (handlerErrOnEvent false) revertOk 1 11
     (matchCid 9),
   Op.headChange scenarioEnv [] [tipsetAt 10],
   Op.headChange scenarioEnv [] [tipsetAt 11],
   Op.headChange scenarioEnv [] [tipsetAt 12]]

/-- The run of the two-events scenario: confidence 1, timeout 12, the handler succeeds
for the events of tipsets 10 and 11; tipsets 10 to 13 are applied. -/
def twoEventsRun : List Op :=
  [Op.called scenarioEnv (checkConst false true) (handlerOk true) revertOk 1 12
     (matchCids [9, 10]),
   Op.headChange scenarioEnv [] [tipsetAt 10],
   Op.headChange scenarioEnv [] [tipsetAt 11],
   Op.headChange scenarioEnv [] [tipsetAt 12],
   Op.headChange scenarioEnv [] [tipsetAt 13]]

/-- A call of the interface that registers a trigger with the given check, confidence
and timeout. -/
def Op.isRegistration (env : Env) (check : CheckFunc) (c : Int) (t : ChainEpoch) (op : Op) :
    Prop :=
  (∃ hnd rev, op = Op.register env check hnd rev c t) ∨
  (∃ hnd rev mf, op = Op.stateChanged env check hnd rev c t mf) ∨
  (∃ hnd rev mf, op = Op.called env check hnd rev c t mf)

/-- A registration through `Called` with confidence 1 and timeout 11 whose check
returns `done = true`. -/
def doneRegistration : Op :=
  Op.called scenarioEnv (checkConst true true) (handlerOk true) revertOk 1 11 matchNone

/-- The applies of tipsets 10 to 13. -/
def appliesThrough13 : List Op :=
  [Op.headChange scenarioEnv [] [tipsetAt 10],
   Op.headChange scenarioEnv [] [tipsetAt 11],
   Op.headChange scenarioEnv [] [tipsetAt 12],
   Op.headChange scenarioEnv [] [tipsetAt 13]]

/-- A registration through `Called` with confidence 1 and timeout 11 whose check
returns `more = false`; its matcher matches the message carried by tipset 10. -/
def disabledRegistration : Op :=
  Op.called scenarioEnv (checkConst false false) (handlerOk true) revertOk 1 11 (matchCid 9)

/-- The run of the timeout scenario: confidence 1, timeout 20, no matcher ever matches,
the handler returns `(more, nil)`; the head is at height 19 and tipsets 20 and 21 are
applied. -/
def timeoutRun (more : Bool) : List Op :=
  [Op.called scenarioEnv (checkConst false true) (handlerOk more) revertOk 1 20 matchNone,
   Op.headChange scenarioEnv [] [tipsetAt 20],
   Op.headChange scenarioEnv [] [tipsetAt 21]]

/-- The run of the null-tipset scenario: the head is at height 7, a trigger with
confidence 1 and timeout 9 (scheduled at height 10) is registered enabled, and one tipset
of height 12 is applied. -/
def skippedTimeoutRun : List Op :=
  [Op.called scenarioEnv (checkConst false true) (handlerOk false) revertOk 1 9 matchNone,
   Op.headChange scenarioEnv [] [tipsetAt 12]]

/-- The run of the failing-handler scenario: confidence 2, no timeout, the handler
returns an error for the event of tipset 10; tipsets 10 to 13 are applied. -/
def retryRun : List Op :=
  [Op.called scenarioEnv (checkConst false true) (handlerErrOnEvent true) revertOk 2 NoTimeout
     (matchCid 9),
   Op.headChange scenarioEnv [] [tipsetAt 10],
   Op.headChange scenarioEnv [] [tipsetAt 11],
   Op.headChange scenarioEnv [] [tipsetAt 12],
   Op.headChange scenarioEnv [] [tipsetAt 13]]

/-- The events for which a piece of the trace invokes a revert callback with the tipset
`ts`, taken from `confQueue[triggerH][ts.Height()]`, in order. -/
def revertsOf (triggerH : ChainEpoch) (ts : TipSet) (l : List Call) : List queuedEvent :=
  l.filterMap (fun c =>
    match c with
    | Call.revert tH ev ts' _ => if tH = triggerH ∧ ts' = ts then some ev else none
    | _ => none)

/-- The called events stored in `confQueue[triggerH][msgH]`. -/
def calledEventsAt (e : hcEvents) (triggerH msgH : ChainEpoch) : List queuedEvent :=
  ((eventsAt e triggerH msgH).getD []).filter (fun ev => ev.called)

/-- A tipset of height 10 whose parent has the two blocks 8 and 9. -/
def tipset10TwoParents : TipSet :=
  { height := 10, blocks := [10], parents := [8, 9] }

/-- The run of the revert scenario: confidence 1, the matcher matches the two messages
carried by the tipset of height 10, tipsets 10 and 11 are applied; both events are called
at height 11 and `revertQueue[10]` lists the trigger height 11 twice. -/
def twoCalledRun : List Op :=
  [Op.called scenarioEnv (checkConst false true) (handlerOk true) revertOk 1 NoTimeout
     (matchCids [8, 9]),
   Op.headChange scenarioEnv [] [tipset10TwoParents],
   Op.headChange scenarioEnv [] [tipsetAt 11]]

/-- The tables of a dispatcher with the single trigger 0, registered through
`StateChanged` without timeout. -/
structure SingleTrigger (e : hcEvents) (last : TipSet) (hi : handlerInfo)
    (mf : StateMatchFunc) (queue : GoMap ChainEpoch (GoMap ChainEpoch (List queuedEvent)))
    (calls : List Call) : Prop where
  lastTS : e.lastTS = last
  triggers : e.triggers = [(0, hi)]
  confQueue : e.confQueue = queue
  timeouts : e.timeouts = []
  stateMatchers : e.stateMatchers = [(0, mf)]
  msgMatchers : e.msgMatchers = []
  calls : e.calls = calls

/-- The tables of the confidence scenario after its event has been delivered: no timeout,
the state matcher of trigger 0 only, a fixed trace, and every queued event called. -/
def Settled (mf : StateMatchFunc) (calls : List Call) (e : hcEvents) : Prop :=
  e.timeouts = [] ∧ e.stateMatchers = [(0, mf)] ∧ e.msgMatchers = [] ∧ e.calls = calls ∧
  ∀ tH mH evs ev, eventsAt e tH mH = some evs → ev ∈ evs → ev.called = true

/-- A state matcher matching exactly the tipsets of height 10. -/
def matchHeight10 : StateMatchFunc :=
  fun _ newTs => { ok := decide (newTs.height = 10), data := some (eventData.state 0),
                   err := false }

/-- The run in which the event reaches confidence at the timeout height: confidence 1,
timeout 20 (stored as 21), the matcher matches the message carried by tipset 20; the head
is at height 19 and tipsets 20 and 21 are applied. -/
def eventAtTimeoutRun : List Op :=
  [Op.called scenarioEnv (checkConst false true) (handlerOk true) revertOk 1 20 (matchCid 19),
   Op.headChange scenarioEnv [] [tipsetAt 20],
   Op.headChange scenarioEnv [] [tipsetAt 21]]

/-- The environment of the scenarios with the tipset of height 10 missing from the
tipset cache. -/
def missingTipsetEnv : Env :=
  { scenarioEnv with tscGet := fun h => if h = 10 then none else some (tipsetAt h.toNat) }

/-- A trigger registered through `StateChanged` with confidence 2 and timeout height 20
whose matcher matches the tipset of height 10; tipsets 10 and 11 are applied, then tipset
12 while the cache has lost the tipset of height 10 (the previous tipset of the event, of
height 9, is still in the cache). -/
def missingTipsetRun : List Op :=
  [Op.stateChanged scenarioEnv (checkConst false true) (handlerOk true) revertOk 2 20
     matchHeight10,
   Op.headChange scenarioEnv [] [tipsetAt 10],
   Op.headChange scenarioEnv [] [tipsetAt 11],
   Op.headChange missingTipsetEnv [] [tipsetAt 12]]

/-- The environment of the scenarios in which `ChainGetBlockMessages` fails for every
block and `ChainGetTipSet` fails for the key `[11]`, the parents of tipset 12. -/
def failingReadsEnv : Env :=
  { scenarioEnv with
    chainGetTipSet := fun key => if key = [11] then none else scenarioEnv.chainGetTipSet key
    chainGetBlockMessages := fun _ => none }

/-- A trigger with confidence 1 whose matcher matches the message carried by tipset 10,
and the apply of tipset 10: the event is queued for height 11. -/
def queuedForElevenRun : List Op :=
  [Op.called scenarioEnv (checkConst false true) (handlerOk true) revertOk 1 NoTimeout
     (matchCid 9),
   Op.headChange scenarioEnv [] [tipsetAt 10]]

/-- A property of the dispatcher state that the elementary state changes of
`processHeadChangeEvent` preserve when the environment satisfies `E` and the applied
tipsets satisfy `A`. -/
structure HeadInv (E : Env → Prop) (A : TipSet → Prop) (P : hcEvents → Prop) : Prop where
  log : ∀ l e, P e → P (logErrors l e)
  last : ∀ ts e, P e → P (setLastTS ts e)
  revert : ∀ ts e, P e → P (handleReverts ts e)
  queue : ∀ tid data prev ts e, A ts → P e → P (queueForConfidence tid data prev ts e)
  apply : ∀ env head height origH tTS i e, E env → A head → height ≤ head.height → P e →
    P (applyEvent env head height origH tTS i e)
  timeout : ∀ env ts tid e, E env → A ts → P e → P (applyTimeout env ts tid e)

/-- A property of the dispatcher state that every elementary state change preserves
when the environments of the head changes satisfy `E` and the applied tipsets `A`. -/
structure RunInv (E : Env → Prop) (A : TipSet → Prop) (P : hcEvents → Prop) : Prop where
  head : HeadInv E A P
  reg : ∀ env check hnd rev c t e, P e → P (onHeadChanged env check hnd rev c t e).1
  stateMatcher : ∀ id mf e, P e → P (setStateMatcher id mf e)
  msgMatcher : ∀ id mf e, P e → P (setMsgMatcher id mf e)

/-- A call of the interface whose head change, if it is one, runs in an environment
satisfying `E` and applies tipsets satisfying `A`. -/
def Op.allowed (E : Env → Prop) (A : TipSet → Prop) : Op → Prop
  | Op.headChange env _ app => E env ∧ ∀ t ∈ app, A t
  | _ => True

/-- The trigger id returned by a call of the interface, `none` for a head change and for
a registration that returns an error. -/
def Op.registered (e : hcEvents) : Op → Option triggerID
  | Op.register env check hnd rev c t => (onHeadChanged env check hnd rev c t e).2
  | Op.stateChanged env check hnd rev c t _ => (onHeadChanged env check hnd rev c t e).2
  | Op.called env check hnd rev c t _ => (onHeadChanged env check hnd rev c t e).2
  | Op.headChange _ _ _ => none

/-- The trigger ids returned by the successful registrations of a sequence of calls, in
order. -/
def registeredIds : hcEvents → List Op → List triggerID
  | _, [] => []
  | e, op :: ops => (op.registered e).toList ++ registeredIds (step e op) ops

/-- Three registrations, the second of which fails in its check, around a head change. -/
def mixedRegistrations : List Op :=
  [Op.called scenarioEnv (checkConst false true) (handlerOk true) revertOk 1 NoTimeout
     (matchCid 9),
   Op.register scenarioEnv (fun _ _ => { done := false, more := true, err := true })
     (handlerOk true) revertOk 1 20,
   Op.headChange scenarioEnv [] [tipsetAt 10],
   Op.stateChanged scenarioEnv (checkConst false true) (handlerOk true) revertOk 2 30
     matchHeight10,
   Op.register scenarioEnv (checkConst true false) (handlerOk true) revertOk 0 NoTimeout]

/-- A revert callback returning an error. -/
def revertFail : RevertHandler := fun _ _ => true

/-- The run of the failing-revert scenario: as `twoCalledRun`, with a revert callback
that returns an error at every invocation. -/
def failingRevertRun : List Op :=
  [Op.called scenarioEnv (checkConst false true) (handlerOk true) revertFail 1 NoTimeout
     (matchCids [8, 9]),
   Op.headChange scenarioEnv [] [tipset10TwoParents],
   Op.headChange scenarioEnv [] [tipsetAt 11]]

/-- Frame invariant after the revert of a tipset of height `h`, relative to the trace
`base` at that point: the queue holds no event of message height `h`, and the handler
invocations made since are for events of another message height. -/
def DroppedAt (h : ChainEpoch) (base : List Call) (s : hcEvents) : Prop :=
  Inv s ∧ (∀ tH evs, eventsAt s tH h = some evs → evs = []) ∧
  ∃ new, s.calls = base ++ new ∧
    ∀ hd ev p t curH res, Call.apply hd ev p t curH res ∈ new → ev.h ≠ h

/-- The run of the dropped-event scenario: confidence 3, the event of tipset 10 is queued
for height 13. -/
def queuedForThirteenRun : List Op :=
  [Op.called scenarioEnv (checkConst false true) (handlerOk true) revertOk 3 NoTimeout
     (matchCid 9),
   Op.headChange scenarioEnv [] [tipsetAt 10]]

/-- The applies of tipsets 11 to 14. -/
def appliesElevenToFourteen : List Op :=
  [Op.headChange scenarioEnv [] [tipsetAt 11],
   Op.headChange scenarioEnv [] [tipsetAt 12],
   Op.headChange scenarioEnv [] [tipsetAt 13],
   Op.headChange scenarioEnv [] [tipsetAt 14]]

/-- The handler was invoked for the event `ev`, then not yet called, and returned without
error, somewhere in the trace `l`. -/
def AppliedIn (l : List Call) (ev : queuedEvent) : Prop :=
  ∃ hd p t curH res, Call.apply hd { ev with called := false } p t curH res ∈ l ∧
    res.err = false

/-- Every called event of the queue has a successful handler invocation in the trace. -/
def CalledOk (e : hcEvents) : Prop :=
  ∀ tH mH evs ev, eventsAt e tH mH = some evs → ev ∈ evs → ev.called = true →
    AppliedIn e.calls ev

/-- Every revert callback of the trace is for a called event and comes after a successful
handler invocation for that event. -/
def RevertedOk (calls : List Call) : Prop :=
  ∀ l1 l2 tH ev ts err, calls = l1 ++ Call.revert tH ev ts err :: l2 →
    ev.called = true ∧ AppliedIn l1 ev

/-- Invariant of the revert callbacks. -/
def RevertInv (e : hcEvents) : Prop := Inv e ∧ CalledOk e ∧ RevertedOk e.calls

/-- The run of the disabled-trigger scenario: confidence 1, the handler returns
`more = false` for the event of tipset 10, so the trigger is disabled once the event is
called at height 11. -/
def calledThenDisabledRun : List Op :=
  [Op.called scenarioEnv (checkConst false true) (handlerOk false) revertOk 1 NoTimeout
     (matchCid 9),
   Op.headChange scenarioEnv [] [tipsetAt 10],
   Op.headChange scenarioEnv [] [tipsetAt 11]]

/-- Every timeout invocation of the handler of trigger `id` in the trace was made at the
height `T` with the tipset `X`, and its result is the result of `hnd` on
`(nil, nil, X, T)`. -/
def TimeoutsOk (id : triggerID) (T : ChainEpoch) (X : Option TipSet) (hnd : EventHandler)
    (calls : List Call) : Prop :=
  ∀ l1 l2 hd tts curH res, calls = l1 ++ Call.timeout hd id tts curH res :: l2 →
    curH = T ∧ hd.height = T ∧ tts = X ∧ res = hnd l1 none none X T

/-- Frame invariant for a trigger with confidence `c`, stored timeout `T` and handler
`hnd`. -/
def TimeoutArgs (id : triggerID) (c : Int) (T : ChainEpoch) (X : Option TipSet)
    (hnd : EventHandler) (s : hcEvents) : Prop :=
  Inv s ∧ id < s.ctr ∧
  (∃ hi, s.triggers.get id = some hi ∧ hi.confidence = c ∧ hi.timeout = T ∧
    hi.handle = hnd) ∧
  TimeoutsOk id T X hnd s.calls

/-- A handler whose result records whether it was called with `data = nil` and
`prevTS = nil`. -/
def handlerNilArgs : EventHandler :=
  fun _ data prevTS _ _ => { more := data.isNone && prevTS.isNone, err := false }

/-- A registration through `Called` with confidence 1 and timeout 20 whose matcher never
matches. -/
def timeoutRegistration : Op :=
  Op.called scenarioEnv (checkConst false true) handlerNilArgs revertOk 1 20 matchNone

/-- The applies of tipsets 20 and 21. -/
def appliesTwentyTwentyOne : List Op :=
  [Op.headChange scenarioEnv [] [tipsetAt 20],
   Op.headChange scenarioEnv [] [tipsetAt 21]]

/-- The messages of one block in the order of the specification: the BLS messages, then
the unsigned messages of the secp messages. -/
def blockMessagesOf (msgs : BlockMessages) : List UnsignedMessage :=
  msgs.blsMessages ++ msgs.secpkMessages.map (fun m => m.message)

/-- The messages found in the blocks `blocks`, in tipset order; a block whose messages
cannot be read contributes none. -/
def allMessages (env : Env) : List Cid → List UnsignedMessage
  | [] => []
  | b :: bs =>
    (match env.chainGetBlockMessages b with
      | none => []
      | some msgs => blockMessagesOf msgs) ++ allMessages env bs

/-- Dedup by identifier in the words of the specification: the messages of `ms` whose cid
is not in `seen` and did not occur earlier in `ms`, in the order of `ms`. -/
def firstByCid (seen : List Cid) : List UnsignedMessage → List UnsignedMessage
  | [] => []
  | m :: ms =>
    if m.cid ∈ seen then firstByCid seen ms else m :: firstByCid (seen ++ [m.cid]) ms

/-- The evaluations `matchFn(msg)` the `consume` callback of `checkNewCalls` makes for
the messages `ms` when the matcher table is visited in the order `ks`, as pairs of the
trigger and the message, in order. -/
def matcherEvalsOf (ks : List triggerID) : List UnsignedMessage →
    List (triggerID × UnsignedMessage)
  | [] => []
  | m :: ms => ks.map (fun tid => (tid, m)) ++ matcherEvalsOf ks ms

/-- The matcher evaluations of `checkNewCalls`. -/
def matcherEvals (env : Env) (ts : TipSet) (e : hcEvents) :
    List (triggerID × UnsignedMessage) :=
  match env.chainGetTipSet ts.parents with
  | none => []
  | some pts =>
    matcherEvalsOf (orderBy env.rankT e.msgMatchers.keys) (messagesForTS env pts).1

/-- The events of trigger `tid` stored in `confQueue[triggerH][msgH]`. -/
def eventsFor (e : hcEvents) (tid : triggerID) (triggerH msgH : ChainEpoch) :
    List queuedEvent :=
  ((eventsAt e triggerH msgH).getD []).filter (fun ev => ev.trigger = tid)

/-- The test `err == nil && matched` on the result of a matcher. -/
def MsgMatchResult.hit (r : MsgMatchResult) : Bool := !r.err && r.matched

/-- The state in which `applyTipSet` calls `checkNewCalls`: the state changes found for
`ts` are queued. -/
def beforeNewCalls (env : Env) (ts : TipSet) (e : hcEvents) : hcEvents :=
  queueStateChanges env ts (checkStateChanges env e.lastTS ts e).1
    (logErrors (checkStateChanges env e.lastTS ts e).2 e)

/-- The applied tipset of the dedup scenario: its parent tipset has the blocks 1 and 2. -/
def tipsetOverTwoBlocks : TipSet :=
  { height := 10, blocks := [10], parents := [1, 2] }

/-- The environment of the dedup scenario: block 1 carries the BLS messages 1, 2 and the
secp messages 2, 3; block 2 carries the BLS messages 3, 4 and the secp message 1. -/
def dedupEnv : Env :=
  { scenarioEnv with
    chainGetBlockMessages := fun b =>
      if b = 1 then
        some { blsMessages := [{ cid := 1 }, { cid := 2 }],
               secpkMessages := [{ message := { cid := 2 } }, { message := { cid := 3 } }] }
      else
        some { blsMessages := [{ cid := 3 }, { cid := 4 }],
               secpkMessages := [{ message := { cid := 1 } }] } }

/-- The run of the dedup scenario: a trigger with confidence 3 whose matcher matches the
messages 2 and 3. -/
def dedupRun : List Op :=
  [Op.called dedupEnv (checkConst false true) (handlerOk true) revertOk 3 NoTimeout
     (matchCids [2, 3])]

/-- A property preserved by the state changes made while the tipset `ts` is applied in
the environment `env`. -/
structure FireOn (env : Env) (ts : TipSet) (P : hcEvents → Prop) : Prop where
  log : ∀ l e, P e → P (logErrors l e)
  apply : ∀ height origH i e, height ≤ ts.height → P e →
    P (applyEvent env ts height origH (env.tscGet origH) i e)
  timeout : ∀ tid e, P e → P (applyTimeout env ts tid e)

/-- The argument `prevTS` of the handler for the event `ev`, when the previous tipset
can be read. -/
def prevOf (env : Env) (ev : queuedEvent) : Option TipSet :=
  if ev.prevH ≠ NoHeight then env.tscGet ev.prevH else none

/-- The event `ev` is stored at index `i` of `confQueue[tH][oH]`. -/
def EventWaiting (tH oH : ChainEpoch) (i : Nat) (ev : queuedEvent) (s : hcEvents) : Prop :=
  ∃ evs, eventsAt s tH oH = some evs ∧ evs[i]? = some ev

/-- The trace `new` holds an invocation of the handler for the event `ev` with
`curH = tH`, made while `ts` is applied. -/
def EventDelivered (env : Env) (ts : TipSet) (tH oH : ChainEpoch) (ev : queuedEvent)
    (new : List Call) : Prop :=
  ∃ res, Call.apply ts ev (prevOf env ev) (env.tscGet oH) tH res ∈ new

/-- The trigger `tid` is disabled. -/
def TriggerDisabled (tid : triggerID) (s : hcEvents) : Prop :=
  ∃ hi, s.triggers.get tid = some hi ∧ hi.disabled = true

/-- The event was delivered since the trace `base`, or its trigger is disabled. -/
def EventSettled (base : List Call) (env : Env) (ts : TipSet) (tH oH : ChainEpoch)
    (ev : queuedEvent) (s : hcEvents) : Prop :=
  Inv s ∧ ∃ new, s.calls = base ++ new ∧
    (EventDelivered env ts tH oH ev new ∨ TriggerDisabled ev.trigger s)

/-- The event is still waiting in its slot, or it is settled. -/
def EventPending (base : List Call) (env : Env) (ts : TipSet) (tH oH : ChainEpoch) (i : Nat)
    (ev : queuedEvent) (s : hcEvents) : Prop :=
  Inv s ∧ ∃ new, s.calls = base ++ new ∧
    (EventWaiting tH oH i ev s ∨ EventDelivered env ts tH oH ev new ∨
      TriggerDisabled ev.trigger s)

/-- The run of the state-change scenario: a trigger with confidence 3 whose matcher
matches the tipset of height 10, then the apply of tipset 10 on the head of height 9; the
event, with previous height 9, waits for height 13. -/
def stateQueuedRun : List Op :=
  [Op.stateChanged scenarioEnv (checkConst false true) (handlerOk true) revertOk 3 NoTimeout
     matchHeight10,
   Op.headChange scenarioEnv [] [tipsetAt 10]]

/-- The environment of the scenarios with the tipset of height 9 missing from the tipset
cache. -/
def missingPrevEnv : Env :=
  { scenarioEnv with tscGet := fun h => if h = 9 then none else some (tipsetAt h.toNat) }

/-- The event queued by `queuedForThirteenRun`: the message 9, matched at height 10. -/
def eventOfTen : queuedEvent :=
  { trigger := 0, prevH := NoHeight, h := 10, data := some (eventData.msg { cid := 9 }),
    called := false }

/-- The event of the failing-handler scenario: the message 9, matched at height 10. -/
def failedEventOfTen : queuedEvent :=
  { trigger := 0, prevH := NoHeight, h := 10, data := some (eventData.msg { cid := 9 }),
    called := false }

end Events

/-!
# The message pool front-end (`app/submodule/mpool/mpool_api.go`)

Modelling conventions of this part.

* The collaborators of `MessagePoolAPI` (chain API, wallet, message pool, push locks,
  `json.Marshal`, `ToStorageBlock`) are not part of the front-end; they are the fields of
  the records `Deps` and `ChainView`.
* `MpoolPushMessage` and the batch methods thread a trace `List Effect` of the calls made
  to the collaborators.  A collaborator receives the trace of everything done before its
  call, so its answer may depend on the whole history (a pool that hands out the next
  nonce after each accepted push, a wallet that fails the second time).  Calls run one
  after the other; nothing else touches the collaborators in between.
* `big.Int` amounts are `Int`; the `uint64` nonce is a `Nat`, it is only compared with
  zero and copied; heights are `Int`, they are only compared.
* Errors are the constructors of `PushErr` and `PendingErr`, one per `return nil, err`
  site; the text of the messages is not modelled.  `log.Warnf` is not modelled.
* One call of `MpoolPending` reads the chain store and the pool through `ChainView`: a
  read is a function of its arguments for the duration of the call.  Tipset pointers are
  never nil.  The unbounded `for` loop takes a bound `fuel` on its iterations and yields
  `none` when the bound is reached.
-/

namespace Mpool

abbrev Cid := Nat

abbrev ChainEpoch := Int

/-- The protocols of an `address.Address`. -/
inductive Protocol where
  | ID
  | SECP256K1
  | Actor
  | BLS
  | Unknown
  deriving DecidableEq, Repr

structure Address where
  protocol : Protocol
  payload : Nat
  deriving DecidableEq, Repr

structure UnsignedMessage where
  To : Address
  From : Address
  Nonce : Nat
  Value : Int
  GasLimit : Int
  GasFeeCap : Int
  GasPremium : Int
  Method : Nat
  Params : List Nat
  deriving DecidableEq, Repr

/-- A `crypto.Signature`. -/
structure Signature where
  data : List Nat
  deriving DecidableEq, Repr

structure SignedMessage where
  Message : UnsignedMessage
  Signature : Signature
  deriving DecidableEq, Repr

/-- The block returned by `ToStorageBlock`: its `Cid()` and its `RawData()`. -/
structure Block where
  cid : Cid
  rawData : List Nat
  deriving DecidableEq, Repr

/-- The message types of `wallet.MsgMeta`. -/
inductive MsgType where
  | MTUnknown
  | MTChainMsg
  deriving DecidableEq, Repr

structure MsgMeta where
  msgType : MsgType
  extra : List Nat
  deriving DecidableEq, Repr

/-- The error returns of `MpoolPushMessage`, in source order, and `pool` for an error
of `MPool.Push` or `MPool.PushUntrusted` returned as it is. -/
inductive PushErr where
  | keyAddress
  | takingLock
  | nonceNotZero (nonce : Nat)
  | gasEstimate
  | marshal
  | premiumAboveFeeCap (inMsg outMsg : UnsignedMessage)
  | balance
  | notEnoughFunds (b value : Int)
  | getNonce
  | serialize
  | sign
  | push
  | pool
  deriving DecidableEq, Repr

/-- One call made to a collaborator, with its arguments (and its result where a later
statement needs it).  `releaseLock` is the deferred `done()`, `lockSign` and `unlockSign`
are `a.lk.Lock()` and the deferred `a.lk.Unlock()`. -/
inductive Effect where
  | stateAccountKey (addr : Address)
  | takeLock (addr : Address) (ok : Bool)
  | releaseLock (addr : Address)
  | gasEstimateMessageGas (msg : UnsignedMessage)
  | walletBalance (addr : Address)
  | lockSign
  | unlockSign
  | getNonce (addr : Address) (res : Option Nat)
  | walletSign (addr : Address) (toSign : Cid) (info : MsgMeta)
  | push (smsg : SignedMessage) (res : Option Cid)
  | pushUntrusted (smsg : SignedMessage) (res : Option Cid)
  deriving DecidableEq, Repr

/-- The collaborators of `MpoolPushMessage` and of the batch methods.  The first argument
of a stateful collaborator is the trace of the effects performed before the call; `none`
(`false` for `takeLock` and `jsonMarshal`) is a non-nil error. -/
structure Deps where
  stateAccountKey : List Effect → Address → Option Address
  takeLock : List Effect → Address → Bool
  gasEstimateMessageGas : List Effect → UnsignedMessage → Option UnsignedMessage
  jsonMarshal : UnsignedMessage → Bool
  walletBalance : List Effect → Address → Option Int
  getNonce : List Effect → Address → Option Nat
  toStorageBlock : UnsignedMessage → Option Block
  walletSign : List Effect → Address → Cid → MsgMeta → Option Signature
  push : List Effect → SignedMessage → Option Cid
  pushUntrusted : List Effect → SignedMessage → Option Cid

/-! ## Push -/

/-- The method `MpoolPush`: the result of `MPool.Push` and the trace after the call. -/
def MpoolPush (d : Deps) (tr : List Effect) (smsg : SignedMessage) :
    Except PushErr Cid × List Effect :=
  let res := d.push tr smsg
  (match res with
   | some c => Except.ok c
   | none => Except.error PushErr.pool,
   tr ++ [Effect.push smsg res])

/-- The method `MpoolPushUntrusted`. -/
def MpoolPushUntrusted (d : Deps) (tr : List Effect) (smsg : SignedMessage) :
    Except PushErr Cid × List Effect :=
  let res := d.pushUntrusted tr smsg
  (match res with
   | some c => Except.ok c
   | none => Except.error PushErr.pool,
   tr ++ [Effect.pushUntrusted smsg res])

/-- The body of the closure `SignMessage` between `a.lk.Lock()` and the deferred
`a.lk.Unlock()`, with the callback `cb` of `MpoolPushMessage` (one `MpoolPush`). -/
def signLocked (d : Deps) (tr : List Effect) (msg : UnsignedMessage) :
    Except PushErr SignedMessage × List Effect :=
  let res := d.getNonce tr msg.From
  let tr1 := tr ++ [Effect.getNonce msg.From res]
  match res with
  | none => (Except.error PushErr.getNonce, tr1)
  | some nonce =>
    let msg1 := { msg with Nonce := nonce }
    match d.toStorageBlock msg1 with
    | none => (Except.error PushErr.serialize, tr1)
    | some mb =>
      let info : MsgMeta := { msgType := MsgType.MTChainMsg, extra := mb.rawData }
      let tr2 := tr1 ++ [Effect.walletSign msg1.From mb.cid info]
      match d.walletSign tr1 msg1.From mb.cid info with
      | none => (Except.error PushErr.sign, tr2)
      | some sig =>
        let smsg : SignedMessage := { Message := msg1, Signature := sig }
        match MpoolPush d tr2 smsg with
        | (Except.error _, tr3) => (Except.error PushErr.push, tr3)
        | (Except.ok _, tr3) => (Except.ok smsg, tr3)

/-- The closure `SignMessage` of `MpoolPushMessage`. -/
def SignMessage (d : Deps) (tr : List Effect) (msg : UnsignedMessage) :
    Except PushErr SignedMessage × List Effect :=
  let r := signLocked d (tr ++ [Effect.lockSign]) msg
  (r.1, r.2 ++ [Effect.unlockSign])

/-- The statement `if msg.From.Protocol() == address.ID { msg.From = fromA }`. -/
def adjustFrom (msg : UnsignedMessage) (fromA : Address) : UnsignedMessage :=
  if msg.From.protocol = Protocol.ID then { msg with From := fromA } else msg

/-- The statements of `MpoolPushMessage` after `defer done()`: `inMsg` is the copy of
the caller's message, `fromA` the resolved key address. -/
def pushLocked (d : Deps) (tr : List Effect) (inMsg : UnsignedMessage) (fromA : Address) :
    Except PushErr SignedMessage × List Effect :=
  if inMsg.Nonce ≠ 0 then (Except.error (PushErr.nonceNotZero inMsg.Nonce), tr)
  else
    let tr1 := tr ++ [Effect.gasEstimateMessageGas inMsg]
    match d.gasEstimateMessageGas tr inMsg with
    | none => (Except.error PushErr.gasEstimate, tr1)
    | some est =>
      if est.GasPremium > est.GasFeeCap then
        if d.jsonMarshal inMsg = false then (Except.error PushErr.marshal, tr1)
        else if d.jsonMarshal est = false then (Except.error PushErr.marshal, tr1)
        else (Except.error (PushErr.premiumAboveFeeCap inMsg est), tr1)
      else
        let msg := adjustFrom est fromA
        let tr2 := tr1 ++ [Effect.walletBalance msg.From]
        match d.walletBalance tr1 msg.From with
        | none => (Except.error PushErr.balance, tr2)
        | some b =>
          if b < msg.Value then (Except.error (PushErr.notEnoughFunds b msg.Value), tr2)
          else SignMessage d tr2 msg

/-- The method `MpoolPushMessage`: the returned pair `(*SignedMessage, error)` and the
trace after the call. -/
def MpoolPushMessage (d : Deps) (tr : List Effect) (msg : UnsignedMessage) :
    Except PushErr SignedMessage × List Effect :=
  let tr1 := tr ++ [Effect.stateAccountKey msg.From]
  match d.stateAccountKey tr msg.From with
  | none => (Except.error PushErr.keyAddress, tr1)
  | some fromA =>
    if d.takeLock tr1 fromA = false then
      (Except.error PushErr.takingLock, tr1 ++ [Effect.takeLock fromA false])
    else
      let r := pushLocked d (tr1 ++ [Effect.takeLock fromA true]) msg fromA
      (r.1, r.2 ++ [Effect.releaseLock fromA])

/-! ## Batch methods -/

/-- The loop shared by the three batch methods: `out` is the slice of results built so
far, `single` the call made for one element.  The pair of the result is the returned
slice and the returned error. -/
def batchLoop {α β : Type} (single : List Effect → α → Except PushErr β × List Effect) :
    List Effect → List β → List α → (List β × Option PushErr) × List Effect
  | tr, out, [] => ((out, none), tr)
  | tr, out, x :: rest =>
    match single tr x with
    | (Except.error err, tr1) => ((out, some err), tr1)
    | (Except.ok r, tr1) => batchLoop single tr1 (out ++ [r]) rest

def MpoolBatchPush (d : Deps) (tr : List Effect) (smsgs : List SignedMessage) :
    (List Cid × Option PushErr) × List Effect :=
  batchLoop (MpoolPush d) tr [] smsgs

def MpoolBatchPushUntrusted (d : Deps) (tr : List Effect) (smsgs : List SignedMessage) :
    (List Cid × Option PushErr) × List Effect :=
  batchLoop (MpoolPushUntrusted d) tr [] smsgs

def MpoolBatchPushMessage (d : Deps) (tr : List Effect) (msgs : List UnsignedMessage) :
    (List SignedMessage × Option PushErr) × List Effect :=
  batchLoop (MpoolPushMessage d) tr [] msgs

/-! ## Pending -/

abbrev TipSetKey := List Cid

structure TipSet where
  height : ChainEpoch
  blocks : List Cid
  parents : TipSetKey
  deriving DecidableEq, Repr

/-- The error returns of `MpoolPending`, in source order. -/
inductive PendingErr where
  | loadTipset
  | baseMessages
  | messages
  | parentTipset
  deriving DecidableEq, Repr

/-- What one call of `MpoolPending` reads: `ChainHead`, `ChainGetTipSet`,
`MPool.Pending()`, `MPool.MessagesForBlocks` (on the blocks of a tipset), the method
`Cid()` of a signed message and the method `Equals` of a tipset. -/
structure ChainView where
  chainHead : Option TipSet
  chainGetTipSet : TipSetKey → Option TipSet
  pending : List SignedMessage × TipSet
  messagesForBlocks : List Cid → Option (List SignedMessage)
  cid : SignedMessage → Cid
  equals : TipSet → TipSet → Bool

/-- Body of the loop over `msgs`: `acc.1` is the key set of `haveCids`, `acc.2` is
`pending`. -/
def addMissing (v : ChainView) (acc : List Cid × List SignedMessage) (m : SignedMessage) :
    List Cid × List SignedMessage :=
  if v.cid m ∈ acc.1 then acc else (acc.1 ++ [v.cid m], acc.2 ++ [m])

/-- The statements of the loop body of `MpoolPending` from the second
`MessagesForBlocks` on; `next` is the next iteration of the loop. -/
def collectMessages (v : ChainView) (mpts ts : TipSet) (haveCids : List Cid)
    (pending : List SignedMessage)
    (next : TipSet → List Cid → List SignedMessage →
      Option (Except PendingErr (List SignedMessage))) :
    Option (Except PendingErr (List SignedMessage)) :=
  match v.messagesForBlocks ts.blocks with
  | none => some (Except.error PendingErr.messages)
  | some msgs =>
    let acc := msgs.foldl (addMissing v) (haveCids, pending)
    if mpts.height ≥ ts.height then some (Except.ok acc.2)
    else
      match v.chainGetTipSet ts.parents with
      | none => some (Except.error PendingErr.parentTipset)
      | some parent => next parent acc.1 acc.2

/-- The `for` loop of `MpoolPending`, at most `fuel` iterations. -/
def pendingWalk (v : ChainView) (mpts : TipSet) :
    Nat → TipSet → List Cid → List SignedMessage →
      Option (Except PendingErr (List SignedMessage))
  | 0, _, _, _ => none
  | fuel + 1, ts, haveCids, pending =>
    if mpts.height = ts.height then
      if v.equals mpts ts then some (Except.ok pending)
      else
        match v.messagesForBlocks ts.blocks with
        | none => some (Except.error PendingErr.baseMessages)
        | some known =>
          collectMessages v mpts ts (haveCids ++ known.map v.cid) pending
            (pendingWalk v mpts fuel)
    else collectMessages v mpts ts haveCids pending (pendingWalk v mpts fuel)

/-- The method `MpoolPending`. -/
def MpoolPending (v : ChainView) (fuel : Nat) (tsk : TipSetKey) :
    Option (Except PendingErr (List SignedMessage)) :=
  match (if tsk.isEmpty then v.chainHead else v.chainGetTipSet tsk) with
  | none => some (Except.error PendingErr.loadTipset)
  | some ts =>
    let pending := v.pending.1
    let mpts := v.pending.2
    let haveCids := pending.map v.cid
    if mpts.height > ts.height then some (Except.ok pending)
    else pendingWalk v mpts fuel ts haveCids pending

/-! ## Predicates and fixtures of the statements -/

/-- A gas estimation. -/
def Effect.isGasEstimate : Effect → Bool
  | Effect.gasEstimateMessageGas _ => true
  | _ => false

/-- A read of a wallet balance. -/
def Effect.isBalanceRead : Effect → Bool
  | Effect.walletBalance _ => true
  | _ => false

/-- A read of the next nonce of the pool. -/
def Effect.isNonceRead : Effect → Bool
  | Effect.getNonce _ _ => true
  | _ => false

/-- A signing request to the wallet. -/
def Effect.isSign : Effect → Bool
  | Effect.walletSign _ _ _ => true
  | _ => false

/-- A push to the pool. -/
def Effect.isPush : Effect → Bool
  | Effect.push _ _ => true
  | Effect.pushUntrusted _ _ => true
  | _ => false

/-- The calls made by a successful `MpoolPushMessage` for the caller's message `msg`,
in order: `fromA` is the resolved key address, `smsg` the signed message returned, `mb`
its serialized block and `c` the identifier returned by the pool. -/
def okTrace (msg : UnsignedMessage) (fromA : Address) (smsg : SignedMessage) (mb : Block)
    (c : Cid) : List Effect :=
  [Effect.stateAccountKey msg.From, Effect.takeLock fromA true,
   Effect.gasEstimateMessageGas msg, Effect.walletBalance smsg.Message.From,
   Effect.lockSign, Effect.getNonce smsg.Message.From (some smsg.Message.Nonce),
   Effect.walletSign smsg.Message.From mb.cid
     { msgType := MsgType.MTChainMsg, extra := mb.rawData },
   Effect.push smsg (some c), Effect.unlockSign, Effect.releaseLock fromA]

/-- An accepted push of a message whose sender is `a`. -/
def Effect.acceptedFrom (a : Address) : Effect → Bool
  | Effect.push smsg (some _) => decide (smsg.Message.From = a)
  | Effect.pushUntrusted smsg (some _) => decide (smsg.Message.From = a)
  | _ => false

/-- The number of accepted pushes of messages from `a` recorded in a trace. -/
def acceptedFor (a : Address) (tr : List Effect) : Nat :=
  tr.countP (Effect.acceptedFrom a)

/-- The key address with payload `n`. -/
def keyAddr (n : Nat) : Address := { protocol := Protocol.SECP256K1, payload := n }

/-- The ID address with payload `n`. -/
def idAddr (n : Nat) : Address := { protocol := Protocol.ID, payload := n }

/-- A message sending `value` from `sender` with the given nonce, gas fields unset. -/
def transfer (sender : Address) (nonce : Nat) (value : Int) : UnsignedMessage :=
  { To := keyAddr 1, From := sender, Nonce := nonce, Value := value, GasLimit := 0,
    GasFeeCap := 0, GasPremium := 0, Method := 0, Params := [] }

/-- The collaborators of the scenarios.  The address with payload `n` resolves to the
key address `n`; the push lock is granted; gas estimation sets the gas limit to 1000, the
fee cap to `feeCap` and the premium to `premium`; every balance is `balance`; the next
nonce of a sender is `first` plus the number of its accepted pushes; a message
serializes to the block with identifier and data given by its nonce; the wallet signs;
the pool accepts every push and returns the nonce as identifier. -/
def scenarioDeps (feeCap premium balance : Int) (first : Nat) : Deps :=
  { stateAccountKey := fun _ a => some (keyAddr a.payload)
    takeLock := fun _ _ => true
    gasEstimateMessageGas := fun _ m =>
      some { m with GasLimit := 1000, GasFeeCap := feeCap, GasPremium := premium }
    jsonMarshal := fun _ => true
    walletBalance := fun _ _ => some balance
    getNonce := fun tr a => some (first + acceptedFor a tr)
    toStorageBlock := fun m => some { cid := m.Nonce, rawData := [m.Nonce] }
    walletSign := fun _ _ _ _ => some { data := [1] }
    push := fun _ smsg => some smsg.Message.Nonce
    pushUntrusted := fun _ smsg => some smsg.Message.Nonce }

/-- The signed message returned in the scenarios for a message of value `value` sent
from the address with payload 7 when the next nonce is `nonce`. -/
def signedTransfer (nonce : Nat) (value : Int) : SignedMessage :=
  { Message := { transfer (keyAddr 7) nonce value with
      GasLimit := 1000, GasFeeCap := 10, GasPremium := 5 }
    Signature := { data := [1] } }

/-- The sender of a returned signed message, `none` for an error. -/
def senderOf : Except PushErr SignedMessage → Option Address
  | Except.ok smsg => some smsg.Message.From
  | Except.error _ => none

/-- The nonce of a returned signed message, `none` for an error. -/
def nonceOf : Except PushErr SignedMessage → Option Nat
  | Except.ok smsg => some smsg.Message.Nonce
  | Except.error _ => none

/-- Successive calls of `MpoolPushMessage`, one per message: the results in order and
the trace after the last call. -/
def pushAll (d : Deps) : List Effect → List UnsignedMessage →
    List (Except PushErr SignedMessage) × List Effect
  | tr, [] => ([], tr)
  | tr, msg :: rest =>
    ((MpoolPushMessage d tr msg).1 :: (pushAll d (MpoolPushMessage d tr msg).2 rest).1,
     (pushAll d (MpoolPushMessage d tr msg).2 rest).2)

/-- The elements `xs` are processed in order through `single`, starting from the trace
`tr`; every call succeeds, `ys` are the results in order and `tr'` is the trace after the
last call. -/
def SeqOk {α β : Type} (single : List Effect → α → Except PushErr β × List Effect) :
    List Effect → List α → List β → List Effect → Prop
  | tr, [], [], tr' => tr' = tr
  | tr, x :: xs, y :: ys, tr' =>
    (single tr x).1 = Except.ok y ∧ SeqOk single (single tr x).2 xs ys tr'
  | _, _, _, _ => False

/-- A strict sequential fold with prefix-on-error, in the words of the specification:
`r` is the returned slice, the returned error and the final trace of a batch over `xs`.
Either no element fails, every element was processed in order and the error is nil; or
element `i` is the first to fail, the slice holds the `i` results of the elements before
it, the error is the error of element `i`, and the trace ends with the failing call. -/
def PrefixOnError {α β : Type} (single : List Effect → α → Except PushErr β × List Effect)
    (tr : List Effect) (xs : List α) (r : (List β × Option PushErr) × List Effect) : Prop :=
  (r.1.2 = none ∧ r.1.1.length = xs.length ∧ SeqOk single tr xs r.1.1 r.2) ∨
  ∃ i x err tri, xs[i]? = some x ∧ r.1.2 = some err ∧ r.1.1.length = i ∧
    SeqOk single tr (xs.take i) r.1.1 tri ∧ single tri x = (Except.error err, r.2)

/-- The batch of the scenarios: the second message carries a non-zero nonce. -/
def failingBatch : List UnsignedMessage :=
  [transfer (keyAddr 7) 0 1, transfer (keyAddr 7) 5 2, transfer (keyAddr 7) 0 3]

/-- The tipsets met when walking from `ts` toward its ancestors: the walk goes on to
the parent while the height is strictly above `h`, and meets at most `n` tipsets. -/
def visited (v : ChainView) (h : ChainEpoch) : Nat → TipSet → List TipSet
  | 0, _ => []
  | n + 1, ts =>
    ts :: (if h < ts.height then
        match v.chainGetTipSet ts.parents with
        | some parent => visited v h n parent
        | none => []
      else [])

/-- The signed message of the scenarios with nonce `n`; its identifier is `n`. -/
def signedNote (n : Nat) : SignedMessage :=
  { Message := transfer (keyAddr 7) n 1, Signature := { data := [1] } }

/-- A null round at the height of the pool.  The pool holds message 1 on the tipset of
height 5 with block 50; the tipset asked for has height 6, block 60 and message 6, and
its parent is the tipset of height 4 with block 40 and message 4: on this fork no block
was produced at height 5. -/
def gapView : ChainView :=
  { chainHead := some { height := 5, blocks := [50], parents := [40] }
    chainGetTipSet := fun key =>
      if key = [60] then some { height := 6, blocks := [60], parents := [40] }
      else if key = [50] then some { height := 5, blocks := [50], parents := [40] }
      else if key = [40] then some { height := 4, blocks := [40], parents := [30] }
      else none
    pending := ([signedNote 1], { height := 5, blocks := [50], parents := [40] })
    messagesForBlocks := fun blocks =>
      if blocks = [60] then some [signedNote 6]
      else if blocks = [50] then some [signedNote 3]
      else if blocks = [40] then some [signedNote 4]
      else none
    cid := fun m => m.Message.Nonce
    equals := fun a b => decide (a.blocks = b.blocks) }

/-- A chain without null rounds: the pool holds message 1 on the tipset of height 5
with block 50; the tipsets of heights 6 and 7 have the blocks 60 and 70 and carry the
messages 6 and 7 (the second also message 1). -/
def linearView : ChainView :=
  { chainHead := some { height := 7, blocks := [70], parents := [60] }
    chainGetTipSet := fun key =>
      if key = [70] then some { height := 7, blocks := [70], parents := [60] }
      else if key = [60] then some { height := 6, blocks := [60], parents := [50] }
      else if key = [50] then some { height := 5, blocks := [50], parents := [40] }
      else none
    pending := ([signedNote 1], { height := 5, blocks := [50], parents := [40] })
    messagesForBlocks := fun blocks =>
      if blocks = [70] then some [signedNote 7, signedNote 1]
      else if blocks = [60] then some [signedNote 6]
      else if blocks = [50] then some [signedNote 3]
      else none
    cid := fun m => m.Message.Nonce
    equals := fun a b => decide (a.blocks = b.blocks) }

/-- The identifier of every message of `pending` is in `haveCids`. -/
def Known (v : ChainView) (haveCids : List Cid) (pending : List SignedMessage) : Prop :=
  ∀ m ∈ pending, v.cid m ∈ haveCids

/-- The locks held at a point of a trace of `MpoolPushMessage`: the address whose push
lock was taken with `pushLocks.TakeLock`, whether the sign lock `a.lk` is held, and
whether the push lock was released (or refused) already. -/
structure Held where
  push : Option Address
  sign : Bool
  released : Bool
  deriving DecidableEq, Repr

/-- The lock discipline of `MpoolPushMessage`, one effect at a time; `none` when the
effect breaks it.  The key address is resolved and the push lock taken, once, while no
lock is held; gas estimation and the balance read run under the push lock only; the sign
lock is taken under the push lock; the nonce read, the signing request and the push run
under both locks; the sign lock is released before the push lock. -/
def lockStep (h : Held) : Effect → Option Held
  | Effect.stateAccountKey _ =>
    if h.push = none ∧ h.sign = false ∧ h.released = false then some h else none
  | Effect.takeLock a ok =>
    if h.push = none ∧ h.sign = false ∧ h.released = false then
      some (if ok then { h with push := some a } else { h with released := true })
    else none
  | Effect.releaseLock a =>
    if h.push = some a ∧ h.sign = false then
      some { push := none, sign := false, released := true }
    else none
  | Effect.gasEstimateMessageGas _ =>
    if h.push.isSome ∧ h.sign = false then some h else none
  | Effect.walletBalance _ => if h.push.isSome ∧ h.sign = false then some h else none
  | Effect.lockSign =>
    if h.push.isSome ∧ h.sign = false then some { h with sign := true } else none
  | Effect.unlockSign =>
    if h.push.isSome ∧ h.sign = true then some { h with sign := false } else none
  | Effect.getNonce _ _ => if h.push.isSome ∧ h.sign = true then some h else none
  | Effect.walletSign _ _ _ => if h.push.isSome ∧ h.sign = true then some h else none
  | Effect.push _ _ => if h.push.isSome ∧ h.sign = true then some h else none
  | Effect.pushUntrusted _ _ => none

/-- The locks held after a trace that follows the lock discipline. -/
def lockRun : Held → List Effect → Option Held
  | h, [] => some h
  | h, e :: es => (lockStep h e).bind (fun h1 => lockRun h1 es)

end Mpool

/-!
# Election PoSt challenge count (`internal/pkg/proofs/election_poster.go`)

A `uint64` is a natural number below `2^64 = 18446744073709551616`; the subtraction and
the addition of the source wrap modulo `2^64`, the division is the truncating division.
-/

namespace Proofs

/-- The constant `SectorChallengeRatioDiv`. -/
def SectorChallengeRatioDiv : Nat := 25

/-- The `uint64` subtraction `a - b`. -/
def sub64 (a b : Nat) : Nat :=
  (a % 18446744073709551616 + 18446744073709551616 - b % 18446744073709551616) %
    18446744073709551616

/-- The `uint64` addition `a + b`. -/
def add64 (a b : Nat) : Nat := (a + b) % 18446744073709551616

/-- The method `ElectionPostChallengeCount`. -/
def ElectionPostChallengeCount (sectors faults : Nat) : Nat :=
  if sub64 sectors faults = 0 then 0
  else add64 (sub64 (sub64 sectors faults) 1 / SectorChallengeRatioDiv) 1

end Proofs

namespace Events

/-! ## Maps, folds and the induction principle of the dispatcher -/

theorem GoMap.get_set {K V : Type} [DecidableEq K] (m : GoMap K V) (k k' : K) (v : V) :
    (m.set k v).get k' = if k = k' then some v else m.get k' := by
  induction m with
  | nil => simp [GoMap.set, GoMap.get]
  | cons p m ih =>
    obtain ⟨a, b⟩ := p
    by_cases h : a = k
    · subst h
      by_cases h' : a = k' <;> simp [GoMap.set, GoMap.get, h']
    · by_cases h' : a = k'
      · subst h'
        simp [GoMap.set, GoMap.get, h, Ne.symm h]
      · simp [GoMap.set, GoMap.get, h, h', ih]

theorem GoMap.get_set_self {K V : Type} [DecidableEq K] (m : GoMap K V) (k : K) (v : V) :
    (m.set k v).get k = some v := by
  simp [GoMap.get_set]

theorem GoMap.get_set_ne {K V : Type} [DecidableEq K] (m : GoMap K V) {k k' : K} (v : V)
    (h : k ≠ k') : (m.set k v).get k' = m.get k' := by
  simp [GoMap.get_set, h]

theorem GoMap.get_del {K V : Type} [DecidableEq K] (m : GoMap K V) (k k' : K) :
    (m.del k).get k' = if k = k' then none else m.get k' := by
  induction m with
  | nil => simp [GoMap.del, GoMap.get]
  | cons p m ih =>
    obtain ⟨a, b⟩ := p
    by_cases h : a = k
    · subst h
      by_cases h' : a = k'
      · subst h'
        simpa [GoMap.del, GoMap.get] using ih
      · simp [GoMap.del, GoMap.get, h', ih]
    · by_cases h' : a = k'
      · subst h'
        simp [GoMap.del, GoMap.get, h, Ne.symm h]
      · simp [GoMap.del, GoMap.get, h, h', ih]

theorem foldl_preserves {α σ : Type} (P : σ → Prop) (f : σ → α → σ) (l : List α)
    (h : ∀ x ∈ l, ∀ s, P s → P (f s x)) : ∀ s, P s → P (l.foldl f s) := by
  induction l with
  | nil => intro s hs; simpa using hs
  | cons a l ih =>
    intro s hs
    simp only [List.foldl_cons]
    exact ih (fun x hx => h x (List.mem_cons_of_mem _ hx)) _ (h a (List.mem_cons_self _ _) s hs)

theorem mem_heightRange {lo hi x : Int} (h : x ∈ heightRange lo hi) : lo ≤ x ∧ x ≤ hi := by
  rw [heightRange, List.mem_map] at h
  obtain ⟨i, hi', rfl⟩ := h
  rw [List.mem_range] at hi'
  have : (i : Int) < (hi - lo + 1).toNat := by exact_mod_cast hi'
  have h2 : ((hi - lo + 1).toNat : Int) = max (hi - lo + 1) 0 := Int.toNat_eq_max _
  constructor
  · omega
  · rcases le_total (hi - lo + 1) 0 with h3 | h3
    · rw [max_eq_right h3] at h2; omega
    · rw [max_eq_left h3] at h2; omega

theorem StepInv.fire {P : hcEvents → Prop} (hP : StepInv P) : FireInv P :=
  ⟨hP.log, hP.apply, hP.timeout⟩

theorem FireInv.applyWithConfidence {P : hcEvents → Prop} (hP : FireInv P) (env : Env)
    (ts : TipSet) (height : ChainEpoch) (hh : height ≤ ts.height) (e : hcEvents) (he : P e) :
    P (applyWithConfidence env ts height e) := by
  unfold Events.applyWithConfidence
  split
  · exact he
  · refine foldl_preserves P _ _ (fun origH _ s hs => ?_) e he
    unfold applyGroup
    refine foldl_preserves P _ _ (fun i _ s hs => hP.apply _ _ _ _ _ _ _ hh hs) _ ?_
    split
    · exact hP.log _ _ hs
    · exact hs

theorem FireInv.applyTimeouts {P : hcEvents → Prop} (hP : FireInv P) (env : Env)
    (ts : TipSet) (e : hcEvents) (he : P e) : P (applyTimeouts env ts e) := by
  unfold Events.applyTimeouts
  split
  · exact he
  · exact foldl_preserves P _ _ (fun tid _ s hs => hP.timeout _ _ _ _ hs) e he

theorem FireInv.applyHeights {P : hcEvents → Prop} (hP : FireInv P) (env : Env)
    (ts : TipSet) (e : hcEvents) (he : P e) : P (applyHeights env ts e) := by
  unfold Events.applyHeights
  refine foldl_preserves P _ _ (fun atH hat s hs => ?_) e he
  exact hP.applyTimeouts env ts _ (hP.applyWithConfidence env ts atH (mem_heightRange hat).2 s hs)

theorem StepInv.queueStateChanges {P : hcEvents → Prop} (hP : StepInv P) (env : Env)
    (ts : TipSet) (sc : GoMap triggerID (Option eventData)) (e : hcEvents) (he : P e) :
    P (queueStateChanges env ts sc e) := by
  unfold Events.queueStateChanges
  refine foldl_preserves P _ _ (fun tid _ s hs => ?_) e he
  split
  · exact hs
  · exact hP.queue _ _ _ _ _ hs

theorem StepInv.queueNewCalls {P : hcEvents → Prop} (hP : StepInv P) (env : Env)
    (ts : TipSet) (nc : GoMap triggerID (List eventData)) (e : hcEvents) (he : P e) :
    P (queueNewCalls env ts nc e) := by
  unfold Events.queueNewCalls
  refine foldl_preserves P _ _ (fun tid _ s hs => ?_) e he
  exact foldl_preserves P _ _ (fun d _ s hs => hP.queue _ _ _ _ _ hs) s hs

theorem StepInv.applyTipSet {P : hcEvents → Prop} (hP : StepInv P) (env : Env)
    (ts : TipSet) (e : hcEvents) (he : P e) : P (applyTipSet env ts e).1 := by
  unfold Events.applyTipSet
  have h2 := hP.queueStateChanges env ts (checkStateChanges env e.lastTS ts e).1 _
    (hP.log (checkStateChanges env e.lastTS ts e).2 e he)
  simp only
  split
  · exact hP.log _ _ h2
  · exact hP.last _ _ (hP.fire.applyHeights _ _ _ (hP.queueNewCalls _ _ _ _ (hP.log _ _ h2)))

theorem StepInv.applyTipSets {P : hcEvents → Prop} (hP : StepInv P) (env : Env)
    (app : List TipSet) : ∀ e, P e → P (applyTipSets env app e).1 := by
  induction app with
  | nil => intro e he; exact he
  | cons ts rest ih =>
    intro e he
    have h1 := hP.applyTipSet env ts e he
    unfold Events.applyTipSets
    rcases hres : Events.applyTipSet env ts e with ⟨e1, b⟩
    rw [hres] at h1
    cases b
    · exact ih e1 h1
    · exact h1

theorem StepInv.revertTipSets {P : hcEvents → Prop} (hP : StepInv P)
    (rev : List TipSet) (e : hcEvents) (he : P e) : P (revertTipSets rev e) := by
  unfold Events.revertTipSets
  exact foldl_preserves P _ _ (fun ts _ s hs => hP.last _ _ (hP.revert _ _ hs)) e he

theorem StepInv.processHeadChangeEvent {P : hcEvents → Prop} (hP : StepInv P) (env : Env)
    (rev app : List TipSet) (e : hcEvents) (he : P e) :
    P (processHeadChangeEvent env rev app e).1 :=
  hP.applyTipSets env app _ (hP.revertTipSets rev e he)

/-- Induction principle of the dispatcher: a property preserved by each elementary
state change is preserved by every call of the interface. -/
theorem StepInv.step {P : hcEvents → Prop} (hP : StepInv P) (e : hcEvents) (op : Op)
    (he : P e) : P (step e op) := by
  cases op with
  | register env check hnd rev c t => exact hP.reg _ _ _ _ _ _ _ he
  | stateChanged env check hnd rev c t mf =>
    have h1 := hP.reg env check hnd rev c t e he
    simp only [Events.step, StateChanged]
    rcases hres : onHeadChanged env check hnd rev c t e with ⟨e1, _ | id⟩
    · rw [hres] at h1; exact h1
    · rw [hres] at h1; exact hP.stateMatcher _ _ _ h1
  | called env check hnd rev c t mf =>
    have h1 := hP.reg env check hnd rev c t e he
    simp only [Events.step, Called]
    rcases hres : onHeadChanged env check hnd rev c t e with ⟨e1, _ | id⟩
    · rw [hres] at h1; exact h1
    · rw [hres] at h1; exact hP.msgMatcher _ _ _ h1
  | headChange env rev app => exact hP.processHeadChangeEvent env rev app e he

theorem StepInv.run {P : hcEvents → Prop} (hP : StepInv P) (ops : List Op) (e : hcEvents)
    (he : P e) : P (run e ops) :=
  foldl_preserves P _ _ (fun op _ s hs => hP.step s op hs) e he

/-! ## Effect of the elementary state changes on the tables -/

theorem eventsAt_markCalled (height origH : ChainEpoch) (i : Nat) (e : hcEvents)
    (tH mH : ChainEpoch) :
    eventsAt (markCalled height origH i e) tH mH =
      if tH = height ∧ mH = origH then (eventsAt e tH mH).map (fun evs => setCalled evs i)
      else eventsAt e tH mH := by
  unfold markCalled eventsAt
  cases h1 : e.confQueue.get height with
  | none =>
    by_cases h : tH = height ∧ mH = origH
    · obtain ⟨rfl, rfl⟩ := h
      simp [h1]
    · simp [h]
  | some byOrigH =>
    cases h2 : byOrigH.get origH with
    | none =>
      by_cases h : tH = height ∧ mH = origH
      · obtain ⟨rfl, rfl⟩ := h
        simp [h1, h2]
      · simp [h, h2]
    | some events =>
      by_cases ht : tH = height
      · subst ht
        by_cases hm : mH = origH
        · subst hm
          simp [GoMap.get_set, h1, h2]
        · simp [GoMap.get_set, h1, h2, hm, Ne.symm hm]
      · simp [GoMap.get_set, h2, ht, Ne.symm ht]

theorem callsAt_bumpTimeout (timeout : ChainEpoch) (trigID : triggerID) (e : hcEvents)
    (h : ChainEpoch) (id : triggerID) :
    callsAt (bumpTimeout timeout trigID e) h id =
      if h = timeout ∧ id = trigID ∧ (e.timeouts.get timeout).isSome then
        some ((callsAt e h id).getD 0 + 1)
      else callsAt e h id := by
  unfold bumpTimeout callsAt
  cases h1 : e.timeouts.get timeout with
  | none => simp
  | some touts =>
    by_cases ht : h = timeout
    · subst ht
      by_cases hi : id = trigID
      · subst hi
        simp [GoMap.get_set, h1]
      · simp [GoMap.get_set, h1, hi, Ne.symm hi]
    · simp [GoMap.get_set, ht, Ne.symm ht]

theorem eventsAt_dropReverted (ts : TipSet) (triggerH : ChainEpoch) (e : hcEvents)
    (tH mH : ChainEpoch) :
    eventsAt (dropReverted ts triggerH e) tH mH =
      if tH = triggerH ∧ mH = ts.height then none else eventsAt e tH mH := by
  unfold dropReverted eventsAt
  cases h1 : e.confQueue.get triggerH with
  | none =>
    by_cases h : tH = triggerH ∧ mH = ts.height
    · obtain ⟨rfl, rfl⟩ := h
      simp [h1]
    · simp [h]
  | some m =>
    by_cases ht : tH = triggerH
    · subst ht
      by_cases hm : mH = ts.height
      · subst hm
        simp [GoMap.get_set, GoMap.get_del]
      · simp [GoMap.get_set, GoMap.get_del, h1, hm, Ne.symm hm]
    · simp [GoMap.get_set, ht, Ne.symm ht]

theorem dropReverted_fields (ts : TipSet) (triggerH : ChainEpoch) (e : hcEvents) :
    (dropReverted ts triggerH e).ctr = e.ctr ∧
    (dropReverted ts triggerH e).triggers = e.triggers ∧
    (dropReverted ts triggerH e).revertQueue = e.revertQueue ∧
    (dropReverted ts triggerH e).timeouts = e.timeouts ∧
    (dropReverted ts triggerH e).calls = e.calls := by
  unfold dropReverted
  split <;> simp

theorem markCalled_fields (height origH : ChainEpoch) (i : Nat) (e : hcEvents) :
    (markCalled height origH i e).ctr = e.ctr ∧
    (markCalled height origH i e).triggers = e.triggers ∧
    (markCalled height origH i e).revertQueue = e.revertQueue ∧
    (markCalled height origH i e).timeouts = e.timeouts ∧
    (markCalled height origH i e).calls = e.calls := by
  unfold markCalled
  split
  · simp
  · split <;> simp

theorem bumpTimeout_fields (timeout : ChainEpoch) (trigID : triggerID) (e : hcEvents) :
    (bumpTimeout timeout trigID e).ctr = e.ctr ∧
    (bumpTimeout timeout trigID e).triggers = e.triggers ∧
    (bumpTimeout timeout trigID e).revertQueue = e.revertQueue ∧
    (bumpTimeout timeout trigID e).confQueue = e.confQueue ∧
    (bumpTimeout timeout trigID e).calls = e.calls := by
  unfold bumpTimeout
  split <;> simp

theorem queueForConfidence_fields (trigID : triggerID) (data : Option eventData)
    (prevTS : Option TipSet) (ts : TipSet) (e : hcEvents) :
    (queueForConfidence trigID data prevTS ts e).ctr = e.ctr ∧
    (queueForConfidence trigID data prevTS ts e).triggers = e.triggers ∧
    (queueForConfidence trigID data prevTS ts e).timeouts = e.timeouts ∧
    (queueForConfidence trigID data prevTS ts e).calls = e.calls := by
  unfold queueForConfidence
  split <;> simp [panic]

theorem eventsAt_queueForConfidence (trigID : triggerID) (data : Option eventData)
    (prevTS : Option TipSet) (ts : TipSet) (e : hcEvents) (tH mH : ChainEpoch) :
    eventsAt (queueForConfidence trigID data prevTS ts e) tH mH =
      match e.triggers.get trigID with
      | none => eventsAt e tH mH
      | some trigger =>
        if tH = wrap64 (ts.height + trigger.confidence) ∧ mH = ts.height then
          some ((eventsAt e tH mH).getD [] ++ [newEvent trigID data prevTS ts])
        else eventsAt e tH mH := by
  unfold queueForConfidence eventsAt
  cases h1 : e.triggers.get trigID with
  | none => simp [panic]
  | some trigger =>
    simp only
    by_cases ht : tH = wrap64 (ts.height + trigger.confidence)
    · subst ht
      by_cases hm : mH = ts.height
      · subst hm
        cases h2 : e.confQueue.get (wrap64 (ts.height + trigger.confidence)) <;>
          simp [GoMap.get_set, GoMap.get]
      · cases h2 : e.confQueue.get (wrap64 (ts.height + trigger.confidence)) <;>
          simp [GoMap.get_set, hm, Ne.symm hm, GoMap.get]
    · simp [GoMap.get_set, ht, Ne.symm ht]

theorem revertQueue_queueForConfidence (trigID : triggerID) (data : Option eventData)
    (prevTS : Option TipSet) (ts : TipSet) (e : hcEvents) (mH : ChainEpoch) :
    (queueForConfidence trigID data prevTS ts e).revertQueue.get mH =
      match e.triggers.get trigID with
      | none => e.revertQueue.get mH
      | some trigger =>
        if mH = ts.height then
          some ((e.revertQueue.get mH).getD [] ++ [wrap64 (ts.height + trigger.confidence)])
        else e.revertQueue.get mH := by
  unfold queueForConfidence
  cases h1 : e.triggers.get trigID with
  | none => simp [panic]
  | some trigger =>
    by_cases hm : mH = ts.height
    · subst hm; simp [GoMap.get_set]
    · simp [GoMap.get_set, hm, Ne.symm hm]

theorem addTrigger_triggers (hnd : EventHandler) (rev : RevertHandler) (confidence : Int)
    (timeout : ChainEpoch) (more : Bool) (e : hcEvents) (id : triggerID) :
    (addTrigger hnd rev confidence timeout more e).triggers.get id =
      if id = e.ctr then
        some { confidence := confidence, timeout := wrap64 (timeout + confidence),
               disabled := !more, handle := hnd, revert := rev }
      else e.triggers.get id := by
  unfold addTrigger
  by_cases h : id = e.ctr
  · subst h; split <;> simp [GoMap.get_set]
  · split <;> simp [GoMap.get_set, h, Ne.symm h]

theorem addTrigger_fields (hnd : EventHandler) (rev : RevertHandler) (confidence : Int)
    (timeout : ChainEpoch) (more : Bool) (e : hcEvents) :
    (addTrigger hnd rev confidence timeout more e).ctr = e.ctr + 1 ∧
    (addTrigger hnd rev confidence timeout more e).confQueue = e.confQueue ∧
    (addTrigger hnd rev confidence timeout more e).revertQueue = e.revertQueue ∧
    (addTrigger hnd rev confidence timeout more e).calls = e.calls := by
  unfold addTrigger
  split <;> simp

theorem callsAt_addTrigger (hnd : EventHandler) (rev : RevertHandler) (confidence : Int)
    (timeout : ChainEpoch) (more : Bool) (e : hcEvents) (h : ChainEpoch) (id : triggerID) :
    callsAt (addTrigger hnd rev confidence timeout more e) h id =
      if timeout ≠ NoTimeout ∧ h = wrap64 (timeout + confidence) ∧ id = e.ctr then some 0
      else callsAt e h id := by
  unfold addTrigger callsAt
  by_cases ht : timeout = NoTimeout
  · simp [ht]
  · simp only [ht, ne_eq, not_false_eq_true, if_true, true_and]
    by_cases hh : h = wrap64 (timeout + confidence)
    · subst hh
      by_cases hi : id = e.ctr
      · subst hi; simp [GoMap.get_set]
      · cases h2 : e.timeouts.get (wrap64 (timeout + confidence)) <;>
          simp [GoMap.get_set, hi, Ne.symm hi, GoMap.get]
    · simp [GoMap.get_set, hh, Ne.symm hh]

theorem setDisabled_triggers (id : triggerID) (trigger : handlerInfo) (b : Bool)
    (e : hcEvents) (id' : triggerID) :
    (setDisabled id trigger b e).triggers.get id' =
      if id' = id then some { trigger with disabled := b } else e.triggers.get id' := by
  unfold setDisabled
  by_cases h : id' = id
  · subst h; simp [GoMap.get_set]
  · simp [GoMap.get_set, h, Ne.symm h]

/-! ## The invariant of the dispatcher -/

theorem eventsAt_congr {e e' : hcEvents} (h : e'.confQueue = e.confQueue) :
    eventsAt e' = eventsAt e := by
  funext tH mH; simp [eventsAt, h]

theorem callsAt_congr {e e' : hcEvents} (h : e'.timeouts = e.timeouts) :
    callsAt e' = callsAt e := by
  funext tH mH; simp [callsAt, h]

theorem StateInv.congrS {e e' : hcEvents} (h : StateInv e) (h1 : e'.ctr = e.ctr)
    (h2 : e'.triggers = e.triggers) (h3 : e'.confQueue = e.confQueue)
    (h4 : e'.revertQueue = e.revertQueue) (h5 : e'.timeouts = e.timeouts) : StateInv e' := by
  have ha := eventsAt_congr h3
  have hb := callsAt_congr h5
  constructor
  · rw [h1, h2]; exact h.ids
  · rw [ha, h2]; exact h.queue
  · rw [ha, h4]; exact h.reverts
  · rw [hb, h2]; exact h.touts

theorem LogInv.congrL {e e' : hcEvents} (h : LogInv e)
    (h2 : e'.triggers = e.triggers) (h5 : e'.timeouts = e.timeouts)
    (h6 : e'.calls = e.calls) : LogInv e' := by
  have hb := callsAt_congr h5
  constructor
  · rw [h6, h2]; exact h.applied
  · rw [h6, h2]; exact h.timedOut
  · rw [h6, hb]; exact h.suppressed
  · rw [h6]; exact h.ordered

theorem mem_setCalled {evs : List queuedEvent} {i : Nat} {ev : queuedEvent}
    (h : ev ∈ setCalled evs i) :
    ∃ ev0 ∈ evs, ev.h = ev0.h ∧ ev.trigger = ev0.trigger := by
  unfold setCalled at h
  split at h
  · exact ⟨ev, h, rfl, rfl⟩
  · rename_i event hev
    rcases List.mem_or_eq_of_mem_set h with h1 | h1
    · exact ⟨ev, h1, rfl, rfl⟩
    · exact ⟨event, List.getElem?_mem hev, by rw [h1], by rw [h1]⟩

theorem setCalled_length (evs : List queuedEvent) (i : Nat) :
    (setCalled evs i).length = evs.length := by
  unfold setCalled
  split <;> simp

theorem StateInv.markCalledS {e : hcEvents} (h : StateInv e) (height origH : ChainEpoch)
    (i : Nat) : StateInv (markCalled height origH i e) := by
  obtain ⟨f1, f2, f3, f4, _⟩ := markCalled_fields height origH i e
  constructor
  · rw [f1, f2]; exact h.ids
  · intro tH mH evs ev hev hmem
    rw [eventsAt_markCalled] at hev
    rw [f2]
    split at hev
    · cases h0 : eventsAt e tH mH with
      | none => simp [h0] at hev
      | some evs0 =>
        simp only [h0, Option.map_some', Option.some.injEq] at hev
        subst hev
        obtain ⟨ev0, hm0, hh, ht⟩ := mem_setCalled hmem
        rw [hh, ht]
        exact h.queue tH mH evs0 ev0 h0 hm0
    · exact h.queue tH mH evs ev hev hmem
  · intro tH mH evs hev hne
    rw [eventsAt_markCalled] at hev
    rw [f3]
    split at hev
    · cases h0 : eventsAt e tH mH with
      | none => simp [h0] at hev
      | some evs0 =>
        simp only [h0, Option.map_some', Option.some.injEq] at hev
        subst hev
        refine h.reverts tH mH evs0 h0 ?_
        intro hnil
        apply hne
        apply List.eq_nil_of_length_eq_zero
        rw [setCalled_length, hnil]; rfl
    · exact h.reverts tH mH evs hev hne
  · rw [callsAt_congr f4, f2]; exact h.touts

theorem StateInv.bumpTimeoutS {e : hcEvents} (h : StateInv e) (trigID : triggerID)
    (trigger : handlerInfo) (ht : e.triggers.get trigID = some trigger) :
    StateInv (bumpTimeout trigger.timeout trigID e) := by
  obtain ⟨f1, f2, f3, f4, _⟩ := bumpTimeout_fields trigger.timeout trigID e
  constructor
  · rw [f1, f2]; exact h.ids
  · rw [eventsAt_congr f4, f2]; exact h.queue
  · rw [eventsAt_congr f4, f3]; exact h.reverts
  · intro H tid n hn
    rw [callsAt_bumpTimeout] at hn
    rw [f2]
    split at hn
    · rename_i hc
      obtain ⟨rfl, rfl, _⟩ := hc
      exact ⟨trigger, ht, rfl⟩
    · exact h.touts H tid n hn

theorem StateInv.setDisabledS {e : hcEvents} (h : StateInv e) (trigID : triggerID)
    (trigger : handlerInfo) (b : Bool) (ht : e.triggers.get trigID = some trigger) :
    StateInv (setDisabled trigID trigger b e) := by
  have key : ∀ id hi, e.triggers.get id = some hi →
      ∃ hi', (Events.setDisabled trigID trigger b e).triggers.get id = some hi' ∧
        hi'.confidence = hi.confidence ∧ hi'.timeout = hi.timeout := by
    intro id hi hid
    rw [setDisabled_triggers]
    by_cases hc : id = trigID
    · subst hc
      rw [ht] at hid
      cases hid
      simp
    · simp [hc, hid]
  constructor
  · intro id hi hid
    rw [setDisabled_triggers] at hid
    by_cases hc : id = trigID
    · subst hc; exact h.ids id trigger ht
    · simp only [hc, if_false] at hid; exact h.ids id hi hid
  · intro tH mH evs ev hev hmem
    obtain ⟨hh, hi, hget, htH⟩ := h.queue tH mH evs ev hev hmem
    obtain ⟨hi', hget', hc, _⟩ := key _ _ hget
    exact ⟨hh, hi', hget', by rw [hc]; exact htH⟩
  · exact h.reverts
  · intro H tid n hn
    obtain ⟨hi, hget, htm⟩ := h.touts H tid n hn
    obtain ⟨hi', hget', _, hc⟩ := key _ _ hget
    exact ⟨hi', hget', by rw [hc]; exact htm⟩

theorem StateInv.dropRevertedS {e : hcEvents} (h : StateInv e) (ts : TipSet)
    (triggerH : ChainEpoch) : StateInv (dropReverted ts triggerH e) := by
  obtain ⟨f1, f2, f3, f4, _⟩ := dropReverted_fields ts triggerH e
  constructor
  · rw [f1, f2]; exact h.ids
  · intro tH mH evs ev hev hmem
    rw [eventsAt_dropReverted] at hev
    rw [f2]
    split at hev
    · cases hev
    · exact h.queue tH mH evs ev hev hmem
  · intro tH mH evs hev hne
    rw [eventsAt_dropReverted] at hev
    rw [f3]
    split at hev
    · cases hev
    · exact h.reverts tH mH evs hev hne
  · rw [callsAt_congr f4, f2]; exact h.touts

theorem StateInv.queueForConfidenceS {e : hcEvents} (h : StateInv e) (trigID : triggerID)
    (data : Option eventData) (prevTS : Option TipSet) (ts : TipSet) :
    StateInv (queueForConfidence trigID data prevTS ts e) := by
  obtain ⟨f1, f2, f4, _⟩ := queueForConfidence_fields trigID data prevTS ts e
  constructor
  · rw [f1, f2]; exact h.ids
  · intro tH mH evs ev hev hmem
    rw [eventsAt_queueForConfidence] at hev
    rw [f2]
    cases hT : e.triggers.get trigID with
    | none =>
      simp only [hT] at hev
      exact h.queue tH mH evs ev hev hmem
    | some trigger =>
      simp only [hT] at hev
      split at hev
      · rename_i hc
        obtain ⟨rfl, rfl⟩ := hc
        cases hev
        rcases List.mem_append.1 hmem with h1 | h1
        · cases h0 : eventsAt e (wrap64 (ts.height + trigger.confidence)) ts.height with
          | none => simp [h0] at h1
          | some evs0 =>
            simp only [h0, Option.getD_some] at h1
            exact h.queue _ _ evs0 ev h0 h1
        · simp only [List.mem_singleton] at h1
          subst h1
          exact ⟨rfl, trigger, hT, rfl⟩
      · exact h.queue tH mH evs ev hev hmem
  · intro tH mH evs hev hne
    rw [eventsAt_queueForConfidence] at hev
    rw [revertQueue_queueForConfidence]
    cases hT : e.triggers.get trigID with
    | none =>
      simp only [hT] at hev ⊢
      exact h.reverts tH mH evs hev hne
    | some trigger =>
      simp only [hT] at hev ⊢
      split at hev
      · rename_i hc
        obtain ⟨rfl, rfl⟩ := hc
        simp
      · by_cases hm : mH = ts.height
        · subst hm
          obtain ⟨l, hl, hmem⟩ := h.reverts tH _ evs hev hne
          simp [hl, hmem]
        · simp only [hm, if_false]
          exact h.reverts tH mH evs hev hne
  · rw [callsAt_congr f4, f2]; exact h.touts

theorem StateInv.addTriggerS {e : hcEvents} (h : StateInv e) (hnd : EventHandler)
    (rev : RevertHandler) (confidence : Int) (timeout : ChainEpoch) (more : Bool) :
    StateInv (addTrigger hnd rev confidence timeout more e) := by
  obtain ⟨f1, f2, f3, _⟩ := addTrigger_fields hnd rev confidence timeout more e
  have key : ∀ id hi, e.triggers.get id = some hi →
      (Events.addTrigger hnd rev confidence timeout more e).triggers.get id = some hi := by
    intro id hi hid
    rw [addTrigger_triggers]
    have hne : id ≠ e.ctr := Nat.ne_of_lt (h.ids id hi hid)
    simp [hne, hid]
  constructor
  · intro id hi hid
    rw [addTrigger_triggers] at hid
    rw [f1]
    by_cases hc : id = e.ctr
    · rw [hc]; exact Nat.lt_succ_self _
    · simp only [hc, if_false] at hid
      exact Nat.lt_succ_of_lt (h.ids id hi hid)
  · intro tH mH evs ev hev hmem
    rw [eventsAt_congr f2] at hev
    obtain ⟨hh, hi, hget, htH⟩ := h.queue tH mH evs ev hev hmem
    exact ⟨hh, hi, key _ _ hget, htH⟩
  · rw [eventsAt_congr f2, f3]; exact h.reverts
  · intro H tid n hn
    rw [callsAt_addTrigger] at hn
    split at hn
    · rename_i hc
      obtain ⟨_, rfl, rfl⟩ := hc
      rw [addTrigger_triggers]
      simp
    · obtain ⟨hi, hget, htm⟩ := h.touts H tid n hn
      exact ⟨hi, key _ _ hget, htm⟩

theorem LogInv.recordCall {e : hcEvents} (h : LogInv e) (c : Call)
    (happ : ∀ hd ev p t curH res, c = Call.apply hd ev p t curH res →
      (∃ hi, e.triggers.get ev.trigger = some hi ∧ curH = wrap64 (ev.h + hi.confidence) ∧
        curH ≤ hd.height) ∧ (res.err = false → ∀ H, callsAt e H ev.trigger ≠ some 0))
    (hto : ∀ hd tid t curH res, c = Call.timeout hd tid t curH res →
      (∃ hi, e.triggers.get tid = some hi) ∧ ∃ H, callsAt e H tid = some 0) :
    LogInv (recordCall c e) := by
  have hc : (Events.recordCall c e).calls = e.calls ++ [c] := rfl
  have ht : (Events.recordCall c e).triggers = e.triggers := rfl
  have hto' : callsAt (Events.recordCall c e) = callsAt e := callsAt_congr rfl
  constructor
  · intro hd ev p t curH res hmem
    rw [hc, List.mem_append, List.mem_singleton] at hmem
    rw [ht]
    rcases hmem with hmem | hmem
    · exact h.applied _ _ _ _ _ _ hmem
    · exact (happ _ _ _ _ _ _ hmem.symm).1
  · intro hd tid t curH res hmem
    rw [hc, List.mem_append, List.mem_singleton] at hmem
    rw [ht]
    rcases hmem with hmem | hmem
    · exact h.timedOut _ _ _ _ _ hmem
    · exact (hto _ _ _ _ _ hmem.symm).1
  · intro hd ev p t curH res hmem herr
    rw [hc, List.mem_append, List.mem_singleton] at hmem
    rw [hto']
    rcases hmem with hmem | hmem
    · exact h.suppressed _ _ _ _ _ _ hmem herr
    · exact (happ _ _ _ _ _ _ hmem.symm).2 herr
  · intro l1 l2 hd ev p t curH res heq herr hd' t' curH' res' hmem
    rw [hc] at heq
    rcases List.eq_nil_or_concat l2 with hl2 | ⟨l2', x, hl2⟩
    · subst hl2; cases hmem
    · subst hl2
      have heq' : e.calls ++ [c] = (l1 ++ Call.apply hd ev p t curH res :: l2') ++ [x] := by
        rw [heq]; simp
      obtain ⟨h1, h2⟩ := List.append_inj' heq' rfl
      rw [List.concat_eq_append, List.mem_append, List.mem_singleton] at hmem
      rcases hmem with hmem | hmem
      · exact h.ordered _ _ _ _ _ _ _ _ h1 herr _ _ _ _ hmem
      · have hx : c = Call.timeout hd' ev.trigger t' curH' res' := by
          rw [hmem]; simpa using h2
        obtain ⟨_, H, hH⟩ := hto _ _ _ _ _ hx
        have hin : Call.apply hd ev p t curH res ∈ e.calls := by
          rw [h1]; simp
        exact h.suppressed _ _ _ _ _ _ hin herr H hH

theorem LogInv.bumpTimeoutL {e : hcEvents} (h : LogInv e) (timeout : ChainEpoch)
    (trigID : triggerID) : LogInv (bumpTimeout timeout trigID e) := by
  obtain ⟨_, f2, _, _, f5⟩ := bumpTimeout_fields timeout trigID e
  constructor
  · rw [f5, f2]; exact h.applied
  · rw [f5, f2]; exact h.timedOut
  · intro hd ev p t curH res hmem herr H
    rw [f5] at hmem
    rw [callsAt_bumpTimeout]
    split
    · simp
    · exact h.suppressed _ _ _ _ _ _ hmem herr H
  · rw [f5]; exact h.ordered

theorem LogInv.setDisabledL {e : hcEvents} (h : LogInv e) (trigID : triggerID)
    (trigger : handlerInfo) (b : Bool) (ht : e.triggers.get trigID = some trigger) :
    LogInv (setDisabled trigID trigger b e) := by
  have key : ∀ id hi, e.triggers.get id = some hi →
      ∃ hi', (Events.setDisabled trigID trigger b e).triggers.get id = some hi' ∧
        hi'.confidence = hi.confidence ∧ hi'.timeout = hi.timeout := by
    intro id hi hid
    rw [setDisabled_triggers]
    by_cases hc : id = trigID
    · subst hc
      rw [ht] at hid
      cases hid
      simp
    · simp [hc, hid]
  have hc : (Events.setDisabled trigID trigger b e).calls = e.calls := rfl
  have hto : callsAt (Events.setDisabled trigID trigger b e) = callsAt e := callsAt_congr rfl
  constructor
  · intro hd ev p t curH res hmem
    rw [hc] at hmem
    obtain ⟨hi, hget, h1, h2⟩ := h.applied _ _ _ _ _ _ hmem
    obtain ⟨hi', hget', hcf, _⟩ := key _ _ hget
    exact ⟨hi', hget', by rw [hcf]; exact h1, h2⟩
  · intro hd tid t curH res hmem
    rw [hc] at hmem
    obtain ⟨hi, hget⟩ := h.timedOut _ _ _ _ _ hmem
    obtain ⟨hi', hget', _, _⟩ := key _ _ hget
    exact ⟨hi', hget'⟩
  · rw [hc, hto]; exact h.suppressed
  · rw [hc]; exact h.ordered

theorem LogInv.addTriggerL {e : hcEvents} (h : LogInv e) (hs : StateInv e) (hnd : EventHandler)
    (rev : RevertHandler) (confidence : Int) (timeout : ChainEpoch) (more : Bool) :
    LogInv (addTrigger hnd rev confidence timeout more e) := by
  obtain ⟨_, _, _, f4⟩ := addTrigger_fields hnd rev confidence timeout more e
  have key : ∀ id hi, e.triggers.get id = some hi →
      (Events.addTrigger hnd rev confidence timeout more e).triggers.get id = some hi := by
    intro id hi hid
    rw [addTrigger_triggers]
    have hne : id ≠ e.ctr := Nat.ne_of_lt (hs.ids id hi hid)
    simp [hne, hid]
  constructor
  · intro hd ev p t curH res hmem
    rw [f4] at hmem
    obtain ⟨hi, hget, h1, h2⟩ := h.applied _ _ _ _ _ _ hmem
    exact ⟨hi, key _ _ hget, h1, h2⟩
  · intro hd tid t curH res hmem
    rw [f4] at hmem
    obtain ⟨hi, hget⟩ := h.timedOut _ _ _ _ _ hmem
    exact ⟨hi, key _ _ hget⟩
  · intro hd ev p t curH res hmem herr H
    rw [f4] at hmem
    rw [callsAt_addTrigger]
    obtain ⟨hi, hget, _, _⟩ := h.applied _ _ _ _ _ _ hmem
    have hne : ev.trigger ≠ e.ctr := Nat.ne_of_lt (hs.ids _ hi hget)
    simp only [hne, and_false, if_false]
    exact h.suppressed _ _ _ _ _ _ hmem herr H
  · rw [f4]; exact h.ordered

theorem Inv.congrInv {e e' : hcEvents} (h : Inv e) (h1 : e'.ctr = e.ctr)
    (h2 : e'.triggers = e.triggers) (h3 : e'.confQueue = e.confQueue)
    (h4 : e'.revertQueue = e.revertQueue) (h5 : e'.timeouts = e.timeouts)
    (h6 : e'.calls = e.calls) : Inv e' :=
  ⟨h.1.congrS h1 h2 h3 h4 h5, h.2.congrL h2 h5 h6⟩

theorem Inv.logErrors {e : hcEvents} (h : Inv e) (l : List LogMsg) : Inv (logErrors l e) :=
  h.congrInv rfl rfl rfl rfl rfl rfl

theorem Inv.panic {e : hcEvents} (h : Inv e) : Inv (panic e) :=
  h.congrInv rfl rfl rfl rfl rfl rfl

theorem Inv.setLastTS {e : hcEvents} (h : Inv e) (ts : TipSet) : Inv (setLastTS ts e) :=
  h.congrInv rfl rfl rfl rfl rfl rfl

theorem Inv.revertEvent {e : hcEvents} (h : Inv e) (ts : TipSet) (triggerH : ChainEpoch)
    (event : queuedEvent) : Inv (revertEvent ts triggerH event e) := by
  unfold Events.revertEvent
  split
  · exact h
  · split
    · exact h.panic
    · have h1 : Inv (recordCall
          (Call.revert triggerH event ts (‹handlerInfo›.revert e.calls ts)) e) :=
        ⟨h.1.congrS rfl rfl rfl rfl rfl,
          h.2.recordCall _ (fun _ _ _ _ _ _ hc => by cases hc) (fun _ _ _ _ _ hc => by cases hc)⟩
      simp only
      split
      · exact h1.logErrors _
      · exact h1

theorem Inv.dropReverted {e : hcEvents} (h : Inv e) (ts : TipSet) (triggerH : ChainEpoch) :
    Inv (dropReverted ts triggerH e) := by
  obtain ⟨_, f2, _, f4, f5⟩ := dropReverted_fields ts triggerH e
  exact ⟨h.1.dropRevertedS ts triggerH, h.2.congrL f2 f4 f5⟩

theorem Inv.revertTrigger {e : hcEvents} (h : Inv e) (ts : TipSet) (triggerH : ChainEpoch) :
    Inv (revertTrigger ts triggerH e) := by
  unfold Events.revertTrigger
  exact Inv.dropReverted
    (foldl_preserves Inv _ _ (fun ev _ s hs => hs.revertEvent ts triggerH ev) e h) ts triggerH

theorem revertEvent_same (ts : TipSet) (triggerH : ChainEpoch) (event : queuedEvent)
    (e : hcEvents) : SameTables e (revertEvent ts triggerH event e) := by
  unfold revertEvent SameTables
  split
  · simp
  · split
    · simp [panic]
    · simp only
      split <;> simp [logErrors, recordCall]

theorem revertEvents_same (ts : TipSet) (triggerH : ChainEpoch) (evs : List queuedEvent)
    (e : hcEvents) :
    SameTables e (evs.foldl (fun e event => revertEvent ts triggerH event e) e) := by
  refine foldl_preserves (SameTables e) _ _ (fun ev _ s hs => ?_) e ⟨rfl, rfl, rfl, rfl, rfl⟩
  obtain ⟨a1, a2, a3, a4, a5⟩ := hs
  obtain ⟨b1, b2, b3, b4, b5⟩ := revertEvent_same ts triggerH ev s
  exact ⟨b1.trans a1, b2.trans a2, b3.trans a3, b4.trans a4, b5.trans a5⟩

theorem eventsAt_revertTrigger (ts : TipSet) (triggerH : ChainEpoch) (e : hcEvents)
    (tH mH : ChainEpoch) :
    eventsAt (revertTrigger ts triggerH e) tH mH =
      if tH = triggerH ∧ mH = ts.height then none else eventsAt e tH mH := by
  unfold revertTrigger
  rw [eventsAt_dropReverted]
  obtain ⟨_, _, a3, _, _⟩ := revertEvents_same ts triggerH
    ((eventsAt e triggerH ts.height).getD []) e
  rw [eventsAt_congr a3]

theorem revertTrigger_revertQueue (ts : TipSet) (triggerH : ChainEpoch) (e : hcEvents) :
    (revertTrigger ts triggerH e).revertQueue = e.revertQueue := by
  unfold revertTrigger
  obtain ⟨_, _, _, a4, _⟩ := revertEvents_same ts triggerH
    ((eventsAt e triggerH ts.height).getD []) e
  rw [(dropReverted_fields ts triggerH _).2.2.1, a4]

theorem eventsAt_revertTriggers (ts : TipSet) (reverts : List ChainEpoch) :
    ∀ (e : hcEvents) (tH mH : ChainEpoch),
      eventsAt (reverts.foldl (fun e triggerH => revertTrigger ts triggerH e) e) tH mH =
        if mH = ts.height ∧ tH ∈ reverts then none else eventsAt e tH mH := by
  induction reverts with
  | nil => intro e tH mH; simp
  | cons a l ih =>
    intro e tH mH
    rw [List.foldl_cons, ih, eventsAt_revertTrigger]
    by_cases hm : mH = ts.height
    · by_cases ha : tH = a
      · simp [hm, ha]
      · by_cases hl : tH ∈ l <;> simp [hm, ha, hl]
    · simp [hm]

theorem revertTriggers_revertQueue (ts : TipSet) (reverts : List ChainEpoch) :
    ∀ (e : hcEvents),
      (reverts.foldl (fun e triggerH => revertTrigger ts triggerH e) e).revertQueue =
        e.revertQueue := by
  induction reverts with
  | nil => intro e; rfl
  | cons a l ih => intro e; rw [List.foldl_cons, ih, revertTrigger_revertQueue]

theorem Inv.handleReverts {e : hcEvents} (h : Inv e) (ts : TipSet) :
    Inv (handleReverts ts e) := by
  unfold Events.handleReverts
  split
  · exact h
  · rename_i reverts hrev
    have hF : Inv (reverts.foldl (fun e triggerH => Events.revertTrigger ts triggerH e) e) :=
      foldl_preserves Inv _ _ (fun tH _ s hs => hs.revertTrigger ts tH) e h
    have hq := revertTriggers_revertQueue ts reverts e
    have hev := eventsAt_revertTriggers ts reverts e
    generalize reverts.foldl (fun e triggerH => Events.revertTrigger ts triggerH e) e = F at hF hq hev
    refine ⟨⟨hF.1.ids, hF.1.queue, ?_, hF.1.touts⟩, hF.2.congrL rfl rfl rfl⟩
    intro tH mH evs hevs hne
    have hevs' : eventsAt F tH mH = some evs := hevs
    obtain ⟨l, hl, hmem⟩ := hF.1.reverts tH mH evs hevs' hne
    have hm : mH ≠ ts.height := by
      intro hm
      subst hm
      rw [hq, hrev] at hl
      cases hl
      rw [hev] at hevs'
      simp [hmem] at hevs'
    refine ⟨l, ?_, hmem⟩
    show (F.revertQueue.del ts.height).get mH = some l
    rw [GoMap.get_del]
    simp [Ne.symm hm, hl]

theorem Inv.queueForConfidence {e : hcEvents} (h : Inv e) (trigID : triggerID)
    (data : Option eventData) (prevTS : Option TipSet) (ts : TipSet) :
    Inv (queueForConfidence trigID data prevTS ts e) := by
  obtain ⟨_, f2, f4, f5⟩ := queueForConfidence_fields trigID data prevTS ts e
  exact ⟨h.1.queueForConfidenceS trigID data prevTS ts, h.2.congrL f2 f4 f5⟩

theorem markCalled_recordCall (height origH : ChainEpoch) (i : Nat) (c : Call) (e : hcEvents) :
    markCalled height origH i (recordCall c e) = recordCall c (markCalled height origH i e) := by
  unfold markCalled recordCall
  simp only
  split
  · rfl
  · split <;> rfl

theorem bumpTimeout_recordCall (timeout : ChainEpoch) (trigID : triggerID) (c : Call)
    (e : hcEvents) :
    bumpTimeout timeout trigID (recordCall c e) = recordCall c (bumpTimeout timeout trigID e) := by
  unfold bumpTimeout recordCall
  simp only
  split <;> rfl

theorem eventsAt_bind_eq_some {e : hcEvents} {tH mH : ChainEpoch} {i : Nat}
    {event : queuedEvent}
    (h : (eventsAt e tH mH).bind (fun evs => evs[i]?) = some event) :
    ∃ evs, eventsAt e tH mH = some evs ∧ evs[i]? = some event := by
  cases h0 : eventsAt e tH mH with
  | none => simp [h0] at h
  | some evs => exact ⟨evs, rfl, by simpa [h0] using h⟩

/-- The outcomes of the body of the event loop of `applyWithConfidence`. -/
theorem applyEvent_cases (env : Env) (head : TipSet) (height origH : ChainEpoch)
    (tTS : Option TipSet) (i : Nat) (e : hcEvents) :
    applyEvent env head height origH tTS i e = e ∨
    applyEvent env head height origH tTS i e = panic e ∨
    (∃ l, applyEvent env head height origH tTS i e = logErrors l e) ∨
    ∃ evs event trigger prevTS,
      eventsAt e height origH = some evs ∧ evs[i]? = some event ∧ event.called = false ∧
      e.triggers.get event.trigger = some trigger ∧ trigger.disabled = false ∧
      (((trigger.handle e.calls event.data prevTS tTS height).err = true ∧
        applyEvent env head height origH tTS i e =
          logErrors [LogMsg.triggerFailed origH height]
            (recordCall (Call.apply head event prevTS tTS height
              (trigger.handle e.calls event.data prevTS tTS height)) e)) ∨
       ((trigger.handle e.calls event.data prevTS tTS height).err = false ∧
        applyEvent env head height origH tTS i e =
          setDisabled event.trigger trigger
            (!(trigger.handle e.calls event.data prevTS tTS height).more)
            (bumpTimeout trigger.timeout event.trigger
              (markCalled height origH i
                (recordCall (Call.apply head event prevTS tTS height
                  (trigger.handle e.calls event.data prevTS tTS height)) e))))) := by
  cases hev : (eventsAt e height origH).bind (fun evs => evs[i]?) with
  | none => left; simp [applyEvent, hev]
  | some event =>
    obtain ⟨evs, hevs, hi⟩ := eventsAt_bind_eq_some hev
    cases hcalled : event.called with
    | true => left; simp [applyEvent, hev, hcalled]
    | false =>
      cases htrig : e.triggers.get event.trigger with
      | none => right; left; simp [applyEvent, hev, hcalled, htrig]
      | some trigger =>
        cases hdis : trigger.disabled with
        | true => left; simp [applyEvent, hev, hcalled, htrig, hdis]
        | false =>
          by_cases hp : event.prevH = NoHeight
          · right; right; right
            refine ⟨evs, event, trigger, none, hevs, hi, hcalled, htrig, hdis, ?_⟩
            cases herr : (trigger.handle e.calls event.data none tTS height).err with
            | true => left; simp [applyEvent, hev, hcalled, htrig, hdis, hp, herr]
            | false => right; simp [applyEvent, hev, hcalled, htrig, hdis, hp, herr]
          · cases hg : env.tscGet event.prevH with
            | none =>
              right; right; left
              exact ⟨[LogMsg.applyNoPrevTipset event.prevH height],
                by simp [applyEvent, hev, hcalled, htrig, hdis, hp, hg]⟩
            | some p =>
              right; right; right
              refine ⟨evs, event, trigger, some p, hevs, hi, hcalled, htrig, hdis, ?_⟩
              cases herr : (trigger.handle e.calls event.data (some p) tTS height).err with
              | true => left; simp [applyEvent, hev, hcalled, htrig, hdis, hp, hg, herr]
              | false => right; simp [applyEvent, hev, hcalled, htrig, hdis, hp, hg, herr]

theorem logErrors_nil (e : hcEvents) : logErrors [] e = e := by
  cases e; simp [logErrors]

/-- The outcomes of the body of the loop of `applyTimeouts`. -/
theorem applyTimeout_cases (env : Env) (ts : TipSet) (trigID : triggerID) (e : hcEvents) :
    applyTimeout env ts trigID e = e ∨
    applyTimeout env ts trigID e = panic e ∨
    ∃ trigger l,
      callsAt e ts.height trigID = some 0 ∧
      e.triggers.get trigID = some trigger ∧ trigger.disabled = false ∧
      (((trigger.handle e.calls none none
          (env.tscGet (wrap64 (ts.height - trigger.confidence))) ts.height).err = true ∧
        applyTimeout env ts trigID e =
          logErrors [LogMsg.timeoutFailed ts.height]
            (recordCall (Call.timeout ts trigID
              (env.tscGet (wrap64 (ts.height - trigger.confidence))) ts.height
              (trigger.handle e.calls none none
                (env.tscGet (wrap64 (ts.height - trigger.confidence))) ts.height))
              (logErrors l e))) ∨
       ((trigger.handle e.calls none none
          (env.tscGet (wrap64 (ts.height - trigger.confidence))) ts.height).err = false ∧
        applyTimeout env ts trigID e =
          setDisabled trigID trigger
            (!(trigger.handle e.calls none none
              (env.tscGet (wrap64 (ts.height - trigger.confidence))) ts.height).more)
            (recordCall (Call.timeout ts trigID
              (env.tscGet (wrap64 (ts.height - trigger.confidence))) ts.height
              (trigger.handle e.calls none none
                (env.tscGet (wrap64 (ts.height - trigger.confidence))) ts.height))
              (logErrors l e)))) := by
  cases hc : callsAt e ts.height trigID with
  | none => left; simp [applyTimeout, hc]
  | some calls =>
    by_cases hpos : calls > 0
    · left; simp [applyTimeout, hc, hpos]
    · have hz : calls = 0 := by omega
      subst hz
      cases htrig : e.triggers.get trigID with
      | none => right; left; simp [applyTimeout, hc, htrig]
      | some trigger =>
        cases hdis : trigger.disabled with
        | true => left; simp [applyTimeout, hc, htrig, hdis]
        | false =>
          right; right
          cases hg : env.tscGet (wrap64 (ts.height - trigger.confidence)) with
          | none =>
            refine ⟨trigger, [LogMsg.timeoutNoTipset (wrap64 (ts.height - trigger.confidence))
              ts.height], rfl, rfl, hdis, ?_⟩
            have hcalls : (logErrors [LogMsg.timeoutNoTipset
                (wrap64 (ts.height - trigger.confidence)) ts.height] e).calls = e.calls := rfl
            cases herr : (trigger.handle e.calls none none none ts.height).err with
            | true => left; simp [applyTimeout, hc, htrig, hdis, hg, herr, hcalls]
            | false => right; simp [applyTimeout, hc, htrig, hdis, hg, herr, hcalls]
          | some p =>
            refine ⟨trigger, [], rfl, rfl, hdis, ?_⟩
            rw [logErrors_nil]
            cases herr : (trigger.handle e.calls none none (some p) ts.height).err with
            | true => left; simp [applyTimeout, hc, htrig, hdis, hg, herr]
            | false => right; simp [applyTimeout, hc, htrig, hdis, hg, herr]

theorem Inv.applyEvent {e : hcEvents} (h : Inv e) (env : Env) (head : TipSet)
    (height origH : ChainEpoch) (tTS : Option TipSet) (i : Nat) (hh : height ≤ head.height) :
    Inv (applyEvent env head height origH tTS i e) := by
  rcases applyEvent_cases env head height origH tTS i e with
    h0 | h0 | ⟨l, h0⟩ | ⟨evs, event, trigger, prevTS, hevs, hi, _, htrig, _, h0⟩
  · rw [h0]; exact h
  · rw [h0]; exact h.panic
  · rw [h0]; exact h.logErrors l
  · obtain ⟨hh0, hi0, hget0, htH⟩ := h.1.queue _ _ evs event hevs (List.getElem?_mem hi)
    rw [htrig] at hget0
    cases hget0
    have hfact : ∃ hi, e.triggers.get event.trigger = some hi ∧
        height = wrap64 (event.h + hi.confidence) ∧ height ≤ head.height :=
      ⟨trigger, htrig, by rw [hh0]; exact htH, hh⟩
    rcases h0 with ⟨herr, h0⟩ | ⟨herr, h0⟩
    · rw [h0]
      have hrc : Inv (recordCall (Call.apply head event prevTS tTS height
          (trigger.handle e.calls event.data prevTS tTS height)) e) := by
        refine ⟨h.1.congrS rfl rfl rfl rfl rfl, h.2.recordCall _ ?_ ?_⟩
        · intro hd ev p t curH res hc
          cases hc
          refine ⟨hfact, fun hf => ?_⟩
          rw [hf] at herr
          cases herr
        · intro _ _ _ _ _ hc
          cases hc
      exact hrc.logErrors _
    · rw [h0, markCalled_recordCall, bumpTimeout_recordCall]
      have hm : Inv (markCalled height origH i e) := by
        obtain ⟨_, f2, _, f4, f5⟩ := markCalled_fields height origH i e
        exact ⟨h.1.markCalledS height origH i, h.2.congrL f2 f4 f5⟩
      have htm : (markCalled height origH i e).triggers.get event.trigger =
          some trigger := by
        rw [(markCalled_fields height origH i e).2.1]; exact htrig
      have hb : Inv (bumpTimeout trigger.timeout event.trigger
          (markCalled height origH i e)) :=
        ⟨hm.1.bumpTimeoutS _ _ htm, hm.2.bumpTimeoutL _ _⟩
      have htb : (bumpTimeout trigger.timeout event.trigger
          (markCalled height origH i e)).triggers.get event.trigger = some trigger := by
        rw [(bumpTimeout_fields _ _ _).2.1]; exact htm
      generalize markCalled height origH i e = em at hm htm hb htb
      have hr : Inv (recordCall
          (Call.apply head event prevTS tTS height
            (trigger.handle e.calls event.data prevTS tTS height))
          (bumpTimeout trigger.timeout event.trigger em)) := by
        refine ⟨hb.1.congrS rfl rfl rfl rfl rfl, hb.2.recordCall _ ?_ ?_⟩
        · intro hd ev p t curH res hc
          cases hc
          refine ⟨⟨trigger, htb, by rw [hh0]; exact htH, hh⟩, fun _ H hH => ?_⟩
          obtain ⟨hi', hget', htm'⟩ := hb.1.touts H _ _ hH
          rw [htb] at hget'
          cases hget'
          subst htm'
          rw [callsAt_bumpTimeout] at hH
          split at hH
          · simp at hH
          · rename_i hc
            simp only [true_and] at hc
            unfold callsAt at hH
            cases h0 : em.timeouts.get trigger.timeout with
            | none => simp [h0] at hH
            | some m => simp [h0] at hc
        · intro _ _ _ _ _ hc
          cases hc
      exact ⟨hr.1.setDisabledS _ _ _ htb, hr.2.setDisabledL _ _ _ htb⟩

theorem Inv.applyTimeout {e : hcEvents} (h : Inv e) (env : Env) (ts : TipSet)
    (trigID : triggerID) : Inv (applyTimeout env ts trigID e) := by
  rcases applyTimeout_cases env ts trigID e with
    h0 | h0 | ⟨trigger, l, hcalls, htrig, _, h0⟩
  · rw [h0]; exact h
  · rw [h0]; exact h.panic
  · have hr : ∀ res, Inv (recordCall (Call.timeout ts trigID
        (env.tscGet (wrap64 (ts.height - trigger.confidence))) ts.height res)
        (Events.logErrors l e)) := by
      intro res
      have h1 := h.logErrors l
      refine ⟨h1.1.congrS rfl rfl rfl rfl rfl, h1.2.recordCall _ ?_ ?_⟩
      · intro _ _ _ _ _ _ hc
        cases hc
      · intro hd tid t curH res' hc
        cases hc
        exact ⟨⟨trigger, htrig⟩, ts.height, hcalls⟩
    rcases h0 with ⟨_, h0⟩ | ⟨_, h0⟩
    · rw [h0]; exact (hr _).logErrors _
    · rw [h0]; exact ⟨(hr _).1.setDisabledS _ _ _ htrig, (hr _).2.setDisabledL _ _ _ htrig⟩

theorem Inv.onHeadChanged {e : hcEvents} (h : Inv e) (env : Env) (check : CheckFunc)
    (hnd : EventHandler) (rev : RevertHandler) (c : Int) (t : ChainEpoch) :
    Inv (onHeadChanged env check hnd rev c t e).1 := by
  unfold Events.onHeadChanged
  cases hbest : env.tscBest with
  | none => exact h
  | some ts =>
    simp only
    split
    · exact h
    · exact ⟨h.1.addTriggerS _ _ _ _ _, h.2.addTriggerL h.1 _ _ _ _ _⟩

theorem inv_stepInv : StepInv Inv where
  log := fun l _ h => h.logErrors l
  last := fun ts _ h => h.setLastTS ts
  revert := fun ts _ h => h.handleReverts ts
  queue := fun tid data prev ts _ h => h.queueForConfidence tid data prev ts
  apply := fun env head height origH tTS i _ hh h => h.applyEvent env head height origH tTS i hh
  timeout := fun env ts tid _ h => h.applyTimeout env ts tid
  reg := fun env check hnd rev c t _ h => h.onHeadChanged env check hnd rev c t
  stateMatcher := fun _ _ _ h => h.congrInv rfl rfl rfl rfl rfl rfl
  msgMatcher := fun _ _ _ h => h.congrInv rfl rfl rfl rfl rfl rfl

theorem inv_init (head : TipSet) : Inv (newHCEvents head) := by
  refine ⟨⟨?_, ?_, ?_, ?_⟩, ⟨?_, ?_, ?_, ?_⟩⟩
  · intro id hi h; simp [newHCEvents, GoMap.get] at h
  · intro tH mH evs ev h; simp [newHCEvents, eventsAt, GoMap.get] at h
  · intro tH mH evs h; simp [newHCEvents, eventsAt, GoMap.get] at h
  · intro H tid n h; simp [newHCEvents, callsAt, GoMap.get] at h
  · intro hd ev p t curH res h; simp [newHCEvents] at h
  · intro hd tid t curH res h; simp [newHCEvents] at h
  · intro hd ev p t curH res h; simp [newHCEvents] at h
  · intro l1 l2 hd ev p t curH res h; simp [newHCEvents] at h

theorem inv_run (head : TipSet) (ops : List Op) : Inv (run (newHCEvents head) ops) :=
  inv_stepInv.run ops _ (inv_init head)

/-! ## Confidence delay (C1, C2) -/

theorem wrap64_of_inRange (x : Int) (h1 : -9223372036854775808 ≤ x)
    (h2 : x < 9223372036854775808) : wrap64 x = x := by
  unfold wrap64
  omega

/-- C1 (amended): the handler is invoked for an event of height `h` of a trigger with
confidence `c` only with `curH = h + c` (int64 addition) and only while a tipset of height
at least `curH` is being applied; when `h + c` does not overflow the applied tipset has
height at least `h + c`. -/
theorem confidence_delay_by_height (head : TipSet) (ops : List Op) (hd : TipSet)
    (ev : queuedEvent) (p t : Option TipSet) (curH : ChainEpoch) (res : HandleResult)
    (h : Call.apply hd ev p t curH res ∈ (run (newHCEvents head) ops).calls) :
    ∃ hi, (run (newHCEvents head) ops).triggers.get ev.trigger = some hi ∧
      curH = wrap64 (ev.h + hi.confidence) ∧ curH ≤ hd.height ∧
      (-9223372036854775808 ≤ ev.h + hi.confidence →
        ev.h + hi.confidence < 9223372036854775808 → ev.h + hi.confidence ≤ hd.height) := by
  obtain ⟨hi, hget, hcur, hle⟩ := (inv_run head ops).2.applied hd ev p t curH res h
  refine ⟨hi, hget, hcur, hle, fun h1 h2 => ?_⟩
  rw [wrap64_of_inRange _ h1 h2] at hcur
  rw [← hcur]; exact hle

/-- C1 (witness): the null-round scenario, where the event of tipset 10 fires at height 13
while tipset 15 is applied. -/
theorem confidence_delay_by_height_witness :
    Call.apply (tipsetAt 15)
        { trigger := 0, prevH := NoHeight, h := 10, data := some (eventData.msg { cid := 9 }),
          called := false }
        none (some (tipsetAt 10)) 13 { more := true, err := false }
      ∈ (run (newHCEvents (tipsetAt 9)) nullRoundRun).calls ∧
    ∃ hi, (run (newHCEvents (tipsetAt 9)) nullRoundRun).triggers.get 0 = some hi ∧
      (13 : ChainEpoch) = wrap64 (10 + hi.confidence) ∧ (13 : ChainEpoch) ≤ (tipsetAt 15).height ∧
      (-9223372036854775808 ≤ 10 + hi.confidence →
        10 + hi.confidence < 9223372036854775808 → 10 + hi.confidence ≤ (tipsetAt 15).height) :=
  ⟨by decide,
    confidence_delay_by_height (tipsetAt 9) nullRoundRun (tipsetAt 15)
      { trigger := 0, prevH := NoHeight, h := 10, data := some (eventData.msg { cid := 9 }),
        called := false }
      none (some (tipsetAt 10)) 13 { more := true, err := false } (by decide)⟩

/-- C1 (counterexample): with confidence 3, the handler is invoked for the event of
tipset 10 while tipset 15 is applied, the only tipset given to `processHeadChangeEvent`
after tipset 10: one further applied tipset, not three. -/
theorem confidence_delay_by_count_fails :
    (run (newHCEvents (tipsetAt 9)) nullRoundRun).calls =
      [Call.apply (tipsetAt 15)
        { trigger := 0, prevH := NoHeight, h := 10, data := some (eventData.msg { cid := 9 }),
          called := false }
        none (some (tipsetAt 10)) 13 { more := true, err := false }] ∧
    appliedTipSets nullRoundRun = [tipsetAt 10, tipsetAt 15] ∧
    ((run (newHCEvents (tipsetAt 9)) nullRoundRun).triggers.get 0).map (fun hi => hi.confidence)
      = some 3 := by
  refine ⟨by decide, by decide, by decide⟩

/-- C2: in every state the dispatcher reaches through `onHeadChanged`, `StateChanged`,
`Called` and `processHeadChangeEvent`, every event stored in `confQueue[tH][mH]` has
`h = mH` and `tH = mH + triggers[event.trigger].confidence` (int64 addition), and every
handler invocation made by `applyWithConfidence` for a queued event has
`curH = h + confidence`, so `curH - h = confidence` when the sum does not overflow. -/
theorem trigger_height_is_event_height_plus_confidence (head : TipSet) (ops : List Op) :
    (∀ tH mH evs ev, eventsAt (run (newHCEvents head) ops) tH mH = some evs → ev ∈ evs →
      ev.h = mH ∧ ∃ hi, (run (newHCEvents head) ops).triggers.get ev.trigger = some hi ∧
        tH = wrap64 (mH + hi.confidence)) ∧
    (∀ hd ev p t curH res, Call.apply hd ev p t curH res ∈ (run (newHCEvents head) ops).calls →
      ∃ hi, (run (newHCEvents head) ops).triggers.get ev.trigger = some hi ∧
        curH = wrap64 (ev.h + hi.confidence) ∧
        (-9223372036854775808 ≤ ev.h + hi.confidence →
          ev.h + hi.confidence < 9223372036854775808 → curH - ev.h = hi.confidence)) := by
  refine ⟨(inv_run head ops).1.queue, fun hd ev p t curH res h => ?_⟩
  obtain ⟨hi, hget, hcur, _⟩ := (inv_run head ops).2.applied hd ev p t curH res h
  refine ⟨hi, hget, hcur, fun h1 h2 => ?_⟩
  rw [wrap64_of_inRange _ h1 h2] at hcur
  rw [hcur]
  exact add_sub_cancel_left ev.h hi.confidence

/-- C2 (witness): the event of tipset 10 of a trigger with confidence 2, stored in
`confQueue[12][10]`. -/
theorem trigger_height_is_event_height_plus_confidence_witness :
    eventsAt (run (newHCEvents (tipsetAt 9)) queuedRun) 12 10 =
      some [{ trigger := 0, prevH := NoHeight, h := 10,
              data := some (eventData.msg { cid := 9 }), called := false }] ∧
    ((10 : ChainEpoch) = 10 ∧
      ∃ hi, (run (newHCEvents (tipsetAt 9)) queuedRun).triggers.get 0 = some hi ∧
        (12 : ChainEpoch) = wrap64 (10 + hi.confidence)) :=
  ⟨by decide,
    (trigger_height_is_event_height_plus_confidence (tipsetAt 9) queuedRun).1 12 10
      [{ trigger := 0, prevH := NoHeight, h := 10,
         data := some (eventData.msg { cid := 9 }), called := false }]
      { trigger := 0, prevH := NoHeight, h := 10,
        data := some (eventData.msg { cid := 9 }), called := false }
      (by decide) (by decide)⟩

/-! ## Frame properties of single triggers (C5, C8, C9) -/

theorem revertEvent_calls (ts : TipSet) (triggerH : ChainEpoch) (event : queuedEvent)
    (e : hcEvents) (c : Call) (hc : c ∈ (revertEvent ts triggerH event e).calls) :
    c ∈ e.calls ∨ (event.called = true ∧ ∃ err, c = Call.revert triggerH event ts err) := by
  unfold revertEvent at hc
  split at hc
  · exact Or.inl hc
  · rename_i hcalled
    have hcalled' : event.called = true := by simpa using hcalled
    split at hc
    · exact Or.inl hc
    · simp only at hc
      have key : ∀ err, c ∈ (recordCall (Call.revert triggerH event ts err) e).calls →
          c ∈ e.calls ∨ (event.called = true ∧ ∃ err, c = Call.revert triggerH event ts err) := by
        intro err h
        rw [show (recordCall (Call.revert triggerH event ts err) e).calls =
          e.calls ++ [Call.revert triggerH event ts err] from rfl,
          List.mem_append, List.mem_singleton] at h
        rcases h with h | h
        · exact Or.inl h
        · exact Or.inr ⟨hcalled', err, h⟩
      split at hc
      · exact key _ hc
      · exact key _ hc

theorem revertEvents_calls (ts : TipSet) (triggerH : ChainEpoch) (evs : List queuedEvent)
    (e : hcEvents) (c : Call)
    (hc : c ∈ (evs.foldl (fun e event => revertEvent ts triggerH event e) e).calls) :
    c ∈ e.calls ∨ ∃ ev ∈ evs, ev.called = true ∧ ∃ err, c = Call.revert triggerH ev ts err := by
  have := foldl_preserves
    (fun s => ∀ c ∈ s.calls, c ∈ e.calls ∨
      ∃ ev ∈ evs, ev.called = true ∧ ∃ err, c = Call.revert triggerH ev ts err)
    (fun e event => revertEvent ts triggerH event e) evs
    (fun ev hev s hs c hc => by
      rcases revertEvent_calls ts triggerH ev s c hc with h | ⟨h1, h2⟩
      · exact hs c h
      · exact Or.inr ⟨ev, hev, h1, h2⟩)
    e (fun c hc => Or.inl hc)
  exact this c hc

theorem revertTrigger_calls (ts : TipSet) (triggerH : ChainEpoch) (e : hcEvents) (c : Call)
    (hc : c ∈ (revertTrigger ts triggerH e).calls) : c ∈ e.calls ∨ RevertOf e ts c := by
  unfold revertTrigger at hc
  rw [(dropReverted_fields ts triggerH _).2.2.2.2] at hc
  rcases revertEvents_calls ts triggerH _ e c hc with h | ⟨ev, hev, hcalled, err, h⟩
  · exact Or.inl h
  · right
    cases h0 : eventsAt e triggerH ts.height with
    | none => simp [h0] at hev
    | some evs =>
      simp only [h0, Option.getD_some] at hev
      exact ⟨triggerH, ev, err, evs, h, hcalled, h0, hev⟩

theorem revertTrigger_same (ts : TipSet) (triggerH : ChainEpoch) (e : hcEvents) :
    (revertTrigger ts triggerH e).ctr = e.ctr ∧
    (revertTrigger ts triggerH e).triggers = e.triggers ∧
    (revertTrigger ts triggerH e).timeouts = e.timeouts := by
  unfold revertTrigger
  obtain ⟨a1, a2, _, _, a5⟩ := revertEvents_same ts triggerH
    ((eventsAt e triggerH ts.height).getD []) e
  obtain ⟨b1, b2, _, b4, _⟩ := dropReverted_fields ts triggerH
    (((eventsAt e triggerH ts.height).getD []).foldl
      (fun e event => revertEvent ts triggerH event e) e)
  exact ⟨b1.trans a1, b2.trans a2, b4.trans a5⟩

/-- What `handleReverts` changes: the counter, the triggers and the timeout table are
untouched, and the trace grows by revert callbacks for called events of the reverted
height only. -/
theorem handleReverts_effect (ts : TipSet) (e : hcEvents) :
    (handleReverts ts e).ctr = e.ctr ∧
    (handleReverts ts e).triggers = e.triggers ∧
    (handleReverts ts e).timeouts = e.timeouts ∧
    ∀ c ∈ (handleReverts ts e).calls, c ∈ e.calls ∨ RevertOf e ts c := by
  unfold handleReverts
  split
  · exact ⟨rfl, rfl, rfl, fun c hc => Or.inl hc⟩
  · rename_i reverts hrev
    have := foldl_preserves
      (fun s => s.ctr = e.ctr ∧ s.triggers = e.triggers ∧ s.timeouts = e.timeouts ∧
        (∀ tH mH evs, eventsAt s tH mH = some evs → eventsAt e tH mH = some evs) ∧
        ∀ c ∈ s.calls, c ∈ e.calls ∨ RevertOf e ts c)
      (fun e triggerH => revertTrigger ts triggerH e) reverts
      (fun tH _ s hs => by
        obtain ⟨h1, h2, h3, h4, h5⟩ := hs
        obtain ⟨a1, a2, a3⟩ := revertTrigger_same ts tH s
        refine ⟨a1.trans h1, a2.trans h2, a3.trans h3, ?_, ?_⟩
        · intro tH' mH evs hev
          rw [eventsAt_revertTrigger] at hev
          split at hev
          · cases hev
          · exact h4 _ _ _ hev
        · intro c hc
          rcases revertTrigger_calls ts tH s c hc with h | ⟨tH', ev, err, evs, hc', hcl, hev, hm⟩
          · exact h5 c h
          · exact Or.inr ⟨tH', ev, err, evs, hc', hcl, h4 _ _ _ hev, hm⟩)
      e ⟨rfl, rfl, rfl, fun _ _ _ h => h, fun c hc => Or.inl hc⟩
    obtain ⟨h1, h2, h3, _, h5⟩ := this
    exact ⟨h1, h2, h3, h5⟩

theorem forall_mem_recordCall {Q : Call → Prop} {e : hcEvents} {c0 : Call}
    (h : ∀ c ∈ e.calls, Q c) (h0 : Q c0) : ∀ c ∈ (recordCall c0 e).calls, Q c := by
  intro c hc
  rw [show (recordCall c0 e).calls = e.calls ++ [c0] from rfl, List.mem_append,
    List.mem_singleton] at hc
  rcases hc with hc | hc
  · exact h c hc
  · rw [hc]; exact h0

/-- The tables after a successful handler invocation in `applyWithConfidence`. -/
theorem applySuccess_fields (height origH : ChainEpoch) (i : Nat) (c : Call)
    (trigID : triggerID) (trigger : handlerInfo) (b : Bool) (e : hcEvents) :
    (setDisabled trigID trigger b (bumpTimeout trigger.timeout trigID
      (markCalled height origH i (recordCall c e)))).ctr = e.ctr ∧
    (setDisabled trigID trigger b (bumpTimeout trigger.timeout trigID
      (markCalled height origH i (recordCall c e)))).calls = e.calls ++ [c] ∧
    (∀ H id, callsAt (setDisabled trigID trigger b (bumpTimeout trigger.timeout trigID
      (markCalled height origH i (recordCall c e)))) H id =
        callsAt (bumpTimeout trigger.timeout trigID e) H id) ∧
    ∀ id, (setDisabled trigID trigger b (bumpTimeout trigger.timeout trigID
      (markCalled height origH i (recordCall c e)))).triggers.get id =
        if id = trigID then some { trigger with disabled := b } else e.triggers.get id := by
  obtain ⟨m1, m2, _, m4, m5⟩ := markCalled_fields height origH i (recordCall c e)
  obtain ⟨b1, b2, _, _, b5⟩ := bumpTimeout_fields trigger.timeout trigID
    (markCalled height origH i (recordCall c e))
  refine ⟨?_, ?_, ?_, ?_⟩
  · show (bumpTimeout trigger.timeout trigID
      (markCalled height origH i (recordCall c e))).ctr = e.ctr
    rw [b1, m1]; rfl
  · show (bumpTimeout trigger.timeout trigID
      (markCalled height origH i (recordCall c e))).calls = e.calls ++ [c]
    rw [b5, m5]; rfl
  · intro H id
    show callsAt (bumpTimeout trigger.timeout trigID
      (markCalled height origH i (recordCall c e))) H id = _
    rw [callsAt_bumpTimeout, callsAt_bumpTimeout, m4, callsAt_congr m4]
    rfl
  · intro id
    rw [setDisabled_triggers, b2, m2]
    rfl

theorem noPendingTimeout_stepInv (id : triggerID) : StepInv (NoPendingTimeout id) where
  log := fun l _ h => ⟨h.1.logErrors l, h.2.1, h.2.2.1, h.2.2.2⟩
  last := fun ts _ h => ⟨h.1.setLastTS ts, h.2.1, h.2.2.1, h.2.2.2⟩
  stateMatcher := fun _ _ _ h => ⟨h.1.congrInv rfl rfl rfl rfl rfl rfl, h.2.1, h.2.2.1, h.2.2.2⟩
  msgMatcher := fun _ _ _ h => ⟨h.1.congrInv rfl rfl rfl rfl rfl rfl, h.2.1, h.2.2.1, h.2.2.2⟩
  revert := by
    intro ts e h
    obtain ⟨a1, _, a3, a4⟩ := handleReverts_effect ts e
    refine ⟨h.1.handleReverts ts, by rw [a1]; exact h.2.1, ?_, ?_⟩
    · rw [callsAt_congr a3]; exact h.2.2.1
    · intro c hc
      rcases a4 c hc with h1 | ⟨tH, ev, err, evs, h1, _⟩
      · exact h.2.2.2 c h1
      · rw [h1]; simp [Call.timeoutOf]
  queue := by
    intro tid data prev ts e h
    obtain ⟨f1, _, f3, f4⟩ := queueForConfidence_fields tid data prev ts e
    refine ⟨h.1.queueForConfidence tid data prev ts, by rw [f1]; exact h.2.1, ?_, ?_⟩
    · rw [callsAt_congr f3]; exact h.2.2.1
    · rw [f4]; exact h.2.2.2
  apply := by
    intro env head height origH tTS i e hh h
    refine ⟨h.1.applyEvent env head height origH tTS i hh, ?_⟩
    rcases applyEvent_cases env head height origH tTS i e with
      h0 | h0 | ⟨l, h0⟩ | ⟨evs, event, trigger, prevTS, _, _, _, _, _, h0⟩
    · rw [h0]; exact h.2
    · rw [h0]; exact h.2
    · rw [h0]; exact h.2
    · rcases h0 with ⟨_, h0⟩ | ⟨_, h0⟩
      · rw [h0]
        exact ⟨h.2.1, h.2.2.1, forall_mem_recordCall h.2.2.2 (by simp [Call.timeoutOf])⟩
      · rw [h0]
        obtain ⟨g1, g2, g3, _⟩ := applySuccess_fields height origH i
          (Call.apply head event prevTS tTS height
            (trigger.handle e.calls event.data prevTS tTS height))
          event.trigger trigger
          (!(trigger.handle e.calls event.data prevTS tTS height).more) e
        refine ⟨by rw [g1]; exact h.2.1, ?_, ?_⟩
        · intro H
          rw [g3, callsAt_bumpTimeout]
          split
          · simp
          · exact h.2.2.1 H
        · rw [g2]
          exact forall_mem_recordCall h.2.2.2 (by simp [Call.timeoutOf])
  timeout := by
    intro env ts tid e h
    refine ⟨h.1.applyTimeout env ts tid, ?_⟩
    rcases applyTimeout_cases env ts tid e with
      h0 | h0 | ⟨trigger, l, hcalls, _, _, h0⟩
    · rw [h0]; exact h.2
    · rw [h0]; exact h.2
    · have hne : tid ≠ id := by
        intro hc
        subst hc
        exact h.2.2.1 _ hcalls
      have hq : ∀ res, ∀ c ∈ (recordCall (Call.timeout ts tid
          (env.tscGet (wrap64 (ts.height - trigger.confidence))) ts.height res)
          (logErrors l e)).calls, c.timeoutOf ≠ some id :=
        fun res => forall_mem_recordCall h.2.2.2 (by simp [Call.timeoutOf, hne])
      rcases h0 with ⟨_, h0⟩ | ⟨_, h0⟩
      · rw [h0]; exact ⟨h.2.1, h.2.2.1, hq _⟩
      · rw [h0]; exact ⟨h.2.1, h.2.2.1, hq _⟩
  reg := by
    intro env check hnd rev c t e h
    refine ⟨h.1.onHeadChanged env check hnd rev c t, ?_⟩
    unfold onHeadChanged
    cases hbest : env.tscBest with
    | none => exact h.2
    | some ts =>
      simp only
      split
      · exact h.2
      · obtain ⟨f1, _, _, f4⟩ := addTrigger_fields hnd rev c
          (if (check e.calls ts).done = true then NoTimeout else t) (check e.calls ts).more e
        refine ⟨by rw [f1]; exact Nat.lt_succ_of_lt h.2.1, ?_, by rw [f4]; exact h.2.2.2⟩
        intro H
        rw [callsAt_addTrigger]
        have hne : id ≠ e.ctr := Nat.ne_of_lt h.2.1
        simp only [hne, and_false, if_false]
        exact h.2.2.1 H

theorem staysDisabled_stepInv (id : triggerID) : StepInv (StaysDisabled id) where
  log := fun l _ h => ⟨h.1.logErrors l, h.2.1, h.2.2⟩
  last := fun ts _ h => ⟨h.1.setLastTS ts, h.2.1, h.2.2⟩
  stateMatcher := fun _ _ _ h => ⟨h.1.congrInv rfl rfl rfl rfl rfl rfl, h.2.1, h.2.2⟩
  msgMatcher := fun _ _ _ h => ⟨h.1.congrInv rfl rfl rfl rfl rfl rfl, h.2.1, h.2.2⟩
  revert := by
    intro ts e h
    obtain ⟨_, a2, _, a4⟩ := handleReverts_effect ts e
    refine ⟨h.1.handleReverts ts, by rw [a2]; exact h.2.1, ?_⟩
    intro c hc
    rcases a4 c hc with h1 | ⟨tH, ev, err, evs, h1, _⟩
    · exact h.2.2 c h1
    · rw [h1]; simp [Call.handleOf]
  queue := by
    intro tid data prev ts e h
    obtain ⟨_, f2, _, f4⟩ := queueForConfidence_fields tid data prev ts e
    exact ⟨h.1.queueForConfidence tid data prev ts, by rw [f2]; exact h.2.1,
      by rw [f4]; exact h.2.2⟩
  apply := by
    intro env head height origH tTS i e hh h
    refine ⟨h.1.applyEvent env head height origH tTS i hh, ?_⟩
    rcases applyEvent_cases env head height origH tTS i e with
      h0 | h0 | ⟨l, h0⟩ | ⟨evs, event, trigger, prevTS, _, _, _, htrig, hdis, h0⟩
    · rw [h0]; exact h.2
    · rw [h0]; exact h.2
    · rw [h0]; exact h.2
    · obtain ⟨hi, hget, hd⟩ := h.2.1
      have hne : event.trigger ≠ id := by
        intro hc
        rw [hc, hget] at htrig
        cases htrig
        rw [hd] at hdis
        cases hdis
      rcases h0 with ⟨_, h0⟩ | ⟨_, h0⟩
      · rw [h0]
        exact ⟨h.2.1, forall_mem_recordCall h.2.2 (by simp [Call.handleOf, hne])⟩
      · rw [h0]
        obtain ⟨_, g2, _, g4⟩ := applySuccess_fields height origH i
          (Call.apply head event prevTS tTS height
            (trigger.handle e.calls event.data prevTS tTS height))
          event.trigger trigger
          (!(trigger.handle e.calls event.data prevTS tTS height).more) e
        refine ⟨⟨hi, ?_, hd⟩, ?_⟩
        · rw [g4]; simp [Ne.symm hne, hget]
        · rw [g2]
          exact forall_mem_recordCall h.2.2 (by simp [Call.handleOf, hne])
  timeout := by
    intro env ts tid e h
    refine ⟨h.1.applyTimeout env ts tid, ?_⟩
    rcases applyTimeout_cases env ts tid e with
      h0 | h0 | ⟨trigger, l, _, htrig, hdis, h0⟩
    · rw [h0]; exact h.2
    · rw [h0]; exact h.2
    · obtain ⟨hi, hget, hd⟩ := h.2.1
      have hne : tid ≠ id := by
        intro hc
        rw [hc, hget] at htrig
        cases htrig
        rw [hd] at hdis
        cases hdis
      have hq : ∀ res, ∀ c ∈ (recordCall (Call.timeout ts tid
          (env.tscGet (wrap64 (ts.height - trigger.confidence))) ts.height res)
          (logErrors l e)).calls, c.handleOf ≠ some id :=
        fun res => forall_mem_recordCall h.2.2 (by simp [Call.handleOf, hne])
      rcases h0 with ⟨_, h0⟩ | ⟨_, h0⟩
      · rw [h0]; exact ⟨h.2.1, hq _⟩
      · rw [h0]
        refine ⟨⟨hi, ?_, hd⟩, hq _⟩
        rw [setDisabled_triggers]
        simp only [Ne.symm hne, if_false]
        exact hget
  reg := by
    intro env check hnd rev c t e h
    refine ⟨h.1.onHeadChanged env check hnd rev c t, ?_⟩
    unfold onHeadChanged
    cases hbest : env.tscBest with
    | none => exact h.2
    | some ts =>
      simp only
      split
      · exact h.2
      · obtain ⟨_, _, _, f4⟩ := addTrigger_fields hnd rev c
          (if (check e.calls ts).done = true then NoTimeout else t) (check e.calls ts).more e
        obtain ⟨hi, hget, hd⟩ := h.2.1
        refine ⟨⟨hi, ?_, hd⟩, by rw [f4]; exact h.2.2⟩
        rw [addTrigger_triggers]
        have hne : id ≠ e.ctr := Nat.ne_of_lt (h.1.1.ids id hi hget)
        simp only [hne, if_false]
        exact hget

/-- C5 (amended): once a trigger's handler has been invoked for a matched event and has
returned without error, the handler is not invoked as a timeout for that trigger any more,
in every sequence of calls. -/
theorem no_timeout_after_successful_event (head : TipSet) (ops : List Op)
    (l1 l2 : List Call) (hd : TipSet) (ev : queuedEvent) (p t : Option TipSet)
    (curH : ChainEpoch) (res : HandleResult)
    (h : (run (newHCEvents head) ops).calls = l1 ++ Call.apply hd ev p t curH res :: l2)
    (herr : res.err = false) :
    ∀ c ∈ l2, c.timeoutOf ≠ some ev.trigger := by
  intro c hc hto
  cases c with
  | apply _ _ _ _ _ _ => simp [Call.timeoutOf] at hto
  | revert _ _ _ _ => simp [Call.timeoutOf] at hto
  | timeout hd' tid t' curH' res' =>
    simp only [Call.timeoutOf, Option.some.injEq] at hto
    subst hto
    exact (inv_run head ops).2.ordered l1 l2 hd ev p t curH res h herr hd' t' curH' res' hc

/-- C5 (witness): in the two-events scenario the first event succeeds at height 11, below
the timeout height, and no timeout follows although the head passes heights 12 and 13. -/
theorem no_timeout_after_successful_event_witness :
    ((run (newHCEvents (tipsetAt 9)) twoEventsRun).calls =
      [] ++ Call.apply (tipsetAt 11)
          { trigger := 0, prevH := NoHeight, h := 10,
            data := some (eventData.msg { cid := 9 }), called := false }
          none (some (tipsetAt 10)) 11 { more := true, err := false } ::
        [Call.apply (tipsetAt 12)
          { trigger := 0, prevH := NoHeight, h := 11,
            data := some (eventData.msg { cid := 10 }), called := false }
          none (some (tipsetAt 11)) 12 { more := true, err := false }]) ∧
    ∀ c ∈ [Call.apply (tipsetAt 12)
          { trigger := 0, prevH := NoHeight, h := 11,
            data := some (eventData.msg { cid := 10 }), called := false }
          none (some (tipsetAt 11)) 12 { more := true, err := false }],
      c.timeoutOf ≠ some 0 :=
  ⟨by decide,
    no_timeout_after_successful_event (tipsetAt 9) twoEventsRun [] _ (tipsetAt 11)
      { trigger := 0, prevH := NoHeight, h := 10,
        data := some (eventData.msg { cid := 9 }), called := false }
      none (some (tipsetAt 10)) 11 { more := true, err := false } (by decide) rfl⟩

/-- C5 (counterexample): the handler is invoked for a matched event at height 11, not
above the timeout height (timeout 11, stored as 12), returns an error, is invoked again
for the event, and is then invoked as a timeout while tipset 12 is applied. -/
theorem timeout_fires_after_failed_event :
    (run (newHCEvents (tipsetAt 9)) failedEventRun).calls =
      [Call.apply (tipsetAt 11)
        { trigger := 0, prevH := NoHeight, h := 10,
          data := some (eventData.msg { cid := 9 }), called := false }
        none (some (tipsetAt 10)) 11 { more := false, err := true },
       Call.apply (tipsetAt 12)
        { trigger := 0, prevH := NoHeight, h := 10,
          data := some (eventData.msg { cid := 9 }), called := false }
        none (some (tipsetAt 10)) 11 { more := false, err := true },
       Call.timeout (tipsetAt 12) 0 (some (tipsetAt 11)) 12 { more := false, err := false }] := by
  decide

/-- The state after a registration whose check succeeds. -/
theorem step_registration {env : Env} {check : CheckFunc} {c : Int} {t : ChainEpoch} {op : Op}
    (hreg : op.isRegistration env check c t) (e : hcEvents) {ts : TipSet}
    (hbest : env.tscBest = some ts) (herr : (check e.calls ts).err = false) :
    ∃ hnd rev, ∃ e1,
      e1 = addTrigger hnd rev c (if (check e.calls ts).done = true then NoTimeout else t)
        (check e.calls ts).more e ∧
      (step e op = e1 ∨ (∃ mf, step e op = setStateMatcher e.ctr mf e1) ∨
        ∃ mf, step e op = setMsgMatcher e.ctr mf e1) := by
  rcases hreg with ⟨hnd, rev, rfl⟩ | ⟨hnd, rev, mf, rfl⟩ | ⟨hnd, rev, mf, rfl⟩
  · exact ⟨hnd, rev, _, rfl, Or.inl (by simp [step, onHeadChanged, hbest, herr])⟩
  · exact ⟨hnd, rev, _, rfl, Or.inr (Or.inl ⟨mf, by
      simp [step, StateChanged, onHeadChanged, hbest, herr]⟩)⟩
  · exact ⟨hnd, rev, _, rfl, Or.inr (Or.inr ⟨mf, by
      simp [step, Called, onHeadChanged, hbest, herr]⟩)⟩

/-- C8: when the check of a registration (through `onHeadChanged`, `StateChanged` or
`Called`) returns `done = true`, whatever timeout and confidence were passed, the
registration leaves the timeout table as it was, and no later call invokes the handler of
the new trigger as a timeout. -/
theorem done_check_never_times_out (head : TipSet) (ops1 ops2 : List Op) (e : hcEvents)
    (he : e = run (newHCEvents head) ops1) (reg : Op) (env : Env) (check : CheckFunc)
    (c : Int) (t : ChainEpoch) (ts : TipSet) (hreg : reg.isRegistration env check c t)
    (hbest : env.tscBest = some ts) (herr : (check e.calls ts).err = false)
    (hdone : (check e.calls ts).done = true) :
    (step e reg).timeouts = e.timeouts ∧
    (∃ hi, (step e reg).triggers.get e.ctr = some hi) ∧
    ∀ call ∈ (run (step e reg) ops2).calls, call.timeoutOf ≠ some e.ctr := by
  have hinv : Inv e := he ▸ inv_run head ops1
  obtain ⟨hnd, rev, e1, he1, hstep⟩ := step_registration hreg e hbest herr
  simp only [hdone, if_true] at he1
  have hto : e1.timeouts = e.timeouts := by
    rw [he1]; simp [addTrigger]
  have htr : ∃ hi, e1.triggers.get e.ctr = some hi := by
    rw [he1, addTrigger_triggers]; simp
  have hP : NoPendingTimeout e.ctr e1 := by
    have hinv1 : Inv e1 := by
      rw [he1]; exact ⟨hinv.1.addTriggerS _ _ _ _ _, hinv.2.addTriggerL hinv.1 _ _ _ _ _⟩
    refine ⟨hinv1, ?_, ?_, ?_⟩
    · rw [he1, (addTrigger_fields _ _ _ _ _ _).1]; exact Nat.lt_succ_self _
    · intro H hH
      rw [callsAt_congr hto] at hH
      obtain ⟨hi, hget, _⟩ := hinv.1.touts H _ _ hH
      exact Nat.lt_irrefl _ (hinv.1.ids _ _ hget)
    · intro call hcall hcl
      rw [he1, (addTrigger_fields _ _ _ _ _ _).2.2.2] at hcall
      cases call with
      | apply _ _ _ _ _ _ => simp [Call.timeoutOf] at hcl
      | revert _ _ _ _ => simp [Call.timeoutOf] at hcl
      | timeout hd tid t' curH res =>
        simp only [Call.timeoutOf, Option.some.injEq] at hcl
        subst hcl
        obtain ⟨hi, hget⟩ := hinv.2.timedOut _ _ _ _ _ hcall
        exact Nat.lt_irrefl _ (hinv.1.ids _ _ hget)
  have hP' : NoPendingTimeout e.ctr (step e reg) := by
    rcases hstep with h | ⟨mf, h⟩ | ⟨mf, h⟩
    · rw [h]; exact hP
    · rw [h]; exact (noPendingTimeout_stepInv e.ctr).stateMatcher _ _ _ hP
    · rw [h]; exact (noPendingTimeout_stepInv e.ctr).msgMatcher _ _ _ hP
  refine ⟨?_, ?_, ((noPendingTimeout_stepInv e.ctr).run ops2 _ hP').2.2.2⟩
  · rcases hstep with h | ⟨mf, h⟩ | ⟨mf, h⟩ <;> rw [h] <;> exact hto
  · rcases hstep with h | ⟨mf, h⟩ | ⟨mf, h⟩ <;> rw [h] <;> exact htr

/-- C8 (witness): a registration with `done = true`, confidence 1 and timeout 11; the head
passes height 12 and no timeout fires. -/
theorem done_check_never_times_out_witness :
    (step (newHCEvents (tipsetAt 9)) doneRegistration).timeouts =
      (newHCEvents (tipsetAt 9)).timeouts ∧
    (∃ hi, (step (newHCEvents (tipsetAt 9)) doneRegistration).triggers.get
      (newHCEvents (tipsetAt 9)).ctr = some hi) ∧
    ∀ call ∈ (run (step (newHCEvents (tipsetAt 9)) doneRegistration) appliesThrough13).calls,
      call.timeoutOf ≠ some (newHCEvents (tipsetAt 9)).ctr :=
  done_check_never_times_out (tipsetAt 9) [] appliesThrough13 (newHCEvents (tipsetAt 9)) rfl
    doneRegistration scenarioEnv (checkConst true true) 1 11 (tipsetAt 0)
    (Or.inr (Or.inr ⟨handlerOk true, revertOk, matchNone, rfl⟩)) rfl rfl rfl

/-- C9: when the check of a registration (through `onHeadChanged`, `StateChanged` or
`Called`) returns `more = false`, the new trigger is created disabled and no later call
invokes its handler, neither for a matched event nor as a timeout. -/
theorem disabled_at_registration_never_fires (head : TipSet) (ops1 ops2 : List Op)
    (e : hcEvents) (he : e = run (newHCEvents head) ops1) (reg : Op) (env : Env)
    (check : CheckFunc) (c : Int) (t : ChainEpoch) (ts : TipSet)
    (hreg : reg.isRegistration env check c t) (hbest : env.tscBest = some ts)
    (herr : (check e.calls ts).err = false) (hmore : (check e.calls ts).more = false) :
    (∃ hi, (step e reg).triggers.get e.ctr = some hi ∧ hi.disabled = true) ∧
    ∀ call ∈ (run (step e reg) ops2).calls, call.handleOf ≠ some e.ctr := by
  have hinv : Inv e := he ▸ inv_run head ops1
  obtain ⟨hnd, rev, e1, he1, hstep⟩ := step_registration hreg e hbest herr
  have htr : ∃ hi, e1.triggers.get e.ctr = some hi ∧ hi.disabled = true := by
    rw [he1, addTrigger_triggers]; simp [hmore]
  have hP : StaysDisabled e.ctr e1 := by
    have hinv1 : Inv e1 := by
      rw [he1]; exact ⟨hinv.1.addTriggerS _ _ _ _ _, hinv.2.addTriggerL hinv.1 _ _ _ _ _⟩
    refine ⟨hinv1, htr, ?_⟩
    intro call hcall hcl
    rw [he1, (addTrigger_fields _ _ _ _ _ _).2.2.2] at hcall
    cases call with
    | revert _ _ _ _ => simp [Call.handleOf] at hcl
    | apply hd ev p t' curH res =>
      simp only [Call.handleOf, Option.some.injEq] at hcl
      obtain ⟨hi, hget, _⟩ := hinv.2.applied _ _ _ _ _ _ hcall
      rw [hcl] at hget
      exact Nat.lt_irrefl _ (hinv.1.ids _ _ hget)
    | timeout hd tid t' curH res =>
      simp only [Call.handleOf, Option.some.injEq] at hcl
      subst hcl
      obtain ⟨hi, hget⟩ := hinv.2.timedOut _ _ _ _ _ hcall
      exact Nat.lt_irrefl _ (hinv.1.ids _ _ hget)
  have hP' : StaysDisabled e.ctr (step e reg) := by
    rcases hstep with h | ⟨mf, h⟩ | ⟨mf, h⟩
    · rw [h]; exact hP
    · rw [h]; exact (staysDisabled_stepInv e.ctr).stateMatcher _ _ _ hP
    · rw [h]; exact (staysDisabled_stepInv e.ctr).msgMatcher _ _ _ hP
  exact ⟨hP'.2.1, ((staysDisabled_stepInv e.ctr).run ops2 _ hP').2.2⟩

/-- C9 (witness): a registration with `more = false`; the event of tipset 10 reaches
confidence at height 11 and the timeout height 12 passes, and the handler is not invoked. -/
theorem disabled_at_registration_never_fires_witness :
    (∃ hi, (step (newHCEvents (tipsetAt 9)) disabledRegistration).triggers.get
      (newHCEvents (tipsetAt 9)).ctr = some hi ∧ hi.disabled = true) ∧
    ∀ call ∈
      (run (step (newHCEvents (tipsetAt 9)) disabledRegistration) appliesThrough13).calls,
      call.handleOf ≠ some (newHCEvents (tipsetAt 9)).ctr :=
  disabled_at_registration_never_fires (tipsetAt 9) [] appliesThrough13
    (newHCEvents (tipsetAt 9)) rfl disabledRegistration scenarioEnv (checkConst false false)
    1 11 (tipsetAt 0) (Or.inr (Or.inr ⟨handlerOk true, revertOk, matchCid 9, rfl⟩)) rfl rfl rfl

/-! ## Timeouts in the height loop (C6, C7) and failing handlers (C10) -/

/-- C6 (the code at the failing input): with a handler returning `more = true` the
timeout of the scenario is delivered twice while tipset 21 is applied, once in each
iteration of the height loop (heights 20 and 21), both with `triggerTS = tsc.get(20)` and
`curH = 21`; with `more = false` it is delivered once. -/
theorem timeout_delivered_twice_when_more :
    (run (newHCEvents (tipsetAt 19)) (timeoutRun true)).calls =
      [Call.timeout (tipsetAt 21) 0 (scenarioEnv.tscGet 20) 21 { more := true, err := false },
       Call.timeout (tipsetAt 21) 0 (scenarioEnv.tscGet 20) 21 { more := true, err := false }] ∧
    (run (newHCEvents (tipsetAt 19)) (timeoutRun false)).calls =
      [Call.timeout (tipsetAt 21) 0 (scenarioEnv.tscGet 20) 21
        { more := false, err := false }] := by
  constructor <;> decide

/-- C7 (the code at the failing input): the apply of the tipset of height 12 on a head of
height 7 invokes no handler, although the timeout of the enabled, never fired trigger is
scheduled at the intermediate height 10 with call count 0. -/
theorem intermediate_timeout_not_delivered :
    (run (newHCEvents (tipsetAt 7)) skippedTimeoutRun).calls = [] ∧
    callsAt (run (newHCEvents (tipsetAt 7)) skippedTimeoutRun) 10 0 = some 0 ∧
    ((run (newHCEvents (tipsetAt 7)) skippedTimeoutRun).triggers.get 0).map
      (fun hi => hi.disabled) = some false ∧
    (run (newHCEvents (tipsetAt 7)) skippedTimeoutRun).lastTS = tipsetAt 12 := by
  refine ⟨by decide, by decide, by decide, by decide⟩

/-- C10 (counterexample): the handler returns an error for the event of tipset 10 while
tipset 12 is applied, and is invoked again for the same event while tipset 13 is
applied. -/
theorem failed_handler_is_invoked_again :
    (run (newHCEvents (tipsetAt 9)) retryRun).calls =
      [Call.apply (tipsetAt 12)
        { trigger := 0, prevH := NoHeight, h := 10,
          data := some (eventData.msg { cid := 9 }), called := false }
        none (some (tipsetAt 10)) 12 { more := true, err := true },
       Call.apply (tipsetAt 13)
        { trigger := 0, prevH := NoHeight, h := 10,
          data := some (eventData.msg { cid := 9 }), called := false }
        none (some (tipsetAt 10)) 12 { more := true, err := true }] := by
  decide

/-! ## Revert symmetry (C4) -/

theorem revertsOf_append (triggerH : ChainEpoch) (ts : TipSet) (l1 l2 : List Call) :
    revertsOf triggerH ts (l1 ++ l2) = revertsOf triggerH ts l1 ++ revertsOf triggerH ts l2 := by
  simp [revertsOf, List.filterMap_append]

theorem revertsOf_other {triggerH tH : ChainEpoch} {ts : TipSet} {l : List Call}
    (h : ∀ c ∈ l, ∃ ev err, c = Call.revert tH ev ts err) (hne : triggerH ≠ tH) :
    revertsOf triggerH ts l = [] := by
  induction l with
  | nil => rfl
  | cons a l ih =>
    obtain ⟨ev, err, ha⟩ := h a (List.mem_cons_self _ _)
    have ih' := ih (fun c hc => h c (List.mem_cons_of_mem _ hc))
    subst ha
    simp only [revertsOf, List.filterMap_cons] at ih' ⊢
    simp [Ne.symm hne, ih']

/-- The trace after the event loop of `handleReverts` for one trigger height: one revert
callback for each called event, in order. -/
theorem revertEvents_trace (ts : TipSet) (triggerH : ChainEpoch) (evs : List queuedEvent) :
    ∀ (e : hcEvents), (∀ ev ∈ evs, ∃ hi, e.triggers.get ev.trigger = some hi) →
      ∃ l, (evs.foldl (fun e event => revertEvent ts triggerH event e) e).calls = e.calls ++ l ∧
        (∀ c ∈ l, ∃ ev err, c = Call.revert triggerH ev ts err) ∧
        revertsOf triggerH ts l = evs.filter (fun ev => ev.called) := by
  induction evs with
  | nil => intro e _; exact ⟨[], by simp, by simp, rfl⟩
  | cons ev evs ih =>
    intro e htr
    obtain ⟨hi, hget⟩ := htr ev (List.mem_cons_self _ _)
    have hsame := revertEvent_same ts triggerH ev e
    have htr' : ∀ ev' ∈ evs, ∃ hi, (revertEvent ts triggerH ev e).triggers.get ev'.trigger =
        some hi := by
      intro ev' hev'
      rw [hsame.2.1]
      exact htr ev' (List.mem_cons_of_mem _ hev')
    obtain ⟨l, hl, hall, hrev⟩ := ih (revertEvent ts triggerH ev e) htr'
    rw [List.foldl_cons, hl]
    cases hc : ev.called with
    | false =>
      have h1 : revertEvent ts triggerH ev e = e := by simp [revertEvent, hc]
      rw [h1]
      exact ⟨l, rfl, hall, by rw [hrev]; simp [hc]⟩
    | true =>
      have h1 : (revertEvent ts triggerH ev e).calls =
          e.calls ++ [Call.revert triggerH ev ts (hi.revert e.calls ts)] := by
        simp only [revertEvent, hc, hget, Bool.true_eq_false, if_false]
        split <;> rfl
      rw [h1]
      refine ⟨Call.revert triggerH ev ts (hi.revert e.calls ts) :: l, by simp, ?_, ?_⟩
      · intro c hcm
        rcases List.mem_cons.1 hcm with h | h
        · exact ⟨ev, _, h⟩
        · exact hall c h
      · rw [show Call.revert triggerH ev ts (hi.revert e.calls ts) :: l =
          [Call.revert triggerH ev ts (hi.revert e.calls ts)] ++ l from rfl, revertsOf_append,
          hrev]
        simp [revertsOf, hc]

theorem revertTrigger_trace (ts : TipSet) (triggerH : ChainEpoch) (e : hcEvents)
    (h : Inv e) :
    ∃ l, (revertTrigger ts triggerH e).calls = e.calls ++ l ∧
      (∀ c ∈ l, ∃ ev err, c = Call.revert triggerH ev ts err) ∧
      revertsOf triggerH ts l = calledEventsAt e triggerH ts.height := by
  unfold revertTrigger
  rw [(dropReverted_fields ts triggerH _).2.2.2.2]
  refine revertEvents_trace ts triggerH _ e ?_
  intro ev hev
  cases h0 : eventsAt e triggerH ts.height with
  | none => simp [h0] at hev
  | some evs =>
    simp only [h0, Option.getD_some] at hev
    obtain ⟨_, hi, hget, _⟩ := h.1.queue _ _ evs ev h0 hev
    exact ⟨hi, hget⟩

theorem revertTriggers_trace (ts : TipSet) (reverts : List ChainEpoch) :
    ∀ (e : hcEvents), Inv e →
      ∃ l, (reverts.foldl (fun e triggerH => revertTrigger ts triggerH e) e).calls =
          e.calls ++ l ∧
        (∀ c ∈ l, ∃ tH ev err, c = Call.revert tH ev ts err) ∧
        ∀ tH, revertsOf tH ts l =
          if tH ∈ reverts then calledEventsAt e tH ts.height else [] := by
  induction reverts with
  | nil => intro e _; exact ⟨[], by simp, by simp, fun _ => rfl⟩
  | cons a rest ih =>
    intro e h
    obtain ⟨l1, hl1, hall1, hrev1⟩ := revertTrigger_trace ts a e h
    obtain ⟨l2, hl2, hall2, hrev2⟩ := ih (revertTrigger ts a e) (h.revertTrigger ts a)
    refine ⟨l1 ++ l2, ?_, ?_, ?_⟩
    · rw [List.foldl_cons, hl2, hl1, List.append_assoc]
    · intro c hc
      rcases List.mem_append.1 hc with hc | hc
      · obtain ⟨ev, err, h1⟩ := hall1 c hc
        exact ⟨a, ev, err, h1⟩
      · exact hall2 c hc
    · intro tH
      rw [revertsOf_append, hrev2]
      by_cases hta : tH = a
      · subst hta
        rw [hrev1]
        have : calledEventsAt (revertTrigger ts tH e) tH ts.height = [] := by
          simp [calledEventsAt, eventsAt_revertTrigger]
        simp [this]
      · rw [revertsOf_other hall1 hta]
        have : calledEventsAt (revertTrigger ts a e) tH ts.height =
            calledEventsAt e tH ts.height := by
          simp [calledEventsAt, eventsAt_revertTrigger, hta]
        simp [this, hta]

theorem handleReverts_idem (ts : TipSet) (e : hcEvents) :
    handleReverts ts (handleReverts ts e) = handleReverts ts e := by
  have key : (handleReverts ts e).revertQueue.get ts.height = none := by
    unfold handleReverts
    split
    · assumption
    · simp [dropRevertQueue, GoMap.get_del]
  generalize handleReverts ts e = e1 at key
  simp [handleReverts, key]

/-- C4: in every state the dispatcher reaches, reverting a tipset `ts` invokes, for every
trigger height, the revert callback with `ts` exactly once for each called event stored in
`confQueue[triggerH][ts.Height()]`, in order (also when `revertQueue[ts.Height()]` lists a
trigger height several times), invokes nothing else, and a second revert of `ts` right
after changes nothing. -/
theorem revert_invokes_each_called_event_once (head : TipSet) (ops : List Op) (e : hcEvents)
    (he : e = run (newHCEvents head) ops) (ts : TipSet) :
    (∃ l, (handleReverts ts e).calls = e.calls ++ l ∧
      (∀ c ∈ l, ∃ tH ev err, c = Call.revert tH ev ts err) ∧
      ∀ tH, revertsOf tH ts l = calledEventsAt e tH ts.height) ∧
    handleReverts ts (handleReverts ts e) = handleReverts ts e := by
  have hinv : Inv e := he ▸ inv_run head ops
  refine ⟨?_, handleReverts_idem ts e⟩
  have hempty : ∀ tH, (∀ l, e.revertQueue.get ts.height = some l → tH ∉ l) →
      calledEventsAt e tH ts.height = [] := by
    intro tH hno
    unfold calledEventsAt
    cases h0 : eventsAt e tH ts.height with
    | none => rfl
    | some evs =>
      by_cases hnil : evs = []
      · simp [hnil]
      · obtain ⟨l, hl, hmem⟩ := hinv.1.reverts _ _ evs h0 hnil
        exact absurd hmem (hno l hl)
  unfold handleReverts
  cases hrev : e.revertQueue.get ts.height with
  | none =>
    refine ⟨[], by simp, by simp, fun tH => ?_⟩
    rw [hempty tH (fun l hl => by rw [hrev] at hl; cases hl)]
    rfl
  | some reverts =>
    obtain ⟨l, hl, hall, hr⟩ := revertTriggers_trace ts reverts e hinv
    refine ⟨l, hl, hall, fun tH => ?_⟩
    rw [hr]
    split
    · rfl
    · rename_i hmem
      rw [hempty tH (fun l' hl' => by rw [hrev] at hl'; cases hl'; exact hmem)]

/-- C4 (witness): two called events share the pair (11, 10); reverting the tipset of
height 10 invokes the revert callback once for each. -/
theorem revert_invokes_each_called_event_once_witness :
    (run (newHCEvents (tipsetAt 9)) twoCalledRun).revertQueue.get 10 = some [11, 11] ∧
    calledEventsAt (run (newHCEvents (tipsetAt 9)) twoCalledRun) 11 10 =
      [{ trigger := 0, prevH := NoHeight, h := 10,
         data := some (eventData.msg { cid := 8 }), called := true },
       { trigger := 0, prevH := NoHeight, h := 10,
         data := some (eventData.msg { cid := 9 }), called := true }] ∧
    (handleReverts tipset10TwoParents (run (newHCEvents (tipsetAt 9)) twoCalledRun)).calls =
      (run (newHCEvents (tipsetAt 9)) twoCalledRun).calls ++
        [Call.revert 11
          { trigger := 0, prevH := NoHeight, h := 10,
            data := some (eventData.msg { cid := 8 }), called := true }
          tipset10TwoParents false,
         Call.revert 11
          { trigger := 0, prevH := NoHeight, h := 10,
            data := some (eventData.msg { cid := 9 }), called := true }
          tipset10TwoParents false] ∧
    ((∃ l, (handleReverts tipset10TwoParents
          (run (newHCEvents (tipsetAt 9)) twoCalledRun)).calls =
        (run (newHCEvents (tipsetAt 9)) twoCalledRun).calls ++ l ∧
      (∀ c ∈ l, ∃ tH ev err, c = Call.revert tH ev tipset10TwoParents err) ∧
      ∀ tH, revertsOf tH tipset10TwoParents l =
        calledEventsAt (run (newHCEvents (tipsetAt 9)) twoCalledRun) tH
          tipset10TwoParents.height) ∧
    handleReverts tipset10TwoParents
        (handleReverts tipset10TwoParents (run (newHCEvents (tipsetAt 9)) twoCalledRun)) =
      handleReverts tipset10TwoParents (run (newHCEvents (tipsetAt 9)) twoCalledRun)) :=
  ⟨by decide, by decide, by decide,
    revert_invokes_each_called_event_once (tipsetAt 9) twoCalledRun _ rfl tipset10TwoParents⟩

/-! ## The confidence scenario (C3) -/

theorem foldl_const_fun {α β : Type} (l : List α) (b : β) :
    l.foldl (fun acc _ => acc) b = b := by
  induction l with
  | nil => rfl
  | cons a l ih => simp

/-- Without message matchers `checkNewCalls` finds no call. -/
theorem checkNewCalls_noMatchers (env : Env) (ts : TipSet) (e : hcEvents)
    (h : e.msgMatchers = []) :
    (checkNewCalls env ts e).1 = (env.chainGetTipSet ts.parents).map (fun _ => []) := by
  unfold checkNewCalls
  cases env.chainGetTipSet ts.parents with
  | none => rfl
  | some pts =>
    simp only [h, GoMap.keys, List.map_nil, orderBy, List.foldl_nil, Option.map_some']
    rw [foldl_const_fun]

theorem SingleTrigger.eq {e : hcEvents} {last : TipSet} {hi : handlerInfo}
    {mf : StateMatchFunc} {queue : GoMap ChainEpoch (GoMap ChainEpoch (List queuedEvent))}
    {calls : List Call} (h : SingleTrigger e last hi mf queue calls) :
    e = { lastTS := last, ctr := e.ctr, triggers := [(0, hi)], confQueue := queue,
          revertQueue := e.revertQueue, timeouts := [], stateMatchers := [(0, mf)],
          msgMatchers := [], calls := calls, errlog := e.errlog, panicked := e.panicked } := by
  obtain ⟨h1, h2, h3, h4, h5, h6, h7⟩ := h
  cases e
  simp only at h1 h2 h3 h4 h5 h6 h7
  subst h1 h2 h3 h4 h5 h6 h7
  rfl

theorem stage_match (env : Env) (e : hcEvents) (last ts : TipSet) (hi : handlerInfo)
    (mf : StateMatchFunc) (calls : List Call)
    (h : SingleTrigger e last hi mf [] calls)
    (hlast : last.height = 9) (hts : ts.height = 10) (hc : hi.confidence = 2)
    (hok : (mf last ts).ok = true) (herr : (mf last ts).err = false)
    (hp : env.chainGetTipSet ts.parents ≠ none) :
    SingleTrigger (processHeadChangeEvent env [] [ts] e).1 ts hi mf
      [(12, [(10, [newEvent 0 (mf last ts).data (some last) ts])])] calls := by
  obtain ⟨pts, hpts⟩ := Option.ne_none_iff_exists'.1 hp
  have hr : heightRange 9 10 = [9, 10] := by decide
  have hw : wrap64 12 = 12 := by decide
  rw [h.eq]
  constructor <;>
  simp [processHeadChangeEvent, revertTipSets, applyTipSets, applyTipSet, checkStateChanges,
    checkStateChange, GoMap.keys, orderBy, insertBy, GoMap.get, GoMap.set, hok, herr,
    queueStateChanges, logErrors, queueForConfidence, hts, hc, hw, checkNewCalls_noMatchers,
    hpts, queueNewCalls, applyHeights, hlast, hr, setLastTS, applyWithConfidence, applyTimeouts]

theorem stage_wait (env : Env) (e : hcEvents) (last ts : TipSet) (hi : handlerInfo)
    (mf : StateMatchFunc) (calls : List Call) (evs : List queuedEvent)
    (h : SingleTrigger e last hi mf [(12, [(10, evs)])] calls)
    (hlast : last.height = 10) (hts : ts.height = 11)
    (hok : (mf last ts).ok = false) (herr : (mf last ts).err = false)
    (hp : env.chainGetTipSet ts.parents ≠ none) :
    SingleTrigger (processHeadChangeEvent env [] [ts] e).1 ts hi mf
      [(12, [(10, evs)])] calls := by
  obtain ⟨pts, hpts⟩ := Option.ne_none_iff_exists'.1 hp
  have hr : heightRange 10 11 = [10, 11] := by decide
  rw [h.eq]
  constructor <;>
  simp [processHeadChangeEvent, revertTipSets, applyTipSets, applyTipSet, checkStateChanges,
    checkStateChange, GoMap.keys, orderBy, insertBy, GoMap.get, GoMap.set, hok, herr,
    queueStateChanges, logErrors, hts, checkNewCalls_noMatchers,
    hpts, queueNewCalls, applyHeights, hlast, hr, setLastTS, applyWithConfidence, applyTimeouts]

theorem ite_logErrors (c : Prop) [Decidable c] (l : List LogMsg) (e : hcEvents) :
    (if c then logErrors l e else e) = logErrors (if c then l else []) e := by
  split
  · rfl
  · rw [logErrors_nil]

theorem applyTimeouts_none {env : Env} {ts : TipSet} {e : hcEvents}
    (h : e.timeouts.get ts.height = none) : applyTimeouts env ts e = e := by
  simp [applyTimeouts, h]

theorem applyWithConfidence_none {env : Env} {ts : TipSet} {height : ChainEpoch}
    {e : hcEvents} (h : e.confQueue.get height = none) :
    applyWithConfidence env ts height e = e := by
  simp [applyWithConfidence, h]

theorem applyWithConfidence_single {env : Env} {ts : TipSet} {height origH : ChainEpoch}
    {evs : List queuedEvent} {e : hcEvents} (h : e.confQueue.get height = some [(origH, evs)]) :
    applyWithConfidence env ts height e = applyGroup env ts height origH evs.length e := by
  simp [applyWithConfidence, h, GoMap.keys, orderBy, insertBy, GoMap.get]

theorem applyGroup_one (env : Env) (ts : TipSet) (height origH : ChainEpoch) (e : hcEvents) :
    applyGroup env ts height origH 1 e =
      applyEvent env ts height origH (env.tscGet origH) 0
        (logErrors (if (env.tscGet origH).isNone = true then
          [LogMsg.applyNoTipset origH height] else []) e) := by
  simp [applyGroup, ite_logErrors, List.range_succ]

/-- The state after a handler invocation of `applyWithConfidence` that returns without
error, for an event with a previous tipset that the cache resolves. -/
theorem applyEvent_success {env : Env} {head : TipSet} {height origH : ChainEpoch}
    {tTS : Option TipSet} {i : Nat} {e : hcEvents} {evs : List queuedEvent}
    {event : queuedEvent} {trigger : handlerInfo} {p : TipSet}
    (hev : eventsAt e height origH = some evs) (hi : evs[i]? = some event)
    (hc : event.called = false) (htr : e.triggers.get event.trigger = some trigger)
    (hdis : trigger.disabled = false) (hprev : event.prevH ≠ NoHeight)
    (hp : env.tscGet event.prevH = some p)
    (hres : (trigger.handle e.calls event.data (some p) tTS height).err = false) :
    applyEvent env head height origH tTS i e =
      setDisabled event.trigger trigger
        (!(trigger.handle e.calls event.data (some p) tTS height).more)
        (bumpTimeout trigger.timeout event.trigger
          (markCalled height origH i
            (recordCall (Call.apply head event (some p) tTS height
              (trigger.handle e.calls event.data (some p) tTS height)) e))) := by
  simp [applyEvent, hev, hi, hc, htr, hdis, hprev, hp, hres]

/-- The apply of a tipset that no matcher matches. -/
theorem applyTipSet_noMatch {env : Env} {ts : TipSet} {e : hcEvents}
    {mf : StateMatchFunc} (hs : e.stateMatchers = [(0, mf)]) (hm : e.msgMatchers = [])
    (hok : (mf e.lastTS ts).ok = false) (herr : (mf e.lastTS ts).err = false) :
    ∃ l, (env.chainGetTipSet ts.parents = none ∧ applyTipSet env ts e = (logErrors l e, true)) ∨
      (env.chainGetTipSet ts.parents ≠ none ∧
        applyTipSet env ts e = (setLastTS ts (applyHeights env ts (logErrors l e)), false)) := by
  have hsc : checkStateChanges env e.lastTS ts e = ([], []) := by
    simp [checkStateChanges, checkStateChange, hs, GoMap.keys, orderBy, insertBy, GoMap.get,
      hok, herr]
  have hq : ∀ e0 : hcEvents, queueStateChanges env ts [] e0 = e0 := by
    intro e0; simp [queueStateChanges, GoMap.keys, orderBy]
  have hn : ∀ e0 : hcEvents, queueNewCalls env ts [] e0 = e0 := by
    intro e0; simp [queueNewCalls, GoMap.keys, orderBy]
  have hnc := checkNewCalls_noMatchers env ts (logErrors [] e) hm
  refine ⟨(checkNewCalls env ts (logErrors [] e)).2, ?_⟩
  cases hpts : env.chainGetTipSet ts.parents with
  | none =>
    left
    rw [hpts] at hnc
    refine ⟨rfl, ?_⟩
    simp only [applyTipSet, hsc, hq, hnc, Option.map_none']
    rw [logErrors_nil]
  | some pts =>
    right
    rw [hpts] at hnc
    refine ⟨by simp, ?_⟩
    simp only [applyTipSet, hsc, hq, hnc, hn, Option.map_some']
    rw [logErrors_nil]

/-- The state after the apply of a tipset that no matcher matches, when the chain store
resolves its parent. -/
theorem processHeadChangeEvent_noMatch {env : Env} {ts : TipSet} {e : hcEvents}
    {mf : StateMatchFunc} (hs : e.stateMatchers = [(0, mf)]) (hm : e.msgMatchers = [])
    (hok : (mf e.lastTS ts).ok = false) (herr : (mf e.lastTS ts).err = false)
    (hp : env.chainGetTipSet ts.parents ≠ none) :
    ∃ l, (processHeadChangeEvent env [] [ts] e).1 =
      setLastTS ts (applyHeights env ts (logErrors l e)) := by
  obtain ⟨l, ⟨h1, _⟩ | ⟨_, h2⟩⟩ := applyTipSet_noMatch hs hm hok herr
  · exact absurd h1 hp
  · exact ⟨l, by simp [processHeadChangeEvent, revertTipSets, applyTipSets, h2]⟩

theorem applyHeights_two {env : Env} {ts : TipSet} {e : hcEvents} {a : ChainEpoch}
    (hl : e.lastTS.height = a) (ht : ts.height = a + 1) :
    applyHeights env ts e =
      applyTimeouts env ts (applyWithConfidence env ts (a + 1)
        (applyTimeouts env ts (applyWithConfidence env ts a e))) := by
  have hr : heightRange a (a + 1) = [a, a + 1] := by
    have : (a + 1 - a + 1).toNat = 2 := by
      have : a + 1 - a + 1 = 2 := by ring
      rw [this]; rfl
    simp [heightRange, this, List.range_succ]
  simp [applyHeights, hl, ht, hr]

theorem stage_fire (env : Env) (e : hcEvents) (last ts : TipSet) (hi : handlerInfo)
    (mf : StateMatchFunc) (calls : List Call) (d : Option eventData) (p : TipSet)
    (h : SingleTrigger e last hi mf
      [(12, [(10, [{ trigger := 0, prevH := 9, h := 10, data := d, called := false }])])] calls)
    (hlast : last.height = 11) (hts : ts.height = 12) (hdis : hi.disabled = false)
    (hto : hi.timeout = wrap64 (NoTimeout + 2))
    (hok : (mf last ts).ok = false) (herr : (mf last ts).err = false)
    (hp : env.chainGetTipSet ts.parents ≠ none) (hprev : env.tscGet 9 = some p)
    (hres : (hi.handle calls d (some p) (env.tscGet 10) 12).err = false) :
    SingleTrigger (processHeadChangeEvent env [] [ts] e).1 ts
      { hi with disabled := !(hi.handle calls d (some p) (env.tscGet 10) 12).more } mf
      [(12, [(10, [{ trigger := 0, prevH := 9, h := 10, data := d, called := true }])])]
      (calls ++ [Call.apply ts { trigger := 0, prevH := 9, h := 10, data := d, called := false }
        (some p) (env.tscGet 10) 12 (hi.handle calls d (some p) (env.tscGet 10) 12)]) := by
  obtain ⟨l, hl⟩ := processHeadChangeEvent_noMatch h.stateMatchers h.msgMatchers
    (by rw [h.lastTS]; exact hok) (by rw [h.lastTS]; exact herr) hp
  rw [hl]
  have hts' : ts.height = 11 + 1 := by rw [hts]; rfl
  have hl11 : (logErrors l e).lastTS.height = 11 := by
    show e.lastTS.height = 11
    rw [h.lastTS]; exact hlast
  rw [applyHeights_two hl11 hts']
  have hto0 : ∀ e0 : hcEvents, e0.timeouts = [] → applyTimeouts env ts e0 = e0 :=
    fun e0 h0 => applyTimeouts_none (by rw [h0]; rfl)
  have hq11 : (logErrors l e).confQueue.get 11 = none := by
    show e.confQueue.get 11 = none
    rw [h.confQueue]; simp [GoMap.get]
  rw [applyWithConfidence_none hq11, hto0 (logErrors l e) h.timeouts]
  have hq12 : (logErrors l e).confQueue.get (11 + 1) =
      some [(10, [{ trigger := 0, prevH := 9, h := 10, data := d, called := false }])] := by
    show e.confQueue.get (11 + 1) = _
    rw [h.confQueue]; simp [GoMap.get]
  rw [applyWithConfidence_single hq12]
  simp only [List.length_singleton, applyGroup_one]
  have hn : (9 : ChainEpoch) ≠ NoHeight := by decide
  have hev : eventsAt (logErrors (if (env.tscGet 10).isNone = true then
      [LogMsg.applyNoTipset 10 (11 + 1)] else []) (logErrors l e)) (11 + 1) 10 =
      some [{ trigger := 0, prevH := 9, h := 10, data := d, called := false }] := by
    show (e.confQueue.get (11 + 1)).bind (fun m => m.get 10) = _
    rw [h.confQueue]; simp [GoMap.get]
  have htr : (logErrors (if (env.tscGet 10).isNone = true then
      [LogMsg.applyNoTipset 10 (11 + 1)] else []) (logErrors l e)).triggers.get
      ({ trigger := 0, prevH := 9, h := 10, data := d, called := false } : queuedEvent).trigger
      = some hi := by
    show e.triggers.get 0 = some hi
    rw [h.triggers]; simp [GoMap.get]
  have hcalls : (logErrors (if (env.tscGet 10).isNone = true then
      [LogMsg.applyNoTipset 10 (11 + 1)] else []) (logErrors l e)).calls = calls := h.calls
  have h12 : (11 + 1 : ChainEpoch) = 12 := by decide
  rw [applyEvent_success hev (by simp) rfl htr hdis hn hprev
    (by rw [hcalls, h12]; exact hres)]
  rw [hcalls, h12]
  rw [hto0 _ (by
    rw [h.eq]
    simp [setDisabled, bumpTimeout, markCalled, recordCall, logErrors, GoMap.get, GoMap.set])]
  rw [h.eq]
  constructor <;>
  simp [setLastTS, setDisabled, bumpTimeout, markCalled, recordCall, logErrors, GoMap.get,
    GoMap.set, setCalled, hto]

theorem settled_fireInv (mf : StateMatchFunc) (calls : List Call) :
    FireInv (Settled mf calls) where
  log := fun _ _ h => h
  apply := by
    intro env head height origH tTS i e _ h
    rcases applyEvent_cases env head height origH tTS i e with
      h0 | h0 | ⟨l, h0⟩ | ⟨evs, event, trigger, prevTS, hevs, hi, hcalled, _, _, _⟩
    · rw [h0]; exact h
    · rw [h0]; exact h
    · rw [h0]; exact h
    · have := h.2.2.2.2 _ _ evs event hevs (List.getElem?_mem hi)
      rw [hcalled] at this
      cases this
  timeout := by
    intro env ts tid e h
    rcases applyTimeout_cases env ts tid e with
      h0 | h0 | ⟨trigger, l, hcalls, _, _, _⟩
    · rw [h0]; exact h
    · rw [h0]; exact h
    · simp [callsAt, h.1, GoMap.get] at hcalls

theorem settled_applyTipSets (env : Env) (mf : StateMatchFunc) (calls : List Call)
    (hmf : ∀ old new, (mf old new).err = false ∧ ((mf old new).ok = true ↔ new.height = 10))
    (app : List TipSet) (happ : ∀ ts ∈ app, 12 < ts.height) :
    ∀ e, Settled mf calls e → Settled mf calls (applyTipSets env app e).1 := by
  induction app with
  | nil => intro e h; exact h
  | cons ts rest ih =>
    intro e h
    have hts : ts.height ≠ 10 := by
      intro hc
      have := happ ts (List.mem_cons_self _ _)
      rw [hc] at this
      exact absurd this (by decide)
    have hok : (mf e.lastTS ts).ok = false := by
      cases hc : (mf e.lastTS ts).ok with
      | false => rfl
      | true => exact absurd ((hmf e.lastTS ts).2.1 hc) hts
    obtain ⟨l, ⟨_, h1⟩ | ⟨_, h2⟩⟩ := applyTipSet_noMatch h.2.1 h.2.2.1 hok (hmf e.lastTS ts).1
    · unfold applyTipSets
      rw [h1]
      exact h
    · unfold applyTipSets
      rw [h2]
      refine ih (fun t ht => happ t (List.mem_cons_of_mem _ ht)) _ ?_
      have : Settled mf calls (applyHeights env ts (logErrors l e)) :=
        (settled_fireInv mf calls).applyHeights env ts _ h
      exact this

theorem settled_run (mf : StateMatchFunc) (calls : List Call)
    (hmf : ∀ old new, (mf old new).err = false ∧ ((mf old new).ok = true ↔ new.height = 10))
    (further : List (Env × List TipSet))
    (hf : ∀ x ∈ further, ∀ ts ∈ x.2, 12 < ts.height) :
    ∀ e, Settled mf calls e →
      Settled mf calls (run e (further.map (fun x => Op.headChange x.1 [] x.2))) := by
  induction further with
  | nil => intro e h; exact h
  | cons x rest ih =>
    intro e h
    simp only [List.map_cons, run, List.foldl_cons]
    refine ih (fun y hy => hf y (List.mem_cons_of_mem _ hy)) _ ?_
    simp only [step, processHeadChangeEvent, revertTipSets, List.foldl_nil]
    exact settled_applyTipSets x.1 mf calls hmf x.2 (hf x (List.mem_cons_self _ _)) e h

/-- C3: a trigger registered through `StateChanged` with confidence 2 and no timeout,
enabled, whose matcher matches exactly the tipsets of height 10 and whose handler returns
without error; the head is at height 9 and tipsets of heights 10, 11 and 12 are applied
one after another (the chain store resolves their parents and the cache still holds
height 9 when height 12 is applied).  The handler is not invoked during the applies of 10
and 11, it is invoked exactly once during the apply of 12, with `curH = 12`, and applying
any further tipsets above height 12 invokes nothing more. -/
theorem confidence_scenario (env0 env1 env2 env3 : Env) (check : CheckFunc)
    (hnd : EventHandler) (rev : RevertHandler) (mf : StateMatchFunc)
    (best ts9 ts10 ts11 ts12 : TipSet)
    (h9 : ts9.height = 9) (h10 : ts10.height = 10) (h11 : ts11.height = 11)
    (h12 : ts12.height = 12)
    (hbest : env0.tscBest = some best)
    (hcheck : (check [] best).err = false) (hmore : (check [] best).more = true)
    (hmf : ∀ old new, (mf old new).err = false ∧ ((mf old new).ok = true ↔ new.height = 10))
    (hhnd : ∀ tr d p t c, (hnd tr d p t c).err = false)
    (hp1 : env1.chainGetTipSet ts10.parents ≠ none)
    (hp2 : env2.chainGetTipSet ts11.parents ≠ none)
    (hp3 : env3.chainGetTipSet ts12.parents ≠ none)
    (hprev : env3.tscGet 9 ≠ none) :
    let e1 := (StateChanged env0 check hnd rev 2 NoTimeout mf (newHCEvents ts9)).1
    let e2 := (processHeadChangeEvent env1 [] [ts10] e1).1
    let e3 := (processHeadChangeEvent env2 [] [ts11] e2).1
    let e4 := (processHeadChangeEvent env3 [] [ts12] e3).1
    e2.calls = [] ∧ e3.calls = [] ∧
    e4.calls = [Call.apply ts12
      { trigger := 0, prevH := 9, h := 10, data := (mf ts9 ts10).data, called := false }
      (env3.tscGet 9) (env3.tscGet 10) 12
      (hnd [] (mf ts9 ts10).data (env3.tscGet 9) (env3.tscGet 10) 12)] ∧
    ∀ further : List (Env × List TipSet), (∀ x ∈ further, ∀ ts ∈ x.2, 12 < ts.height) →
      (run e4 (further.map (fun x => Op.headChange x.1 [] x.2))).calls = e4.calls := by
  intro e1 e2 e3 e4
  obtain ⟨p, hp⟩ := Option.ne_none_iff_exists'.1 hprev
  have hno : ∀ old new : TipSet, new.height ≠ 10 → (mf old new).ok = false := by
    intro old new hne
    cases hc : (mf old new).ok with
    | false => rfl
    | true => exact absurd ((hmf old new).2.1 hc) hne
  have s1 : SingleTrigger e1 ts9
      { confidence := 2, timeout := wrap64 (NoTimeout + 2), disabled := false, handle := hnd,
        revert := rev } mf [] [] := by
    constructor <;>
    simp [e1, StateChanged, onHeadChanged, hbest, newHCEvents, hcheck, hmore, addTrigger,
      setStateMatcher, GoMap.set]
  have s2 := stage_match env1 e1 ts9 ts10 _ mf [] s1 h9 h10 rfl
    ((hmf ts9 ts10).2.2 h10) (hmf ts9 ts10).1 hp1
  have hev : newEvent 0 (mf ts9 ts10).data (some ts9) ts10 =
      { trigger := 0, prevH := 9, h := 10, data := (mf ts9 ts10).data, called := false } := by
    simp [newEvent, h9, h10]
  rw [hev] at s2
  have s3 := stage_wait env2 e2 ts10 ts11 _ mf [] _ s2 h10 h11
    (hno _ _ (by rw [h11]; decide)) (hmf ts10 ts11).1 hp2
  have s4 := stage_fire env3 e3 ts11 ts12 _ mf [] (mf ts9 ts10).data p s3 h11 h12 rfl rfl
    (hno _ _ (by rw [h12]; decide)) (hmf ts11 ts12).1 hp3 hp (hhnd _ _ _ _ _)
  rw [← hp] at s4
  refine ⟨s2.calls, s3.calls, s4.calls, fun further hf => ?_⟩
  have hset : Settled mf e4.calls e4 := by
    refine ⟨s4.timeouts, s4.stateMatchers, s4.msgMatchers, rfl, ?_⟩
    intro tH mH evs ev hevs hmem
    have hq : e4.confQueue = _ := s4.confQueue
    simp only [eventsAt, hq, GoMap.get] at hevs
    split at hevs
    · simp only [Option.some_bind, GoMap.get] at hevs
      split at hevs
      · simp only [Option.some.injEq] at hevs
        subst hevs
        simp only [List.mem_singleton] at hmem
        rw [hmem]
      · cases hevs
    · cases hevs
  exact (settled_run mf e4.calls hmf further hf e4 hset).2.2.2.1

/-- C3 (witness): the scenario with the tipsets of heights 9 to 12 of the fixtures. -/
theorem confidence_scenario_witness :
    let e1 := (StateChanged scenarioEnv (checkConst false true) (handlerOk true) revertOk 2
      NoTimeout matchHeight10 (newHCEvents (tipsetAt 9))).1
    let e2 := (processHeadChangeEvent scenarioEnv [] [tipsetAt 10] e1).1
    let e3 := (processHeadChangeEvent scenarioEnv [] [tipsetAt 11] e2).1
    let e4 := (processHeadChangeEvent scenarioEnv [] [tipsetAt 12] e3).1
    e2.calls = [] ∧ e3.calls = [] ∧
    e4.calls = [Call.apply (tipsetAt 12)
      { trigger := 0, prevH := 9, h := 10,
        data := (matchHeight10 (tipsetAt 9) (tipsetAt 10)).data, called := false }
      (scenarioEnv.tscGet 9) (scenarioEnv.tscGet 10) 12
      (handlerOk true [] (matchHeight10 (tipsetAt 9) (tipsetAt 10)).data (scenarioEnv.tscGet 9)
        (scenarioEnv.tscGet 10) 12)] ∧
    ∀ further : List (Env × List TipSet), (∀ x ∈ further, ∀ ts ∈ x.2, 12 < ts.height) →
      (run e4 (further.map (fun x => Op.headChange x.1 [] x.2))).calls = e4.calls :=
  confidence_scenario scenarioEnv scenarioEnv scenarioEnv scenarioEnv (checkConst false true)
    (handlerOk true) revertOk matchHeight10 (tipsetAt 0) (tipsetAt 9) (tipsetAt 10)
    (tipsetAt 11) (tipsetAt 12) rfl rfl rfl rfl rfl rfl rfl
    (fun _ newTs => ⟨rfl, by simp [matchHeight10]⟩) (fun _ _ _ _ _ => rfl)
    (by simp [scenarioEnv]) (by simp [scenarioEnv]) (by simp [scenarioEnv])
    (by simp [scenarioEnv])

/-- While tipset 21 is applied, the iteration of the height loop for height 20 already
delivers the timeout scheduled at height 21 (`applyTimeouts` reads `timeouts[ts.Height()]`),
before the iteration for height 21 delivers the event. -/
theorem timeout_delivered_before_event :
    (run (newHCEvents (tipsetAt 19)) eventAtTimeoutRun).calls =
      [Call.timeout (tipsetAt 21) 0 (some (tipsetAt 20)) 21 { more := true, err := false },
       Call.apply (tipsetAt 21)
        { trigger := 0, prevH := NoHeight, h := 20,
          data := some (eventData.msg { cid := 19 }), called := false }
        none (some (tipsetAt 20)) 21 { more := true, err := false }] := by
  decide

/-! ## Failing reads of the cache and of the chain store (C11, C12) -/

theorem queueStateChanges_fields (env : Env) (ts : TipSet)
    (sc : GoMap triggerID (Option eventData)) (e : hcEvents) :
    (queueStateChanges env ts sc e).calls = e.calls ∧
    (queueStateChanges env ts sc e).lastTS = e.lastTS := by
  unfold queueStateChanges
  generalize orderBy env.rankT sc.keys = l
  induction l generalizing e with
  | nil => exact ⟨rfl, rfl⟩
  | cons tid l ih =>
    rw [List.foldl_cons]
    refine ⟨(ih _).1.trans ?_, (ih _).2.trans ?_⟩
    · cases sc.get tid with
      | none => rfl
      | some data =>
        show (queueForConfidence tid data (some e.lastTS) ts e).calls = e.calls
        unfold queueForConfidence
        split <;> simp [panic]
    · cases sc.get tid with
      | none => rfl
      | some data =>
        show (queueForConfidence tid data (some e.lastTS) ts e).lastTS = e.lastTS
        unfold queueForConfidence
        split <;> simp [panic]

theorem queueNewCalls_calls (env : Env) (ts : TipSet)
    (nc : GoMap triggerID (List eventData)) (e : hcEvents) :
    (queueNewCalls env ts nc e).calls = e.calls := by
  unfold queueNewCalls
  generalize orderBy env.rankT nc.keys = l
  induction l generalizing e with
  | nil => rfl
  | cons tid l ih =>
    rw [List.foldl_cons]
    refine (ih _).trans ?_
    generalize (nc.get tid).getD [] = ds
    induction ds generalizing e with
    | nil => rfl
    | cons d ds ihd =>
      rw [List.foldl_cons]
      refine (ihd _).trans ?_
      unfold queueForConfidence
      split <;> simp [panic]

/-- A tipset whose parent tipset cannot be read is not applied: `checkNewCalls` returns
the error, no callback is invoked and `lastTS` keeps its value. -/
theorem applyTipSet_parentFailed {env : Env} {ts : TipSet}
    (h : env.chainGetTipSet ts.parents = none) (e : hcEvents) :
    (applyTipSet env ts e).2 = true ∧ (applyTipSet env ts e).1.lastTS = e.lastTS ∧
      (applyTipSet env ts e).1.calls = e.calls := by
  have hq := queueStateChanges_fields env ts (checkStateChanges env e.lastTS ts e).1
    (logErrors (checkStateChanges env e.lastTS ts e).2 e)
  refine ⟨?_, ?_, ?_⟩
  · simp only [applyTipSet, checkNewCalls, h]
  · simp only [applyTipSet, checkNewCalls, h]
    exact hq.2
  · simp only [applyTipSet, checkNewCalls, h]
    exact hq.1

/-- A tipset whose parent tipset can be read is applied, whatever the reads of the block
messages return: the height loop runs and `lastTS` is set. -/
theorem applyTipSet_parentRead {env : Env} {ts : TipSet}
    (h : env.chainGetTipSet ts.parents ≠ none) (e : hcEvents) :
    ∃ e4, e4.calls = e.calls ∧
      applyTipSet env ts e = (setLastTS ts (applyHeights env ts e4), false) := by
  cases hp : env.chainGetTipSet ts.parents with
  | none => exact absurd hp h
  | some pts =>
    have hq := queueStateChanges_fields env ts (checkStateChanges env e.lastTS ts e).1
      (logErrors (checkStateChanges env e.lastTS ts e).2 e)
    have hn := queueNewCalls_calls env ts (checkNewCalls env ts
      (queueStateChanges env ts (checkStateChanges env e.lastTS ts e).1
        (logErrors (checkStateChanges env e.lastTS ts e).2 e))).1.get!
      (logErrors (checkNewCalls env ts
        (queueStateChanges env ts (checkStateChanges env e.lastTS ts e).1
          (logErrors (checkStateChanges env e.lastTS ts e).2 e))).2
        (queueStateChanges env ts (checkStateChanges env e.lastTS ts e).1
          (logErrors (checkStateChanges env e.lastTS ts e).2 e)))
    refine ⟨_, hn.trans hq.1, ?_⟩
    simp only [applyTipSet, checkNewCalls, hp, Option.get!]

theorem applyTipSets_allRead {env : Env} {app : List TipSet}
    (h : ∀ t ∈ app, env.chainGetTipSet t.parents ≠ none) (e : hcEvents) :
    (applyTipSets env app e).2 = false := by
  induction app generalizing e with
  | nil => rfl
  | cons t app ih =>
    obtain ⟨e4, -, h4⟩ := applyTipSet_parentRead (h t (List.mem_cons_self _ _)) e
    simp only [applyTipSets, h4]
    exact ih (fun t ht => h t (List.mem_cons_of_mem _ ht)) _

theorem applyTipSets_append {env : Env} (pre rest : List TipSet) (e : hcEvents)
    (h : (applyTipSets env pre e).2 = false) :
    applyTipSets env (pre ++ rest) e = applyTipSets env rest (applyTipSets env pre e).1 := by
  induction pre generalizing e with
  | nil => rfl
  | cons t pre ih =>
    simp only [List.cons_append, applyTipSets] at h ⊢
    cases ht : applyTipSet env t e with
    | mk e1 b =>
      cases b with
      | true => rw [ht] at h; simp at h
      | false =>
        rw [ht] at h
        simpa using ih e1 h

theorem applyTipSets_failFirst {env : Env} {ts : TipSet}
    (h : env.chainGetTipSet ts.parents = none) (rest : List TipSet) (e : hcEvents) :
    applyTipSets env (ts :: rest) e = ((applyTipSet env ts e).1, true) := by
  have h2 := (applyTipSet_parentFailed h e).1
  cases ht : applyTipSet env ts e with
  | mk e1 b =>
    rw [ht] at h2
    simp only at h2
    subst h2
    simp [applyTipSets, ht]

/-- C11 (failing input).  A trigger registered through `StateChanged`, whose handler
closure passes the trigger tipset on as it is.  The tipset cache has lost the tipset of
height 10 when the event of height 10 reaches its confidence at height 12: the miss is
only logged, the handler is still invoked, with a nil `triggerTS`; the event becomes
called and the timeout counter of its trigger is incremented. -/
theorem handler_invoked_without_trigger_tipset :
    missingTipsetEnv.tscGet 10 = none ∧
    (run (newHCEvents (tipsetAt 9)) missingTipsetRun).calls =
      [Call.apply (tipsetAt 12)
        { trigger := 0, prevH := 9, h := 10, data := some (eventData.state 0),
          called := false }
        (some (tipsetAt 9)) none 12 { more := true, err := false }] ∧
    eventsAt (run (newHCEvents (tipsetAt 9)) (missingTipsetRun.take 3)) 12 10 =
      some [{ trigger := 0, prevH := 9, h := 10, data := some (eventData.state 0),
              called := false }] ∧
    eventsAt (run (newHCEvents (tipsetAt 9)) missingTipsetRun) 12 10 =
      some [{ trigger := 0, prevH := 9, h := 10, data := some (eventData.state 0),
              called := true }] ∧
    callsAt (run (newHCEvents (tipsetAt 9)) (missingTipsetRun.take 3)) 22 0 = some 0 ∧
    callsAt (run (newHCEvents (tipsetAt 9)) missingTipsetRun) 22 0 = some 1 ∧
    (run (newHCEvents (tipsetAt 9)) missingTipsetRun).errlog = [LogMsg.applyNoTipset 10 12] := by
  decide

/-- C12 (counterexample).  The event of tipset 10 waits for height 11.  Tipsets 11 and 12
are applied in one batch while `ChainGetTipSet` fails for the parents of tipset 11:
`processHeadChangeEvent` returns the error, the handler is not invoked, `lastTS` is still
tipset 10 and tipset 12 is not processed.  With a working chain store the same batch
invokes the handler and ends at tipset 12. -/
theorem parent_read_failure_is_surfaced :
    let e := run (newHCEvents (tipsetAt 9)) queuedForElevenRun
    let env : Env := { scenarioEnv with chainGetTipSet := fun _ => none }
    (processHeadChangeEvent env [] [tipsetAt 11, tipsetAt 12] e).2 = true ∧
    (processHeadChangeEvent env [] [tipsetAt 11, tipsetAt 12] e).1.calls = [] ∧
    (processHeadChangeEvent env [] [tipsetAt 11, tipsetAt 12] e).1.lastTS = tipsetAt 10 ∧
    (processHeadChangeEvent scenarioEnv [] [tipsetAt 11, tipsetAt 12] e).2 = false ∧
    (processHeadChangeEvent scenarioEnv [] [tipsetAt 11, tipsetAt 12] e).1.calls.length = 1 ∧
    (processHeadChangeEvent scenarioEnv [] [tipsetAt 11, tipsetAt 12] e).1.lastTS =
      tipsetAt 12 := by
  decide

/-- C12 (amended).  Failing reads of block messages never stop the dispatcher, failing
reads of a parent tipset do.  Whatever `ChainGetBlockMessages` returns: every applied
tipset whose parent tipset can be read gets its height loop and becomes `lastTS`, and a
batch of such tipsets returns nil; at the first applied tipset whose parent tipset cannot
be read `processHeadChangeEvent` returns the error, having invoked no callback for that
tipset and with `lastTS` unchanged by it, and the rest of the batch is not processed. -/
theorem parent_read_failure_stops_the_batch (env : Env) (rev pre rest : List TipSet)
    (ts : TipSet) (e : hcEvents)
    (hpre : ∀ t ∈ pre, env.chainGetTipSet t.parents ≠ none)
    (hts : env.chainGetTipSet ts.parents = none) :
    (∀ t ∈ pre, ∀ e0 : hcEvents, ∃ e4, e4.calls = e0.calls ∧
      applyTipSet env t e0 = (setLastTS t (applyHeights env t e4), false)) ∧
    (processHeadChangeEvent env rev pre e).2 = false ∧
    (processHeadChangeEvent env rev (pre ++ ts :: rest) e).2 = true ∧
    (processHeadChangeEvent env rev (pre ++ ts :: rest) e).1 =
      (applyTipSet env ts (processHeadChangeEvent env rev pre e).1).1 ∧
    (processHeadChangeEvent env rev (pre ++ ts :: rest) e).1.lastTS =
      (processHeadChangeEvent env rev pre e).1.lastTS ∧
    (processHeadChangeEvent env rev (pre ++ ts :: rest) e).1.calls =
      (processHeadChangeEvent env rev pre e).1.calls := by
  have hok := applyTipSets_allRead hpre (revertTipSets rev e)
  have happ := applyTipSets_append pre (ts :: rest) (revertTipSets rev e) hok
  have hfail := applyTipSets_failFirst hts rest (applyTipSets env pre (revertTipSets rev e)).1
  have hf := applyTipSet_parentFailed hts (applyTipSets env pre (revertTipSets rev e)).1
  refine ⟨fun t ht e0 => applyTipSet_parentRead (hpre t ht) e0, hok, ?_, ?_, ?_, ?_⟩
  · simp only [processHeadChangeEvent, happ, hfail]
  · simp only [processHeadChangeEvent, happ, hfail]
  · simp only [processHeadChangeEvent, happ, hfail]
    exact hf.2.1
  · simp only [processHeadChangeEvent, happ, hfail]
    exact hf.2.2

theorem parent_read_failure_stops_the_batch_witness :
    (processHeadChangeEvent failingReadsEnv [] [tipsetAt 11] (newHCEvents (tipsetAt 10))).2
      = false ∧
    (processHeadChangeEvent failingReadsEnv [] ([tipsetAt 11] ++ tipsetAt 12 :: [tipsetAt 13])
      (newHCEvents (tipsetAt 10))).2 = true ∧
    (processHeadChangeEvent failingReadsEnv [] ([tipsetAt 11] ++ tipsetAt 12 :: [tipsetAt 13])
      (newHCEvents (tipsetAt 10))).1.lastTS = tipsetAt 11 :=
  have h := parent_read_failure_stops_the_batch failingReadsEnv [] [tipsetAt 11]
    [tipsetAt 13] (tipsetAt 12) (newHCEvents (tipsetAt 10)) (by decide) (by decide)
  ⟨h.2.1, h.2.2.1, h.2.2.2.2.1.trans (by decide)⟩

/-! ## The induction principle for restricted head changes -/

theorem HeadInv.confidenceLoop {E : Env → Prop} {A : TipSet → Prop} {P : hcEvents → Prop}
    (hP : HeadInv E A P) (env : Env) (ts : TipSet) (height : ChainEpoch) (hE : E env)
    (hA : A ts) (hh : height ≤ ts.height) (e : hcEvents) (he : P e) :
    P (applyWithConfidence env ts height e) := by
  unfold Events.applyWithConfidence
  split
  · exact he
  · refine foldl_preserves P _ _ (fun origH _ s hs => ?_) e he
    unfold applyGroup
    refine foldl_preserves P _ _ (fun i _ s hs => hP.apply _ _ _ _ _ _ _ hE hA hh hs) _ ?_
    split
    · exact hP.log _ _ hs
    · exact hs

theorem HeadInv.timeoutLoop {E : Env → Prop} {A : TipSet → Prop} {P : hcEvents → Prop}
    (hP : HeadInv E A P) (env : Env) (ts : TipSet) (hE : E env) (hA : A ts) (e : hcEvents)
    (he : P e) : P (applyTimeouts env ts e) := by
  unfold Events.applyTimeouts
  split
  · exact he
  · exact foldl_preserves P _ _ (fun tid _ s hs => hP.timeout _ _ _ _ hE hA hs) e he

theorem HeadInv.heightLoop {E : Env → Prop} {A : TipSet → Prop} {P : hcEvents → Prop}
    (hP : HeadInv E A P) (env : Env) (ts : TipSet) (hE : E env) (hA : A ts) (e : hcEvents)
    (he : P e) : P (applyHeights env ts e) := by
  unfold Events.applyHeights
  refine foldl_preserves P _ _ (fun atH hat s hs => ?_) e he
  exact hP.timeoutLoop env ts hE hA _
    (hP.confidenceLoop env ts atH hE hA (mem_heightRange hat).2 s hs)

theorem HeadInv.stateQueue {E : Env → Prop} {A : TipSet → Prop} {P : hcEvents → Prop}
    (hP : HeadInv E A P) (env : Env) (ts : TipSet) (hA : A ts)
    (sc : GoMap triggerID (Option eventData)) (e : hcEvents) (he : P e) :
    P (queueStateChanges env ts sc e) := by
  unfold Events.queueStateChanges
  refine foldl_preserves P _ _ (fun tid _ s hs => ?_) e he
  split
  · exact hs
  · exact hP.queue _ _ _ _ _ hA hs

theorem HeadInv.callQueue {E : Env → Prop} {A : TipSet → Prop} {P : hcEvents → Prop}
    (hP : HeadInv E A P) (env : Env) (ts : TipSet) (hA : A ts)
    (nc : GoMap triggerID (List eventData)) (e : hcEvents) (he : P e) :
    P (queueNewCalls env ts nc e) := by
  unfold Events.queueNewCalls
  refine foldl_preserves P _ _ (fun tid _ s hs => ?_) e he
  exact foldl_preserves P _ _ (fun d _ s hs => hP.queue _ _ _ _ _ hA hs) s hs

theorem HeadInv.tipset {E : Env → Prop} {A : TipSet → Prop} {P : hcEvents → Prop}
    (hP : HeadInv E A P) (env : Env) (ts : TipSet) (hE : E env) (hA : A ts) (e : hcEvents)
    (he : P e) : P (applyTipSet env ts e).1 := by
  unfold Events.applyTipSet
  have h2 := hP.stateQueue env ts hA (checkStateChanges env e.lastTS ts e).1 _
    (hP.log (checkStateChanges env e.lastTS ts e).2 e he)
  simp only
  split
  · exact hP.log _ _ h2
  · exact hP.last _ _ (hP.heightLoop _ _ hE hA _ (hP.callQueue _ _ hA _ _ (hP.log _ _ h2)))

theorem HeadInv.tipsets {E : Env → Prop} {A : TipSet → Prop} {P : hcEvents → Prop}
    (hP : HeadInv E A P) (env : Env) (hE : E env) (app : List TipSet) :
    (∀ t ∈ app, A t) → ∀ e, P e → P (applyTipSets env app e).1 := by
  induction app with
  | nil => intro _ e he; exact he
  | cons ts rest ih =>
    intro hA e he
    have h1 := hP.tipset env ts hE (hA ts (List.mem_cons_self _ _)) e he
    unfold Events.applyTipSets
    rcases hres : Events.applyTipSet env ts e with ⟨e1, b⟩
    rw [hres] at h1
    cases b
    · exact ih (fun t ht => hA t (List.mem_cons_of_mem _ ht)) e1 h1
    · exact h1

theorem HeadInv.reverts {E : Env → Prop} {A : TipSet → Prop} {P : hcEvents → Prop}
    (hP : HeadInv E A P) (rev : List TipSet) (e : hcEvents) (he : P e) :
    P (revertTipSets rev e) := by
  unfold Events.revertTipSets
  exact foldl_preserves P _ _ (fun ts _ s hs => hP.last _ _ (hP.revert _ _ hs)) e he

theorem HeadInv.headChange {E : Env → Prop} {A : TipSet → Prop} {P : hcEvents → Prop}
    (hP : HeadInv E A P) (env : Env) (rev app : List TipSet) (hE : E env)
    (hA : ∀ t ∈ app, A t) (e : hcEvents) (he : P e) :
    P (processHeadChangeEvent env rev app e).1 :=
  hP.tipsets env hE app hA _ (hP.reverts rev e he)

theorem RunInv.stepOn {E : Env → Prop} {A : TipSet → Prop} {P : hcEvents → Prop}
    (hP : RunInv E A P) (e : hcEvents) (op : Op) (hop : op.allowed E A) (he : P e) :
    P (step e op) := by
  cases op with
  | register env check hnd rev c t => exact hP.reg _ _ _ _ _ _ _ he
  | stateChanged env check hnd rev c t mf =>
    have h1 := hP.reg env check hnd rev c t e he
    simp only [Events.step, StateChanged]
    rcases hres : onHeadChanged env check hnd rev c t e with ⟨e1, _ | id⟩
    · rw [hres] at h1; exact h1
    · rw [hres] at h1; exact hP.stateMatcher _ _ _ h1
  | called env check hnd rev c t mf =>
    have h1 := hP.reg env check hnd rev c t e he
    simp only [Events.step, Called]
    rcases hres : onHeadChanged env check hnd rev c t e with ⟨e1, _ | id⟩
    · rw [hres] at h1; exact h1
    · rw [hres] at h1; exact hP.msgMatcher _ _ _ h1
  | headChange env rev app => exact hP.head.headChange env rev app hop.1 hop.2 e he

theorem RunInv.runOn {E : Env → Prop} {A : TipSet → Prop} {P : hcEvents → Prop}
    (hP : RunInv E A P) (ops : List Op) (hops : ∀ op ∈ ops, op.allowed E A) (e : hcEvents)
    (he : P e) : P (run e ops) :=
  foldl_preserves P _ _ (fun op hop s hs => hP.stepOn s op (hops op hop) hs) e he

/-! ## Registration (C30) -/

/-- A head change leaves the trigger counter as it is. -/
theorem ctr_headInv (n : triggerID) :
    HeadInv (fun _ => True) (fun _ => True) (fun e => e.ctr = n) where
  log := fun _ _ h => h
  last := fun _ _ h => h
  revert := fun ts e h => (handleReverts_effect ts e).1.trans h
  queue := fun tid data prev ts e _ h => (queueForConfidence_fields tid data prev ts e).1.trans h
  apply := by
    intro env head height origH tTS i e _ _ _ h
    rcases applyEvent_cases env head height origH tTS i e with h1 | h1 | ⟨l, h1⟩ |
      ⟨evs, event, trigger, prevTS, -, -, -, -, -, ⟨-, h1⟩ | ⟨-, h1⟩⟩
    · rw [h1]; exact h
    · rw [h1]; exact h
    · rw [h1]; exact h
    · rw [h1]; exact h
    · rw [h1]
      exact (applySuccess_fields height origH i _ event.trigger trigger _ e).1.trans h
  timeout := by
    intro env ts tid e _ _ h
    rcases applyTimeout_cases env ts tid e with h1 | h1 | ⟨trigger, l, -, -, -, ⟨-, h1⟩ | ⟨-, h1⟩⟩
    · rw [h1]; exact h
    · rw [h1]; exact h
    · rw [h1]; exact h
    · rw [h1]; exact h

/-- The outcomes of `onHeadChanged`. -/
theorem onHeadChanged_cases (env : Env) (check : CheckFunc) (hnd : EventHandler)
    (rev : RevertHandler) (c : Int) (t : ChainEpoch) (e : hcEvents) :
    ((env.tscBest = none ∨ ∃ ts, env.tscBest = some ts ∧ (check e.calls ts).err = true) ∧
      onHeadChanged env check hnd rev c t e = (e, none)) ∨
    ∃ ts, env.tscBest = some ts ∧ (check e.calls ts).err = false ∧
      onHeadChanged env check hnd rev c t e =
        (addTrigger hnd rev c (if (check e.calls ts).done then NoTimeout else t)
          (check e.calls ts).more e, some e.ctr) := by
  unfold onHeadChanged
  cases hb : env.tscBest with
  | none => exact Or.inl ⟨Or.inl rfl, rfl⟩
  | some ts =>
    cases herr : (check e.calls ts).err with
    | true => exact Or.inl ⟨Or.inr ⟨ts, rfl, herr⟩, by simp [herr]⟩
    | false => exact Or.inr ⟨ts, rfl, herr, by simp [herr]⟩

/-- A call of the interface advances the trigger counter by one when it returns a trigger
id, which is then the old value of the counter, and leaves it as it is otherwise. -/
theorem step_ctr (e : hcEvents) (op : Op) :
    (step e op).ctr = e.ctr + (op.registered e).toList.length ∧
    ∀ id ∈ (op.registered e).toList, id = e.ctr := by
  have hreg : ∀ (env : Env) (check : CheckFunc) (hnd : EventHandler) (rev : RevertHandler)
      (c : Int) (t : ChainEpoch),
      (onHeadChanged env check hnd rev c t e).1.ctr =
        e.ctr + (onHeadChanged env check hnd rev c t e).2.toList.length ∧
      ∀ id ∈ (onHeadChanged env check hnd rev c t e).2.toList, id = e.ctr := by
    intro env check hnd rev c t
    rcases onHeadChanged_cases env check hnd rev c t e with ⟨-, h⟩ | ⟨ts, -, -, h⟩
    · rw [h]
      simp
    · rw [h]
      exact ⟨by simp [(addTrigger_fields hnd rev c _ _ e).1], by simp⟩
  cases op with
  | register env check hnd rev c t => exact hreg env check hnd rev c t
  | stateChanged env check hnd rev c t mf =>
    have h := hreg env check hnd rev c t
    simp only [Events.step, StateChanged, Op.registered]
    rcases hres : onHeadChanged env check hnd rev c t e with ⟨e1, _ | id⟩
    · rw [hres] at h; exact h
    · rw [hres] at h; exact h
  | called env check hnd rev c t mf =>
    have h := hreg env check hnd rev c t
    simp only [Events.step, Called, Op.registered]
    rcases hres : onHeadChanged env check hnd rev c t e with ⟨e1, _ | id⟩
    · rw [hres] at h; exact h
    · rw [hres] at h; exact h
  | headChange env rev app =>
    exact ⟨by simpa [Op.registered] using
      (ctr_headInv e.ctr).headChange env rev app trivial (fun _ _ => trivial) e rfl,
      by simp [Op.registered]⟩

/-- The ids of successive successful registrations count up from the trigger counter. -/
theorem registeredIds_range (ops : List Op) :
    ∀ e : hcEvents, registeredIds e ops = List.range' e.ctr (registeredIds e ops).length ∧
      (run e ops).ctr = e.ctr + (registeredIds e ops).length := by
  induction ops with
  | nil => intro e; exact ⟨rfl, rfl⟩
  | cons op ops ih =>
    intro e
    obtain ⟨h1, h2⟩ := ih (step e op)
    obtain ⟨h3, h4⟩ := step_ctr e op
    have hrun : run e (op :: ops) = run (step e op) ops := rfl
    cases hr : op.registered e with
    | none =>
      rw [hr] at h3
      simp only [Option.toList, List.length_nil, Nat.add_zero] at h3
      simp only [registeredIds, hr, Option.toList, List.nil_append, hrun]
      rw [← h3]
      exact ⟨h1, h2⟩
    | some id =>
      rw [hr] at h3 h4
      simp only [Option.toList, List.length_singleton] at h3
      have hid : id = e.ctr := h4 id (by simp)
      simp only [registeredIds, hr, Option.toList, List.singleton_append, List.length_cons,
        hrun]
      refine ⟨?_, ?_⟩
      · rw [List.range'_succ, hid]
        congr 1
        rw [← h3]
        exact h1
      · rw [h2, h3, Nat.add_assoc, Nat.add_comm 1]

/-- C30.  In every state `e` the dispatcher reaches, `onHeadChanged` either fails (when
`tsc.best()` fails or the check returns an error) and then returns an error and leaves
the whole state as it is, or succeeds and then returns the current counter value as the
trigger id, increments the counter, stores the trigger under that id, which held no
trigger before, leaves every other trigger, the `confQueue`, the `revertQueue` and
`lastTS` unchanged.  The ids returned by the successful registrations of any sequence
of calls are the consecutive values of the counter, 0, 1, 2, ... when counted from the
start. -/
theorem registration_is_atomic_and_ids_are_fresh (head : TipSet) (ops0 ops : List Op)
    (e : hcEvents) (he : e = run (newHCEvents head) ops0) (env : Env) (check : CheckFunc)
    (hnd : EventHandler) (rev : RevertHandler) (c : Int) (t : ChainEpoch) :
    ((env.tscBest = none ∨ ∃ ts, env.tscBest = some ts ∧ (check e.calls ts).err = true) →
      onHeadChanged env check hnd rev c t e = (e, none)) ∧
    (∀ ts, env.tscBest = some ts → (check e.calls ts).err = false →
      (onHeadChanged env check hnd rev c t e).2 = some e.ctr ∧
      (onHeadChanged env check hnd rev c t e).1.ctr = e.ctr + 1 ∧
      e.triggers.get e.ctr = none ∧
      (∃ hi, (onHeadChanged env check hnd rev c t e).1.triggers.get e.ctr = some hi) ∧
      (∀ id, id ≠ e.ctr →
        (onHeadChanged env check hnd rev c t e).1.triggers.get id = e.triggers.get id) ∧
      (onHeadChanged env check hnd rev c t e).1.confQueue = e.confQueue ∧
      (onHeadChanged env check hnd rev c t e).1.revertQueue = e.revertQueue ∧
      (onHeadChanged env check hnd rev c t e).1.lastTS = e.lastTS) ∧
    registeredIds e ops = List.range' e.ctr (registeredIds e ops).length ∧
    (run e ops).ctr = e.ctr + (registeredIds e ops).length ∧
    registeredIds (newHCEvents head) ops0 =
      List.range (registeredIds (newHCEvents head) ops0).length := by
  have hinv : Inv e := he ▸ inv_run head ops0
  refine ⟨?_, ?_, (registeredIds_range ops e).1, (registeredIds_range ops e).2, ?_⟩
  · intro hfail
    rcases onHeadChanged_cases env check hnd rev c t e with ⟨-, h⟩ | ⟨ts, hb, herr, -⟩
    · exact h
    · rcases hfail with h1 | ⟨ts1, h1, h2⟩
      · rw [h1] at hb
        exact absurd hb (by simp)
      · rw [h1] at hb
        simp only [Option.some.injEq] at hb
        subst hb
        rw [h2] at herr
        exact absurd herr (by simp)
  · intro ts hb herr
    rcases onHeadChanged_cases env check hnd rev c t e with ⟨h1, -⟩ | ⟨ts1, hb1, -, h⟩
    · rcases h1 with h1 | ⟨ts1, h1, h2⟩
      · rw [h1] at hb
        exact absurd hb (by simp)
      · rw [h1] at hb
        simp only [Option.some.injEq] at hb
        subst hb
        rw [h2] at herr
        exact absurd herr (by simp)
    · rw [h]
      have hf := addTrigger_fields hnd rev c
        (if (check e.calls ts1).done then NoTimeout else t) (check e.calls ts1).more e
      have ht := addTrigger_triggers hnd rev c
        (if (check e.calls ts1).done then NoTimeout else t) (check e.calls ts1).more e
      refine ⟨rfl, hf.1, ?_, ?_, ?_, hf.2.1, hf.2.2.1, ?_⟩
      · cases hg : e.triggers.get e.ctr with
        | none => rfl
        | some hi => exact absurd (hinv.1.ids _ _ hg) (Nat.lt_irrefl _)
      · exact ⟨_, (ht e.ctr).trans (if_pos rfl)⟩
      · intro id hid
        rw [ht]
        simp [hid]
      · generalize (if (check e.calls ts1).done then NoTimeout else t) = t1
        unfold addTrigger
        by_cases h1 : t1 ≠ NoTimeout <;> simp [h1]
  · have h := (registeredIds_range ops0 (newHCEvents head)).1
    rw [List.range_eq_range']
    exact h

theorem registration_is_atomic_and_ids_are_fresh_witness :
    registeredIds (newHCEvents (tipsetAt 9)) mixedRegistrations = [0, 1, 2] ∧
    (run (newHCEvents (tipsetAt 9)) mixedRegistrations).ctr = 3 := by
  have h := registration_is_atomic_and_ids_are_fresh (tipsetAt 9) [] mixedRegistrations
    (newHCEvents (tipsetAt 9)) rfl scenarioEnv (checkConst false true) (handlerOk true)
    revertOk 1 NoTimeout
  have hl : (registeredIds (newHCEvents (tipsetAt 9)) mixedRegistrations).length = 3 := by
    decide
  refine ⟨?_, ?_⟩
  · rw [h.2.2.1, hl]
    rfl
  · rw [h.2.2.2.1, hl]
    rfl

/-! ## Reverted tipsets (C23, C27) -/

/-- The trace of `handleReverts` in a state satisfying the invariant. -/
theorem handleReverts_trace {e : hcEvents} (hinv : Inv e) (ts : TipSet) :
    ∃ l, (handleReverts ts e).calls = e.calls ++ l ∧
      (∀ c ∈ l, ∃ tH ev err, c = Call.revert tH ev ts err) ∧
      ∀ tH, revertsOf tH ts l = calledEventsAt e tH ts.height := by
  have hempty : ∀ tH, (∀ l, e.revertQueue.get ts.height = some l → tH ∉ l) →
      calledEventsAt e tH ts.height = [] := by
    intro tH hno
    unfold calledEventsAt
    cases h0 : eventsAt e tH ts.height with
    | none => rfl
    | some evs =>
      by_cases hnil : evs = []
      · simp [hnil]
      · obtain ⟨l, hl, hmem⟩ := hinv.1.reverts _ _ evs h0 hnil
        exact absurd hmem (hno l hl)
  unfold handleReverts
  cases hrev : e.revertQueue.get ts.height with
  | none =>
    refine ⟨[], by simp, by simp, fun tH => ?_⟩
    rw [hempty tH (fun l hl => by rw [hrev] at hl; cases hl)]
    rfl
  | some reverts =>
    obtain ⟨l, hl, hall, hr⟩ := revertTriggers_trace ts reverts e hinv
    refine ⟨l, hl, hall, fun tH => ?_⟩
    rw [hr]
    split
    · rfl
    · rename_i hmem
      rw [hempty tH (fun l' hl' => by rw [hrev] at hl'; cases hl'; exact hmem)]

/-- The queues after `handleReverts`. -/
theorem handleReverts_queues (ts : TipSet) (e : hcEvents) :
    (handleReverts ts e).revertQueue.get ts.height = none ∧
    (∀ h, h ≠ ts.height → (handleReverts ts e).revertQueue.get h = e.revertQueue.get h) ∧
    ∀ tH mH, eventsAt (handleReverts ts e) tH mH =
      if mH = ts.height ∧ tH ∈ (e.revertQueue.get ts.height).getD [] then none
      else eventsAt e tH mH := by
  unfold handleReverts
  cases hrev : e.revertQueue.get ts.height with
  | none => exact ⟨hrev, fun _ _ => rfl, fun tH mH => by simp⟩
  | some reverts =>
    have hq := revertTriggers_revertQueue ts reverts e
    have hev := eventsAt_revertTriggers ts reverts e
    simp only [Option.getD_some]
    generalize reverts.foldl (fun e triggerH => revertTrigger ts triggerH e) e = F at hq hev ⊢
    refine ⟨?_, ?_, ?_⟩
    · show (F.revertQueue.del ts.height).get ts.height = none
      simp [GoMap.get_del]
    · intro h hne
      show (F.revertQueue.del ts.height).get h = e.revertQueue.get h
      rw [GoMap.get_del, hq]
      simp [Ne.symm hne]
    · intro tH mH
      show eventsAt F tH mH = _
      rw [hev]

theorem noEvents_of_revertQueue {e : hcEvents} (hinv : Inv e) {h : ChainEpoch}
    (hq : e.revertQueue.get h = none) (tH : ChainEpoch) (evs : List queuedEvent)
    (hev : eventsAt e tH h = some evs) : evs = [] := by
  by_contra hne
  obtain ⟨l, hl, _⟩ := hinv.1.reverts _ _ _ hev hne
  rw [hq] at hl
  cases hl

theorem revertTipSets_inv (rev : List TipSet) : ∀ e, Inv e → Inv (revertTipSets rev e) := by
  induction rev with
  | nil => intro e h; exact h
  | cons t rest ih =>
    intro e h
    exact ih _ ((h.handleReverts t).setLastTS t)

theorem revertTipSets_dropped (h : ChainEpoch) (rev : List TipSet) :
    ∀ e, ((∃ ts ∈ rev, ts.height = h) ∨ e.revertQueue.get h = none) →
      (revertTipSets rev e).revertQueue.get h = none := by
  induction rev with
  | nil =>
    intro e hor
    rcases hor with ⟨ts, hts, _⟩ | hq
    · cases hts
    · exact hq
  | cons t rest ih =>
    intro e hor
    obtain ⟨q1, q2, _⟩ := handleReverts_queues t e
    have hstep : revertTipSets (t :: rest) e =
        revertTipSets rest (setLastTS t (handleReverts t e)) := rfl
    rw [hstep]
    by_cases hth : h = t.height
    · refine ih _ (Or.inr ?_)
      show (handleReverts t e).revertQueue.get h = none
      rw [hth]; exact q1
    · rcases hor with ⟨ts, hts, hh⟩ | hq
      · rcases List.mem_cons.1 hts with rfl | hts
        · exact absurd hh.symm hth
        · exact ih _ (Or.inl ⟨ts, hts, hh⟩)
      · refine ih _ (Or.inr ?_)
        show (handleReverts t e).revertQueue.get h = none
        rw [q2 h hth]; exact hq

theorem droppedAt_runInv (h : ChainEpoch) (base : List Call) :
    RunInv (fun _ => True) (fun t => t.height ≠ h) (DroppedAt h base) where
  head :=
    { log := fun l _ hs => ⟨hs.1.logErrors l, hs.2.1, hs.2.2⟩
      last := fun ts _ hs => ⟨hs.1.setLastTS ts, hs.2.1, hs.2.2⟩
      revert := by
        intro ts s hs
        obtain ⟨h1, h2, new, h3, h4⟩ := hs
        obtain ⟨_, _, q3⟩ := handleReverts_queues ts s
        obtain ⟨l, hl, hall, _⟩ := handleReverts_trace h1 ts
        refine ⟨h1.handleReverts ts, ?_, new ++ l, ?_, ?_⟩
        · intro tH evs hev
          rw [q3] at hev
          split at hev
          · cases hev
          · exact h2 _ _ hev
        · rw [hl, h3, List.append_assoc]
        · intro hd ev p t curH res hmem
          rcases List.mem_append.1 hmem with hm | hm
          · exact h4 _ _ _ _ _ _ hm
          · obtain ⟨tH, ev', err, hc⟩ := hall _ hm
            cases hc
      queue := by
        intro tid data prev ts s hA hs
        obtain ⟨h1, h2, new, h3, h4⟩ := hs
        refine ⟨h1.queueForConfidence tid data prev ts, ?_, new, ?_, h4⟩
        · intro tH evs hev
          rw [eventsAt_queueForConfidence] at hev
          split at hev
          · exact h2 _ _ hev
          · split at hev
            · rename_i hc
              exact absurd hc.2.symm hA
            · exact h2 _ _ hev
        · rw [(queueForConfidence_fields tid data prev ts s).2.2.2, h3]
      apply := by
        intro env head height origH tTS i s _ _ hh hs
        have hI := hs.1.applyEvent env head height origH tTS i hh
        obtain ⟨h1, h2, new, h3, h4⟩ := hs
        rcases applyEvent_cases env head height origH tTS i s with
          h0 | h0 | ⟨l, h0⟩ | ⟨evs, event, trigger, prevTS, hevs, hi, _, htrig, _, h0⟩
        · rw [h0]; exact ⟨h1, h2, new, h3, h4⟩
        · rw [h0]; exact ⟨h1.panic, h2, new, h3, h4⟩
        · rw [h0]; exact ⟨h1.logErrors l, h2, new, h3, h4⟩
        · obtain ⟨hh0, _⟩ := h1.1.queue _ _ evs event hevs (List.getElem?_mem hi)
          have hne : origH ≠ h := by
            intro hc
            subst hc
            have := h2 _ _ hevs
            subst this
            simp at hi
          have hnew : ∀ c, c = Call.apply head event prevTS tTS height
              (trigger.handle s.calls event.data prevTS tTS height) →
              ∀ hd ev p t curH res, Call.apply hd ev p t curH res ∈ new ++ [c] → ev.h ≠ h := by
            intro c hc hd ev p t curH res hmem
            rcases List.mem_append.1 hmem with hm | hm
            · exact h4 _ _ _ _ _ _ hm
            · rw [List.mem_singleton, hc] at hm
              cases hm
              rw [hh0]; exact hne
          rcases h0 with ⟨_, h0⟩ | ⟨_, h0⟩
          · rw [h0] at hI ⊢
            refine ⟨hI, h2, new ++ [_], ?_, hnew _ rfl⟩
            show s.calls ++ [_] = base ++ (new ++ [_])
            rw [h3, List.append_assoc]
          · rw [h0] at hI ⊢
            refine ⟨hI, ?_, new ++ [_], ?_, hnew _ rfl⟩
            · intro tH evs' hev
              have hc : eventsAt (setDisabled event.trigger trigger
                  (!(trigger.handle s.calls event.data prevTS tTS height).more)
                  (bumpTimeout trigger.timeout event.trigger
                    (markCalled height origH i
                      (recordCall (Call.apply head event prevTS tTS height
                        (trigger.handle s.calls event.data prevTS tTS height)) s)))) tH h =
                  eventsAt (markCalled height origH i
                      (recordCall (Call.apply head event prevTS tTS height
                        (trigger.handle s.calls event.data prevTS tTS height)) s)) tH h :=
                congrFun (congrFun (eventsAt_congr
                  (bumpTimeout_fields trigger.timeout event.trigger _).2.2.2.1) tH) h
              rw [hc, eventsAt_markCalled] at hev
              rw [if_neg (fun hcond => hne hcond.2.symm)] at hev
              exact h2 _ _ hev
            · rw [(applySuccess_fields _ _ _ _ _ _ _ _).2.1, h3, List.append_assoc]
      timeout := by
        intro env ts tid s _ _ hs
        have hI := hs.1.applyTimeout env ts tid
        obtain ⟨h1, h2, new, h3, h4⟩ := hs
        have hnew : ∀ c, (∃ hd tid t curH res, c = Call.timeout hd tid t curH res) →
            ∀ hd ev p t curH res, Call.apply hd ev p t curH res ∈ new ++ [c] → ev.h ≠ h := by
          intro c hc hd ev p t curH res hmem
          rcases List.mem_append.1 hmem with hm | hm
          · exact h4 _ _ _ _ _ _ hm
          · obtain ⟨_, _, _, _, _, hc⟩ := hc
            rw [List.mem_singleton, hc] at hm
            cases hm
        rcases applyTimeout_cases env ts tid s with h0 | h0 | ⟨trigger, l, _, _, _, h0⟩
        · rw [h0]; exact ⟨h1, h2, new, h3, h4⟩
        · rw [h0]; exact ⟨h1.panic, h2, new, h3, h4⟩
        · rcases h0 with ⟨_, h0⟩ | ⟨_, h0⟩
          · rw [h0] at hI ⊢
            refine ⟨hI, h2, new ++ [Call.timeout ts tid
              (env.tscGet (wrap64 (ts.height - trigger.confidence))) ts.height
              (trigger.handle s.calls none none
                (env.tscGet (wrap64 (ts.height - trigger.confidence))) ts.height)], ?_, ?_⟩
            · show s.calls ++ [_] = base ++ (new ++ [_])
              rw [h3, List.append_assoc]
            · exact hnew _ ⟨_, _, _, _, _, rfl⟩
          · rw [h0] at hI ⊢
            refine ⟨hI, h2, new ++ [Call.timeout ts tid
              (env.tscGet (wrap64 (ts.height - trigger.confidence))) ts.height
              (trigger.handle s.calls none none
                (env.tscGet (wrap64 (ts.height - trigger.confidence))) ts.height)], ?_, ?_⟩
            · show s.calls ++ [_] = base ++ (new ++ [_])
              rw [h3, List.append_assoc]
            · exact hnew _ ⟨_, _, _, _, _, rfl⟩ }
  reg := by
    intro env check hnd rev c t s hs
    have hI := hs.1.onHeadChanged env check hnd rev c t
    obtain ⟨h1, h2, new, h3, h4⟩ := hs
    rcases onHeadChanged_cases env check hnd rev c t s with ⟨_, h0⟩ | ⟨ts, _, _, h0⟩
    · rw [h0]; exact ⟨h1, h2, new, h3, h4⟩
    · rw [h0] at hI ⊢
      obtain ⟨_, a2, _, a4⟩ := addTrigger_fields hnd rev c
        (if (check s.calls ts).done then NoTimeout else t) (check s.calls ts).more s
      refine ⟨hI, ?_, new, ?_, h4⟩
      · intro tH evs hev
        rw [show eventsAt _ tH h = eventsAt s tH h from
          congrFun (congrFun (eventsAt_congr a2) tH) h] at hev
        exact h2 _ _ hev
      · show (addTrigger hnd rev c (if (check s.calls ts).done then NoTimeout else t)
          (check s.calls ts).more s).calls = _
        rw [a4, h3]
  stateMatcher := fun id mf _ hs => ⟨hs.1.congrInv rfl rfl rfl rfl rfl rfl, hs.2.1, hs.2.2⟩
  msgMatcher := fun id mf _ hs => ⟨hs.1.congrInv rfl rfl rfl rfl rfl rfl, hs.2.1, hs.2.2⟩

/-- C23: in every state the dispatcher reaches, after `processHeadChangeEvent` has
reverted the tipsets `rev`, for every reverted tipset `ts` the revert queue has no entry
for its height and the confidence queue holds no event of that message height under any
trigger height; and whatever is called afterwards (the applies of the same head change
included), as long as no tipset of that height is applied again, no handler is invoked
for an event of that message height. -/
theorem reverted_events_are_dropped (head : TipSet) (ops0 : List Op) (e : hcEvents)
    (he : e = run (newHCEvents head) ops0) (env : Env) (rev : List TipSet) (ts : TipSet)
    (hts : ts ∈ rev) :
    (processHeadChangeEvent env rev [] e).1.revertQueue.get ts.height = none ∧
    (∀ tH evs, eventsAt (processHeadChangeEvent env rev [] e).1 tH ts.height = some evs →
      evs = []) ∧
    ∀ app ops, (∀ t ∈ app, t.height ≠ ts.height) →
      (∀ op ∈ ops, op.allowed (fun _ => True) (fun t => t.height ≠ ts.height)) →
      ∃ new, (run (processHeadChangeEvent env rev app e).1 ops).calls =
          (processHeadChangeEvent env rev [] e).1.calls ++ new ∧
        ∀ hd ev p t curH res, Call.apply hd ev p t curH res ∈ new → ev.h ≠ ts.height := by
  have hinv : Inv e := he ▸ inv_run head ops0
  have hI : Inv (revertTipSets rev e) := revertTipSets_inv rev e hinv
  have hq : (revertTipSets rev e).revertQueue.get ts.height = none :=
    revertTipSets_dropped ts.height rev e (Or.inl ⟨ts, hts, rfl⟩)
  have hno := noEvents_of_revertQueue hI hq
  refine ⟨hq, hno, ?_⟩
  intro app ops happ hops
  have hD : DroppedAt ts.height (revertTipSets rev e).calls (revertTipSets rev e) :=
    ⟨hI, hno, [], by simp, by simp⟩
  have hrun := (droppedAt_runInv ts.height (revertTipSets rev e).calls).runOn
    (Op.headChange env [] app :: ops)
    (by
      intro op hop
      rcases List.mem_cons.1 hop with rfl | hop
      · exact ⟨trivial, happ⟩
      · exact hops op hop)
    (revertTipSets rev e) hD
  exact hrun.2.2

/-- C23 (witness): the event of tipset 10 waits for height 13; after the revert of
tipset 10 the queues hold nothing for height 10 and the applies of tipsets 11 to 14
invoke no handler. -/
theorem reverted_events_are_dropped_witness :
    eventsAt (run (newHCEvents (tipsetAt 9)) queuedForThirteenRun) 13 10 =
      some [{ trigger := 0, prevH := NoHeight, h := 10,
              data := some (eventData.msg { cid := 9 }), called := false }] ∧
    (run (processHeadChangeEvent scenarioEnv [tipsetAt 10] []
      (run (newHCEvents (tipsetAt 9)) queuedForThirteenRun)).1 appliesElevenToFourteen).calls
      = [] ∧
    ((processHeadChangeEvent scenarioEnv [tipsetAt 10] []
        (run (newHCEvents (tipsetAt 9)) queuedForThirteenRun)).1.revertQueue.get
          (tipsetAt 10).height = none ∧
     (∀ tH evs, eventsAt (processHeadChangeEvent scenarioEnv [tipsetAt 10] []
        (run (newHCEvents (tipsetAt 9)) queuedForThirteenRun)).1 tH (tipsetAt 10).height =
          some evs → evs = []) ∧
     ∀ app ops, (∀ t ∈ app, t.height ≠ (tipsetAt 10).height) →
      (∀ op ∈ ops, op.allowed (fun _ => True) (fun t => t.height ≠ (tipsetAt 10).height)) →
      ∃ new, (run (processHeadChangeEvent scenarioEnv [tipsetAt 10] app
          (run (newHCEvents (tipsetAt 9)) queuedForThirteenRun)).1 ops).calls =
          (processHeadChangeEvent scenarioEnv [tipsetAt 10] []
            (run (newHCEvents (tipsetAt 9)) queuedForThirteenRun)).1.calls ++ new ∧
        ∀ hd ev p t curH res, Call.apply hd ev p t curH res ∈ new →
          ev.h ≠ (tipsetAt 10).height) :=
  ⟨by decide, by decide,
    reverted_events_are_dropped (tipsetAt 9) queuedForThirteenRun _ rfl scenarioEnv
      [tipsetAt 10] (tipsetAt 10) (List.mem_singleton.2 rfl)⟩

/-- C27: in every state the dispatcher reaches and whatever the revert callbacks return,
`processHeadChangeEvent` returns nil for a revert; reverting the tipset `ts` sets
`lastTS` to `ts`, deletes `revertQueue[ts.Height()]` and every
`confQueue[triggerH][ts.Height()]` listed there, leaves no event of that height in the
queue, and invokes the revert callback once for each called event of that height, in
order. -/
theorem failing_revert_keeps_bookkeeping (head : TipSet) (ops : List Op) (e : hcEvents)
    (he : e = run (newHCEvents head) ops) (env : Env) (ts : TipSet) :
    (∀ rev, (processHeadChangeEvent env rev [] e).2 = false) ∧
    (processHeadChangeEvent env [ts] [] e).1.lastTS = ts ∧
    (processHeadChangeEvent env [ts] [] e).1.revertQueue.get ts.height = none ∧
    (∀ tH, tH ∈ (e.revertQueue.get ts.height).getD [] →
      eventsAt (processHeadChangeEvent env [ts] [] e).1 tH ts.height = none) ∧
    (∀ tH evs, eventsAt (processHeadChangeEvent env [ts] [] e).1 tH ts.height = some evs →
      evs = []) ∧
    ∃ l, (processHeadChangeEvent env [ts] [] e).1.calls = e.calls ++ l ∧
      (∀ c ∈ l, ∃ tH ev err, c = Call.revert tH ev ts err) ∧
      ∀ tH, revertsOf tH ts l = calledEventsAt e tH ts.height := by
  have hinv : Inv e := he ▸ inv_run head ops
  obtain ⟨q1, _, q3⟩ := handleReverts_queues ts e
  have hI : Inv (handleReverts ts e) := hinv.handleReverts ts
  refine ⟨fun rev => rfl, rfl, q1, ?_, ?_, handleReverts_trace hinv ts⟩
  · intro tH hmem
    show eventsAt (handleReverts ts e) tH ts.height = none
    rw [q3]
    simp [hmem]
  · intro tH evs hev
    exact noEvents_of_revertQueue hI q1 tH evs hev

/-- C27 (witness): both called events of height 10 belong to a trigger whose revert
callback fails; reverting the tipset invokes the callback for both, returns nil and
empties the queues of height 10. -/
theorem failing_revert_keeps_bookkeeping_witness :
    (processHeadChangeEvent scenarioEnv [tipset10TwoParents] []
      (run (newHCEvents (tipsetAt 9)) failingRevertRun)).1.calls =
      (run (newHCEvents (tipsetAt 9)) failingRevertRun).calls ++
        [Call.revert 11
          { trigger := 0, prevH := NoHeight, h := 10,
            data := some (eventData.msg { cid := 8 }), called := true }
          tipset10TwoParents true,
         Call.revert 11
          { trigger := 0, prevH := NoHeight, h := 10,
            data := some (eventData.msg { cid := 9 }), called := true }
          tipset10TwoParents true] ∧
    (processHeadChangeEvent scenarioEnv [tipset10TwoParents] []
      (run (newHCEvents (tipsetAt 9)) failingRevertRun)).1.errlog =
      [LogMsg.revertFailed 10 11, LogMsg.revertFailed 10 11] ∧
    (processHeadChangeEvent scenarioEnv [tipset10TwoParents] []
      (run (newHCEvents (tipsetAt 9)) failingRevertRun)).2 = false ∧
    (processHeadChangeEvent scenarioEnv [tipset10TwoParents] []
      (run (newHCEvents (tipsetAt 9)) failingRevertRun)).1.lastTS = tipset10TwoParents ∧
    (processHeadChangeEvent scenarioEnv [tipset10TwoParents] []
      (run (newHCEvents (tipsetAt 9)) failingRevertRun)).1.revertQueue.get 10 = none ∧
    eventsAt (processHeadChangeEvent scenarioEnv [tipset10TwoParents] []
      (run (newHCEvents (tipsetAt 9)) failingRevertRun)).1 11 10 = none :=
  have h := failing_revert_keeps_bookkeeping (tipsetAt 9) failingRevertRun _ rfl scenarioEnv
    tipset10TwoParents
  ⟨by decide, by decide, h.1 [tipset10TwoParents], h.2.1, h.2.2.1,
    h.2.2.2.1 11 (by decide)⟩

/-! ## Revert callbacks follow successful applies (C29) -/

theorem AppliedIn.monoTrace {l : List Call} {ev : queuedEvent} (h : AppliedIn l ev)
    (l' : List Call) : AppliedIn (l ++ l') ev := by
  obtain ⟨hd, p, t, curH, res, hm, hr⟩ := h
  exact ⟨hd, p, t, curH, res, List.mem_append_left _ hm, hr⟩

theorem append_eq_split {α : Type} {a b l1 l2 : List α} {c : α}
    (h : a ++ b = l1 ++ c :: l2) :
    (∃ a2, a = l1 ++ c :: a2 ∧ l2 = a2 ++ b) ∨ ∃ b1, l1 = a ++ b1 ∧ b = b1 ++ c :: l2 := by
  rcases List.append_eq_append_iff.1 h with ⟨a', h1, h2⟩ | ⟨c', h1, h2⟩
  · exact Or.inr ⟨a', h1, h2⟩
  · cases c' with
    | nil =>
      refine Or.inr ⟨[], ?_, ?_⟩
      · simpa using h1.symm
      · simpa using h2.symm
    | cons x c'' =>
      simp only [List.cons_append, List.cons.injEq] at h2
      obtain ⟨rfl, h2⟩ := h2
      exact Or.inl ⟨c'', h1, h2⟩

theorem RevertedOk.appendCalls {calls ext : List Call} (h : RevertedOk calls)
    (hext : ∀ tH ev ts err, Call.revert tH ev ts err ∈ ext →
      ev.called = true ∧ AppliedIn calls ev) : RevertedOk (calls ++ ext) := by
  intro l1 l2 tH ev ts err heq
  rcases append_eq_split heq with ⟨a2, h1, _⟩ | ⟨b1, h1, h2⟩
  · exact h _ _ _ _ _ _ h1
  · obtain ⟨hc, ha⟩ := hext tH ev ts err (by rw [h2]; simp)
    exact ⟨hc, by rw [h1]; exact ha.monoTrace b1⟩

theorem CalledOk.extend {e e' : hcEvents} (h : CalledOk e) (ext : List Call)
    (hc : e'.calls = e.calls ++ ext)
    (hq : ∀ tH mH evs ev, eventsAt e' tH mH = some evs → ev ∈ evs → ev.called = true →
      (∃ evs0, eventsAt e tH mH = some evs0 ∧ ev ∈ evs0) ∨ AppliedIn e'.calls ev) :
    CalledOk e' := by
  intro tH mH evs ev hev hmem hcalled
  rcases hq tH mH evs ev hev hmem hcalled with ⟨evs0, h0, hm0⟩ | ha
  · rw [hc]; exact (h tH mH evs0 ev h0 hm0 hcalled).monoTrace ext
  · exact ha

theorem mem_setCalled_cases {evs : List queuedEvent} {i : Nat} {ev event : queuedEvent}
    (hi : evs[i]? = some event) (h : ev ∈ setCalled evs i) :
    ev ∈ evs ∨ ev = { event with called := true } := by
  unfold setCalled at h
  rw [hi] at h
  rcases List.mem_or_eq_of_mem_set h with h1 | h1
  · exact Or.inl h1
  · exact Or.inr h1

theorem revertInv_stepInv : StepInv RevertInv where
  log := fun l _ hs => ⟨hs.1.logErrors l, hs.2.1, hs.2.2⟩
  last := fun ts _ hs => ⟨hs.1.setLastTS ts, hs.2.1, hs.2.2⟩
  revert := by
    intro ts s hs
    obtain ⟨h1, h2, h3⟩ := hs
    obtain ⟨_, _, q3⟩ := handleReverts_queues ts s
    obtain ⟨l, hl, _, _⟩ := handleReverts_trace h1 ts
    refine ⟨h1.handleReverts ts, h2.extend l hl ?_, ?_⟩
    · intro tH mH evs ev hev hmem _
      rw [q3] at hev
      split at hev
      · cases hev
      · exact Or.inl ⟨evs, hev, hmem⟩
    · rw [hl]
      refine h3.appendCalls ?_
      intro tH ev ts0 err hmem
      have hm : Call.revert tH ev ts0 err ∈ (handleReverts ts s).calls := by
        rw [hl]; exact List.mem_append_right _ hmem
      rcases (handleReverts_effect ts s).2.2.2 _ hm with hold | ⟨tH', ev', err', evs, hc, hcal, hevs, hin⟩
      · obtain ⟨l1, l2, hsplit⟩ := List.append_of_mem hold
        obtain ⟨hc, ha⟩ := h3 _ _ _ _ _ _ hsplit
        exact ⟨hc, by rw [hsplit]; exact ha.monoTrace _⟩
      · cases hc
        exact ⟨hcal, h2 _ _ _ _ hevs hin hcal⟩
  queue := by
    intro tid data prev ts s hs
    obtain ⟨h1, h2, h3⟩ := hs
    have hcalls := (queueForConfidence_fields tid data prev ts s).2.2.2
    refine ⟨h1.queueForConfidence tid data prev ts, h2.extend [] (by rw [hcalls]; simp) ?_, ?_⟩
    · intro tH mH evs ev hev hmem hcalled
      rw [eventsAt_queueForConfidence] at hev
      split at hev
      · exact Or.inl ⟨evs, hev, hmem⟩
      · split at hev
        · cases hev
          rcases List.mem_append.1 hmem with hm | hm
          · cases h0 : eventsAt s tH mH with
            | none => simp [h0] at hm
            | some evs0 =>
              simp only [h0, Option.getD_some] at hm
              exact Or.inl ⟨evs0, rfl, hm⟩
          · rw [List.mem_singleton] at hm
            rw [hm] at hcalled
            simp [newEvent] at hcalled
        · exact Or.inl ⟨evs, hev, hmem⟩
    · rw [hcalls]; exact h3
  apply := by
    intro env head height origH tTS i s hh hs
    have hI := hs.1.applyEvent env head height origH tTS i hh
    obtain ⟨h1, h2, h3⟩ := hs
    rcases applyEvent_cases env head height origH tTS i s with
      h0 | h0 | ⟨l, h0⟩ | ⟨evs, event, trigger, prevTS, hevs, hi, hnc, htrig, _, h0⟩
    · rw [h0]; exact ⟨h1, h2, h3⟩
    · rw [h0]; exact ⟨h1.panic, h2, h3⟩
    · rw [h0]; exact ⟨h1.logErrors l, h2, h3⟩
    · have hnorev : ∀ c, c = Call.apply head event prevTS tTS height
          (trigger.handle s.calls event.data prevTS tTS height) →
          ∀ tH ev ts err, Call.revert tH ev ts err ∈ [c] →
            ev.called = true ∧ AppliedIn s.calls ev := by
        intro c hc tH ev ts err hm
        rw [List.mem_singleton, hc] at hm
        cases hm
      rcases h0 with ⟨_, h0⟩ | ⟨herr, h0⟩
      · rw [h0] at hI ⊢
        refine ⟨hI, h2.extend [_] rfl ?_, ?_⟩
        · intro tH mH evs' ev hev hmem _
          exact Or.inl ⟨evs', hev, hmem⟩
        · exact h3.appendCalls (hnorev _ rfl)
      · rw [h0] at hI ⊢
        have hcalls := (applySuccess_fields height origH i
          (Call.apply head event prevTS tTS height
            (trigger.handle s.calls event.data prevTS tTS height))
          event.trigger trigger
          (!(trigger.handle s.calls event.data prevTS tTS height).more) s).2.1
        refine ⟨hI, h2.extend [_] hcalls ?_, ?_⟩
        · intro tH mH evs' ev hev hmem hcalled
          have hc : eventsAt (setDisabled event.trigger trigger
              (!(trigger.handle s.calls event.data prevTS tTS height).more)
              (bumpTimeout trigger.timeout event.trigger
                (markCalled height origH i
                  (recordCall (Call.apply head event prevTS tTS height
                    (trigger.handle s.calls event.data prevTS tTS height)) s)))) tH mH =
              eventsAt (markCalled height origH i
                  (recordCall (Call.apply head event prevTS tTS height
                    (trigger.handle s.calls event.data prevTS tTS height)) s)) tH mH :=
            congrFun (congrFun (eventsAt_congr
              (bumpTimeout_fields trigger.timeout event.trigger _).2.2.2.1) tH) mH
          rw [hc, eventsAt_markCalled] at hev
          split at hev
          · rename_i hcond
            obtain ⟨rfl, rfl⟩ := hcond
            have hs0 : eventsAt (recordCall (Call.apply head event prevTS tTS tH
                (trigger.handle s.calls event.data prevTS tTS tH)) s) tH mH = some evs := hevs
            rw [hs0] at hev
            simp only [Option.map_some'] at hev
            cases hev
            rcases mem_setCalled_cases hi hmem with hm | hm
            · exact Or.inl ⟨evs, hevs, hm⟩
            · refine Or.inr ?_
              rw [hcalls]
              refine ⟨head, prevTS, tTS, tH, _, ?_, herr⟩
              have hev0 : ({ ev with called := false } : queuedEvent) = event := by
                rw [hm]
                cases event
                simp only at hnc
                simp [hnc]
              rw [hev0]
              simp
          · exact Or.inl ⟨evs', hev, hmem⟩
        · rw [hcalls]
          exact h3.appendCalls (hnorev _ rfl)
  timeout := by
    intro env ts tid s hs
    have hI := hs.1.applyTimeout env ts tid
    obtain ⟨h1, h2, h3⟩ := hs
    have hnorev : ∀ c, (∃ hd tid t curH res, c = Call.timeout hd tid t curH res) →
        ∀ tH ev ts err, Call.revert tH ev ts err ∈ [c] →
          ev.called = true ∧ AppliedIn s.calls ev := by
      intro c hc tH ev ts err hm
      obtain ⟨_, _, _, _, _, hc⟩ := hc
      rw [List.mem_singleton, hc] at hm
      cases hm
    rcases applyTimeout_cases env ts tid s with h0 | h0 | ⟨trigger, l, _, _, _, h0⟩
    · rw [h0]; exact ⟨h1, h2, h3⟩
    · rw [h0]; exact ⟨h1.panic, h2, h3⟩
    · rcases h0 with ⟨_, h0⟩ | ⟨_, h0⟩
      · rw [h0] at hI ⊢
        refine ⟨hI, h2.extend [_] rfl ?_, ?_⟩
        · intro tH mH evs' ev hev hmem _
          exact Or.inl ⟨evs', hev, hmem⟩
        · exact h3.appendCalls (hnorev _ ⟨_, _, _, _, _, rfl⟩)
      · rw [h0] at hI ⊢
        refine ⟨hI, h2.extend [_] rfl ?_, ?_⟩
        · intro tH mH evs' ev hev hmem _
          exact Or.inl ⟨evs', hev, hmem⟩
        · exact h3.appendCalls (hnorev _ ⟨_, _, _, _, _, rfl⟩)
  reg := by
    intro env check hnd rev c t s hs
    have hI := hs.1.onHeadChanged env check hnd rev c t
    obtain ⟨h1, h2, h3⟩ := hs
    rcases onHeadChanged_cases env check hnd rev c t s with ⟨_, h0⟩ | ⟨ts, _, _, h0⟩
    · rw [h0]; exact ⟨h1, h2, h3⟩
    · rw [h0] at hI ⊢
      obtain ⟨_, a2, _, a4⟩ := addTrigger_fields hnd rev c
        (if (check s.calls ts).done then NoTimeout else t) (check s.calls ts).more s
      refine ⟨hI, h2.extend [] (by rw [a4]; simp) ?_, ?_⟩
      · intro tH mH evs ev hev hmem _
        rw [show eventsAt _ tH mH = eventsAt s tH mH from
          congrFun (congrFun (eventsAt_congr a2) tH) mH] at hev
        exact Or.inl ⟨evs, hev, hmem⟩
      · show RevertedOk (addTrigger hnd rev c
          (if (check s.calls ts).done then NoTimeout else t) (check s.calls ts).more s).calls
        rw [a4]; exact h3
  stateMatcher := fun id mf _ hs => ⟨hs.1.congrInv rfl rfl rfl rfl rfl rfl, hs.2.1, hs.2.2⟩
  msgMatcher := fun id mf _ hs => ⟨hs.1.congrInv rfl rfl rfl rfl rfl rfl, hs.2.1, hs.2.2⟩

theorem revertInv_init (head : TipSet) : RevertInv (newHCEvents head) := by
  refine ⟨inv_init head, ?_, ?_⟩
  · intro tH mH evs ev h
    simp [newHCEvents, eventsAt, GoMap.get] at h
  · intro l1 l2 tH ev ts err h
    simp [newHCEvents] at h

/-- C29: in every run of the dispatcher, every revert callback in the trace is for an
event with `called = true` and comes after an invocation of the handler for that event
that returned without error; so a trigger whose handler never returned without error for
an event (its timeout invocations do not count) never receives a revert callback.  In
the state reached, whatever the `disabled` flags of the triggers, reverting a tipset `ts`
invokes revert callbacks exactly for the called events stored for the height of `ts`. -/
theorem revert_only_after_successful_apply (head : TipSet) (ops : List Op) :
    (∀ l1 l2 tH ev ts err,
      (run (newHCEvents head) ops).calls = l1 ++ Call.revert tH ev ts err :: l2 →
      ev.called = true ∧
      ∃ hd p t curH res, Call.apply hd { ev with called := false } p t curH res ∈ l1 ∧
        res.err = false) ∧
    (∀ id, (∀ hd ev p t curH res,
        Call.apply hd ev p t curH res ∈ (run (newHCEvents head) ops).calls →
        ev.trigger = id → res.err = true) →
      ∀ tH ev ts err, Call.revert tH ev ts err ∈ (run (newHCEvents head) ops).calls →
        ev.trigger ≠ id) ∧
    ∀ ts, ∃ l, (handleReverts ts (run (newHCEvents head) ops)).calls =
        (run (newHCEvents head) ops).calls ++ l ∧
      (∀ c ∈ l, ∃ tH ev err, c = Call.revert tH ev ts err ∧ ev.called = true) ∧
      ∀ tH, revertsOf tH ts l = calledEventsAt (run (newHCEvents head) ops) tH ts.height := by
  have hR : RevertInv (run (newHCEvents head) ops) :=
    revertInv_stepInv.run ops _ (revertInv_init head)
  generalize run (newHCEvents head) ops = e at hR
  obtain ⟨h1, h2, h3⟩ := hR
  refine ⟨h3, ?_, ?_⟩
  · intro id hnever tH ev ts err hmem hid
    obtain ⟨l1, l2, hsplit⟩ := List.append_of_mem hmem
    obtain ⟨_, hd, p, t, curH, res, hm, hr⟩ := h3 _ _ _ _ _ _ hsplit
    have := hnever hd { ev with called := false } p t curH res
      (by rw [hsplit]; exact List.mem_append_left _ hm) hid
    rw [hr] at this
    cases this
  · intro ts
    obtain ⟨l, hl, hall, hr⟩ := handleReverts_trace h1 ts
    refine ⟨l, hl, ?_, hr⟩
    intro c hc
    obtain ⟨tH, ev, err, hce⟩ := hall c hc
    refine ⟨tH, ev, err, hce, ?_⟩
    have hRI := (revertInv_stepInv.revert ts e ⟨h1, h2, h3⟩).2.2
    rw [hl] at hRI
    obtain ⟨l1, l2, hsplit⟩ := List.append_of_mem hc
    rw [hce] at hsplit
    exact (hRI (e.calls ++ l1) l2 tH ev ts err (by rw [hsplit, List.append_assoc])).1

/-- The disabled-trigger scenario: the trigger is disabled after its event was called,
and the revert of tipset 10 still invokes its revert callback for that event; the
callback comes after the successful handler invocation. -/
theorem disabled_trigger_still_gets_revert :
    (run (newHCEvents (tipsetAt 9)) calledThenDisabledRun).triggers.get 0 =
      some { confidence := 1, timeout := wrap64 (NoTimeout + 1), disabled := true,
             handle := handlerOk false, revert := revertOk } ∧
    (handleReverts (tipsetAt 10) (run (newHCEvents (tipsetAt 9)) calledThenDisabledRun)).calls =
      [Call.apply (tipsetAt 11)
        { trigger := 0, prevH := NoHeight, h := 10,
          data := some (eventData.msg { cid := 9 }), called := false }
        none (some (tipsetAt 10)) 11 { more := false, err := false },
       Call.revert 11
        { trigger := 0, prevH := NoHeight, h := 10,
          data := some (eventData.msg { cid := 9 }), called := true }
        (tipsetAt 10) false] := by
  constructor
  · rfl
  · decide

/-! ## Timeout callback arguments (C26) -/

theorem TimeoutsOk.appendOther {id : triggerID} {T : ChainEpoch} {X : Option TipSet}
    {hnd : EventHandler} {calls ext : List Call} (h : TimeoutsOk id T X hnd calls)
    (hext : ∀ hd tts curH res, Call.timeout hd id tts curH res ∉ ext) :
    TimeoutsOk id T X hnd (calls ++ ext) := by
  intro l1 l2 hd tts curH res heq
  rcases append_eq_split heq with ⟨a2, h1, _⟩ | ⟨b1, _, h2⟩
  · exact h _ _ _ _ _ _ h1
  · exact absurd (by rw [h2]; simp) (hext hd tts curH res)

theorem TimeoutsOk.snoc {id : triggerID} {T : ChainEpoch} {X : Option TipSet}
    {hnd : EventHandler} {calls : List Call} (h : TimeoutsOk id T X hnd calls) (c : Call)
    (hc : ∀ hd tts curH res, c = Call.timeout hd id tts curH res →
      curH = T ∧ hd.height = T ∧ tts = X ∧ res = hnd calls none none X T) :
    TimeoutsOk id T X hnd (calls ++ [c]) := by
  intro l1 l2 hd tts curH res heq
  rcases append_eq_split heq with ⟨a2, h1, _⟩ | ⟨b1, h1, h2⟩
  · exact h _ _ _ _ _ _ h1
  · cases b1 with
    | nil =>
      simp only [List.nil_append, List.cons.injEq] at h2
      simp only [List.append_nil] at h1
      rw [h1]
      exact hc _ _ _ _ h2.1
    | cons x b1 =>
      simp only [List.cons_append, List.cons.injEq] at h2
      have := h2.2
      simp at this

theorem timeoutArgs_runInv (id : triggerID) (c : Int) (T : ChainEpoch) (X : Option TipSet)
    (hnd : EventHandler) :
    RunInv (fun env => env.tscGet (wrap64 (T - c)) = X) (fun _ => True)
      (TimeoutArgs id c T X hnd) where
  head :=
    { log := fun l _ hs => ⟨hs.1.logErrors l, hs.2.1, hs.2.2.1, hs.2.2.2⟩
      last := fun ts _ hs => ⟨hs.1.setLastTS ts, hs.2.1, hs.2.2.1, hs.2.2.2⟩
      revert := by
        intro ts s hs
        obtain ⟨h1, h2, h3, h4⟩ := hs
        obtain ⟨a1, a2, _, _⟩ := handleReverts_effect ts s
        obtain ⟨l, hl, hall, _⟩ := handleReverts_trace h1 ts
        refine ⟨h1.handleReverts ts, by rw [a1]; exact h2, by rw [a2]; exact h3, ?_⟩
        rw [hl]
        refine h4.appendOther ?_
        intro hd tts curH res hm
        obtain ⟨_, _, _, hc⟩ := hall _ hm
        cases hc
      queue := by
        intro tid data prev ts s _ hs
        obtain ⟨h1, h2, h3, h4⟩ := hs
        obtain ⟨a1, a2, _, a4⟩ := queueForConfidence_fields tid data prev ts s
        exact ⟨h1.queueForConfidence tid data prev ts, by rw [a1]; exact h2,
          by rw [a2]; exact h3, by rw [a4]; exact h4⟩
      apply := by
        intro env head height origH tTS i s _ _ hh hs
        have hI := hs.1.applyEvent env head height origH tTS i hh
        obtain ⟨h1, h2, h3, h4⟩ := hs
        rcases applyEvent_cases env head height origH tTS i s with
          h0 | h0 | ⟨l, h0⟩ | ⟨evs, event, trigger, prevTS, _, _, _, htrig, _, h0⟩
        · rw [h0]; exact ⟨h1, h2, h3, h4⟩
        · rw [h0]; exact ⟨h1.panic, h2, h3, h4⟩
        · rw [h0]; exact ⟨h1.logErrors l, h2, h3, h4⟩
        · have hno : ∀ hd tts curH res, Call.timeout hd id tts curH res ∉
              [Call.apply head event prevTS tTS height
                (trigger.handle s.calls event.data prevTS tTS height)] := by
            intro hd tts curH res hm
            rw [List.mem_singleton] at hm
            cases hm
          rcases h0 with ⟨_, h0⟩ | ⟨_, h0⟩
          · rw [h0] at hI ⊢
            exact ⟨hI, h2, h3, h4.appendOther hno⟩
          · rw [h0] at hI ⊢
            obtain ⟨a1, a2, _, a4⟩ := applySuccess_fields height origH i
              (Call.apply head event prevTS tTS height
                (trigger.handle s.calls event.data prevTS tTS height))
              event.trigger trigger
              (!(trigger.handle s.calls event.data prevTS tTS height).more) s
            refine ⟨hI, by rw [a1]; exact h2, ?_, by rw [a2]; exact h4.appendOther hno⟩
            rw [a4]
            by_cases hid : id = event.trigger
            · obtain ⟨hi, g1, g2, g3, g4⟩ := h3
              rw [hid, htrig] at g1
              cases g1
              exact ⟨_, if_pos hid, g2, g3, g4⟩
            · rw [if_neg hid]; exact h3
      timeout := by
        intro env ts tid s hE _ hs
        have hI := hs.1.applyTimeout env ts tid
        obtain ⟨h1, h2, h3, h4⟩ := hs
        rcases applyTimeout_cases env ts tid s with
          h0 | h0 | ⟨trigger, l, hcalls, htrig, _, h0⟩
        · rw [h0]; exact ⟨h1, h2, h3, h4⟩
        · rw [h0]; exact ⟨h1.panic, h2, h3, h4⟩
        · have hgood : ∀ hd tts curH res,
              Call.timeout ts tid (env.tscGet (wrap64 (ts.height - trigger.confidence)))
                ts.height (trigger.handle s.calls none none
                  (env.tscGet (wrap64 (ts.height - trigger.confidence))) ts.height) =
                Call.timeout hd id tts curH res →
              curH = T ∧ hd.height = T ∧ tts = X ∧ res = hnd s.calls none none X T := by
            intro hd tts curH res hc
            cases hc
            obtain ⟨hi, g1, g2, g3, g4⟩ := h3
            rw [htrig] at g1
            cases g1
            obtain ⟨hi', k1, k2⟩ := h1.1.touts _ _ _ hcalls
            rw [htrig] at k1
            cases k1
            have hT : ts.height = T := k2.symm.trans g3
            have hX : env.tscGet (wrap64 (ts.height - trigger.confidence)) = X := by
              rw [hT, g2]; exact hE
            rw [hX, g4, hT]
            exact ⟨rfl, rfl, rfl, rfl⟩
          have htrig' : ∀ b, ∃ hi, (s.triggers.set tid { trigger with disabled := b }).get id =
              some hi ∧ hi.confidence = c ∧ hi.timeout = T ∧ hi.handle = hnd := by
            intro b
            rw [GoMap.get_set]
            by_cases hid : tid = id
            · obtain ⟨hi, g1, g2, g3, g4⟩ := h3
              rw [← hid, htrig] at g1
              cases g1
              exact ⟨_, if_pos hid, g2, g3, g4⟩
            · rw [if_neg hid]; exact h3
          rcases h0 with ⟨_, h0⟩ | ⟨_, h0⟩
          · rw [h0] at hI ⊢
            exact ⟨hI, h2, h3, h4.snoc _ hgood⟩
          · rw [h0] at hI ⊢
            exact ⟨hI, h2, htrig' _, h4.snoc _ hgood⟩ }
  reg := by
    intro env check hnd' rev c' t s hs
    have hI := hs.1.onHeadChanged env check hnd' rev c' t
    obtain ⟨h1, h2, h3, h4⟩ := hs
    rcases onHeadChanged_cases env check hnd' rev c' t s with ⟨_, h0⟩ | ⟨ts, _, _, h0⟩
    · rw [h0]; exact ⟨h1, h2, h3, h4⟩
    · rw [h0] at hI ⊢
      obtain ⟨a1, _, _, a4⟩ := addTrigger_fields hnd' rev c'
        (if (check s.calls ts).done then NoTimeout else t) (check s.calls ts).more s
      refine ⟨hI, ?_, ?_, ?_⟩
      · show id < (addTrigger hnd' rev c' (if (check s.calls ts).done then NoTimeout else t)
          (check s.calls ts).more s).ctr
        rw [a1]; exact Nat.lt_succ_of_lt h2
      · show ∃ hi, (addTrigger hnd' rev c' (if (check s.calls ts).done then NoTimeout else t)
          (check s.calls ts).more s).triggers.get id = some hi ∧ _
        rw [addTrigger_triggers, if_neg (Nat.ne_of_lt h2)]
        exact h3
      · show TimeoutsOk id T X hnd (addTrigger hnd' rev c'
          (if (check s.calls ts).done then NoTimeout else t) (check s.calls ts).more s).calls
        rw [a4]; exact h4
  stateMatcher := fun _ _ _ hs =>
    ⟨hs.1.congrInv rfl rfl rfl rfl rfl rfl, hs.2.1, hs.2.2.1, hs.2.2.2⟩
  msgMatcher := fun _ _ _ hs =>
    ⟨hs.1.congrInv rfl rfl rfl rfl rfl rfl, hs.2.1, hs.2.2.1, hs.2.2.2⟩

theorem wrap64_add_sub (t c : Int) (h1 : -9223372036854775808 ≤ t)
    (h2 : t < 9223372036854775808) : wrap64 (wrap64 (t + c) - c) = t := by
  unfold wrap64
  omega

/-- C26: a registration (through `onHeadChanged`, `StateChanged` or `Called`) with a
timeout `t` other than `NoTimeout` and confidence `c` whose check returns `done = false`
stores the trigger with timeout `t + c` (int64 addition) and enters it in
`timeouts[t + c]`, and nowhere else, with call count 0.  Every later timeout invocation
of its handler is made while a tipset of height `t + c` is applied, with `curH = t + c`,
`data = nil`, `prevTS = nil` and `triggerTS = tsc.get((t + c) - c)`, where
`(t + c) - c = t` for `t` in the int64 range. -/
theorem timeout_callback_arguments (head : TipSet) (ops1 ops2 : List Op) (e : hcEvents)
    (he : e = run (newHCEvents head) ops1) (reg : Op) (env : Env) (check : CheckFunc)
    (c : Int) (t : ChainEpoch) (ts : TipSet) (X : Option TipSet)
    (hreg : reg.isRegistration env check c t)
    (hbest : env.tscBest = some ts) (herr : (check e.calls ts).err = false)
    (hdone : (check e.calls ts).done = false) (ht : t ≠ NoTimeout)
    (hops : ∀ op ∈ ops2, op.allowed
      (fun env' => env'.tscGet (wrap64 (wrap64 (t + c) - c)) = X) (fun _ => True)) :
    (∃ hi, (step e reg).triggers.get e.ctr = some hi ∧ hi.confidence = c ∧
      hi.timeout = wrap64 (t + c) ∧
      ∀ l1 l2 hd tts curH res,
        (run (step e reg) ops2).calls = l1 ++ Call.timeout hd e.ctr tts curH res :: l2 →
        curH = wrap64 (t + c) ∧ hd.height = wrap64 (t + c) ∧ tts = X ∧
          res = hi.handle l1 none none X (wrap64 (t + c))) ∧
    (∀ H, callsAt (step e reg) H e.ctr = if H = wrap64 (t + c) then some 0 else none) ∧
    (-9223372036854775808 ≤ t → t < 9223372036854775808 →
      wrap64 (wrap64 (t + c) - c) = t) := by
  have hinv : Inv e := he ▸ inv_run head ops1
  obtain ⟨hnd, rev, e1, he1, hstep⟩ := step_registration hreg e hbest herr
  simp only [hdone, Bool.false_eq_true, if_false] at he1
  have hinv1 : Inv e1 := by
    rw [he1]; exact ⟨hinv.1.addTriggerS _ _ _ _ _, hinv.2.addTriggerL hinv.1 _ _ _ _ _⟩
  have hnone : ∀ H, callsAt e H e.ctr = none := by
    intro H
    cases hH : callsAt e H e.ctr with
    | none => rfl
    | some n =>
      obtain ⟨hi, hget, _⟩ := hinv.1.touts H _ _ hH
      exact absurd (hinv.1.ids _ _ hget) (Nat.lt_irrefl _)
  have hto : ∀ H, callsAt e1 H e.ctr = if H = wrap64 (t + c) then some 0 else none := by
    intro H
    rw [he1, callsAt_addTrigger, hnone]
    by_cases hH : H = wrap64 (t + c) <;> simp [ht, hH]
  have hP : TimeoutArgs e.ctr c (wrap64 (t + c)) X hnd e1 := by
    refine ⟨hinv1, ?_, ?_, ?_⟩
    · rw [he1, (addTrigger_fields _ _ _ _ _ _).1]; exact Nat.lt_succ_self _
    · rw [he1, addTrigger_triggers, if_pos rfl]
      exact ⟨_, rfl, rfl, rfl, rfl⟩
    · intro l1 l2 hd tts curH res hc
      rw [he1, (addTrigger_fields _ _ _ _ _ _).2.2.2] at hc
      obtain ⟨hi, hget⟩ := hinv.2.timedOut hd e.ctr tts curH res (by rw [hc]; simp)
      exact absurd (hinv.1.ids _ _ hget) (Nat.lt_irrefl _)
  have hP' : TimeoutArgs e.ctr c (wrap64 (t + c)) X hnd (step e reg) := by
    rcases hstep with h | ⟨mf, h⟩ | ⟨mf, h⟩
    · rw [h]; exact hP
    · rw [h]; exact (timeoutArgs_runInv e.ctr c _ X hnd).stateMatcher _ _ _ hP
    · rw [h]; exact (timeoutArgs_runInv e.ctr c _ X hnd).msgMatcher _ _ _ hP
  have hrun := (timeoutArgs_runInv e.ctr c (wrap64 (t + c)) X hnd).runOn ops2 hops _ hP'
  refine ⟨?_, ?_, wrap64_add_sub t c⟩
  · obtain ⟨hi, g1, g2, g3, g4⟩ := hP'.2.2.1
    refine ⟨hi, g1, g2, g3, ?_⟩
    rw [g4]
    exact hrun.2.2.2
  · intro H
    rcases hstep with h | ⟨mf, h⟩ | ⟨mf, h⟩ <;> rw [h] <;> exact hto H

/-- C26 (witness): a registration with confidence 1 and timeout 20 is scheduled at
height 21; the timeout fires while tipset 21 is applied, with `triggerTS = tsc.get(20)`,
`curH = 21`, and the handler sees `data = nil` and `prevTS = nil`. -/
theorem timeout_callback_arguments_witness :
    (run (step (newHCEvents (tipsetAt 19)) timeoutRegistration) appliesTwentyTwentyOne).calls =
      [Call.timeout (tipsetAt 21) 0 (some (tipsetAt 20)) 21 { more := true, err := false },
       Call.timeout (tipsetAt 21) 0 (some (tipsetAt 20)) 21 { more := true, err := false }] ∧
    ((∃ hi, (step (newHCEvents (tipsetAt 19)) timeoutRegistration).triggers.get
        (newHCEvents (tipsetAt 19)).ctr = some hi ∧ hi.confidence = 1 ∧
      hi.timeout = wrap64 (20 + 1) ∧
      ∀ l1 l2 hd tts curH res,
        (run (step (newHCEvents (tipsetAt 19)) timeoutRegistration)
          appliesTwentyTwentyOne).calls =
          l1 ++ Call.timeout hd (newHCEvents (tipsetAt 19)).ctr tts curH res :: l2 →
        curH = wrap64 (20 + 1) ∧ hd.height = wrap64 (20 + 1) ∧ tts = some (tipsetAt 20) ∧
          res = hi.handle l1 none none (some (tipsetAt 20)) (wrap64 (20 + 1))) ∧
    (∀ H, callsAt (step (newHCEvents (tipsetAt 19)) timeoutRegistration) H
        (newHCEvents (tipsetAt 19)).ctr = if H = wrap64 (20 + 1) then some 0 else none) ∧
    (-9223372036854775808 ≤ (20 : Int) → (20 : Int) < 9223372036854775808 →
      wrap64 (wrap64 (20 + 1) - 1) = 20)) :=
  ⟨by decide,
    timeout_callback_arguments (tipsetAt 19) [] appliesTwentyTwentyOne
      (newHCEvents (tipsetAt 19)) rfl timeoutRegistration scenarioEnv (checkConst false true)
      1 20 (tipsetAt 0) (some (tipsetAt 20))
      (Or.inr (Or.inr ⟨handlerNilArgs, revertOk, matchNone, rfl⟩)) rfl rfl rfl (by decide)
      (by
        intro op hop
        simp only [appliesTwentyTwentyOne, List.mem_cons, List.mem_singleton,
          List.not_mem_nil, or_false] at hop
        rcases hop with rfl | rfl
        · exact ⟨rfl, fun _ _ => trivial⟩
        · exact ⟨rfl, fun _ _ => trivial⟩)⟩

/-! ## Message dedup (C24) -/

theorem consumeOnce_foldl (ms : List UnsignedMessage) :
    ∀ (seen : List Cid) (out : List UnsignedMessage),
      ms.foldl consumeOnce (seen, out) =
        (seen ++ (firstByCid seen ms).map (fun m => m.cid), out ++ firstByCid seen ms) := by
  induction ms with
  | nil => intro seen out; simp [firstByCid]
  | cons m ms ih =>
    intro seen out
    rw [List.foldl_cons]
    by_cases h : m.cid ∈ seen
    · simp only [consumeOnce, h, if_true, firstByCid]
      exact ih seen out
    · simp only [consumeOnce, h, if_false, firstByCid]
      rw [ih]
      simp

theorem firstByCid_append (a b : List UnsignedMessage) :
    ∀ seen, firstByCid seen (a ++ b) =
      firstByCid seen a ++ firstByCid (seen ++ (firstByCid seen a).map (fun m => m.cid)) b := by
  induction a with
  | nil => intro seen; simp [firstByCid]
  | cons m a ih =>
    intro seen
    by_cases h : m.cid ∈ seen
    · simp only [List.cons_append, firstByCid, h, if_true]
      exact ih seen
    · simp only [List.cons_append, firstByCid, h, if_false, List.append_eq]
      rw [ih]
      simp

theorem messagesForBlock_foldl (env : Env) (ts : TipSet) (blocks : List Cid) :
    ∀ (seen : List Cid) (out : List UnsignedMessage) (log : List LogMsg),
      (blocks.foldl (messagesForBlock env ts) ((seen, out), log)).1 =
        (seen ++ (firstByCid seen (allMessages env blocks)).map (fun m => m.cid),
          out ++ firstByCid seen (allMessages env blocks)) := by
  induction blocks with
  | nil => intro seen out log; simp [allMessages, firstByCid]
  | cons b bs ih =>
    intro seen out log
    rw [List.foldl_cons]
    cases hb : env.chainGetBlockMessages b with
    | none =>
      simp only [messagesForBlock, hb, allMessages, List.nil_append]
      exact ih seen out _
    | some msgs =>
      simp only [messagesForBlock, hb, allMessages]
      rw [consumeOnce_foldl, consumeOnce_foldl, ih, firstByCid_append]
      simp only [blockMessagesOf]
      rw [firstByCid_append]
      simp [List.append_assoc]

/-- The messages `messagesForTS` passes to `consume` are the first occurrences, by cid,
of the messages of the readable blocks. -/
theorem messagesForTS_eq (env : Env) (ts : TipSet) :
    (messagesForTS env ts).1 = firstByCid [] (allMessages env ts.blocks) := by
  unfold messagesForTS
  simp only
  rw [messagesForBlock_foldl]
  simp

theorem firstByCid_mem (ms : List UnsignedMessage) :
    ∀ seen c, c ∈ (firstByCid seen ms).map (fun m => m.cid) ↔
      c ∈ ms.map (fun m => m.cid) ∧ c ∉ seen := by
  induction ms with
  | nil => intro seen c; simp [firstByCid]
  | cons m ms ih =>
    intro seen c
    by_cases h : m.cid ∈ seen
    · simp only [firstByCid, h, if_true, ih, List.map_cons, List.mem_cons]
      constructor
      · rintro ⟨h1, h2⟩; exact ⟨Or.inr h1, h2⟩
      · rintro ⟨h1 | h1, h2⟩
        · exact absurd (h1 ▸ h) h2
        · exact ⟨h1, h2⟩
    · simp only [firstByCid, h, if_false, List.map_cons, List.mem_cons, ih, List.mem_append,
        List.mem_singleton, not_or]
      constructor
      · rintro (h1 | ⟨h1, h2, _⟩)
        · exact ⟨Or.inl h1, h1 ▸ h⟩
        · exact ⟨Or.inr h1, h2⟩
      · rintro ⟨h1 | h1, h2⟩
        · exact Or.inl h1
        · by_cases hc : c = m.cid
          · exact Or.inl hc
          · exact Or.inr ⟨h1, h2, hc, List.not_mem_nil _⟩

theorem firstByCid_nodup (ms : List UnsignedMessage) :
    ∀ seen, ((firstByCid seen ms).map (fun m => m.cid)).Nodup := by
  induction ms with
  | nil => intro seen; simp [firstByCid]
  | cons m ms ih =>
    intro seen
    by_cases h : m.cid ∈ seen
    · simp only [firstByCid, h, if_true]; exact ih seen
    · simp only [firstByCid, h, if_false, List.map_cons, List.nodup_cons]
      refine ⟨?_, ih _⟩
      intro hm
      have := ((firstByCid_mem ms _ _).1 hm).2
      simp at this

theorem firstByCid_sublist (ms : List UnsignedMessage) :
    ∀ seen, (firstByCid seen ms).Sublist ms := by
  induction ms with
  | nil => intro seen; simp [firstByCid]
  | cons m ms ih =>
    intro seen
    by_cases h : m.cid ∈ seen
    · simp only [firstByCid, h, if_true]
      exact (ih seen).cons m
    · simp only [firstByCid, h, if_false]
      exact (ih _).cons₂ m

/-- A message passed to `consume` has no earlier occurrence of its cid: the messages
before its first occurrence in the list of all messages carry other cids. -/
theorem firstByCid_first (ms : List UnsignedMessage) :
    ∀ seen l1 m l2, firstByCid seen ms = l1 ++ m :: l2 →
      ∃ a b, ms = a ++ m :: b ∧ m.cid ∉ a.map (fun x => x.cid) ∧ m.cid ∉ seen ∧
        l1 = firstByCid seen a := by
  induction ms with
  | nil => intro seen l1 m l2 h; simp [firstByCid] at h
  | cons x ms ih =>
    intro seen l1 m l2 h
    by_cases hx : x.cid ∈ seen
    · simp only [firstByCid, hx, if_true] at h
      obtain ⟨a, b, h1, h2, h3, h4⟩ := ih seen l1 m l2 h
      refine ⟨x :: a, b, by rw [h1]; rfl, ?_, h3, ?_⟩
      · simp only [List.map_cons, List.mem_cons, not_or]
        exact ⟨fun hc => h3 (hc ▸ hx), h2⟩
      · simp only [firstByCid, hx, if_true]; exact h4
    · simp only [firstByCid, hx, if_false] at h
      cases l1 with
      | nil =>
        simp only [List.nil_append, List.cons.injEq] at h
        obtain ⟨rfl, _⟩ := h
        exact ⟨[], ms, rfl, by simp, hx, by simp [firstByCid]⟩
      | cons y l1 =>
        simp only [List.cons_append, List.cons.injEq] at h
        obtain ⟨rfl, h⟩ := h
        obtain ⟨a, b, h1, h2, h3, h4⟩ := ih _ l1 m l2 h
        simp only [List.mem_append, List.mem_singleton, not_or] at h3
        refine ⟨x :: a, b, by rw [h1]; rfl, ?_, h3.1, ?_⟩
        · simp only [List.map_cons, List.mem_cons, not_or]
          exact ⟨h3.2, h2⟩
        · simp only [firstByCid, hx, if_false]
          rw [h4]

/-! ## Matcher evaluations and queued message events (C24) -/

theorem insertBy_perm {K : Type} (rank : K → Nat) (k : K) (l : List K) :
    (insertBy rank k l).Perm (k :: l) := by
  induction l with
  | nil => exact List.Perm.refl _
  | cons x xs ih =>
    unfold insertBy
    split
    · exact List.Perm.refl _
    · exact (ih.cons x).trans (List.Perm.swap k x xs)

theorem orderBy_perm {K : Type} (rank : K → Nat) (l : List K) : (orderBy rank l).Perm l := by
  induction l with
  | nil => exact List.Perm.refl _
  | cons k ks ih => exact (insertBy_perm rank k _).trans (ih.cons k)

theorem GoMap.keys_set {K V : Type} [DecidableEq K] (m : GoMap K V) (k : K) (v : V) :
    (m.set k v).keys = if k ∈ m.keys then m.keys else m.keys ++ [k] := by
  induction m with
  | nil => simp [GoMap.set, GoMap.keys]
  | cons p m ih =>
    obtain ⟨a, b⟩ := p
    by_cases h : a = k
    · subst h
      simp [GoMap.set, GoMap.keys]
    · have h' : ¬ k = a := fun hc => h hc.symm
      simp only [GoMap.keys] at ih
      by_cases hk : k ∈ List.map Prod.fst m
      · simp [GoMap.set, GoMap.keys, h, h', hk, ih]
      · simp [GoMap.set, GoMap.keys, h, h', hk, ih]

theorem GoMap.keys_set_nodup {K V : Type} [DecidableEq K] {m : GoMap K V}
    (h : m.keys.Nodup) (k : K) (v : V) : (m.set k v).keys.Nodup := by
  rw [GoMap.keys_set]
  split
  · exact h
  · rename_i hk
    rw [List.nodup_append]
    exact ⟨h, List.nodup_singleton k, by
      intro x hx hx'
      rw [List.mem_singleton] at hx'
      exact hk (hx' ▸ hx)⟩

theorem GoMap.get_of_not_mem_keys {K V : Type} [DecidableEq K] (m : GoMap K V) (k : K)
    (h : k ∉ m.keys) : m.get k = none := by
  induction m with
  | nil => rfl
  | cons p m ih =>
    obtain ⟨a, b⟩ := p
    simp only [GoMap.keys, List.map_cons, List.mem_cons, not_or] at h
    simp only [GoMap.get]
    rw [if_neg (fun hc => h.1 hc.symm)]
    exact ih h.2

theorem GoMap.mem_keys_of_get {K V : Type} [DecidableEq K] {m : GoMap K V} {k : K} {v : V}
    (h : m.get k = some v) : k ∈ m.keys := by
  by_contra hk
  rw [GoMap.get_of_not_mem_keys m k hk] at h
  cases h

theorem matchMessage_get_ne (msg : UnsignedMessage) (matchers : GoMap triggerID MsgMatchFunc)
    (acc : GoMap triggerID (List eventData) × List LogMsg) {k tid : triggerID} (h : k ≠ tid) :
    (matchMessage msg matchers acc k).1.get tid = acc.1.get tid := by
  unfold matchMessage
  split
  · rfl
  · simp only
    split
    · rfl
    · split
      · exact GoMap.get_set_ne _ _ h
      · rfl

theorem matchMessage_get_self (msg : UnsignedMessage) (matchers : GoMap triggerID MsgMatchFunc)
    (acc : GoMap triggerID (List eventData) × List LogMsg) {tid : triggerID}
    {mf : MsgMatchFunc} (h : matchers.get tid = some mf) :
    ((matchMessage msg matchers acc tid).1.get tid).getD [] =
      (acc.1.get tid).getD [] ++ (if (mf msg).hit then [eventData.msg msg] else []) := by
  unfold matchMessage MsgMatchResult.hit
  rw [h]
  simp only
  cases h1 : (mf msg).err
  · cases h2 : (mf msg).matched
    · simp
    · simp [GoMap.get_set]
  · simp

theorem matchMessage_keys (msg : UnsignedMessage) (matchers : GoMap triggerID MsgMatchFunc)
    (acc : GoMap triggerID (List eventData) × List LogMsg) (k : triggerID)
    (h : acc.1.keys.Nodup) : (matchMessage msg matchers acc k).1.keys.Nodup := by
  unfold matchMessage
  split
  · exact h
  · simp only
    split
    · exact h
    · split
      · exact GoMap.keys_set_nodup h _ _
      · exact h

theorem matchMessage_foldl_get (msg : UnsignedMessage)
    (matchers : GoMap triggerID MsgMatchFunc) {tid : triggerID} {mf : MsgMatchFunc}
    (hget : matchers.get tid = some mf) (ks : List triggerID) (hks : ks.Nodup) :
    ∀ acc, ((ks.foldl (matchMessage msg matchers) acc).1.get tid).getD [] =
      (acc.1.get tid).getD [] ++
        (if tid ∈ ks ∧ (mf msg).hit = true then [eventData.msg msg] else []) := by
  induction ks with
  | nil => intro acc; simp
  | cons k ks ih =>
    intro acc
    rw [List.nodup_cons] at hks
    rw [List.foldl_cons, ih hks.2]
    by_cases hk : k = tid
    · subst hk
      rw [matchMessage_get_self msg matchers acc hget]
      by_cases hh : (mf msg).hit = true <;> simp [hks.1, hh]
    · rw [matchMessage_get_ne msg matchers acc hk]
      have hk' : ¬ tid = k := fun hc => hk hc.symm
      simp [hk']

theorem matchMessages_get (matchers : GoMap triggerID MsgMatchFunc) {tid : triggerID}
    {mf : MsgMatchFunc} (hget : matchers.get tid = some mf) (ks : List triggerID)
    (hks : ks.Nodup) (hmem : tid ∈ ks) (ms : List UnsignedMessage) :
    ∀ acc, ((ms.foldl (fun acc msg => ks.foldl (matchMessage msg matchers) acc) acc).1.get
        tid).getD [] =
      (acc.1.get tid).getD [] ++
        (ms.filter (fun m => (mf m).hit)).map eventData.msg := by
  induction ms with
  | nil => intro acc; simp
  | cons m ms ih =>
    intro acc
    rw [List.foldl_cons, ih, matchMessage_foldl_get m matchers hget ks hks]
    by_cases hh : (mf m).hit = true <;> simp [hmem, hh, List.filter_cons]

theorem matchMessages_keys (matchers : GoMap triggerID MsgMatchFunc) (ks : List triggerID)
    (ms : List UnsignedMessage) (acc : GoMap triggerID (List eventData) × List LogMsg)
    (h : acc.1.keys.Nodup) :
    (ms.foldl (fun acc msg => ks.foldl (matchMessage msg matchers) acc) acc).1.keys.Nodup :=
  foldl_preserves (fun a => a.1.keys.Nodup) _ ms
    (fun m _ a ha => foldl_preserves (fun a => a.1.keys.Nodup) _ ks
      (fun k _ a ha => matchMessage_keys m matchers a k ha) a ha) acc h

/-- The fold of `checkNewCalls` visits the matcher evaluations in order. -/
theorem matchMessages_evals (matchers : GoMap triggerID MsgMatchFunc) (ks : List triggerID)
    (ms : List UnsignedMessage) :
    ∀ acc, ms.foldl (fun acc msg => ks.foldl (matchMessage msg matchers) acc) acc =
      (matcherEvalsOf ks ms).foldl (fun acc p => matchMessage p.2 matchers acc p.1) acc := by
  induction ms with
  | nil => intro acc; rfl
  | cons m ms ih =>
    intro acc
    rw [List.foldl_cons, ih]
    simp only [matcherEvalsOf, List.foldl_append, List.foldl_map]

theorem mem_matcherEvalsOf {ks : List triggerID} {ms : List UnsignedMessage}
    {p : triggerID × UnsignedMessage} (h : p ∈ matcherEvalsOf ks ms) : p.1 ∈ ks ∧ p.2 ∈ ms := by
  induction ms with
  | nil => simp [matcherEvalsOf] at h
  | cons m ms ih =>
    simp only [matcherEvalsOf, List.mem_append, List.mem_map] at h
    rcases h with ⟨k, hk, rfl⟩ | h
    · exact ⟨hk, List.mem_cons_self _ _⟩
    · exact ⟨(ih h).1, List.mem_cons_of_mem _ (ih h).2⟩

theorem matcherEvalsOf_nodup {ks : List triggerID} (hks : ks.Nodup)
    {ms : List UnsignedMessage} (hms : (ms.map (fun m => m.cid)).Nodup) :
    ((matcherEvalsOf ks ms).map (fun p => (p.1, p.2.cid))).Nodup := by
  induction ms with
  | nil => simp [matcherEvalsOf]
  | cons m ms ih =>
    rw [List.map_cons, List.nodup_cons] at hms
    simp only [matcherEvalsOf, List.map_append, List.map_map]
    rw [List.nodup_append]
    refine ⟨?_, ih hms.2, ?_⟩
    · refine List.Nodup.map ?_ hks
      intro a b hab
      simpa using hab
    · intro x hx hx'
      simp only [List.mem_map, Function.comp] at hx hx'
      obtain ⟨k, _, rfl⟩ := hx
      obtain ⟨p, hp, hpe⟩ := hx'
      have h2 := (mem_matcherEvalsOf hp).2
      simp only [Prod.mk.injEq] at hpe
      exact hms.1 (by rw [← hpe.2]; exact List.mem_map_of_mem _ h2)

theorem revertEvent_matchers (ts : TipSet) (triggerH : ChainEpoch) (event : queuedEvent)
    (e : hcEvents) : (revertEvent ts triggerH event e).msgMatchers = e.msgMatchers := by
  unfold revertEvent
  split
  · rfl
  · split
    · rfl
    · simp only
      split <;> rfl

theorem handleReverts_matchers (ts : TipSet) (e : hcEvents) :
    (handleReverts ts e).msgMatchers = e.msgMatchers := by
  unfold handleReverts
  split
  · rfl
  · show (List.foldl _ e _).msgMatchers = e.msgMatchers
    refine foldl_preserves (fun s => s.msgMatchers = e.msgMatchers) _ _ (fun tH _ s hs => ?_) e rfl
    unfold revertTrigger dropReverted
    simp only
    have : (((eventsAt s tH ts.height).getD []).foldl
        (fun e event => revertEvent ts tH event e) s).msgMatchers = e.msgMatchers :=
      foldl_preserves (fun s => s.msgMatchers = e.msgMatchers) _ _
        (fun ev _ s hs => (revertEvent_matchers ts tH ev s).trans hs) s hs
    split
    · exact this
    · exact this

theorem queueForConfidence_matchers (trigID : triggerID) (data : Option eventData)
    (prevTS : Option TipSet) (ts : TipSet) (e : hcEvents) :
    (queueForConfidence trigID data prevTS ts e).msgMatchers = e.msgMatchers := by
  unfold queueForConfidence
  split <;> rfl

theorem markCalled_matchers (height origH : ChainEpoch) (i : Nat) (e : hcEvents) :
    (markCalled height origH i e).msgMatchers = e.msgMatchers := by
  unfold markCalled
  split
  · rfl
  · split <;> rfl

theorem bumpTimeout_matchers (timeout : ChainEpoch) (trigID : triggerID) (e : hcEvents) :
    (bumpTimeout timeout trigID e).msgMatchers = e.msgMatchers := by
  unfold bumpTimeout
  split <;> rfl

theorem addTrigger_matchers (hnd : EventHandler) (rev : RevertHandler) (confidence : Int)
    (timeout : ChainEpoch) (more : Bool) (e : hcEvents) :
    (addTrigger hnd rev confidence timeout more e).msgMatchers = e.msgMatchers := by
  unfold addTrigger
  simp only
  split <;> rfl

/-- The keys of the message matcher table are distinct in every state the dispatcher
reaches. -/
theorem matcherKeys_stepInv : StepInv (fun e => e.msgMatchers.keys.Nodup) where
  log := fun _ _ h => h
  last := fun _ _ h => h
  revert := fun ts e h => by rw [handleReverts_matchers]; exact h
  queue := fun tid data prev ts e h => by rw [queueForConfidence_matchers]; exact h
  apply := by
    intro env head height origH tTS i e _ h
    rcases applyEvent_cases env head height origH tTS i e with
      h0 | h0 | ⟨l, h0⟩ | ⟨evs, event, trigger, prevTS, _, _, _, _, _, h0⟩
    · rw [h0]; exact h
    · rw [h0]; exact h
    · rw [h0]; exact h
    · rcases h0 with ⟨_, h0⟩ | ⟨_, h0⟩
      · rw [h0]; exact h
      · rw [h0]
        show (bumpTimeout trigger.timeout event.trigger _).msgMatchers.keys.Nodup
        rw [bumpTimeout_matchers, markCalled_matchers]
        exact h
  timeout := by
    intro env ts tid e h
    rcases applyTimeout_cases env ts tid e with h0 | h0 | ⟨trigger, l, _, _, _, h0⟩
    · rw [h0]; exact h
    · rw [h0]; exact h
    · rcases h0 with ⟨_, h0⟩ | ⟨_, h0⟩ <;> rw [h0] <;> exact h
  reg := by
    intro env check hnd rev c t e h
    rcases onHeadChanged_cases env check hnd rev c t e with ⟨_, h0⟩ | ⟨ts, _, _, h0⟩
    · rw [h0]; exact h
    · rw [h0]
      show (addTrigger hnd rev c _ _ e).msgMatchers.keys.Nodup
      rw [addTrigger_matchers]
      exact h
  stateMatcher := fun _ _ _ h => h
  msgMatcher := fun id mf e h => GoMap.keys_set_nodup h id mf

theorem eventsFor_queueForConfidence (trigID : triggerID) (data : Option eventData)
    (prevTS : Option TipSet) (ts : TipSet) (e : hcEvents) (tid : triggerID)
    (tH mH : ChainEpoch) :
    eventsFor (queueForConfidence trigID data prevTS ts e) tid tH mH =
      eventsFor e tid tH mH ++
        (match e.triggers.get trigID with
          | none => []
          | some hi =>
            if trigID = tid ∧ tH = wrap64 (ts.height + hi.confidence) ∧ mH = ts.height then
              [newEvent trigID data prevTS ts]
            else []) := by
  unfold eventsFor
  rw [eventsAt_queueForConfidence]
  cases hg : e.triggers.get trigID with
  | none => simp
  | some hi =>
    simp only
    by_cases hslot : tH = wrap64 (ts.height + hi.confidence) ∧ mH = ts.height
    · rw [if_pos hslot]
      by_cases hid : trigID = tid
      · simp [hid, hslot, List.filter_append, newEvent]
      · simp [hid, List.filter_append, newEvent]
    · rw [if_neg hslot]
      have : ¬ (trigID = tid ∧ tH = wrap64 (ts.height + hi.confidence) ∧ mH = ts.height) :=
        fun hc => hslot hc.2
      simp [this]

theorem eventsFor_queueAll (trigID : triggerID) (ts : TipSet) (tid : triggerID)
    (hi : handlerInfo) (tH mH : ChainEpoch) (datas : List eventData) :
    ∀ e, e.triggers.get tid = some hi →
      (datas.foldl (fun e data => queueForConfidence trigID (some data) none ts e) e).triggers =
        e.triggers ∧
      eventsFor (datas.foldl (fun e data => queueForConfidence trigID (some data) none ts e) e)
          tid tH mH =
        eventsFor e tid tH mH ++
          (if trigID = tid ∧ tH = wrap64 (ts.height + hi.confidence) ∧ mH = ts.height then
            datas.map (fun d => newEvent tid (some d) none ts)
          else []) := by
  induction datas with
  | nil => intro e _; simp
  | cons d datas ih =>
    intro e hget
    have htr := (queueForConfidence_fields trigID (some d) none ts e).2.1
    obtain ⟨i1, i2⟩ := ih (queueForConfidence trigID (some d) none ts e) (by rw [htr]; exact hget)
    rw [List.foldl_cons]
    refine ⟨i1.trans htr, ?_⟩
    rw [i2, eventsFor_queueForConfidence]
    by_cases hid : trigID = tid
    · subst hid
      rw [hget]
      by_cases hslot : tH = wrap64 (ts.height + hi.confidence) ∧ mH = ts.height
      · simp [hslot]
      · simp only [true_and]
        rw [if_neg hslot, if_neg hslot]
        simp
        exact fun a b => hslot ⟨a, b⟩
    · cases hg : e.triggers.get trigID <;> simp [hid]

theorem eventsFor_queueNewCalls (env : Env) (ts : TipSet)
    (nc : GoMap triggerID (List eventData)) (hnc : nc.keys.Nodup) (tid : triggerID)
    (hi : handlerInfo) (tH mH : ChainEpoch) (e : hcEvents)
    (hget : e.triggers.get tid = some hi) :
    eventsFor (queueNewCalls env ts nc e) tid tH mH =
      eventsFor e tid tH mH ++
        (if tH = wrap64 (ts.height + hi.confidence) ∧ mH = ts.height then
          ((nc.get tid).getD []).map (fun d => newEvent tid (some d) none ts)
        else []) := by
  have hperm := orderBy_perm env.rankT nc.keys
  have hks : (orderBy env.rankT nc.keys).Nodup := hperm.nodup_iff.2 hnc
  have hout : tid ∉ orderBy env.rankT nc.keys → nc.get tid = none :=
    fun h => GoMap.get_of_not_mem_keys nc tid (fun hc => h (hperm.mem_iff.2 hc))
  unfold queueNewCalls
  generalize orderBy env.rankT nc.keys = ks at hks hout
  have key : ∀ e, e.triggers.get tid = some hi →
      eventsFor (ks.foldl (fun e k => ((nc.get k).getD []).foldl
          (fun e data => queueForConfidence k (some data) none ts e) e) e) tid tH mH =
        eventsFor e tid tH mH ++
          (if tid ∈ ks ∧ tH = wrap64 (ts.height + hi.confidence) ∧ mH = ts.height then
            ((nc.get tid).getD []).map (fun d => newEvent tid (some d) none ts)
          else []) := by
    clear hout hget
    induction ks with
    | nil => intro e _; simp
    | cons k ks ih =>
      intro e hget
      rw [List.nodup_cons] at hks
      obtain ⟨q1, q2⟩ := eventsFor_queueAll k ts tid hi tH mH ((nc.get k).getD []) e hget
      rw [List.foldl_cons, ih hks.2 _ (by rw [q1]; exact hget), q2]
      by_cases hk : k = tid
      · subst hk
        by_cases hslot : tH = wrap64 (ts.height + hi.confidence) ∧ mH = ts.height
        · simp [hks.1, hslot]
        · have h1 : ¬ (k = k ∧ tH = wrap64 (ts.height + hi.confidence) ∧ mH = ts.height) :=
            fun hc => hslot hc.2
          have h2 : ¬ (k ∈ k :: ks ∧ tH = wrap64 (ts.height + hi.confidence) ∧
              mH = ts.height) := fun hc => hslot hc.2
          have h3 : ¬ (k ∈ ks ∧ tH = wrap64 (ts.height + hi.confidence) ∧
              mH = ts.height) := fun hc => hslot hc.2
          rw [if_neg h1, if_neg h2, if_neg h3]
          simp
      · have hk' : ¬ tid = k := fun hc => hk hc.symm
        simp [hk, hk']
  rw [key e hget]
  by_cases hmem : tid ∈ ks
  · simp [hmem]
  · rw [hout hmem]
    simp

theorem queueStateChanges_matchers (env : Env) (ts : TipSet)
    (sc : GoMap triggerID (Option eventData)) (e : hcEvents) :
    (queueStateChanges env ts sc e).msgMatchers = e.msgMatchers := by
  unfold queueStateChanges
  refine foldl_preserves (fun s => s.msgMatchers = e.msgMatchers) _ _ (fun tid _ s hs => ?_) e rfl
  split
  · exact hs
  · exact (queueForConfidence_matchers _ _ _ _ _).trans hs

/-- C24: when a tipset `ts` whose parent tipset `pts` can be read is applied in a state
the dispatcher reaches, `messagesForTS` passes to the consumer the first occurrence, by
cid, of every message of the readable blocks of `pts` (blocks in tipset order, BLS
messages before secp messages, one seen-set for both): every cid found is passed exactly
once, in first-occurrence order.  `checkNewCalls` evaluates each matcher at most once
per cid, the list it returns for a trigger holds the matching messages once each, and
`queueNewCalls` queues exactly one event of the trigger for each element of that list. -/
theorem messages_are_deduplicated (head : TipSet) (ops : List Op) (e : hcEvents)
    (he : e = run (newHCEvents head) ops) (env : Env) (ts pts : TipSet)
    (hpts : env.chainGetTipSet ts.parents = some pts) :
    (messagesForTS env pts).1 = firstByCid [] (allMessages env pts.blocks) ∧
    ((messagesForTS env pts).1.map (fun m => m.cid)).Nodup ∧
    (∀ c, c ∈ (messagesForTS env pts).1.map (fun m => m.cid) ↔
      c ∈ (allMessages env pts.blocks).map (fun m => m.cid)) ∧
    (∀ l1 m l2, (messagesForTS env pts).1 = l1 ++ m :: l2 →
      ∃ a b, allMessages env pts.blocks = a ++ m :: b ∧ m.cid ∉ a.map (fun x => x.cid) ∧
        l1 = firstByCid [] a) ∧
    ((matcherEvals env ts (beforeNewCalls env ts e)).map (fun p => (p.1, p.2.cid))).Nodup ∧
    ∃ nc, (checkNewCalls env ts (beforeNewCalls env ts e)).1 = some nc ∧
      nc = ((matcherEvals env ts (beforeNewCalls env ts e)).foldl
        (fun acc p => matchMessage p.2 (beforeNewCalls env ts e).msgMatchers acc p.1)
        ([], (messagesForTS env pts).2)).1 ∧
      (applyTipSet env ts e).1 =
        setLastTS ts (applyHeights env ts (queueNewCalls env ts nc
          (logErrors (checkNewCalls env ts (beforeNewCalls env ts e)).2
            (beforeNewCalls env ts e)))) ∧
      (∀ tid mf, e.msgMatchers.get tid = some mf →
        (nc.get tid).getD [] =
          ((messagesForTS env pts).1.filter (fun m => (mf m).hit)).map eventData.msg ∧
        ((nc.get tid).getD []).Nodup) ∧
      ∀ tid hi s tH mH, s.triggers.get tid = some hi →
        eventsFor (queueNewCalls env ts nc s) tid tH mH =
          eventsFor s tid tH mH ++
            (if tH = wrap64 (ts.height + hi.confidence) ∧ mH = ts.height then
              ((nc.get tid).getD []).map (fun d => newEvent tid (some d) none ts)
            else []) := by
  have hK : e.msgMatchers.keys.Nodup := by
    rw [he]
    exact matcherKeys_stepInv.run ops _ (by simp [newHCEvents, GoMap.keys])
  have hB : (beforeNewCalls env ts e).msgMatchers = e.msgMatchers := by
    unfold beforeNewCalls
    rw [queueStateChanges_matchers]
    rfl
  have hperm := orderBy_perm env.rankT e.msgMatchers.keys
  have hks : (orderBy env.rankT e.msgMatchers.keys).Nodup := hperm.nodup_iff.2 hK
  have hnd : ((messagesForTS env pts).1.map (fun m => m.cid)).Nodup := by
    rw [messagesForTS_eq]; exact firstByCid_nodup _ _
  have hcn : checkNewCalls env ts (beforeNewCalls env ts e) =
      (some ((messagesForTS env pts).1.foldl (fun acc msg =>
          (orderBy env.rankT e.msgMatchers.keys).foldl (matchMessage msg e.msgMatchers) acc)
          ([], (messagesForTS env pts).2)).1,
        ((messagesForTS env pts).1.foldl (fun acc msg =>
          (orderBy env.rankT e.msgMatchers.keys).foldl (matchMessage msg e.msgMatchers) acc)
          ([], (messagesForTS env pts).2)).2) := by
    simp only [checkNewCalls, hpts, hB]
  refine ⟨messagesForTS_eq env pts, hnd, ?_, ?_, ?_, _, by rw [hcn], ?_, ?_, ?_, ?_⟩
  · intro c
    rw [messagesForTS_eq, firstByCid_mem]
    simp
  · intro l1 m l2 h
    rw [messagesForTS_eq] at h
    obtain ⟨a, b, h1, h2, _, h4⟩ := firstByCid_first _ _ _ _ _ h
    exact ⟨a, b, h1, h2, h4⟩
  · simp only [matcherEvals, hpts, hB]
    exact matcherEvalsOf_nodup hks hnd
  · simp only [matcherEvals, hpts, hB]
    rw [matchMessages_evals]
  · rw [hcn]
    unfold applyTipSet
    simp only
    have hcn' := hcn
    unfold beforeNewCalls at hcn'
    rw [hcn']
    rfl
  · intro tid mf hget
    have hmem : tid ∈ orderBy env.rankT e.msgMatchers.keys :=
      hperm.mem_iff.2 (GoMap.mem_keys_of_get hget)
    have h := matchMessages_get e.msgMatchers hget _ hks hmem (messagesForTS env pts).1
      ([], (messagesForTS env pts).2)
    have h' : (GoMap.get ([] : GoMap triggerID (List eventData)) tid).getD [] = [] := rfl
    simp only [h', List.nil_append] at h
    refine ⟨h, ?_⟩
    rw [h]
    refine List.Nodup.map ?_ ((List.Nodup.of_map _ hnd).filter _)
    intro a b hab
    cases hab
    rfl
  · intro tid hi s tH mH hget
    refine eventsFor_queueNewCalls env ts _ ?_ tid hi tH mH s hget
    exact matchMessages_keys _ _ _ _ (by simp [GoMap.keys])

/-- C24 (witness): the parent tipset has two blocks carrying the messages 1, 2 | 2, 3 and
3, 4 | 1; the consumer sees 1, 2, 3, 4, and the trigger matching 2 and 3 gets one event
for each. -/
theorem messages_are_deduplicated_witness :
    (messagesForTS dedupEnv { height := 0, blocks := [1, 2], parents := [] }).1 =
      [{ cid := 1 }, { cid := 2 }, { cid := 3 }, { cid := 4 }] ∧
    eventsAt (applyTipSet dedupEnv tipsetOverTwoBlocks
        (run (newHCEvents (tipsetAt 9)) dedupRun)).1 13 10 =
      some [{ trigger := 0, prevH := NoHeight, h := 10,
              data := some (eventData.msg { cid := 2 }), called := false },
            { trigger := 0, prevH := NoHeight, h := 10,
              data := some (eventData.msg { cid := 3 }), called := false }] ∧
    ((messagesForTS dedupEnv { height := 0, blocks := [1, 2], parents := [] }).1.map
      (fun m => m.cid)).Nodup :=
  ⟨by decide, by decide,
    (messages_are_deduplicated (tipsetAt 9) dedupRun _ rfl dedupEnv tipsetOverTwoBlocks
      { height := 0, blocks := [1, 2], parents := [] } rfl).2.1⟩

/-! ## Null-round gaps (C25) -/

theorem FireOn.groupOn {env : Env} {ts : TipSet} {P : hcEvents → Prop}
    (hP : FireOn env ts P) (height origH : ChainEpoch) (n : Nat) (hh : height ≤ ts.height)
    (e : hcEvents) (he : P e) : P (applyGroup env ts height origH n e) := by
  unfold Events.applyGroup
  refine foldl_preserves P _ _ (fun i _ s hs => hP.apply _ _ _ _ hh hs) _ ?_
  split
  · exact hP.log _ _ he
  · exact he

theorem FireOn.confidenceOn {env : Env} {ts : TipSet} {P : hcEvents → Prop}
    (hP : FireOn env ts P) (height : ChainEpoch) (hh : height ≤ ts.height)
    (e : hcEvents) (he : P e) : P (applyWithConfidence env ts height e) := by
  unfold Events.applyWithConfidence
  split
  · exact he
  · exact foldl_preserves P _ _ (fun origH _ s hs => hP.groupOn _ _ _ hh s hs) e he

theorem FireOn.timeoutsOn {env : Env} {ts : TipSet} {P : hcEvents → Prop}
    (hP : FireOn env ts P) (e : hcEvents) (he : P e) : P (applyTimeouts env ts e) := by
  unfold Events.applyTimeouts
  split
  · exact he
  · exact foldl_preserves P _ _ (fun tid _ s hs => hP.timeout _ _ hs) e he

theorem FireOn.iteration {env : Env} {ts : TipSet} {P : hcEvents → Prop}
    (hP : FireOn env ts P) (height : ChainEpoch) (hh : height ≤ ts.height)
    (e : hcEvents) (he : P e) :
    P (Events.applyTimeouts env ts (Events.applyWithConfidence env ts height e)) :=
  hP.timeoutsOn _ (hP.confidenceOn height hh e he)

theorem mem_heightRange_of {lo hi x : Int} (h1 : lo ≤ x) (h2 : x ≤ hi) :
    x ∈ heightRange lo hi := by
  rw [heightRange, List.mem_map]
  refine ⟨(x - lo).toNat, ?_, ?_⟩
  · rw [List.mem_range]
    omega
  · omega

/-- What one iteration of the event loop leaves untouched. -/
theorem applyEvent_frame (env : Env) (head : TipSet) (height origH : ChainEpoch)
    (tTS : Option TipSet) (i : Nat) (s : hcEvents) :
    (∃ ext, (applyEvent env head height origH tTS i s).calls = s.calls ++ ext) ∧
    (∀ tid, TriggerDisabled tid s →
      TriggerDisabled tid (applyEvent env head height origH tTS i s)) ∧
    ∀ tH oH j ev, EventWaiting tH oH j ev s → ¬ (tH = height ∧ oH = origH ∧ j = i) →
      EventWaiting tH oH j ev (applyEvent env head height origH tTS i s) := by
  rcases applyEvent_cases env head height origH tTS i s with
    h0 | h0 | ⟨l, h0⟩ | ⟨evs, event, trigger, prevTS, hevs, hi, _, htrig, hdis, h0⟩
  · rw [h0]; exact ⟨⟨[], by simp⟩, fun _ h => h, fun _ _ _ _ h _ => h⟩
  · rw [h0]; exact ⟨⟨[], by simp [panic]⟩, fun _ h => h, fun _ _ _ _ h _ => h⟩
  · rw [h0]; exact ⟨⟨[], by simp [logErrors]⟩, fun _ h => h, fun _ _ _ _ h _ => h⟩
  · rcases h0 with ⟨_, h0⟩ | ⟨_, h0⟩
    · rw [h0]; exact ⟨⟨[_], rfl⟩, fun _ h => h, fun _ _ _ _ h _ => h⟩
    · rw [h0]
      obtain ⟨_, a2, _, a4⟩ := applySuccess_fields height origH i
        (Call.apply head event prevTS tTS height
          (trigger.handle s.calls event.data prevTS tTS height))
        event.trigger trigger
        (!(trigger.handle s.calls event.data prevTS tTS height).more) s
      refine ⟨⟨[_], a2⟩, ?_, ?_⟩
      · rintro tid ⟨hi', g1, g2⟩
        have hne : tid ≠ event.trigger := by
          intro hc
          rw [hc, htrig] at g1
          cases g1
          rw [hdis] at g2
          cases g2
        exact ⟨hi', by rw [a4, if_neg hne]; exact g1, g2⟩
      · rintro tH oH j ev ⟨evs', w1, w2⟩ hslot
        have hc : eventsAt (setDisabled event.trigger trigger
            (!(trigger.handle s.calls event.data prevTS tTS height).more)
            (bumpTimeout trigger.timeout event.trigger
              (markCalled height origH i
                (recordCall (Call.apply head event prevTS tTS height
                  (trigger.handle s.calls event.data prevTS tTS height)) s)))) tH oH =
            eventsAt (markCalled height origH i
                (recordCall (Call.apply head event prevTS tTS height
                  (trigger.handle s.calls event.data prevTS tTS height)) s)) tH oH :=
          congrFun (congrFun (eventsAt_congr
            (bumpTimeout_fields trigger.timeout event.trigger _).2.2.2.1) tH) oH
        have hs0 : eventsAt (recordCall (Call.apply head event prevTS tTS height
            (trigger.handle s.calls event.data prevTS tTS height)) s) tH oH = some evs' := w1
        unfold EventWaiting
        rw [hc, eventsAt_markCalled, hs0]
        by_cases hcond : tH = height ∧ oH = origH
        · rw [if_pos hcond]
          refine ⟨setCalled evs' i, rfl, ?_⟩
          have hji : i ≠ j := fun hc => hslot ⟨hcond.1, hcond.2, hc.symm⟩
          unfold setCalled
          split
          · exact w2
          · rw [List.getElem?_set_ne hji]; exact w2
        · rw [if_neg hcond]
          exact ⟨evs', rfl, w2⟩

/-- What one iteration of the timeout loop leaves untouched. -/
theorem applyTimeout_frame (env : Env) (ts : TipSet) (tid' : triggerID) (s : hcEvents) :
    (∃ ext, (applyTimeout env ts tid' s).calls = s.calls ++ ext) ∧
    (∀ tid, TriggerDisabled tid s → TriggerDisabled tid (applyTimeout env ts tid' s)) ∧
    ∀ tH oH, eventsAt (applyTimeout env ts tid' s) tH oH = eventsAt s tH oH := by
  rcases applyTimeout_cases env ts tid' s with h0 | h0 | ⟨trigger, l, _, htrig, hdis, h0⟩
  · rw [h0]; exact ⟨⟨[], by simp⟩, fun _ h => h, fun _ _ => rfl⟩
  · rw [h0]; exact ⟨⟨[], by simp [panic]⟩, fun _ h => h, fun _ _ => rfl⟩
  · rcases h0 with ⟨_, h0⟩ | ⟨_, h0⟩
    · rw [h0]; exact ⟨⟨[_], rfl⟩, fun _ h => h, fun _ _ => rfl⟩
    · rw [h0]
      refine ⟨⟨[_], rfl⟩, ?_, fun _ _ => rfl⟩
      rintro tid ⟨hi', g1, g2⟩
      have hne : tid' ≠ tid := by
        intro hc
        rw [← hc, htrig] at g1
        cases g1
        rw [hdis] at g2
        cases g2
      refine ⟨hi', ?_, g2⟩
      show (s.triggers.set tid' _).get tid = some hi'
      rw [GoMap.get_set, if_neg hne]
      exact g1

theorem EventDelivered.monoNew {env : Env} {ts : TipSet} {tH oH : ChainEpoch} {ev : queuedEvent}
    {new : List Call} (h : EventDelivered env ts tH oH ev new) (ext : List Call) :
    EventDelivered env ts tH oH ev (new ++ ext) := by
  obtain ⟨res, hm⟩ := h
  exact ⟨res, List.mem_append_left _ hm⟩

theorem eventSettled_fireOn (base : List Call) (env : Env) (ts : TipSet) (tH oH : ChainEpoch)
    (ev : queuedEvent) : FireOn env ts (EventSettled base env ts tH oH ev) where
  log := fun l _ hs => ⟨hs.1.logErrors l, hs.2⟩
  apply := by
    rintro height origH i s hh ⟨h1, new, h2, h3⟩
    obtain ⟨⟨ext, f1⟩, f2, _⟩ := applyEvent_frame env ts height origH (env.tscGet origH) i s
    refine ⟨h1.applyEvent env ts height origH _ i hh, new ++ ext, ?_, ?_⟩
    · rw [f1, h2, List.append_assoc]
    · rcases h3 with h3 | h3
      · exact Or.inl (h3.monoNew ext)
      · exact Or.inr (f2 _ h3)
  timeout := by
    rintro tid s ⟨h1, new, h2, h3⟩
    obtain ⟨⟨ext, f1⟩, f2, _⟩ := applyTimeout_frame env ts tid s
    refine ⟨h1.applyTimeout env ts tid, new ++ ext, ?_, ?_⟩
    · rw [f1, h2, List.append_assoc]
    · rcases h3 with h3 | h3
      · exact Or.inl (h3.monoNew ext)
      · exact Or.inr (f2 _ h3)

/-- The iteration of the event loop at the slot of a waiting event: the handler is
invoked, or the trigger is disabled, or the previous tipset of the event is missing from
the tipset cache and the event keeps waiting. -/
theorem applyEvent_slot (env : Env) (ts : TipSet) (tH oH : ChainEpoch) (i : Nat)
    (ev : queuedEvent) (s : hcEvents) (hinv : Inv s) (hw : EventWaiting tH oH i ev s)
    (hc : ev.called = false) :
    ∃ ext, (applyEvent env ts tH oH (env.tscGet oH) i s).calls = s.calls ++ ext ∧
      (EventDelivered env ts tH oH ev ext ∨
        TriggerDisabled ev.trigger (applyEvent env ts tH oH (env.tscGet oH) i s) ∨
        (ev.prevH ≠ NoHeight ∧ env.tscGet ev.prevH = none ∧
          EventWaiting tH oH i ev (applyEvent env ts tH oH (env.tscGet oH) i s))) := by
  obtain ⟨evs, w1, w2⟩ := hw
  obtain ⟨_, trigger, htrig, _⟩ := hinv.1.queue _ _ evs ev w1 (List.getElem?_mem w2)
  have hslot : (eventsAt s tH oH).bind (fun evs => evs[i]?) = some ev := by
    rw [w1]; exact w2
  cases hdis : trigger.disabled with
  | true =>
    have h0 : applyEvent env ts tH oH (env.tscGet oH) i s = s := by
      simp [applyEvent, hslot, hc, htrig, hdis]
    rw [h0]
    exact ⟨[], by simp, Or.inr (Or.inl ⟨trigger, htrig, hdis⟩)⟩
  | false =>
    by_cases hp : ev.prevH ≠ NoHeight
    · cases hprev : env.tscGet ev.prevH with
      | none =>
        have h0 : applyEvent env ts tH oH (env.tscGet oH) i s =
            logErrors [LogMsg.applyNoPrevTipset ev.prevH tH] s := by
          simp [applyEvent, hslot, hc, htrig, hdis, hp, hprev]
        rw [h0]
        exact ⟨[], by simp [logErrors], Or.inr (Or.inr ⟨hp, rfl, evs, w1, w2⟩)⟩
      | some p =>
        have hpo : prevOf env ev = some p := by simp [prevOf, hp, hprev]
        cases herr : (trigger.handle s.calls ev.data (some p) (env.tscGet oH) tH).err with
        | true =>
          have h0 : applyEvent env ts tH oH (env.tscGet oH) i s =
              logErrors [LogMsg.triggerFailed oH tH]
                (recordCall (Call.apply ts ev (some p) (env.tscGet oH) tH
                  (trigger.handle s.calls ev.data (some p) (env.tscGet oH) tH)) s) := by
            simp [applyEvent, hslot, hc, htrig, hdis, hp, hprev, herr]
          rw [h0]
          exact ⟨[_], rfl, Or.inl ⟨_, by rw [hpo]; exact List.mem_singleton.2 rfl⟩⟩
        | false =>
          have h0 : applyEvent env ts tH oH (env.tscGet oH) i s =
              setDisabled ev.trigger trigger
                (!(trigger.handle s.calls ev.data (some p) (env.tscGet oH) tH).more)
                (bumpTimeout trigger.timeout ev.trigger
                  (markCalled tH oH i
                    (recordCall (Call.apply ts ev (some p) (env.tscGet oH) tH
                      (trigger.handle s.calls ev.data (some p) (env.tscGet oH) tH)) s))) := by
            simp [applyEvent, hslot, hc, htrig, hdis, hp, hprev, herr]
          rw [h0]
          exact ⟨[_], (applySuccess_fields _ _ _ _ _ _ _ _).2.1,
            Or.inl ⟨_, by rw [hpo]; exact List.mem_singleton.2 rfl⟩⟩
    · have hpo : prevOf env ev = none := by simp [prevOf, hp]
      cases herr : (trigger.handle s.calls ev.data none (env.tscGet oH) tH).err with
      | true =>
        have h0 : applyEvent env ts tH oH (env.tscGet oH) i s =
            logErrors [LogMsg.triggerFailed oH tH]
              (recordCall (Call.apply ts ev none (env.tscGet oH) tH
                (trigger.handle s.calls ev.data none (env.tscGet oH) tH)) s) := by
          simp [applyEvent, hslot, hc, htrig, hdis, hp, herr]
        rw [h0]
        exact ⟨[_], rfl, Or.inl ⟨_, by rw [hpo]; exact List.mem_singleton.2 rfl⟩⟩
      | false =>
        have h0 : applyEvent env ts tH oH (env.tscGet oH) i s =
            setDisabled ev.trigger trigger
              (!(trigger.handle s.calls ev.data none (env.tscGet oH) tH).more)
              (bumpTimeout trigger.timeout ev.trigger
                (markCalled tH oH i
                  (recordCall (Call.apply ts ev none (env.tscGet oH) tH
                    (trigger.handle s.calls ev.data none (env.tscGet oH) tH)) s))) := by
          simp [applyEvent, hslot, hc, htrig, hdis, hp, herr]
        rw [h0]
        exact ⟨[_], (applySuccess_fields _ _ _ _ _ _ _ _).2.1,
          Or.inl ⟨_, by rw [hpo]; exact List.mem_singleton.2 rfl⟩⟩

theorem eventPending_fireOn (base : List Call) (env : Env) (ts : TipSet) (tH oH : ChainEpoch)
    (i : Nat) (ev : queuedEvent) (hc : ev.called = false) :
    FireOn env ts (EventPending base env ts tH oH i ev) where
  log := fun l _ hs => ⟨hs.1.logErrors l, hs.2⟩
  apply := by
    rintro height origH j s hh ⟨h1, new, h2, h3⟩
    obtain ⟨⟨ext, f1⟩, f2, f3⟩ := applyEvent_frame env ts height origH (env.tscGet origH) j s
    have hI := h1.applyEvent env ts height origH (env.tscGet origH) j hh
    rcases h3 with h3 | h3 | h3
    · by_cases hslot : tH = height ∧ oH = origH ∧ i = j
      · obtain ⟨rfl, rfl, rfl⟩ := hslot
        obtain ⟨ext', g1, g2⟩ := applyEvent_slot env ts tH oH i ev s h1 h3 hc
        refine ⟨hI, new ++ ext', by rw [g1, h2, List.append_assoc], ?_⟩
        rcases g2 with ⟨res, hm⟩ | g2 | ⟨_, _, g2⟩
        · exact Or.inr (Or.inl ⟨res, List.mem_append_right _ hm⟩)
        · exact Or.inr (Or.inr g2)
        · exact Or.inl g2
      · exact ⟨hI, new ++ ext, by rw [f1, h2, List.append_assoc],
          Or.inl (f3 _ _ _ _ h3 hslot)⟩
    · exact ⟨hI, new ++ ext, by rw [f1, h2, List.append_assoc], Or.inr (Or.inl (h3.monoNew ext))⟩
    · exact ⟨hI, new ++ ext, by rw [f1, h2, List.append_assoc], Or.inr (Or.inr (f2 _ h3))⟩
  timeout := by
    rintro tid s ⟨h1, new, h2, h3⟩
    obtain ⟨⟨ext, f1⟩, f2, f3⟩ := applyTimeout_frame env ts tid s
    refine ⟨h1.applyTimeout env ts tid, new ++ ext, by rw [f1, h2, List.append_assoc], ?_⟩
    rcases h3 with ⟨evs, w1, w2⟩ | h3 | h3
    · exact Or.inl ⟨evs, by rw [f3]; exact w1, w2⟩
    · exact Or.inr (Or.inl (h3.monoNew ext))
    · exact Or.inr (Or.inr (f2 _ h3))

theorem EventSettled.pending {base : List Call} {env : Env} {ts : TipSet} {tH oH : ChainEpoch}
    {ev : queuedEvent} {s : hcEvents} (h : EventSettled base env ts tH oH ev s) (i : Nat) :
    EventPending base env ts tH oH i ev s := by
  obtain ⟨h1, new, h2, h3⟩ := h
  exact ⟨h1, new, h2, Or.inr h3⟩

/-- The iteration of the event loop at the slot of the event settles it. -/
theorem eventPending_settles (base : List Call) (env : Env) (ts : TipSet) (tH oH : ChainEpoch)
    (i : Nat) (ev : queuedEvent) (hc : ev.called = false) (hh : tH ≤ ts.height)
    (hprev : ev.prevH ≠ NoHeight → env.tscGet ev.prevH ≠ none) (s : hcEvents)
    (hs : EventPending base env ts tH oH i ev s) :
    EventSettled base env ts tH oH ev (applyEvent env ts tH oH (env.tscGet oH) i s) := by
  obtain ⟨h1, new, h2, h3⟩ := hs
  rcases h3 with h3 | h3
  · obtain ⟨ext', g1, g2⟩ := applyEvent_slot env ts tH oH i ev s h1 h3 hc
    refine ⟨h1.applyEvent env ts tH oH _ i hh, new ++ ext',
      by rw [g1, h2, List.append_assoc], ?_⟩
    rcases g2 with ⟨res, hm⟩ | g2 | ⟨g3, g4, _⟩
    · exact Or.inl ⟨res, List.mem_append_right _ hm⟩
    · exact Or.inr g2
    · exact absurd g4 (hprev g3)
  · exact (eventSettled_fireOn base env ts tH oH ev).apply tH oH i s hh ⟨h1, new, h2, h3⟩

theorem eventPending_group (base : List Call) (env : Env) (ts : TipSet) (tH oH : ChainEpoch)
    (i : Nat) (ev : queuedEvent) (hc : ev.called = false) (hh : tH ≤ ts.height)
    (hprev : ev.prevH ≠ NoHeight → env.tscGet ev.prevH ≠ none) (n : Nat) (hin : i < n)
    (s : hcEvents) (hs : EventPending base env ts tH oH i ev s) :
    EventSettled base env ts tH oH ev (applyGroup env ts tH oH n s) := by
  have hP := eventPending_fireOn base env ts tH oH i ev hc
  have hS := eventSettled_fireOn base env ts tH oH ev
  obtain ⟨r1, r2, hr⟩ := List.append_of_mem (List.mem_range.2 hin)
  unfold applyGroup
  rw [hr, List.foldl_append, List.foldl_cons]
  refine foldl_preserves _ _ _ (fun j _ s hs => hS.apply _ _ _ _ hh hs) _ ?_
  refine eventPending_settles base env ts tH oH i ev hc hh hprev _ ?_
  refine foldl_preserves _ _ _ (fun j _ s hs => hP.apply _ _ _ _ hh hs) _ ?_
  split
  · exact hP.log _ _ hs
  · exact hs

theorem eventPending_confidence (base : List Call) (env : Env) (ts : TipSet)
    (tH oH : ChainEpoch) (i : Nat) (ev : queuedEvent) (hc : ev.called = false)
    (hh : tH ≤ ts.height) (hprev : ev.prevH ≠ NoHeight → env.tscGet ev.prevH ≠ none)
    (s : hcEvents) (hs : EventPending base env ts tH oH i ev s) :
    EventSettled base env ts tH oH ev (applyWithConfidence env ts tH s) := by
  have hP := eventPending_fireOn base env ts tH oH i ev hc
  have hS := eventSettled_fireOn base env ts tH oH ev
  obtain ⟨h1, new, h2, h3⟩ := hs
  rcases h3 with ⟨evs, w1, w2⟩ | h3
  · have hq : ∃ byOrigH, s.confQueue.get tH = some byOrigH ∧ byOrigH.get oH = some evs := by
      unfold eventsAt at w1
      cases hq : s.confQueue.get tH with
      | none => rw [hq] at w1; cases w1
      | some m => rw [hq] at w1; exact ⟨m, rfl, w1⟩
    obtain ⟨byOrigH, q1, q2⟩ := hq
    have hlen : i < ((byOrigH.get oH).getD []).length := by
      rw [q2]
      exact (List.getElem?_eq_some.1 w2).1
    have hmem : oH ∈ orderBy env.rankH byOrigH.keys :=
      (orderBy_perm env.rankH byOrigH.keys).mem_iff.2 (GoMap.mem_keys_of_get q2)
    obtain ⟨k1, k2, hk⟩ := List.append_of_mem hmem
    unfold applyWithConfidence
    rw [q1]
    simp only
    rw [hk, List.foldl_append, List.foldl_cons]
    refine foldl_preserves _ _ _ (fun o _ s hs => hS.groupOn _ _ _ hh s hs) _ ?_
    refine eventPending_group base env ts tH oH i ev hc hh hprev _ hlen _ ?_
    refine foldl_preserves _ _ _ (fun o _ s hs => hP.groupOn _ _ _ hh s hs) _ ?_
    exact ⟨h1, new, h2, Or.inl ⟨evs, w1, w2⟩⟩
  · exact hS.confidenceOn tH hh s ⟨h1, new, h2, h3⟩

theorem eventPending_heights (base : List Call) (env : Env) (ts : TipSet)
    (tH oH : ChainEpoch) (i : Nat) (ev : queuedEvent) (hc : ev.called = false)
    (hprev : ev.prevH ≠ NoHeight → env.tscGet ev.prevH ≠ none)
    (s : hcEvents) (hlo : s.lastTS.height ≤ tH) (hh : tH ≤ ts.height)
    (hs : EventPending base env ts tH oH i ev s) :
    EventSettled base env ts tH oH ev (applyHeights env ts s) := by
  have hP := eventPending_fireOn base env ts tH oH i ev hc
  have hS := eventSettled_fireOn base env ts tH oH ev
  have hmem : tH ∈ heightRange s.lastTS.height ts.height := mem_heightRange_of hlo hh
  have hall : ∀ x ∈ heightRange s.lastTS.height ts.height, x ≤ ts.height :=
    fun x hx => (mem_heightRange hx).2
  unfold applyHeights
  generalize heightRange s.lastTS.height ts.height = l at hmem hall
  obtain ⟨l1, l2, hl⟩ := List.append_of_mem hmem
  subst hl
  rw [List.foldl_append, List.foldl_cons]
  refine foldl_preserves _ _ _
    (fun x hx s hs => hS.iteration x
      (hall x (List.mem_append_right _ (List.mem_cons_of_mem _ hx))) s hs) _ ?_
  refine hS.timeoutsOn _ ?_
  refine eventPending_confidence base env ts tH oH i ev hc hh hprev _ ?_
  exact foldl_preserves _ _ _
    (fun x hx s hs => hP.iteration x (hall x (List.mem_append_left _ hx)) s hs) _ hs

theorem eventPending_queue (base : List Call) (env : Env) (ts : TipSet) (tH oH : ChainEpoch)
    (i : Nat) (ev : queuedEvent) (tid : triggerID) (data : Option eventData)
    (prev : Option TipSet) (ts' : TipSet) (s : hcEvents)
    (hs : EventPending base env ts tH oH i ev s) :
    EventPending base env ts tH oH i ev (queueForConfidence tid data prev ts' s) := by
  obtain ⟨h1, new, h2, h3⟩ := hs
  obtain ⟨_, a2, _, a4⟩ := queueForConfidence_fields tid data prev ts' s
  refine ⟨h1.queueForConfidence tid data prev ts', new, by rw [a4]; exact h2, ?_⟩
  rcases h3 with ⟨evs, w1, w2⟩ | h3 | ⟨hi, g1, g2⟩
  · refine Or.inl ?_
    unfold EventWaiting
    rw [eventsAt_queueForConfidence]
    split
    · exact ⟨evs, w1, w2⟩
    · split
      · refine ⟨_, rfl, ?_⟩
        rw [w1]
        simp only [Option.getD_some]
        rw [List.getElem?_append_left (List.getElem?_eq_some.1 w2).1]
        exact w2
      · exact ⟨evs, w1, w2⟩
  · exact Or.inr (Or.inl h3)
  · exact Or.inr (Or.inr ⟨hi, by rw [a2]; exact g1, g2⟩)

theorem queueForConfidence_lastTS (trigID : triggerID) (data : Option eventData)
    (prevTS : Option TipSet) (ts : TipSet) (e : hcEvents) :
    (queueForConfidence trigID data prevTS ts e).lastTS = e.lastTS := by
  unfold queueForConfidence
  split <;> rfl

theorem queueNewCalls_lastTS (env : Env) (ts : TipSet)
    (nc : GoMap triggerID (List eventData)) (e : hcEvents) :
    (queueNewCalls env ts nc e).lastTS = e.lastTS := by
  unfold queueNewCalls
  refine foldl_preserves (fun s => s.lastTS = e.lastTS) _ _ (fun tid _ s hs => ?_) e rfl
  exact foldl_preserves (fun s => s.lastTS = e.lastTS) _ _
    (fun d _ s hs => (queueForConfidence_lastTS _ _ _ _ _).trans hs) s hs

theorem processHeadChangeEvent_single (env : Env) (ts : TipSet) (e : hcEvents) :
    processHeadChangeEvent env [] [ts] e = applyTipSet env ts e := by
  rcases h : applyTipSet env ts e with ⟨e1, b⟩
  cases b <;> simp [processHeadChangeEvent, revertTipSets, applyTipSets, h]

theorem applyTipSet_ok (env : Env) (ts : TipSet) (e : hcEvents)
    (hok : (applyTipSet env ts e).2 = false) :
    ∃ nc, (checkNewCalls env ts (beforeNewCalls env ts e)).1 = some nc ∧
      (applyTipSet env ts e).1 =
        setLastTS ts (applyHeights env ts (queueNewCalls env ts nc
          (logErrors (checkNewCalls env ts (beforeNewCalls env ts e)).2
            (beforeNewCalls env ts e)))) := by
  unfold applyTipSet at hok ⊢
  unfold beforeNewCalls
  simp only at hok ⊢
  split at hok
  · cases hok
  · rename_i nc hnc
    exact ⟨nc, hnc, rfl⟩

/-- C25 (counterexample): the event of the state-change scenario is not yet called, its
trigger is enabled and its trigger height 13 lies between the head 10 and the applied
tipset 15; the previous tipset, of height 9, is missing from the tipset cache, and the
apply of tipset 15 returns nil without invoking the handler.  The event is not delivered
by the next apply either. -/
theorem waiting_event_skipped_without_previous_tipset :
    (run (newHCEvents (tipsetAt 9)) stateQueuedRun).lastTS.height = 10 ∧
    eventsAt (run (newHCEvents (tipsetAt 9)) stateQueuedRun) 13 10 =
      some [{ trigger := 0, prevH := 9, h := 10, data := some (eventData.state 0),
              called := false }] ∧
    ((run (newHCEvents (tipsetAt 9)) stateQueuedRun).triggers.get 0).map
      (fun hi => hi.disabled) = some false ∧
    (processHeadChangeEvent missingPrevEnv [] [tipsetAt 15]
      (run (newHCEvents (tipsetAt 9)) stateQueuedRun)).2 = false ∧
    (processHeadChangeEvent missingPrevEnv [] [tipsetAt 15]
      (run (newHCEvents (tipsetAt 9)) stateQueuedRun)).1.calls = [] ∧
    (processHeadChangeEvent missingPrevEnv [] [tipsetAt 15]
      (run (newHCEvents (tipsetAt 9)) stateQueuedRun)).1.errlog =
        [LogMsg.applyNoPrevTipset 9 13] ∧
    (processHeadChangeEvent scenarioEnv [] [tipsetAt 16]
      (processHeadChangeEvent missingPrevEnv [] [tipsetAt 15]
        (run (newHCEvents (tipsetAt 9)) stateQueuedRun)).1).1.calls = [] := by
  refine ⟨by decide, by decide, by decide, by decide, by decide, by decide, by decide⟩

/-- C25 (amended): when `processHeadChangeEvent` applies a tipset `ts` without error in
a state the dispatcher reaches, every not-yet-called event whose trigger height `tH` lies
in `[lastTS.Height, ts.Height]` and whose previous tipset, if it has one, is in the
tipset cache has its handler invoked during the apply, with `curH = tH`, unless its
trigger is disabled by the end of the apply; no tipset of height `tH` is needed. -/
theorem queued_events_fire_across_gaps (head : TipSet) (ops : List Op) (e : hcEvents)
    (he : e = run (newHCEvents head) ops) (env : Env) (ts : TipSet) (tH oH : ChainEpoch)
    (evs : List queuedEvent) (i : Nat) (ev : queuedEvent)
    (hevs : eventsAt e tH oH = some evs) (hi : evs[i]? = some ev)
    (hc : ev.called = false) (hlo : e.lastTS.height ≤ tH) (hhi : tH ≤ ts.height)
    (hprev : ev.prevH ≠ NoHeight → env.tscGet ev.prevH ≠ none)
    (hok : (processHeadChangeEvent env [] [ts] e).2 = false) :
    ∃ new, (processHeadChangeEvent env [] [ts] e).1.calls = e.calls ++ new ∧
      ((∃ res, Call.apply ts ev (prevOf env ev) (env.tscGet oH) tH res ∈ new) ∨
        ∃ hi, (processHeadChangeEvent env [] [ts] e).1.triggers.get ev.trigger = some hi ∧
          hi.disabled = true) := by
  have hinv : Inv e := he ▸ inv_run head ops
  rw [processHeadChangeEvent_single] at hok ⊢
  have h0 : EventPending e.calls env ts tH oH i ev e :=
    ⟨hinv, [], by simp, Or.inl ⟨evs, hevs, hi⟩⟩
  have hq : ∀ tid data prev ts' s, EventPending e.calls env ts tH oH i ev s →
      EventPending e.calls env ts tH oH i ev (queueForConfidence tid data prev ts' s) :=
    fun tid data prev ts' s hs => eventPending_queue _ _ _ _ _ _ _ tid data prev ts' s hs
  have h2 : EventPending e.calls env ts tH oH i ev (beforeNewCalls env ts e) := by
    unfold beforeNewCalls queueStateChanges
    refine foldl_preserves _ _ _ (fun tid _ s hs => ?_) _ ⟨h0.1.logErrors _, h0.2⟩
    split
    · exact hs
    · exact hq _ _ _ _ _ hs
  have hl2 : (beforeNewCalls env ts e).lastTS = e.lastTS :=
    (queueStateChanges_fields env ts _ _).2
  obtain ⟨nc, hnc, happ⟩ := applyTipSet_ok env ts e hok
  rw [happ]
  have h3 : EventPending e.calls env ts tH oH i ev
      (logErrors (checkNewCalls env ts (beforeNewCalls env ts e)).2
        (beforeNewCalls env ts e)) := ⟨h2.1.logErrors _, h2.2⟩
  have h4 : EventPending e.calls env ts tH oH i ev (queueNewCalls env ts nc
      (logErrors (checkNewCalls env ts (beforeNewCalls env ts e)).2
        (beforeNewCalls env ts e))) := by
    unfold queueNewCalls
    refine foldl_preserves _ _ _ (fun tid _ s hs => ?_) _ h3
    exact foldl_preserves _ _ _ (fun d _ s hs => hq _ _ _ _ _ hs) s hs
  have hl4 : (queueNewCalls env ts nc
      (logErrors (checkNewCalls env ts (beforeNewCalls env ts e)).2
        (beforeNewCalls env ts e))).lastTS.height ≤ tH := by
    rw [queueNewCalls_lastTS]
    show (beforeNewCalls env ts e).lastTS.height ≤ tH
    rw [hl2]; exact hlo
  obtain ⟨_, new, g1, g2⟩ := eventPending_heights e.calls env ts tH oH i ev hc hprev _ hl4
    hhi h4
  exact ⟨new, g1, g2⟩

/-- C25 (witness): the event matched at height 10 with confidence 3 waits for height 13;
the head is at height 10 and the apply of tipset 15 invokes its handler with
`curH = 13`. -/
theorem queued_events_fire_across_gaps_witness :
    eventsAt (run (newHCEvents (tipsetAt 9)) queuedForThirteenRun) 13 10 = some [eventOfTen] ∧
    (processHeadChangeEvent scenarioEnv [] [tipsetAt 15]
      (run (newHCEvents (tipsetAt 9)) queuedForThirteenRun)).1.calls =
      [Call.apply (tipsetAt 15) eventOfTen none (some (tipsetAt 10)) 13
        { more := true, err := false }] ∧
    ∃ new, (processHeadChangeEvent scenarioEnv [] [tipsetAt 15]
        (run (newHCEvents (tipsetAt 9)) queuedForThirteenRun)).1.calls =
        (run (newHCEvents (tipsetAt 9)) queuedForThirteenRun).calls ++ new ∧
      ((∃ res, Call.apply (tipsetAt 15) eventOfTen (prevOf scenarioEnv eventOfTen)
          (scenarioEnv.tscGet 10) 13 res ∈ new) ∨
        ∃ hi, (processHeadChangeEvent scenarioEnv [] [tipsetAt 15]
            (run (newHCEvents (tipsetAt 9)) queuedForThirteenRun)).1.triggers.get
            eventOfTen.trigger = some hi ∧ hi.disabled = true) :=
  ⟨by decide, by decide,
    queued_events_fire_across_gaps (tipsetAt 9) queuedForThirteenRun _ rfl scenarioEnv
      (tipsetAt 15) 13 10 [eventOfTen] 0 eventOfTen
      (by decide) rfl rfl (by decide) (by decide) (fun h => absurd rfl h) (by decide)⟩

/-! ## Failed handlers are not marked (C10) -/

/-- An apply without error settles every waiting event whose trigger height it visits and
whose previous tipset can be read. -/
theorem waiting_event_settles {e : hcEvents} (hinv : Inv e) (env : Env) (ts : TipSet)
    (tH oH : ChainEpoch) (i : Nat) (ev : queuedEvent) (hw : EventWaiting tH oH i ev e)
    (hc : ev.called = false) (hlo : e.lastTS.height ≤ tH) (hhi : tH ≤ ts.height)
    (hprev : ev.prevH ≠ NoHeight → env.tscGet ev.prevH ≠ none)
    (hok : (processHeadChangeEvent env [] [ts] e).2 = false) :
    ∃ new, (processHeadChangeEvent env [] [ts] e).1.calls = e.calls ++ new ∧
      (EventDelivered env ts tH oH ev new ∨
        TriggerDisabled ev.trigger (processHeadChangeEvent env [] [ts] e).1) := by
  rw [processHeadChangeEvent_single] at hok ⊢
  have h0 : EventPending e.calls env ts tH oH i ev e := ⟨hinv, [], by simp, Or.inl hw⟩
  have hq : ∀ tid data prev ts' s, EventPending e.calls env ts tH oH i ev s →
      EventPending e.calls env ts tH oH i ev (queueForConfidence tid data prev ts' s) :=
    fun tid data prev ts' s hs => eventPending_queue _ _ _ _ _ _ _ tid data prev ts' s hs
  have h2 : EventPending e.calls env ts tH oH i ev (beforeNewCalls env ts e) := by
    unfold beforeNewCalls queueStateChanges
    refine foldl_preserves _ _ _ (fun tid _ s hs => ?_) _ ⟨h0.1.logErrors _, h0.2⟩
    split
    · exact hs
    · exact hq _ _ _ _ _ hs
  have hl2 : (beforeNewCalls env ts e).lastTS = e.lastTS :=
    (queueStateChanges_fields env ts _ _).2
  obtain ⟨nc, hnc, happ⟩ := applyTipSet_ok env ts e hok
  rw [happ]
  have h3 : EventPending e.calls env ts tH oH i ev
      (logErrors (checkNewCalls env ts (beforeNewCalls env ts e)).2
        (beforeNewCalls env ts e)) := ⟨h2.1.logErrors _, h2.2⟩
  have h4 : EventPending e.calls env ts tH oH i ev (queueNewCalls env ts nc
      (logErrors (checkNewCalls env ts (beforeNewCalls env ts e)).2
        (beforeNewCalls env ts e))) := by
    unfold queueNewCalls
    refine foldl_preserves _ _ _ (fun tid _ s hs => ?_) _ h3
    exact foldl_preserves _ _ _ (fun d _ s hs => hq _ _ _ _ _ hs) s hs
  have hl4 : (queueNewCalls env ts nc
      (logErrors (checkNewCalls env ts (beforeNewCalls env ts e)).2
        (beforeNewCalls env ts e))).lastTS.height ≤ tH := by
    rw [queueNewCalls_lastTS]
    show (beforeNewCalls env ts e).lastTS.height ≤ tH
    rw [hl2]; exact hlo
  obtain ⟨_, new, g1, g2⟩ := eventPending_heights e.calls env ts tH oH i ev hc hprev _ hl4
    hhi h4
  exact ⟨new, g1, g2⟩

/-- C10 (amended): a handler invocation of `applyWithConfidence` that returns an error
leaves the event queue, the timeout counters and the triggers (so the disabled flag)
unchanged: the event stays in its slot with `called = false`.  `handleReverts` invokes
revert callbacks only for queued events whose `called` flag is set, so an event whose
handler has only failed gets no revert callback.  The failed event is not marked: in
every state the dispatcher reaches, an uncalled event still in its slot has its handler
invoked (again) with `curH` equal to its trigger height `tH` by every apply without error
of a tipset `ts` with `lastTS.Height ≤ tH ≤ ts.Height`, when its previous tipset, if it
has one, is in the tipset cache, unless its trigger is disabled by the end of that
apply. -/
theorem failed_handler_leaves_event_for_retry :
    (∀ env head height origH tTS i e hd ev p t curH res,
      (applyEvent env head height origH tTS i e).calls =
        e.calls ++ [Call.apply hd ev p t curH res] →
      res.err = true →
      (applyEvent env head height origH tTS i e).confQueue = e.confQueue ∧
      (applyEvent env head height origH tTS i e).timeouts = e.timeouts ∧
      (applyEvent env head height origH tTS i e).triggers = e.triggers ∧
      hd = head ∧ curH = height ∧ ev.called = false ∧
      ∃ evs, eventsAt (applyEvent env head height origH tTS i e) height origH = some evs ∧
        evs[i]? = some ev) ∧
    (∀ ts e call, call ∈ (handleReverts ts e).calls → call ∉ e.calls →
      ∃ tH ev err evs, call = Call.revert tH ev ts err ∧ ev.called = true ∧
        eventsAt e tH ts.height = some evs ∧ ev ∈ evs) ∧
    (∀ head ops env ts tH oH (i : Nat) ev,
      (∃ evs, eventsAt (run (newHCEvents head) ops) tH oH = some evs ∧ evs[i]? = some ev) →
      ev.called = false →
      (run (newHCEvents head) ops).lastTS.height ≤ tH → tH ≤ ts.height →
      (ev.prevH ≠ NoHeight → env.tscGet ev.prevH ≠ none) →
      (processHeadChangeEvent env [] [ts] (run (newHCEvents head) ops)).2 = false →
      ∃ new, (processHeadChangeEvent env [] [ts] (run (newHCEvents head) ops)).1.calls =
          (run (newHCEvents head) ops).calls ++ new ∧
        ((∃ res, Call.apply ts ev (prevOf env ev) (env.tscGet oH) tH res ∈ new) ∨
          ∃ hi, (processHeadChangeEvent env [] [ts]
              (run (newHCEvents head) ops)).1.triggers.get ev.trigger = some hi ∧
            hi.disabled = true)) := by
  refine ⟨?_, ?_, ?_⟩
  · intro env head height origH tTS i e hd ev p t curH res hcalls herr
    rcases applyEvent_cases env head height origH tTS i e with
      h0 | h0 | ⟨l, h0⟩ | ⟨evs, event, trigger, prevTS, hevs, hi, hnc, _, _, h0⟩
    · rw [h0] at hcalls; simp at hcalls
    · rw [h0] at hcalls; simp [panic] at hcalls
    · rw [h0] at hcalls; simp [logErrors] at hcalls
    · rcases h0 with ⟨_, h0⟩ | ⟨hok, h0⟩
      · rw [h0] at hcalls ⊢
        have hc : e.calls ++ [Call.apply head event prevTS tTS height
            (trigger.handle e.calls event.data prevTS tTS height)] =
            e.calls ++ [Call.apply hd ev p t curH res] := hcalls
        have := List.append_cancel_left hc
        simp only [List.cons.injEq, Call.apply.injEq, and_true] at this
        obtain ⟨h1, h2, _, _, h5, _⟩ := this
        subst h2
        exact ⟨rfl, rfl, rfl, h1.symm, h5.symm, hnc, evs, hevs, hi⟩
      · exfalso
        rw [h0, (applySuccess_fields height origH i _ event.trigger trigger _ e).2.1] at hcalls
        have := List.append_cancel_left hcalls
        simp only [List.cons.injEq, Call.apply.injEq, and_true] at this
        obtain ⟨_, _, _, _, _, hres⟩ := this
        rw [hres, herr] at hok
        cases hok
  · intro ts e call hc hn
    rcases (handleReverts_effect ts e).2.2.2 call hc with h | h
    · exact absurd h hn
    · exact h
  · intro head ops env ts tH oH i ev hw hc hlo hhi hprev hok
    exact waiting_event_settles (inv_run head ops) env ts tH oH i ev hw hc hlo hhi hprev hok

/-- C10 (witness): the handler fails for the event of tipset 10 while tipset 12 is
applied and the event stays in its slot, uncalled; the apply of tipset 13, whose height
loop starts at height 12, invokes the handler for it again; and the revert of a tipset
invokes the callback of a called event only. -/
theorem failed_handler_leaves_event_for_retry_witness :
    ((applyEvent scenarioEnv (tipsetAt 12) 12 10 (some (tipsetAt 10)) 0
        (run (newHCEvents (tipsetAt 9)) (retryRun.take 3))).confQueue =
      (run (newHCEvents (tipsetAt 9)) (retryRun.take 3)).confQueue ∧
     (applyEvent scenarioEnv (tipsetAt 12) 12 10 (some (tipsetAt 10)) 0
        (run (newHCEvents (tipsetAt 9)) (retryRun.take 3))).timeouts =
      (run (newHCEvents (tipsetAt 9)) (retryRun.take 3)).timeouts ∧
     (applyEvent scenarioEnv (tipsetAt 12) 12 10 (some (tipsetAt 10)) 0
        (run (newHCEvents (tipsetAt 9)) (retryRun.take 3))).triggers =
      (run (newHCEvents (tipsetAt 9)) (retryRun.take 3)).triggers ∧
     tipsetAt 12 = tipsetAt 12 ∧ (12 : ChainEpoch) = 12 ∧ failedEventOfTen.called = false ∧
     ∃ evs, eventsAt (applyEvent scenarioEnv (tipsetAt 12) 12 10 (some (tipsetAt 10)) 0
        (run (newHCEvents (tipsetAt 9)) (retryRun.take 3))) 12 10 = some evs ∧
       evs[0]? = some failedEventOfTen) ∧
    (∃ tH ev err evs,
      Call.revert 11
          { trigger := 0, prevH := NoHeight, h := 10,
            data := some (eventData.msg { cid := 8 }), called := true }
          tipset10TwoParents false =
        Call.revert tH ev tipset10TwoParents err ∧ ev.called = true ∧
      eventsAt (run (newHCEvents (tipsetAt 9)) twoCalledRun) tH tipset10TwoParents.height =
        some evs ∧ ev ∈ evs) ∧
    ∃ new, (processHeadChangeEvent scenarioEnv [] [tipsetAt 13]
        (run (newHCEvents (tipsetAt 9)) (retryRun.take 4))).1.calls =
        (run (newHCEvents (tipsetAt 9)) (retryRun.take 4)).calls ++ new ∧
      ((∃ res, Call.apply (tipsetAt 13) failedEventOfTen (prevOf scenarioEnv failedEventOfTen)
          (scenarioEnv.tscGet 10) 12 res ∈ new) ∨
        ∃ hi, (processHeadChangeEvent scenarioEnv [] [tipsetAt 13]
            (run (newHCEvents (tipsetAt 9)) (retryRun.take 4))).1.triggers.get
            failedEventOfTen.trigger = some hi ∧ hi.disabled = true) :=
  ⟨failed_handler_leaves_event_for_retry.1 scenarioEnv (tipsetAt 12) 12 10
      (some (tipsetAt 10)) 0 (run (newHCEvents (tipsetAt 9)) (retryRun.take 3)) (tipsetAt 12)
      failedEventOfTen none (some (tipsetAt 10)) 12 { more := true, err := true }
      (by decide) rfl,
    failed_handler_leaves_event_for_retry.2.1 tipset10TwoParents
      (run (newHCEvents (tipsetAt 9)) twoCalledRun)
      (Call.revert 11
        { trigger := 0, prevH := NoHeight, h := 10,
          data := some (eventData.msg { cid := 8 }), called := true }
        tipset10TwoParents false) (by decide) (by decide),
    failed_handler_leaves_event_for_retry.2.2 (tipsetAt 9) (retryRun.take 4) scenarioEnv
      (tipsetAt 13) 12 10 0 failedEventOfTen ⟨[failedEventOfTen], by decide, rfl⟩ rfl
      (by decide) (by decide) (fun h => absurd rfl h) (by decide)⟩

end Events

namespace Mpool

/-! ## The paths of `MpoolPushMessage` -/

theorem signLocked_ok {d : Deps} {tr tr' : List Effect} {msg : UnsignedMessage}
    {smsg : SignedMessage} (h : signLocked d tr msg = (Except.ok smsg, tr')) :
    ∃ mb c,
      d.getNonce tr msg.From = some smsg.Message.Nonce ∧
      smsg.Message = { msg with Nonce := smsg.Message.Nonce } ∧
      d.toStorageBlock smsg.Message = some mb ∧
      d.walletSign (tr ++ [Effect.getNonce msg.From (some smsg.Message.Nonce)]) msg.From mb.cid
        { msgType := MsgType.MTChainMsg, extra := mb.rawData } = some smsg.Signature ∧
      d.push (tr ++ [Effect.getNonce msg.From (some smsg.Message.Nonce),
        Effect.walletSign msg.From mb.cid
          { msgType := MsgType.MTChainMsg, extra := mb.rawData }]) smsg = some c ∧
      tr' = tr ++ [Effect.getNonce msg.From (some smsg.Message.Nonce),
        Effect.walletSign msg.From mb.cid
          { msgType := MsgType.MTChainMsg, extra := mb.rawData },
        Effect.push smsg (some c)] := by
  simp only [signLocked, MpoolPush, List.append_assoc, List.cons_append, List.nil_append] at h
  cases hn : d.getNonce tr msg.From with
  | none => simp [hn] at h
  | some n =>
    cases hb : d.toStorageBlock { msg with Nonce := n } with
    | none => simp [hn, hb] at h
    | some mb =>
      cases hs : d.walletSign (tr ++ [Effect.getNonce msg.From (some n)]) msg.From mb.cid
        { msgType := MsgType.MTChainMsg, extra := mb.rawData } with
      | none => simp [hn, hb, hs] at h
      | some sig =>
        cases hp : d.push (tr ++ [Effect.getNonce msg.From (some n),
          Effect.walletSign msg.From mb.cid
            { msgType := MsgType.MTChainMsg, extra := mb.rawData }])
          { Message := { msg with Nonce := n }, Signature := sig } with
        | none => simp [hn, hb, hs, hp, MpoolPush] at h
        | some c =>
          simp only [hn, hb, hs, hp, Prod.mk.injEq, Except.ok.injEq] at h
          obtain ⟨h1, h2⟩ := h
          subst h1
          exact ⟨mb, c, rfl, rfl, hb, hs, hp, h2.symm⟩

theorem SignMessage_ok {d : Deps} {tr tr' : List Effect} {msg : UnsignedMessage}
    {smsg : SignedMessage} (h : SignMessage d tr msg = (Except.ok smsg, tr')) :
    ∃ mb c,
      d.getNonce (tr ++ [Effect.lockSign]) msg.From = some smsg.Message.Nonce ∧
      smsg.Message = { msg with Nonce := smsg.Message.Nonce } ∧
      d.toStorageBlock smsg.Message = some mb ∧
      tr' = tr ++ [Effect.lockSign, Effect.getNonce msg.From (some smsg.Message.Nonce),
        Effect.walletSign msg.From mb.cid
          { msgType := MsgType.MTChainMsg, extra := mb.rawData },
        Effect.push smsg (some c), Effect.unlockSign] := by
  unfold SignMessage at h
  cases hr : signLocked d (tr ++ [Effect.lockSign]) msg with
  | mk r tr1 =>
    rw [hr] at h
    simp only [Prod.mk.injEq] at h
    obtain ⟨h1, h2⟩ := h
    subst h1
    obtain ⟨mb, c, hn, hm, hb, -, -, ht⟩ := signLocked_ok hr
    refine ⟨mb, c, hn, hm, hb, ?_⟩
    rw [← h2, ht]
    simp

theorem adjustFrom_fields (est : UnsignedMessage) (fromA : Address) :
    (adjustFrom est fromA).Value = est.Value ∧ (adjustFrom est fromA).Nonce = est.Nonce ∧
    (adjustFrom est fromA).To = est.To ∧ (adjustFrom est fromA).GasLimit = est.GasLimit ∧
    (adjustFrom est fromA).GasFeeCap = est.GasFeeCap ∧
    (adjustFrom est fromA).GasPremium = est.GasPremium ∧
    (adjustFrom est fromA).Method = est.Method ∧ (adjustFrom est fromA).Params = est.Params := by
  unfold adjustFrom
  split <;> simp

theorem adjustFrom_From (est : UnsignedMessage) (fromA : Address) :
    (est.From.protocol = Protocol.ID → (adjustFrom est fromA).From = fromA) ∧
    (est.From.protocol ≠ Protocol.ID → adjustFrom est fromA = est) := by
  unfold adjustFrom
  constructor
  · intro h
    simp [h]
  · intro h
    simp [h]

/-- With the key address resolved and the push lock taken, `MpoolPushMessage` is
`pushLocked` followed by the release of the lock. -/
theorem MpoolPushMessage_locked {d : Deps} {tr : List Effect} {msg : UnsignedMessage}
    {fromA : Address} (hkey : d.stateAccountKey tr msg.From = some fromA)
    (hlock : d.takeLock (tr ++ [Effect.stateAccountKey msg.From]) fromA = true) :
    MpoolPushMessage d tr msg =
      ((pushLocked d (tr ++ [Effect.stateAccountKey msg.From, Effect.takeLock fromA true])
          msg fromA).1,
       (pushLocked d (tr ++ [Effect.stateAccountKey msg.From, Effect.takeLock fromA true])
          msg fromA).2 ++ [Effect.releaseLock fromA]) := by
  simp [MpoolPushMessage, hkey, hlock]

/-- After a successful gas estimation that passes the premium check, `pushLocked` reads
the balance of the adjusted sender. -/
theorem pushLocked_estimated {d : Deps} {tr : List Effect} {msg est : UnsignedMessage}
    (fromA : Address) (hnonce : msg.Nonce = 0)
    (hest : d.gasEstimateMessageGas tr msg = some est)
    (hgas : est.GasPremium ≤ est.GasFeeCap) :
    pushLocked d tr msg fromA =
      match d.walletBalance (tr ++ [Effect.gasEstimateMessageGas msg])
          (adjustFrom est fromA).From with
      | none => (Except.error PushErr.balance,
          tr ++ [Effect.gasEstimateMessageGas msg, Effect.walletBalance (adjustFrom est fromA).From])
      | some b =>
        if b < est.Value then
          (Except.error (PushErr.notEnoughFunds b est.Value),
            tr ++ [Effect.gasEstimateMessageGas msg,
              Effect.walletBalance (adjustFrom est fromA).From])
        else
          SignMessage d (tr ++ [Effect.gasEstimateMessageGas msg,
            Effect.walletBalance (adjustFrom est fromA).From]) (adjustFrom est fromA) := by
  have hg : ¬ est.GasPremium > est.GasFeeCap := not_lt.mpr hgas
  simp only [pushLocked, hnonce, hest, hg, (adjustFrom_fields est fromA).1, ne_eq,
    not_true_eq_false, if_false, List.append_assoc, List.cons_append, List.nil_append]

/-- The trace of `signLocked` extends the given trace by the read of the nonce and,
when the nonce is read and the message serialized, by the signing request; its errors
are those of the sign section. -/
theorem signLocked_trace (d : Deps) (tr : List Effect) (msg : UnsignedMessage) :
    ∃ out, (signLocked d tr msg).2 =
      tr ++ Effect.getNonce msg.From (d.getNonce tr msg.From) :: out ∧
      (∀ n mb, d.getNonce tr msg.From = some n →
        d.toStorageBlock { msg with Nonce := n } = some mb →
        Effect.walletSign msg.From mb.cid
          { msgType := MsgType.MTChainMsg, extra := mb.rawData } ∈ out) ∧
      ∀ err, (signLocked d tr msg).1 = Except.error err →
        err = PushErr.getNonce ∨ err = PushErr.serialize ∨ err = PushErr.sign ∨
          err = PushErr.push := by
  cases hn : d.getNonce tr msg.From with
  | none =>
    have h : signLocked d tr msg =
        (Except.error PushErr.getNonce, tr ++ [Effect.getNonce msg.From none]) := by
      simp [signLocked, hn]
    rw [h]
    exact ⟨[], rfl, by simp, by simp⟩
  | some n =>
    cases hb : d.toStorageBlock { msg with Nonce := n } with
    | none =>
      have h : signLocked d tr msg =
          (Except.error PushErr.serialize, tr ++ [Effect.getNonce msg.From (some n)]) := by
        simp [signLocked, hn, hb]
      rw [h]
      refine ⟨[], rfl, ?_, by simp⟩
      intro n1 mb1 h1 h2
      simp only [Option.some.injEq] at h1
      subst h1
      rw [hb] at h2
      exact absurd h2 (by simp)
    | some mb =>
      have hmem : ∀ (rest : List Effect) (n1 : Nat) (mb1 : Block), some n = some n1 →
          d.toStorageBlock { msg with Nonce := n1 } = some mb1 →
          Effect.walletSign msg.From mb1.cid
            { msgType := MsgType.MTChainMsg, extra := mb1.rawData } ∈
          Effect.walletSign msg.From mb.cid
            { msgType := MsgType.MTChainMsg, extra := mb.rawData } :: rest := by
        intro rest n1 mb1 h1 h2
        simp only [Option.some.injEq] at h1
        subst h1
        rw [hb] at h2
        simp only [Option.some.injEq] at h2
        subst h2
        exact List.mem_cons_self _ _
      cases hs : d.walletSign (tr ++ [Effect.getNonce msg.From (some n)]) msg.From mb.cid
        { msgType := MsgType.MTChainMsg, extra := mb.rawData } with
      | none =>
        have h : signLocked d tr msg =
            (Except.error PushErr.sign, tr ++ [Effect.getNonce msg.From (some n),
              Effect.walletSign msg.From mb.cid
                { msgType := MsgType.MTChainMsg, extra := mb.rawData }]) := by
          simp [signLocked, hn, hb, hs]
        rw [h]
        exact ⟨[Effect.walletSign msg.From mb.cid
            { msgType := MsgType.MTChainMsg, extra := mb.rawData }],
          by simp, hmem [], by simp⟩
      | some sig =>
        cases hp : d.push (tr ++ [Effect.getNonce msg.From (some n),
            Effect.walletSign msg.From mb.cid
              { msgType := MsgType.MTChainMsg, extra := mb.rawData }])
            { Message := { msg with Nonce := n }, Signature := sig } with
        | none =>
          have h : signLocked d tr msg =
              (Except.error PushErr.push, tr ++ [Effect.getNonce msg.From (some n),
                Effect.walletSign msg.From mb.cid
                  { msgType := MsgType.MTChainMsg, extra := mb.rawData },
                Effect.push { Message := { msg with Nonce := n }, Signature := sig } none]) := by
            simp [signLocked, MpoolPush, hn, hb, hs, hp]
          rw [h]
          exact ⟨[Effect.walletSign msg.From mb.cid
              { msgType := MsgType.MTChainMsg, extra := mb.rawData },
            Effect.push { Message := { msg with Nonce := n }, Signature := sig } none],
            by simp, hmem _, by simp⟩
        | some c =>
          have h : signLocked d tr msg =
              (Except.ok { Message := { msg with Nonce := n }, Signature := sig },
                tr ++ [Effect.getNonce msg.From (some n),
                Effect.walletSign msg.From mb.cid
                  { msgType := MsgType.MTChainMsg, extra := mb.rawData },
                Effect.push { Message := { msg with Nonce := n }, Signature := sig }
                  (some c)]) := by
            simp [signLocked, MpoolPush, hn, hb, hs, hp]
          rw [h]
          exact ⟨[Effect.walletSign msg.From mb.cid
              { msgType := MsgType.MTChainMsg, extra := mb.rawData },
            Effect.push { Message := { msg with Nonce := n }, Signature := sig } (some c)],
            by simp, hmem _, by simp⟩

/-- Every step of a successful `MpoolPushMessage`, and its trace. -/
theorem MpoolPushMessage_ok {d : Deps} {tr tr' : List Effect} {msg : UnsignedMessage}
    {smsg : SignedMessage} (h : MpoolPushMessage d tr msg = (Except.ok smsg, tr')) :
    ∃ fromA est b mb c,
      d.stateAccountKey tr msg.From = some fromA ∧
      d.takeLock (tr ++ [Effect.stateAccountKey msg.From]) fromA = true ∧
      msg.Nonce = 0 ∧
      d.gasEstimateMessageGas
        (tr ++ [Effect.stateAccountKey msg.From, Effect.takeLock fromA true]) msg = some est ∧
      est.GasPremium ≤ est.GasFeeCap ∧
      d.walletBalance (tr ++ [Effect.stateAccountKey msg.From, Effect.takeLock fromA true,
        Effect.gasEstimateMessageGas msg]) (adjustFrom est fromA).From = some b ∧
      est.Value ≤ b ∧
      d.getNonce (tr ++ [Effect.stateAccountKey msg.From, Effect.takeLock fromA true,
        Effect.gasEstimateMessageGas msg, Effect.walletBalance (adjustFrom est fromA).From,
        Effect.lockSign]) (adjustFrom est fromA).From = some smsg.Message.Nonce ∧
      smsg.Message = { adjustFrom est fromA with Nonce := smsg.Message.Nonce } ∧
      d.toStorageBlock smsg.Message = some mb ∧
      tr' = tr ++ okTrace msg fromA smsg mb c := by
  cases hkey : d.stateAccountKey tr msg.From with
  | none => simp [MpoolPushMessage, hkey] at h
  | some fromA =>
    cases hlock : d.takeLock (tr ++ [Effect.stateAccountKey msg.From]) fromA with
    | false => simp [MpoolPushMessage, hkey, hlock] at h
    | true =>
      rw [MpoolPushMessage_locked hkey hlock] at h
      by_cases hnonce : msg.Nonce = 0
      swap
      · simp [pushLocked, hnonce] at h
      cases hest : d.gasEstimateMessageGas
          (tr ++ [Effect.stateAccountKey msg.From, Effect.takeLock fromA true]) msg with
      | none => simp [pushLocked, hnonce, hest] at h
      | some est =>
        by_cases hgas : est.GasPremium ≤ est.GasFeeCap
        swap
        · have hg : est.GasPremium > est.GasFeeCap := not_le.mp hgas
          simp only [pushLocked, hnonce, hest, hg] at h
          revert h
          simp only [ne_eq, not_true_eq_false, if_false, if_true]
          split
          · simp
          · split <;> simp
        rw [pushLocked_estimated fromA hnonce hest hgas] at h
        simp only [List.append_assoc, List.cons_append, List.nil_append] at h
        cases hbal : d.walletBalance (tr ++ [Effect.stateAccountKey msg.From,
            Effect.takeLock fromA true, Effect.gasEstimateMessageGas msg])
            (adjustFrom est fromA).From with
        | none => simp [hbal] at h
        | some b =>
          by_cases hb : b < est.Value
          · simp [hbal, hb] at h
          simp only [hbal, hb, if_false, Prod.mk.injEq] at h
          obtain ⟨h1, h2⟩ := h
          have hsm : SignMessage d (tr ++ [Effect.stateAccountKey msg.From,
              Effect.takeLock fromA true, Effect.gasEstimateMessageGas msg,
              Effect.walletBalance (adjustFrom est fromA).From]) (adjustFrom est fromA) =
              (Except.ok smsg, (SignMessage d (tr ++ [Effect.stateAccountKey msg.From,
              Effect.takeLock fromA true, Effect.gasEstimateMessageGas msg,
              Effect.walletBalance (adjustFrom est fromA).From]) (adjustFrom est fromA)).2) :=
            Prod.ext h1 rfl
          obtain ⟨mb, c, hn, hm, hblk, ht⟩ := SignMessage_ok hsm
          have hfrom : smsg.Message.From = (adjustFrom est fromA).From := by
            rw [hm]
          refine ⟨fromA, est, b, mb, c, rfl, hlock, hnonce, hest, hgas, ?_, not_lt.mp hb, ?_, hm,
            hblk, ?_⟩
          · exact hbal
          · simpa using hn
          · rw [← h2, ht]
            simp [okTrace, hfrom]

/-! ## The checks of `MpoolPushMessage` (C13, C14, C15) and the sender (C16) -/

/-- C13.  A message with a non-zero nonce is rejected: `MpoolPushMessage` returns a nil
signed message and an error, and the calls it made contain no gas estimation, no balance
read, no nonce read, no signing request and no push.  When the key address resolves and
the push lock is taken the error is the nonce error, and the only calls are the key
resolution, the lock and its release. -/
theorem nonzero_nonce_is_rejected (d : Deps) (tr : List Effect) (msg : UnsignedMessage)
    (h : msg.Nonce ≠ 0) :
    ∃ err out, MpoolPushMessage d tr msg = (Except.error err, tr ++ out) ∧
      (∀ ef ∈ out, ef.isGasEstimate = false ∧ ef.isBalanceRead = false ∧
        ef.isNonceRead = false ∧ ef.isSign = false ∧ ef.isPush = false) ∧
      (∀ fromA, d.stateAccountKey tr msg.From = some fromA →
        d.takeLock (tr ++ [Effect.stateAccountKey msg.From]) fromA = true →
        err = PushErr.nonceNotZero msg.Nonce ∧
        out = [Effect.stateAccountKey msg.From, Effect.takeLock fromA true,
          Effect.releaseLock fromA]) := by
  cases hkey : d.stateAccountKey tr msg.From with
  | none =>
    refine ⟨PushErr.keyAddress, [Effect.stateAccountKey msg.From], ?_, ?_, ?_⟩
    · simp [MpoolPushMessage, hkey]
    · simp [Effect.isGasEstimate, Effect.isBalanceRead, Effect.isNonceRead, Effect.isSign,
        Effect.isPush]
    · intro fromA h1
      simp at h1
  | some fromA =>
    cases hlock : d.takeLock (tr ++ [Effect.stateAccountKey msg.From]) fromA with
    | false =>
      refine ⟨PushErr.takingLock,
        [Effect.stateAccountKey msg.From, Effect.takeLock fromA false], ?_, ?_, ?_⟩
      · simp [MpoolPushMessage, hkey, hlock]
      · simp [Effect.isGasEstimate, Effect.isBalanceRead, Effect.isNonceRead, Effect.isSign,
          Effect.isPush]
      · intro fromA1 h1 h2
        simp only [Option.some.injEq] at h1
        subst h1
        rw [hlock] at h2
        exact absurd h2 (by simp)
    | true =>
      refine ⟨PushErr.nonceNotZero msg.Nonce,
        [Effect.stateAccountKey msg.From, Effect.takeLock fromA true,
          Effect.releaseLock fromA], ?_, ?_, ?_⟩
      · rw [MpoolPushMessage_locked hkey hlock]
        simp [pushLocked, h]
      · simp [Effect.isGasEstimate, Effect.isBalanceRead, Effect.isNonceRead, Effect.isSign,
          Effect.isPush]
      · intro fromA1 h1 _
        simp only [Option.some.injEq] at h1
        subst h1
        exact ⟨rfl, rfl⟩

theorem nonzero_nonce_is_rejected_witness :
    (transfer (keyAddr 7) 5 1).Nonce ≠ 0 ∧
    ∃ err out, MpoolPushMessage (scenarioDeps 10 5 100 0) [] (transfer (keyAddr 7) 5 1) =
        (Except.error err, [] ++ out) ∧
      (∀ ef ∈ out, ef.isGasEstimate = false ∧ ef.isBalanceRead = false ∧
        ef.isNonceRead = false ∧ ef.isSign = false ∧ ef.isPush = false) ∧
      (∀ fromA, (scenarioDeps 10 5 100 0).stateAccountKey [] (transfer (keyAddr 7) 5 1).From =
          some fromA →
        (scenarioDeps 10 5 100 0).takeLock
          ([] ++ [Effect.stateAccountKey (transfer (keyAddr 7) 5 1).From]) fromA = true →
        err = PushErr.nonceNotZero (transfer (keyAddr 7) 5 1).Nonce ∧
        out = [Effect.stateAccountKey (transfer (keyAddr 7) 5 1).From,
          Effect.takeLock fromA true, Effect.releaseLock fromA]) :=
  ⟨by decide, nonzero_nonce_is_rejected (scenarioDeps 10 5 100 0) []
    (transfer (keyAddr 7) 5 1) (by decide)⟩

/-- The result and the trace of `pushLocked` once the balance `b` of the adjusted sender
has been read and covers the value. -/
theorem pushLocked_funded {d : Deps} {tr : List Effect} {msg est : UnsignedMessage}
    {b : Int} (fromA : Address) (hnonce : msg.Nonce = 0)
    (hest : d.gasEstimateMessageGas tr msg = some est)
    (hgas : est.GasPremium ≤ est.GasFeeCap)
    (hbal : d.walletBalance (tr ++ [Effect.gasEstimateMessageGas msg])
      (adjustFrom est fromA).From = some b) (hb : est.Value ≤ b) :
    pushLocked d tr msg fromA =
      SignMessage d (tr ++ [Effect.gasEstimateMessageGas msg,
        Effect.walletBalance (adjustFrom est fromA).From]) (adjustFrom est fromA) := by
  rw [pushLocked_estimated fromA hnonce hest hgas]
  simp only [hbal, not_lt.mpr hb, if_false]

/-- The errors of `pushLocked` after the premium check are those of the balance read,
of the balance check and of the sign section. -/
theorem pushLocked_estimated_err {d : Deps} {tr : List Effect} {msg est : UnsignedMessage}
    (fromA : Address) (hnonce : msg.Nonce = 0)
    (hest : d.gasEstimateMessageGas tr msg = some est)
    (hgas : est.GasPremium ≤ est.GasFeeCap) (err : PushErr)
    (h : (pushLocked d tr msg fromA).1 = Except.error err) :
    err = PushErr.balance ∨ (∃ b, err = PushErr.notEnoughFunds b est.Value ∧
        d.walletBalance (tr ++ [Effect.gasEstimateMessageGas msg])
          (adjustFrom est fromA).From = some b ∧ b < est.Value) ∨
      err = PushErr.getNonce ∨ err = PushErr.serialize ∨ err = PushErr.sign ∨
      err = PushErr.push := by
  rw [pushLocked_estimated fromA hnonce hest hgas] at h
  cases hbal : d.walletBalance (tr ++ [Effect.gasEstimateMessageGas msg])
      (adjustFrom est fromA).From with
  | none =>
    simp only [hbal, Except.error.injEq] at h
    exact Or.inl h.symm
  | some b =>
    by_cases hb : b < est.Value
    · simp only [hbal, hb, if_true, Except.error.injEq] at h
      exact Or.inr (Or.inl ⟨b, h.symm, rfl, hb⟩)
    · simp only [hbal, hb, if_false, SignMessage] at h
      obtain ⟨-, -, -, he⟩ := signLocked_trace d
        (tr ++ [Effect.gasEstimateMessageGas msg,
          Effect.walletBalance (adjustFrom est fromA).From] ++ [Effect.lockSign])
        (adjustFrom est fromA)
      exact Or.inr (Or.inr (he err h))

/-- C14.  The premium check of `MpoolPushMessage` rejects exactly when the estimated
premium exceeds the estimated fee cap.  For a zero-nonce message whose key address
resolves, whose push lock is taken and whose gas estimation returns `est`: if
`est.GasPremium > est.GasFeeCap` the call returns an error of the check after the gas
estimation, with no balance read, signing request or push; if
`est.GasPremium ≤ est.GasFeeCap` the call goes on to read the balance of the sender and
its result is not an error of the check. -/
theorem premium_check_rejects_exactly_above_fee_cap (d : Deps) (tr : List Effect)
    (msg est : UnsignedMessage) (fromA : Address)
    (hkey : d.stateAccountKey tr msg.From = some fromA)
    (hlock : d.takeLock (tr ++ [Effect.stateAccountKey msg.From]) fromA = true)
    (hnonce : msg.Nonce = 0)
    (hest : d.gasEstimateMessageGas
      (tr ++ [Effect.stateAccountKey msg.From, Effect.takeLock fromA true]) msg = some est) :
    (est.GasFeeCap < est.GasPremium →
      ∃ err, (err = PushErr.marshal ∨ err = PushErr.premiumAboveFeeCap msg est) ∧
        MpoolPushMessage d tr msg = (Except.error err,
          tr ++ [Effect.stateAccountKey msg.From, Effect.takeLock fromA true,
            Effect.gasEstimateMessageGas msg, Effect.releaseLock fromA])) ∧
    (est.GasPremium ≤ est.GasFeeCap →
      (∃ out, (MpoolPushMessage d tr msg).2 =
        tr ++ [Effect.stateAccountKey msg.From, Effect.takeLock fromA true,
          Effect.gasEstimateMessageGas msg,
          Effect.walletBalance (adjustFrom est fromA).From] ++ out) ∧
      (MpoolPushMessage d tr msg).1 ≠ Except.error PushErr.marshal ∧
      ∀ m1 m2, (MpoolPushMessage d tr msg).1 ≠
        Except.error (PushErr.premiumAboveFeeCap m1 m2)) := by
  rw [MpoolPushMessage_locked hkey hlock]
  constructor
  · intro hg
    have hg1 : est.GasPremium > est.GasFeeCap := hg
    by_cases h1 : d.jsonMarshal msg = false
    · exact ⟨PushErr.marshal, Or.inl rfl, by simp [pushLocked, hnonce, hest, hg1, h1]⟩
    by_cases h2 : d.jsonMarshal est = false
    · exact ⟨PushErr.marshal, Or.inl rfl, by simp [pushLocked, hnonce, hest, hg1, h1, h2]⟩
    · exact ⟨PushErr.premiumAboveFeeCap msg est, Or.inr rfl,
        by simp [pushLocked, hnonce, hest, hg1, h1, h2]⟩
  · intro hgas
    have herr := pushLocked_estimated_err fromA hnonce hest hgas
    refine ⟨?_, ?_, ?_⟩
    · rw [pushLocked_estimated fromA hnonce hest hgas]
      cases hbal : d.walletBalance (tr ++ [Effect.stateAccountKey msg.From,
          Effect.takeLock fromA true] ++ [Effect.gasEstimateMessageGas msg])
          (adjustFrom est fromA).From with
      | none => exact ⟨[Effect.releaseLock fromA], by simp⟩
      | some b =>
        by_cases hb : b < est.Value
        · exact ⟨[Effect.releaseLock fromA], by simp [hb]⟩
        · obtain ⟨out, ho, -, -⟩ := signLocked_trace d
            (tr ++ [Effect.stateAccountKey msg.From, Effect.takeLock fromA true] ++
              [Effect.gasEstimateMessageGas msg,
              Effect.walletBalance (adjustFrom est fromA).From] ++ [Effect.lockSign])
            (adjustFrom est fromA)
          refine ⟨Effect.lockSign :: Effect.getNonce (adjustFrom est fromA).From
            (d.getNonce (tr ++ [Effect.stateAccountKey msg.From, Effect.takeLock fromA true] ++
              [Effect.gasEstimateMessageGas msg,
              Effect.walletBalance (adjustFrom est fromA).From] ++ [Effect.lockSign])
              (adjustFrom est fromA).From) :: (out ++ [Effect.unlockSign,
                Effect.releaseLock fromA]), ?_⟩
          simp only [hb, if_false, SignMessage, ho]
          simp
    · intro h
      rcases herr _ h with h1 | ⟨b, h1, -⟩ | h1 | h1 | h1 | h1 <;> simp at h1
    · intro m1 m2 h
      rcases herr _ h with h1 | ⟨b, h1, -⟩ | h1 | h1 | h1 | h1 <;> simp at h1

theorem premium_check_rejects_exactly_above_fee_cap_witness :
    (scenarioDeps 10 10 100 0).stateAccountKey [] (transfer (idAddr 7) 0 1).From =
      some (keyAddr 7) ∧
    (transfer (idAddr 7) 0 1).Nonce = 0 ∧
    (MpoolPushMessage (scenarioDeps 10 10 100 0) [] (transfer (idAddr 7) 0 1)).1 ≠
      Except.error PushErr.marshal ∧
    ∃ err, (err = PushErr.marshal ∨ err = PushErr.premiumAboveFeeCap (transfer (idAddr 7) 0 1)
        { transfer (idAddr 7) 0 1 with GasLimit := 1000, GasFeeCap := 10, GasPremium := 11 }) ∧
      MpoolPushMessage (scenarioDeps 10 11 100 0) [] (transfer (idAddr 7) 0 1) =
        (Except.error err,
          [] ++ [Effect.stateAccountKey (transfer (idAddr 7) 0 1).From,
            Effect.takeLock (keyAddr 7) true,
            Effect.gasEstimateMessageGas (transfer (idAddr 7) 0 1),
            Effect.releaseLock (keyAddr 7)]) :=
  ⟨rfl, rfl,
   ((premium_check_rejects_exactly_above_fee_cap (scenarioDeps 10 10 100 0) []
      (transfer (idAddr 7) 0 1)
      { transfer (idAddr 7) 0 1 with GasLimit := 1000, GasFeeCap := 10, GasPremium := 10 }
      (keyAddr 7) rfl rfl rfl rfl).2 (by decide)).2.1,
   (premium_check_rejects_exactly_above_fee_cap (scenarioDeps 10 11 100 0) []
      (transfer (idAddr 7) 0 1)
      { transfer (idAddr 7) 0 1 with GasLimit := 1000, GasFeeCap := 10, GasPremium := 11 }
      (keyAddr 7) rfl rfl rfl rfl).1 (by decide)⟩

/-- C15.  The balance check of `MpoolPushMessage` rejects exactly when the balance of
the adjusted sender is strictly below the value of the message.  For a message that
reaches the balance read (key address resolved, push lock taken, zero nonce, gas
estimation `est` passing the premium check) and whose balance read returns `b`: if
`b < est.Value` the call returns the funds error after the balance read, with no nonce
read, signing request or push; if `est.Value ≤ b` the call enters the sign section and
reads the nonce of the sender, asks the wallet to sign once the nonce is read and the
message serialized, and its result is not the funds error. -/
theorem balance_check_rejects_exactly_below_value (d : Deps) (tr : List Effect)
    (msg est : UnsignedMessage) (fromA : Address) (b : Int)
    (hkey : d.stateAccountKey tr msg.From = some fromA)
    (hlock : d.takeLock (tr ++ [Effect.stateAccountKey msg.From]) fromA = true)
    (hnonce : msg.Nonce = 0)
    (hest : d.gasEstimateMessageGas
      (tr ++ [Effect.stateAccountKey msg.From, Effect.takeLock fromA true]) msg = some est)
    (hgas : est.GasPremium ≤ est.GasFeeCap)
    (hbal : d.walletBalance (tr ++ [Effect.stateAccountKey msg.From,
      Effect.takeLock fromA true, Effect.gasEstimateMessageGas msg])
      (adjustFrom est fromA).From = some b) :
    (b < est.Value →
      MpoolPushMessage d tr msg = (Except.error (PushErr.notEnoughFunds b est.Value),
        tr ++ [Effect.stateAccountKey msg.From, Effect.takeLock fromA true,
          Effect.gasEstimateMessageGas msg, Effect.walletBalance (adjustFrom est fromA).From,
          Effect.releaseLock fromA])) ∧
    (est.Value ≤ b →
      ∃ out, (MpoolPushMessage d tr msg).2 =
        tr ++ [Effect.stateAccountKey msg.From, Effect.takeLock fromA true,
          Effect.gasEstimateMessageGas msg, Effect.walletBalance (adjustFrom est fromA).From,
          Effect.lockSign,
          Effect.getNonce (adjustFrom est fromA).From
            (d.getNonce (tr ++ [Effect.stateAccountKey msg.From, Effect.takeLock fromA true,
              Effect.gasEstimateMessageGas msg,
              Effect.walletBalance (adjustFrom est fromA).From, Effect.lockSign])
              (adjustFrom est fromA).From)] ++ out ∧
        (∀ n mb, d.getNonce (tr ++ [Effect.stateAccountKey msg.From,
            Effect.takeLock fromA true, Effect.gasEstimateMessageGas msg,
            Effect.walletBalance (adjustFrom est fromA).From, Effect.lockSign])
            (adjustFrom est fromA).From = some n →
          d.toStorageBlock { adjustFrom est fromA with Nonce := n } = some mb →
          Effect.walletSign (adjustFrom est fromA).From mb.cid
            { msgType := MsgType.MTChainMsg, extra := mb.rawData } ∈ out) ∧
        ∀ b1 v, (MpoolPushMessage d tr msg).1 ≠
          Except.error (PushErr.notEnoughFunds b1 v)) := by
  have hbal1 : d.walletBalance (tr ++ [Effect.stateAccountKey msg.From,
      Effect.takeLock fromA true] ++ [Effect.gasEstimateMessageGas msg])
      (adjustFrom est fromA).From = some b := by
    simpa using hbal
  rw [MpoolPushMessage_locked hkey hlock]
  constructor
  · intro hb
    rw [pushLocked_estimated fromA hnonce hest hgas]
    simp [hbal, hb]
  · intro hb
    rw [pushLocked_funded fromA hnonce hest hgas hbal1 hb]
    obtain ⟨out, ho, hsign, herr⟩ := signLocked_trace d
      (tr ++ [Effect.stateAccountKey msg.From, Effect.takeLock fromA true] ++
        [Effect.gasEstimateMessageGas msg,
        Effect.walletBalance (adjustFrom est fromA).From] ++ [Effect.lockSign])
      (adjustFrom est fromA)
    simp only [List.append_assoc, List.cons_append, List.nil_append] at ho hsign herr
    refine ⟨out ++ [Effect.unlockSign, Effect.releaseLock fromA], ?_, ?_, ?_⟩
    · simp only [SignMessage, List.append_assoc, List.cons_append, List.nil_append, ho]
    · intro n mb h1 h2
      exact List.mem_append_left _ (hsign n mb h1 h2)
    · intro b1 v h
      simp only [SignMessage, List.append_assoc, List.cons_append, List.nil_append] at h
      rcases herr _ h with h1 | h1 | h1 | h1 <;> simp at h1

theorem balance_check_rejects_exactly_below_value_witness :
    (transfer (idAddr 7) 0 100).Nonce = 0 ∧
    MpoolPushMessage (scenarioDeps 10 5 99 0) [] (transfer (idAddr 7) 0 100) =
      (Except.error (PushErr.notEnoughFunds 99 100),
        [] ++ [Effect.stateAccountKey (idAddr 7), Effect.takeLock (keyAddr 7) true,
          Effect.gasEstimateMessageGas (transfer (idAddr 7) 0 100),
          Effect.walletBalance (keyAddr 7), Effect.releaseLock (keyAddr 7)]) ∧
    ∀ b1 v, (MpoolPushMessage (scenarioDeps 10 5 100 0) [] (transfer (idAddr 7) 0 100)).1 ≠
      Except.error (PushErr.notEnoughFunds b1 v) :=
  ⟨rfl,
   (balance_check_rejects_exactly_below_value (scenarioDeps 10 5 99 0) []
      (transfer (idAddr 7) 0 100)
      { transfer (idAddr 7) 0 100 with GasLimit := 1000, GasFeeCap := 10, GasPremium := 5 }
      (keyAddr 7) 99 rfl rfl rfl rfl (by decide) rfl).1 (by decide),
   ((balance_check_rejects_exactly_below_value (scenarioDeps 10 5 100 0) []
      (transfer (idAddr 7) 0 100)
      { transfer (idAddr 7) 0 100 with GasLimit := 1000, GasFeeCap := 10, GasPremium := 5 }
      (keyAddr 7) 100 rfl rfl rfl rfl (by decide) rfl).2 (by decide)).elim
      (fun _ h => h.2.2)⟩

/-- C16.  The sender of a successful `MpoolPushMessage`.  Let `fromA` be the key address
returned by `StateAccountKey` for the caller's `From` and `est` the gas-estimated
message.  The signed message returned is `est` with the assigned nonce and with its
sender possibly replaced: if `est.From` has protocol ID the sender is `fromA`, otherwise
it is `est.From`.  The balance read, the nonce read and the signing request of the call
are made for that sender and for no other address. -/
theorem sender_is_rewritten_for_id_addresses (d : Deps) (tr tr' : List Effect)
    (msg : UnsignedMessage) (smsg : SignedMessage)
    (h : MpoolPushMessage d tr msg = (Except.ok smsg, tr')) :
    ∃ fromA est out,
      d.stateAccountKey tr msg.From = some fromA ∧
      d.gasEstimateMessageGas
        (tr ++ [Effect.stateAccountKey msg.From, Effect.takeLock fromA true]) msg = some est ∧
      tr' = tr ++ out ∧
      (est.From.protocol = Protocol.ID → smsg.Message.From = fromA) ∧
      (est.From.protocol ≠ Protocol.ID → smsg.Message.From = est.From) ∧
      smsg.Message = { est with From := smsg.Message.From, Nonce := smsg.Message.Nonce } ∧
      (∀ a, Effect.walletBalance a ∈ out ↔ a = smsg.Message.From) ∧
      (∀ a r, Effect.getNonce a r ∈ out ↔
        a = smsg.Message.From ∧ r = some smsg.Message.Nonce) ∧
      (∃ c i, Effect.walletSign smsg.Message.From c i ∈ out) ∧
      ∀ a c i, Effect.walletSign a c i ∈ out → a = smsg.Message.From := by
  obtain ⟨fromA, est, b, mb, c, hkey, -, -, hest, -, -, -, -, hm, -, ht⟩ :=
    MpoolPushMessage_ok h
  have hfrom : smsg.Message.From = (adjustFrom est fromA).From := by
    rw [hm]
  refine ⟨fromA, est, okTrace msg fromA smsg mb c, hkey, hest, ht, ?_, ?_, ?_, ?_, ?_, ?_, ?_⟩
  · intro hp
    rw [hfrom]
    exact (adjustFrom_From est fromA).1 hp
  · intro hp
    rw [hfrom, (adjustFrom_From est fromA).2 hp]
  · rw [hfrom]
    rw [hm]
    by_cases hp : est.From.protocol = Protocol.ID
    · simp [adjustFrom, hp]
    · simp [adjustFrom, hp]
  · intro a
    simp only [okTrace, List.mem_cons, List.mem_singleton, Effect.walletBalance.injEq]
    simp
  · intro a r
    simp only [okTrace, List.mem_cons, List.mem_singleton, Effect.getNonce.injEq]
    simp
  · exact ⟨mb.cid, { msgType := MsgType.MTChainMsg, extra := mb.rawData }, by simp [okTrace]⟩
  · intro a c1 i
    simp only [okTrace, List.mem_cons, List.mem_singleton, Effect.walletSign.injEq]
    simp
    intro h1 _ _
    exact h1

theorem sender_is_rewritten_for_id_addresses_witness :
    MpoolPushMessage (scenarioDeps 10 5 100 3) [] (transfer (idAddr 7) 0 1) =
      (Except.ok (signedTransfer 3 1),
       okTrace (transfer (idAddr 7) 0 1) (keyAddr 7) (signedTransfer 3 1)
        { cid := 3, rawData := [3] } 3) ∧
    (signedTransfer 3 1).Message.From = keyAddr 7 := by
  have h : MpoolPushMessage (scenarioDeps 10 5 100 3) [] (transfer (idAddr 7) 0 1) =
      (Except.ok (signedTransfer 3 1),
       okTrace (transfer (idAddr 7) 0 1) (keyAddr 7) (signedTransfer 3 1)
        { cid := 3, rawData := [3] } 3) := rfl
  obtain ⟨fromA, est, out, hk, he, -, hid, -⟩ :=
    sender_is_rewritten_for_id_addresses _ _ _ _ _ h
  have hk1 : keyAddr 7 = fromA := Option.some.inj hk
  have he1 : est.From.protocol = Protocol.ID := by
    rw [← Option.some.inj he]
    rfl
  exact ⟨h, (hid he1).trans hk1.symm⟩

/-! ## Nonces of successive pushes (C17) -/

theorem acceptedFor_append (a : Address) (t1 t2 : List Effect) :
    acceptedFor a (t1 ++ t2) = acceptedFor a t1 + acceptedFor a t2 := by
  simp [acceptedFor, List.countP_append]

theorem acceptedFor_okTrace (msg : UnsignedMessage) (fromA : Address) (smsg : SignedMessage)
    (mb : Block) (c : Cid) :
    acceptedFor smsg.Message.From (okTrace msg fromA smsg mb c) = 1 := by
  simp [acceptedFor, okTrace, List.countP_cons, Effect.acceptedFrom]

/-- The pushes recorded by a successful `MpoolPushMessage`: one, of the returned
message. -/
theorem okTrace_pushes (msg : UnsignedMessage) (fromA : Address) (smsg : SignedMessage)
    (mb : Block) (c : Cid) :
    (okTrace msg fromA smsg mb c).filter Effect.isPush = [Effect.push smsg (some c)] := by
  simp [okTrace, List.filter, Effect.isPush]

/-- With a pool whose next nonce for `a` is `n` plus the number of accepted pushes from
`a`, successive successful pushes for `a` carry the nonces `n`, `n + 1`, ... -/
theorem pushAll_nonces (d : Deps) (a : Address) (msgs : List UnsignedMessage)
    (tr : List Effect) (n : Nat)
    (hlaw : ∀ h, d.getNonce (tr ++ h) a = some (n + acceptedFor a h))
    (hok : ∀ r ∈ (pushAll d tr msgs).1, senderOf r = some a) :
    (pushAll d tr msgs).1.map nonceOf =
      (List.range msgs.length).map (fun (i : Nat) => some (n + i)) := by
  induction msgs generalizing tr n with
  | nil => rfl
  | cons msg rest ih =>
    have h1 : senderOf (MpoolPushMessage d tr msg).1 = some a :=
      hok _ (List.mem_cons_self _ _)
    cases hr : MpoolPushMessage d tr msg with
    | mk r tr1 =>
      rw [hr] at h1
      cases r with
      | error e => simp [senderOf] at h1
      | ok smsg =>
        simp only [senderOf, Option.some.injEq] at h1
        obtain ⟨fromA, est, b, mb, c, -, -, -, -, -, -, -, hn, hm, -, ht⟩ :=
          MpoolPushMessage_ok hr
        have hfrom : (adjustFrom est fromA).From = a := by
          rw [← h1, hm]
        rw [hfrom, hlaw] at hn
        have hnonce : smsg.Message.Nonce = n := by
          have h2 : acceptedFor a [Effect.stateAccountKey msg.From,
              Effect.takeLock fromA true, Effect.gasEstimateMessageGas msg,
              Effect.walletBalance a, Effect.lockSign] = 0 := by
            simp [acceptedFor, List.countP_cons, Effect.acceptedFrom]
          rw [h2] at hn
          exact (Option.some.inj hn).symm
        have hlaw1 : ∀ h, d.getNonce (tr1 ++ h) a = some (n + 1 + acceptedFor a h) := by
          intro h
          rw [ht, List.append_assoc, hlaw, acceptedFor_append, ← h1, acceptedFor_okTrace]
          congr 1
          rw [Nat.add_assoc]
        have hok1 : ∀ r ∈ (pushAll d tr1 rest).1, senderOf r = some a := by
          intro r hr1
          refine hok r ?_
          simp only [pushAll, hr]
          exact List.mem_cons_of_mem _ hr1
        have ih1 := ih tr1 (n + 1) hlaw1 hok1
        simp only [pushAll, hr, List.map_cons, nonceOf, hnonce, ih1, List.length_cons,
          List.range_succ_eq_map, Nat.add_zero, List.map_map]
        congr 1
        refine List.map_congr_left ?_
        intro i _
        simp only [Function.comp, Option.some.injEq]
        omega

/-- C17.  Every successful `MpoolPushMessage` returns a signed message whose nonce is
what `GetNonce` returned for its sender between `a.lk.Lock()` and `a.lk.Unlock()`, and
pushes that message to the pool exactly once.  Hence, when the next nonce of the pool for
the sender `a` is `n` plus the number of accepted pushes from `a`, successive calls that
all succeed for the sender `a` return the nonces `n`, `n + 1`, ..., in order. -/
theorem successive_pushes_carry_consecutive_nonces (d : Deps) (a : Address)
    (msgs : List UnsignedMessage) (tr : List Effect) (n : Nat)
    (hlaw : ∀ h, d.getNonce (tr ++ h) a = some (n + acceptedFor a h))
    (hok : ∀ r ∈ (pushAll d tr msgs).1, senderOf r = some a) :
    (∀ tr0 tr1 msg smsg, MpoolPushMessage d tr0 msg = (Except.ok smsg, tr1) →
      ∃ pre post c, tr1 = tr0 ++ pre ++ Effect.lockSign ::
          Effect.getNonce smsg.Message.From (some smsg.Message.Nonce) :: post ∧
        d.getNonce (tr0 ++ pre ++ [Effect.lockSign]) smsg.Message.From =
          some smsg.Message.Nonce ∧
        Effect.unlockSign ∉ pre ∧ Effect.unlockSign ∈ post ∧
        (pre ++ Effect.lockSign :: Effect.getNonce smsg.Message.From
          (some smsg.Message.Nonce) :: post).filter Effect.isPush =
          [Effect.push smsg (some c)]) ∧
    (pushAll d tr msgs).1.map nonceOf =
      (List.range msgs.length).map (fun (i : Nat) => some (n + i)) := by
  refine ⟨?_, pushAll_nonces d a msgs tr n hlaw hok⟩
  intro tr0 tr1 msg smsg h
  obtain ⟨fromA, est, b, mb, c, -, -, -, -, -, -, -, hn, hm, -, ht⟩ := MpoolPushMessage_ok h
  have hfrom : (adjustFrom est fromA).From = smsg.Message.From := by
    rw [hm]
  rw [hfrom] at hn
  refine ⟨[Effect.stateAccountKey msg.From, Effect.takeLock fromA true,
      Effect.gasEstimateMessageGas msg, Effect.walletBalance smsg.Message.From],
    [Effect.walletSign smsg.Message.From mb.cid
      { msgType := MsgType.MTChainMsg, extra := mb.rawData },
     Effect.push smsg (some c), Effect.unlockSign, Effect.releaseLock fromA], c, ?_, ?_, ?_,
    ?_, ?_⟩
  · rw [ht]
    simp [okTrace]
  · simpa using hn
  · simp
  · simp
  · exact okTrace_pushes msg fromA smsg mb c

theorem successive_pushes_carry_consecutive_nonces_witness :
    (pushAll (scenarioDeps 10 5 100 3) []
      [transfer (keyAddr 7) 0 1, transfer (idAddr 7) 0 2, transfer (keyAddr 7) 0 3]).1.map
      nonceOf = [some 3, some 4, some 5] :=
  (successive_pushes_carry_consecutive_nonces (scenarioDeps 10 5 100 3) (keyAddr 7)
    [transfer (keyAddr 7) 0 1, transfer (idAddr 7) 0 2, transfer (keyAddr 7) 0 3] [] 3
    (fun _ => rfl) (by decide)).2

/-! ## Batch methods (C18) -/

theorem SeqOk_length {α β : Type}
    {single : List Effect → α → Except PushErr β × List Effect} {xs : List α}
    {ys : List β} {tr tr' : List Effect} (h : SeqOk single tr xs ys tr') :
    ys.length = xs.length := by
  induction xs generalizing tr ys with
  | nil =>
    cases ys with
    | nil => rfl
    | cons y ys => exact absurd h (by simp [SeqOk])
  | cons x xs ih =>
    cases ys with
    | nil => exact absurd h (by simp [SeqOk])
    | cons y ys =>
      simp only [SeqOk] at h
      simp [ih h.2]

/-- The loop of the batch methods, started with the results `out`. -/
theorem batchLoop_spec {α β : Type}
    (single : List Effect → α → Except PushErr β × List Effect) (xs : List α)
    (tr : List Effect) (out : List β) :
    ∃ ys, (batchLoop single tr out xs).1.1 = out ++ ys ∧
      (((batchLoop single tr out xs).1.2 = none ∧
          SeqOk single tr xs ys (batchLoop single tr out xs).2) ∨
        ∃ i x err tri, xs[i]? = some x ∧ (batchLoop single tr out xs).1.2 = some err ∧
          ys.length = i ∧ SeqOk single tr (xs.take i) ys tri ∧
          single tri x = (Except.error err, (batchLoop single tr out xs).2)) := by
  induction xs generalizing tr out with
  | nil => exact ⟨[], by simp [batchLoop], Or.inl ⟨rfl, by simp [batchLoop, SeqOk]⟩⟩
  | cons x xs ih =>
    cases hs : single tr x with
    | mk r tr1 =>
      cases r with
      | error err =>
        refine ⟨[], by simp [batchLoop, hs], Or.inr ⟨0, x, err, tr, by simp, ?_, rfl, ?_, ?_⟩⟩
        · simp [batchLoop, hs]
        · simp [SeqOk]
        · simp [batchLoop, hs]
      | ok y =>
        have hb : batchLoop single tr out (x :: xs) = batchLoop single tr1 (out ++ [y]) xs := by
          simp [batchLoop, hs]
        obtain ⟨ys, h1, h2⟩ := ih tr1 (out ++ [y])
        refine ⟨y :: ys, by rw [hb, h1]; simp, ?_⟩
        rw [hb]
        rcases h2 with ⟨h3, h4⟩ | ⟨i, x1, err, tri, h3, h4, h5, h6, h7⟩
        · refine Or.inl ⟨h3, ?_⟩
          simp only [SeqOk, hs]
          exact ⟨trivial, h4⟩
        · refine Or.inr ⟨i + 1, x1, err, tri, by simpa using h3, h4, by simp [h5], ?_, h7⟩
          simp only [List.take_succ_cons, SeqOk, hs]
          exact ⟨trivial, h6⟩

theorem batchLoop_prefixOnError {α β : Type}
    (single : List Effect → α → Except PushErr β × List Effect) (xs : List α)
    (tr : List Effect) : PrefixOnError single tr xs (batchLoop single tr [] xs) := by
  obtain ⟨ys, h1, h2⟩ := batchLoop_spec single xs tr []
  simp only [List.nil_append] at h1
  rw [← h1] at h2
  rcases h2 with ⟨h3, h4⟩ | h3
  · exact Or.inl ⟨h3, SeqOk_length h4, h4⟩
  · exact Or.inr h3

/-- C18.  The three batch methods are strict sequential folds with prefix-on-error over
their single-message paths `MpoolPushMessage`, `MPool.Push` and `MPool.PushUntrusted`:
the elements are processed in input order, each on the trace left by the one before; if
no element fails the result has the length and the order of the input and the error is
nil; if element `i` is the first to fail the result is the list of the `i` successes
before it together with its error, and the trace ends with the failing call, so no later
element is attempted. -/
theorem batch_is_sequential_with_prefix_on_error (d : Deps) (tr : List Effect)
    (msgs : List UnsignedMessage) (smsgs : List SignedMessage) :
    PrefixOnError (MpoolPushMessage d) tr msgs (MpoolBatchPushMessage d tr msgs) ∧
    PrefixOnError (MpoolPush d) tr smsgs (MpoolBatchPush d tr smsgs) ∧
    PrefixOnError (MpoolPushUntrusted d) tr smsgs (MpoolBatchPushUntrusted d tr smsgs) :=
  ⟨batchLoop_prefixOnError _ _ _, batchLoop_prefixOnError _ _ _,
    batchLoop_prefixOnError _ _ _⟩

/-- The batch of the scenarios stops at its second message: the result is the signed
first message with the nonce error, and the third message is not attempted. -/
theorem failing_batch_returns_the_successes :
    MpoolBatchPushMessage (scenarioDeps 10 5 100 3) [] failingBatch =
      (([signedTransfer 3 1], some (PushErr.nonceNotZero 5)),
        okTrace (transfer (keyAddr 7) 0 1) (keyAddr 7) (signedTransfer 3 1)
          { cid := 3, rawData := [3] } 3 ++
        [Effect.stateAccountKey (keyAddr 7), Effect.takeLock (keyAddr 7) true,
          Effect.releaseLock (keyAddr 7)]) := rfl

/-! ## Pending (C19, C20) -/

/-- C20 (failing input).  The pool tipset has height 5.  The tipset asked for has
height 6 and its parent has height 4, so parent heights strictly decrease.  The walk
collects message 6 of the tipset of height 6, moves to the parent, collects message 4 of
the tipset of height 4 and only then compares the heights: a message of a tipset strictly
below the pool tipset is in the result. -/
theorem pending_collects_below_pool_height :
    gapView.pending.2.height = 5 ∧
    visited gapView 5 3 { height := 6, blocks := [60], parents := [40] } =
      [{ height := 6, blocks := [60], parents := [40] },
       { height := 4, blocks := [40], parents := [30] }] ∧
    gapView.messagesForBlocks [40] = some [signedNote 4] ∧
    MpoolPending gapView 3 [60] =
      some (Except.ok [signedNote 1, signedNote 6, signedNote 4]) ∧
    ∀ fuel, 2 ≤ fuel → MpoolPending gapView fuel [60] =
      some (Except.ok [signedNote 1, signedNote 6, signedNote 4]) := by
  refine ⟨rfl, by decide, rfl, rfl, ?_⟩
  intro fuel hf
  obtain ⟨n, rfl⟩ : ∃ n, fuel = n + 2 := ⟨fuel - 2, by omega⟩
  rfl

/-! ## Pending: identifiers and convergence (C21) -/

/-- The loop over `msgs` appends messages whose identifiers are new and pairwise
distinct, and keeps the identifiers of `pending` in `haveCids`. -/
theorem addMissing_foldl_fresh (v : ChainView) (msgs : List SignedMessage)
    (haveCids : List Cid) (pending : List SignedMessage) (hk : Known v haveCids pending) :
    ∃ ext, (msgs.foldl (addMissing v) (haveCids, pending)).2 = pending ++ ext ∧
      Known v (msgs.foldl (addMissing v) (haveCids, pending)).1
        (msgs.foldl (addMissing v) (haveCids, pending)).2 ∧
      (ext.map v.cid).Nodup ∧ (∀ m ∈ ext, v.cid m ∉ haveCids) ∧
      ∀ c ∈ haveCids, c ∈ (msgs.foldl (addMissing v) (haveCids, pending)).1 := by
  induction msgs generalizing haveCids pending with
  | nil => exact ⟨[], by simp, hk, by simp, by simp, fun c hc => hc⟩
  | cons m msgs ih =>
    rw [List.foldl_cons]
    by_cases hm : v.cid m ∈ haveCids
    · have hstep : addMissing v (haveCids, pending) m = (haveCids, pending) := by
        simp [addMissing, hm]
      rw [hstep]
      exact ih haveCids pending hk
    · have hstep : addMissing v (haveCids, pending) m =
          (haveCids ++ [v.cid m], pending ++ [m]) := by
        simp [addMissing, hm]
      rw [hstep]
      have hk1 : Known v (haveCids ++ [v.cid m]) (pending ++ [m]) := by
        intro m1 hm1
        rcases List.mem_append.mp hm1 with h | h
        · exact List.mem_append_left _ (hk m1 h)
        · simp only [List.mem_singleton] at h
          rw [h]
          simp
      obtain ⟨ext, h1, h2, h3, h4, h5⟩ := ih (haveCids ++ [v.cid m]) (pending ++ [m]) hk1
      refine ⟨m :: ext, by rw [h1]; simp, h2, ?_, ?_, ?_⟩
      · rw [List.map_cons, List.nodup_cons]
        refine ⟨?_, h3⟩
        intro hmem
        obtain ⟨m1, hm1, hc1⟩ := List.mem_map.mp hmem
        exact h4 m1 hm1 (by rw [hc1]; simp)
      · intro m1 hm1
        rcases List.mem_cons.mp hm1 with h | h
        · rw [h]
          exact hm
        · intro hc
          exact h4 m1 h (List.mem_append_left _ hc)
      · intro c hc
        exact h5 c (List.mem_append_left _ hc)

/-- The statements of the loop body from the second `MessagesForBlocks` on append
messages whose identifiers are new and pairwise distinct, when the next iteration
does. -/
theorem collectMessages_fresh (v : ChainView) (mpts ts : TipSet) (haveCids : List Cid)
    (pending res : List SignedMessage)
    (next : TipSet → List Cid → List SignedMessage →
      Option (Except PendingErr (List SignedMessage)))
    (hnext : ∀ p hc pend r, Known v hc pend → next p hc pend = some (Except.ok r) →
      ∃ ext, r = pend ++ ext ∧ (ext.map v.cid).Nodup ∧ ∀ m ∈ ext, v.cid m ∉ hc)
    (hk : Known v haveCids pending)
    (h : collectMessages v mpts ts haveCids pending next = some (Except.ok res)) :
    ∃ ext, res = pending ++ ext ∧ (ext.map v.cid).Nodup ∧
      ∀ m ∈ ext, v.cid m ∉ haveCids := by
  unfold collectMessages at h
  cases hm : v.messagesForBlocks ts.blocks with
  | none => simp [hm] at h
  | some msgs =>
    obtain ⟨ext1, h1, h2, h3, h4, h5⟩ := addMissing_foldl_fresh v msgs haveCids pending hk
    simp only [hm] at h
    by_cases hh : mpts.height ≥ ts.height
    · simp only [hh, if_true, Option.some.injEq, Except.ok.injEq] at h
      exact ⟨ext1, by rw [← h, h1], h3, h4⟩
    · simp only [hh, if_false] at h
      cases hp : v.chainGetTipSet ts.parents with
      | none => simp [hp] at h
      | some p =>
        simp only [hp] at h
        obtain ⟨ext2, h6, h7, h8⟩ := hnext p _ _ res h2 h
        refine ⟨ext1 ++ ext2, by rw [h6, h1, List.append_assoc], ?_, ?_⟩
        · rw [List.map_append]
          refine List.Nodup.append h3 h7 ?_
          intro c hc1 hc2
          obtain ⟨m1, hm1, rfl⟩ := List.mem_map.mp hc1
          obtain ⟨m2, hm2, hc⟩ := List.mem_map.mp hc2
          refine h8 m2 hm2 ?_
          rw [hc]
          exact h2 m1 (by rw [h1]; exact List.mem_append_right _ hm1)
        · intro m hmem
          rcases List.mem_append.mp hmem with hm1 | hm2
          · exact h4 m hm1
          · intro hc
            exact h8 m hm2 (h5 _ hc)

/-- Every successful return of the loop extends `pending` by messages whose identifiers
are new and pairwise distinct. -/
theorem pendingWalk_fresh (v : ChainView) (mpts : TipSet) (fuel : Nat) :
    ∀ (ts : TipSet) (haveCids : List Cid) (pending res : List SignedMessage),
      Known v haveCids pending →
      pendingWalk v mpts fuel ts haveCids pending = some (Except.ok res) →
      ∃ ext, res = pending ++ ext ∧ (ext.map v.cid).Nodup ∧
        ∀ m ∈ ext, v.cid m ∉ haveCids := by
  induction fuel with
  | zero =>
    intro ts haveCids pending res _ h
    simp [pendingWalk] at h
  | succ fuel ih =>
    intro ts haveCids pending res hk h
    unfold pendingWalk at h
    by_cases hh : mpts.height = ts.height
    · simp only [hh, if_true] at h
      cases he : v.equals mpts ts with
      | true =>
        simp only [he, if_true, Option.some.injEq, Except.ok.injEq] at h
        exact ⟨[], by simp [h], by simp, by simp⟩
      | false =>
        simp only [he] at h
        cases hkn : v.messagesForBlocks ts.blocks with
        | none => simp [hkn] at h
        | some known =>
          simp only [hkn] at h
          have hk1 : Known v (haveCids ++ known.map v.cid) pending :=
            fun m hm => List.mem_append_left _ (hk m hm)
          obtain ⟨ext, h1, h2, h3⟩ := collectMessages_fresh v mpts ts _ pending res
            (pendingWalk v mpts fuel) (fun p hc pend r => ih p hc pend r) hk1
            (by simpa using h)
          exact ⟨ext, h1, h2, fun m hm hc => h3 m hm (List.mem_append_left _ hc)⟩
    · simp only [hh, if_false] at h
      exact collectMessages_fresh v mpts ts haveCids pending res
        (pendingWalk v mpts fuel) (fun p hc pend r => ih p hc pend r) hk h

/-- C21.  Let the tipset of `tsk` be readable.  On every successful return of
`MpoolPending` the pool's pending list is a prefix of the result, and the messages
appended after it have identifiers that differ from all identifiers of the pending list
and from one another.  When the pool tipset is higher than the tipset of `tsk`
`MpoolPending` returns the pool's pending list, and so it does (as soon as the loop may
run once) when the two tipsets have the same height and are equal. -/
theorem pending_dedups_and_stops_at_convergence (v : ChainView) (tsk : TipSetKey)
    (ts : TipSet)
    (hts : (if tsk.isEmpty then v.chainHead else v.chainGetTipSet tsk) = some ts) :
    (∀ fuel res, MpoolPending v fuel tsk = some (Except.ok res) →
      ∃ ext, res = v.pending.1 ++ ext ∧ (ext.map v.cid).Nodup ∧
        ∀ m ∈ ext, v.cid m ∉ v.pending.1.map v.cid) ∧
    (ts.height < v.pending.2.height →
      ∀ fuel, MpoolPending v fuel tsk = some (Except.ok v.pending.1)) ∧
    (ts.height = v.pending.2.height → v.equals v.pending.2 ts = true →
      ∀ fuel, MpoolPending v (fuel + 1) tsk = some (Except.ok v.pending.1)) := by
  refine ⟨?_, ?_, ?_⟩
  · intro fuel res h
    simp only [MpoolPending, hts] at h
    by_cases hh : v.pending.2.height > ts.height
    · simp only [hh, if_true, Option.some.injEq, Except.ok.injEq] at h
      exact ⟨[], by simp [h], by simp, by simp⟩
    · simp only [hh, if_false] at h
      exact pendingWalk_fresh v v.pending.2 fuel ts _ _ res
        (fun m hm => List.mem_map_of_mem _ hm) h
  · intro hh fuel
    have hh1 : v.pending.2.height > ts.height := hh
    simp only [MpoolPending, hts, hh1, if_true]
  · intro hh he fuel
    simp only [MpoolPending, hts, pendingWalk, hh.symm, he, if_true, ite_self]

theorem pending_dedups_and_stops_at_convergence_witness :
    (∀ fuel res, MpoolPending linearView fuel [70] = some (Except.ok res) →
      ∃ ext, res = linearView.pending.1 ++ ext ∧ (ext.map linearView.cid).Nodup ∧
        ∀ m ∈ ext, linearView.cid m ∉ linearView.pending.1.map linearView.cid) ∧
    MpoolPending linearView 3 [70] =
      some (Except.ok [signedNote 1, signedNote 7, signedNote 6]) :=
  ⟨(pending_dedups_and_stops_at_convergence linearView [70]
    { height := 7, blocks := [70], parents := [60] } rfl).1, rfl⟩

/-! ## Lock order inside one call of `MpoolPushMessage` -/

theorem lockRun_append (a b : List Effect) :
    ∀ h, lockRun h (a ++ b) = (lockRun h a).bind (fun h1 => lockRun h1 b) := by
  induction a with
  | nil => intro h; rfl
  | cons e a ih =>
    intro h
    simp only [List.cons_append, lockRun]
    cases lockStep h e with
    | none => rfl
    | some h1 => simp only [Option.bind_some, Option.some_bind]; exact ih h1

theorem signLocked_lockOrder (d : Deps) (tr : List Effect) (msg : UnsignedMessage)
    (a : Address) :
    ∃ inner, (signLocked d tr msg).2 = tr ++ inner ∧
      lockRun { push := some a, sign := true, released := false } inner = some { push := some a, sign := true, released := false } := by
  cases hn : d.getNonce tr msg.From with
  | none =>
    exact ⟨[Effect.getNonce msg.From none], by simp [signLocked, hn], rfl⟩
  | some n =>
    cases hb : d.toStorageBlock { msg with Nonce := n } with
    | none =>
      exact ⟨[Effect.getNonce msg.From (some n)], by simp [signLocked, hn, hb], rfl⟩
    | some mb =>
      cases hs : d.walletSign (tr ++ [Effect.getNonce msg.From (some n)]) msg.From mb.cid
          { msgType := MsgType.MTChainMsg, extra := mb.rawData } with
      | none =>
        exact ⟨[Effect.getNonce msg.From (some n), Effect.walletSign msg.From mb.cid
            { msgType := MsgType.MTChainMsg, extra := mb.rawData }],
          by simp [signLocked, hn, hb, hs], rfl⟩
      | some sig =>
        refine ⟨[Effect.getNonce msg.From (some n), Effect.walletSign msg.From mb.cid
            { msgType := MsgType.MTChainMsg, extra := mb.rawData },
          Effect.push { Message := { msg with Nonce := n }, Signature := sig }
            (d.push (tr ++ [Effect.getNonce msg.From (some n), Effect.walletSign msg.From mb.cid
              { msgType := MsgType.MTChainMsg, extra := mb.rawData }])
              { Message := { msg with Nonce := n }, Signature := sig })], ?_, rfl⟩
        cases hp : d.push (tr ++ [Effect.getNonce msg.From (some n),
            Effect.walletSign msg.From mb.cid
              { msgType := MsgType.MTChainMsg, extra := mb.rawData }])
            { Message := { msg with Nonce := n }, Signature := sig } <;>
          simp [signLocked, MpoolPush, hn, hb, hs, hp]

theorem SignMessage_lockOrder (d : Deps) (tr : List Effect) (msg : UnsignedMessage)
    (a : Address) :
    ∃ mid, (SignMessage d tr msg).2 = tr ++ mid ∧
      lockRun { push := some a, sign := false, released := false } mid =
        some { push := some a, sign := false, released := false } := by
  obtain ⟨inner, h1, h2⟩ := signLocked_lockOrder d (tr ++ [Effect.lockSign]) msg a
  refine ⟨Effect.lockSign :: inner ++ [Effect.unlockSign], ?_, ?_⟩
  · simp [SignMessage, h1]
  · rw [List.cons_append]
    simp only [lockRun, lockStep, Option.isSome_some, and_self, if_true, Option.some_bind,
      Option.bind_some]
    rw [lockRun_append, h2]
    rfl

theorem pushLocked_lockOrder (d : Deps) (tr : List Effect) (msg : UnsignedMessage)
    (a : Address) :
    ∃ mid, (pushLocked d tr msg a).2 = tr ++ mid ∧
      lockRun { push := some a, sign := false, released := false } mid =
        some { push := some a, sign := false, released := false } := by
  by_cases hnonce : msg.Nonce = 0
  · cases hest : d.gasEstimateMessageGas tr msg with
    | none =>
      exact ⟨[Effect.gasEstimateMessageGas msg], by simp [pushLocked, hnonce, hest], rfl⟩
    | some est =>
      by_cases hgas : est.GasPremium ≤ est.GasFeeCap
      · rw [pushLocked_estimated a hnonce hest hgas]
        cases hb : d.walletBalance (tr ++ [Effect.gasEstimateMessageGas msg])
            (adjustFrom est a).From with
        | none => exact ⟨[Effect.gasEstimateMessageGas msg,
            Effect.walletBalance (adjustFrom est a).From], rfl, rfl⟩
        | some b =>
          simp only
          by_cases hlt : b < est.Value
          · rw [if_pos hlt]
            exact ⟨[Effect.gasEstimateMessageGas msg,
              Effect.walletBalance (adjustFrom est a).From], rfl, rfl⟩
          · rw [if_neg hlt]
            obtain ⟨mid, h1, h2⟩ := SignMessage_lockOrder d
              (tr ++ [Effect.gasEstimateMessageGas msg,
                Effect.walletBalance (adjustFrom est a).From]) (adjustFrom est a) a
            refine ⟨[Effect.gasEstimateMessageGas msg,
              Effect.walletBalance (adjustFrom est a).From] ++ mid, ?_, ?_⟩
            · rw [h1, List.append_assoc]
            · rw [lockRun_append]
              exact h2
      · have hg : est.GasPremium > est.GasFeeCap := not_le.mp hgas
        refine ⟨[Effect.gasEstimateMessageGas msg], ?_, rfl⟩
        simp only [pushLocked, hnonce, hest, hg, ne_eq, not_true_eq_false, if_false, if_true]
        split
        · rfl
        · split <;> rfl
  · exact ⟨[], by simp [pushLocked, hnonce], rfl⟩

/-- Every call of `MpoolPushMessage`, successful or not, follows the lock discipline and
holds no lock when it returns.  When the key address `fromA` is resolved and the push
lock granted, the trace of the call is the resolution, `TakeLock(fromA)`, a section that
follows the discipline under the push lock of `fromA` (with the sign lock taken and
released inside), and the release of the push lock of `fromA`. -/
theorem MpoolPushMessage_lockOrder (d : Deps) (tr : List Effect) (msg : UnsignedMessage) :
    ∃ ext, (MpoolPushMessage d tr msg).2 = tr ++ ext ∧
      (∃ fin, lockRun { push := none, sign := false, released := false } ext = some fin ∧
        fin.push = none ∧ fin.sign = false) ∧
      ((d.stateAccountKey tr msg.From = none ∧ ext = [Effect.stateAccountKey msg.From]) ∨
        ∃ fromA, d.stateAccountKey tr msg.From = some fromA ∧
          (ext = [Effect.stateAccountKey msg.From, Effect.takeLock fromA false] ∨
            ∃ mid, ext = Effect.stateAccountKey msg.From :: Effect.takeLock fromA true ::
                (mid ++ [Effect.releaseLock fromA]) ∧
              lockRun { push := some fromA, sign := false, released := false } mid =
                some { push := some fromA, sign := false, released := false })) := by
  cases hkey : d.stateAccountKey tr msg.From with
  | none =>
    exact ⟨[Effect.stateAccountKey msg.From], by simp [MpoolPushMessage, hkey],
      ⟨_, rfl, rfl, rfl⟩, Or.inl ⟨rfl, rfl⟩⟩
  | some fromA =>
    cases hlock : d.takeLock (tr ++ [Effect.stateAccountKey msg.From]) fromA with
    | false =>
      exact ⟨[Effect.stateAccountKey msg.From, Effect.takeLock fromA false],
        by simp [MpoolPushMessage, hkey, hlock], ⟨_, rfl, rfl, rfl⟩,
        Or.inr ⟨fromA, rfl, Or.inl rfl⟩⟩
    | true =>
      obtain ⟨mid, h1, h2⟩ := pushLocked_lockOrder d
        (tr ++ [Effect.stateAccountKey msg.From, Effect.takeLock fromA true]) msg fromA
      refine ⟨Effect.stateAccountKey msg.From :: Effect.takeLock fromA true ::
        (mid ++ [Effect.releaseLock fromA]), ?_, ?_, Or.inr ⟨fromA, rfl, Or.inr ⟨mid, rfl, h2⟩⟩⟩
      · rw [MpoolPushMessage_locked hkey hlock, h1]
        simp
      · refine ⟨{ push := none, sign := false, released := true }, ?_, rfl, rfl⟩
        have h0 : ∀ rest, lockRun { push := none, sign := false, released := false }
            (Effect.stateAccountKey msg.From :: Effect.takeLock fromA true :: rest) =
            lockRun { push := some fromA, sign := false, released := false } rest :=
          fun rest => rfl
        rw [h0, lockRun_append, h2]
        simp [lockRun, lockStep]

end Mpool

namespace Proofs

/-! ## The challenge count (C28) -/

/-- C28.  For `uint64` arguments with `faults ≤ sectors`, `ElectionPostChallengeCount`
returns 0 when `sectors = faults` and otherwise the ceiling of `(sectors - faults) / 25`:
the least `r` with `sectors - faults ≤ 25 * r`.  No operation of the computation wraps:
the result is the value `(sectors - faults - 1) / 25 + 1` of unbounded arithmetic, which
is below `2^64`. -/
theorem challenge_count_is_ceiling (sectors faults : Nat)
    (hs : sectors < 18446744073709551616) (hf : faults ≤ sectors) :
    (sectors = faults → ElectionPostChallengeCount sectors faults = 0) ∧
    (sectors ≠ faults →
      ElectionPostChallengeCount sectors faults = (sectors - faults - 1) / 25 + 1 ∧
      ElectionPostChallengeCount sectors faults = (sectors - faults + 24) / 25) ∧
    sectors - faults ≤ 25 * ElectionPostChallengeCount sectors faults ∧
    (∀ r, sectors - faults ≤ 25 * r → ElectionPostChallengeCount sectors faults ≤ r) ∧
    ElectionPostChallengeCount sectors faults < 18446744073709551616 := by
  have h1 : sub64 sectors faults = sectors - faults := by
    unfold sub64
    omega
  by_cases hz : sectors = faults
  · have h0 : ElectionPostChallengeCount sectors faults = 0 := by
      unfold ElectionPostChallengeCount
      rw [h1]
      simp [hz]
    rw [h0]
    refine ⟨fun _ => rfl, fun h => absurd hz h, by omega, fun r _ => Nat.zero_le r, by omega⟩
  · have h2 : sub64 (sectors - faults) 1 = sectors - faults - 1 := by
      unfold sub64
      omega
    have h3 : ElectionPostChallengeCount sectors faults = (sectors - faults - 1) / 25 + 1 := by
      unfold ElectionPostChallengeCount add64 SectorChallengeRatioDiv
      rw [h1, h2]
      have h4 : sectors - faults ≠ 0 := by omega
      simp only [h4, if_false]
      omega
    rw [h3]
    refine ⟨fun h => absurd h hz, fun _ => ⟨rfl, by omega⟩, by omega, fun r hr => by omega,
      by omega⟩

theorem challenge_count_is_ceiling_witness :
    ElectionPostChallengeCount 51 0 = 3 ∧ ElectionPostChallengeCount 50 0 = 2 ∧
    ElectionPostChallengeCount 18446744073709551615 0 = 737869762948382065 :=
  ⟨((challenge_count_is_ceiling 51 0 (by decide) (by decide)).2.1 (by decide)).2,
   ((challenge_count_is_ceiling 50 0 (by decide) (by decide)).2.1 (by decide)).2,
   ((challenge_count_is_ceiling 18446744073709551615 0 (by decide) (by decide)).2.1
      (by decide)).2⟩

end Proofs
